import Mathlib

/-!
# Symmetric Key Engine (SKE) driver: block-mode orchestration

A shallow embedding of `hc32_ll_ske.c`.

* Bytes and 32-bit words are natural numbers; 32-bit arithmetic that can wrap
  is reduced modulo `2^32` explicitly.
* A C pointer is an `Option (List Nat)`: `none` is `NULL`, `some buf` is the
  memory starting at the pointer.  `&p[i]` used for reading is `buf.drop i`;
  a pointer that is written through carries an explicit offset.
* The peripheral is an event log: every register write of the driver is
  appended to `SkeHw.log`; every status poll advances `SkeHw.tick`.  What the
  driver reads back (status bits, `DOUT`, `MID_IV`) is supplied by an
  arbitrary oracle `SkeEnv`, a function of the writes made so far and of the
  poll count.
* Functions return `Option`; `none` only ever means that the fuel of a loop
  of the model was exhausted.
* `DDL_ASSERT` is the debug-build assertion of the library and expands to
  nothing otherwise; it is embedded as no operation.
* Constants of the device header, which is not part of the sources, are
  parameters: `mp` is `SKE_CFG_MODE_POS`, and `lp` (used only to read the
  log) is the bit position of `LAST` in `DIN_CR`.
-/

namespace SKE

/-! ## Return codes and constants -/

/-- Return codes of the driver library; `hc32_ll_def.h` gives them pairwise distinct values. -/
inductive LLRet
  | LL_OK
  | LL_ERR
  | LL_ERR_INVD_PARAM
  | LL_ERR_TIMEOUT
  | LL_ERR_BUF_EMPTY
  deriving DecidableEq, Repr

open LLRet

def SKE_MD_ECB (mp : Nat) : Nat := 1 <<< mp
def SKE_MD_CBC (mp : Nat) : Nat := 3 <<< mp
def SKE_MD_CFB (mp : Nat) : Nat := 4 <<< mp
def SKE_MD_OFB (mp : Nat) : Nat := 5 <<< mp
def SKE_MD_CTR (mp : Nat) : Nat := 6 <<< mp
def SKE_MD_CMAC (mp : Nat) : Nat := 7 <<< mp
def SKE_MD_GCM (mp : Nat) : Nat := 9 <<< mp
def SKE_MD_CCM (mp : Nat) : Nat := 10 <<< mp

def SKE_ALG_AES_128 : Nat := 1
def SKE_ALG_AES_192 : Nat := 4
def SKE_ALG_AES_256 : Nat := 5
def SKE_ALG_SM4 : Nat := 2
def SKE_ALG_DES : Nat := 3

def SKE_BLOCK_SIZE_8BYTE : Nat := 8
def SKE_BLOCK_SIZE_16BYTE : Nat := 16
def SKE_IV_SIZE_12BYTE : Nat := 12
def SKE_BLOCK_SIZE_MAX : Nat := SKE_BLOCK_SIZE_16BYTE
def SKE_MAC_SIZE_MAX : Nat := SKE_BLOCK_SIZE_16BYTE
def SKE_TIMEOUT_VAL : Nat := 1000

def SKE_CRYPTO_ENCRYPT : Nat := 0
def SKE_CRYPTO_DECRYPT : Nat := 1
def SKE_CMAC_GENERATE : Nat := SKE_CRYPTO_ENCRYPT
def SKE_CMAC_VERIFY : Nat := SKE_CRYPTO_DECRYPT

def m_au8SkeAlgBlockSize : List Nat := [0, 16, 16, 8, 16, 16]
def m_au8SkeAlgKeySize : List Nat := [0, 16, 16, 8, 24, 32]

/-- The modulus of `uint32_t` arithmetic. -/
def U32_MOD : Nat := 4294967296

/-- Subtraction of two `uint32_t` values. -/
def u32_sub (a b : Nat) : Nat := (a + U32_MOD - b % U32_MOD) % U32_MOD

/-! ## Parameter-validity macros -/

def IS_SKE_ALG (x : Nat) : Bool := decide (x ≥ SKE_ALG_AES_128) && decide (x ≤ SKE_ALG_AES_256)

def IS_SKE_XCM_MD_ALG (x : Nat) : Bool := IS_SKE_ALG x && (x != SKE_ALG_DES)

def IS_SKE_BASE_MD (mp x : Nat) : Bool :=
  (x == SKE_MD_ECB mp) || (x == SKE_MD_CBC mp) || (x == SKE_MD_CFB mp) ||
  (x == SKE_MD_OFB mp) || (x == SKE_MD_CTR mp)

def IS_SKE_XCM_MD (mp x : Nat) : Bool := (x == SKE_MD_GCM mp) || (x == SKE_MD_CCM mp)

def IS_SKE_ALG_MD (mp alg md : Nat) : Bool :=
  (IS_SKE_ALG alg && IS_SKE_BASE_MD mp md) ||
  (IS_SKE_ALG alg && (md == SKE_MD_CMAC mp)) ||
  (IS_SKE_XCM_MD_ALG alg && IS_SKE_XCM_MD mp md)

def IS_SKE_GCM_MAC_SIZE (x : Nat) : Bool := decide (x ≤ 16)

def IS_SKE_CCM_MAC_SIZE (x : Nat) : Bool :=
  (decide (x ≥ 4) && decide (x ≤ 16)) && ((x &&& 1) == 0)

def IS_SKE_CCM_L_SIZE (x : Nat) : Bool := decide (x ≥ 2) && decide (x ≤ 8)

/-! ## The peripheral -/

/-- The functional state type of the library (`hc32_ll_def.h`). -/
inductive en_functional_state_t
  | DISABLE
  | ENABLE
  deriving DecidableEq, Repr

open en_functional_state_t

/-- One register write of the driver. -/
inductive HwOp
  | cfgWrite (v : Nat)
  | cfgInit (v : Nat)
  | cfgUpCfg (v : en_functional_state_t)
  | cfgDec (v : Nat)
  | ctrlStart
  | dinCrLast (v : Nat)
  | dinCrWrite (v : Nat)
  | dinCrClrLastLen
  | din (bytes : List Nat)
  | key (bytes : List Nat)
  | iv (bytes : List Nat)
  | aad1 (v : Nat)
  | aad2 (v : Nat)
  | clen1 (v : Nat)
  | clen2 (v : Nat)
  | sr2Done (v : Nat)
  | sr1MidValid (v : Nat)
  deriving DecidableEq, Repr

/-- What the peripheral answers to a read, given the writes made so far and the number of
status polls made so far. -/
structure SkeEnv where
  busy : List HwOp → Nat → Bool
  done : List HwOp → Nat → Bool
  midValid : List HwOp → Nat → Bool
  dout : List HwOp → Nat → List Nat
  midIv : List HwOp → Nat → List Nat

/-- State of the peripheral as seen by the driver. -/
structure SkeHw where
  log : List HwOp
  tick : Nat
  deriving DecidableEq, Repr

/-- Append one register write to the log. -/
def SkeHw.wr (s : SkeHw) (op : HwOp) : SkeHw := { s with log := s.log ++ [op] }

/-! ## Byte helpers -/

/-- The `n` bytes at `off`, `off + 1`, ... of a buffer. -/
def readBytes (buf : List Nat) (off n : Nat) : List Nat :=
  (List.range n).map (fun i => buf.getD (off + i) 0)

/-- Loop of `SKE_CopyByte`: `k` more iterations, the loop index being `i`. -/
def SKE_CopyByte.loop (src : List Nat) (doff soff : Nat) : Nat → Nat → List Nat → List Nat
  | 0, _, dest => dest
  | k + 1, i, dest =>
    SKE_CopyByte.loop src doff soff k (i + 1) (dest.set (doff + i) (src.getD (soff + i) 0))

/-- Embedding of `SKE_CopyByte(&dest[doff], &src[soff], u32Size)`; the result is the new `dest`. -/
def SKE_CopyByte (dest : List Nat) (doff : Nat) (src : List Nat) (soff : Nat) (u32Size : Nat) :
    List Nat :=
  SKE_CopyByte.loop src doff soff u32Size 0 dest

/-- Loop of `SKE_SetByte`. -/
def SKE_SetByte.loop (doff u8Value : Nat) : Nat → Nat → List Nat → List Nat
  | 0, _, dest => dest
  | k + 1, i, dest => SKE_SetByte.loop doff u8Value k (i + 1) (dest.set (doff + i) u8Value)

/-- Embedding of `SKE_SetByte(&dest[doff], u8Value, u32Size)`. -/
def SKE_SetByte (dest : List Nat) (doff u8Value u32Size : Nat) : List Nat :=
  SKE_SetByte.loop doff u8Value u32Size 0 dest

/-- Loop of `SKE_CompareByte`. -/
def SKE_CompareByte.loop (pu8Src1 pu8Src2 : List Nat) : Nat → Nat → LLRet
  | 0, _ => LL_OK
  | k + 1, i =>
    if pu8Src1.getD i 0 ≠ pu8Src2.getD i 0 then LL_ERR
    else SKE_CompareByte.loop pu8Src1 pu8Src2 k (i + 1)

def SKE_CompareByte (pu8Src1 pu8Src2 : List Nat) (u32Size : Nat) : LLRet :=
  SKE_CompareByte.loop pu8Src1 pu8Src2 u32Size 0

/-- Loop of `SKE_ReverseByteArray`, source and destination being different arrays. -/
def SKE_ReverseByteArray.loop (pu8Src : List Nat) (u32Size : Nat) : Nat → Nat → List Nat → List Nat
  | 0, _, out => out
  | k + 1, u32Idx, out =>
    let u8Tmp := pu8Src.getD u32Idx 0
    let out1 := out.set u32Idx (pu8Src.getD (u32_sub (u32_sub u32Size 1) u32Idx) 0)
    let out2 := out1.set (u32_sub (u32_sub u32Size 1) u32Idx) u8Tmp
    SKE_ReverseByteArray.loop pu8Src u32Size k (u32Idx + 1) out2

/-- Embedding of `SKE_ReverseByteArray(pu8Src, pu8Out, u32Size)` for `pu8Src != pu8Out` (every call site). -/
def SKE_ReverseByteArray (pu8Src pu8Out : List Nat) (u32Size : Nat) : List Nat :=
  let u32Round := u32Size >>> 1
  let out := SKE_ReverseByteArray.loop pu8Src u32Size u32Round 0 pu8Out
  if (u32Size &&& 1) ≠ 0 then out.set u32Round (pu8Src.getD u32Round 0) else out

/-- The four bytes of a `uint32_t` object in memory (the core is little-endian). -/
def u32Bytes (x : Nat) : List Nat :=
  [x % 256, x / 256 % 256, x / 65536 % 256, x / 16777216 % 256]

/-! ## Register-level functions -/

def SKE_SetAadSize (u32AadSize : Nat) (s : SkeHw) : SkeHw :=
  (s.wr (HwOp.aad1 (((u32AadSize <<< 3) % U32_MOD) &&& 0xFFFFFFF8))).wr
    (HwOp.aad2 ((u32AadSize >>> 29) &&& 0x7))

def SKE_SetCryptoSize (u32CryptoSize : Nat) (s : SkeHw) : SkeHw :=
  (s.wr (HwOp.clen1 (((u32CryptoSize <<< 3) % U32_MOD) &&& 0xFFFFFFF8))).wr
    (HwOp.clen2 ((u32CryptoSize >>> 29) &&& 0x7))

/-- Loop of `SKE_WaitTillDone`; `cnt` is `u32TimeCount`. -/
def SKE_WaitTillDone.loop (env : SkeEnv) : Nat → Nat → SkeHw → Option (LLRet × SkeHw)
  | 0, _, _ => none
  | fuel + 1, cnt, s =>
    let u32Busy := env.busy s.log s.tick
    let u32Done := env.done s.log s.tick
    let s1 : SkeHw := { s with tick := s.tick + 1 }
    if u32Done && !u32Busy then some (LL_OK, s1.wr (HwOp.sr2Done 0))
    else if cnt + 1 > SKE_TIMEOUT_VAL then some (LL_ERR_TIMEOUT, s1)
    else SKE_WaitTillDone.loop env fuel (cnt + 1) s1

def SKE_WaitTillDone (env : SkeEnv) (s : SkeHw) : Option (LLRet × SkeHw) :=
  SKE_WaitTillDone.loop env (SKE_TIMEOUT_VAL + 1) 0 s

def SKE_WriteBlock (u32Alg : Nat) (pu8In : Option (List Nat)) (s : SkeHw) : LLRet × SkeHw :=
  match pu8In with
  | none => (LL_ERR_INVD_PARAM, s)
  | some inp =>
    if !IS_SKE_ALG u32Alg then (LL_ERR_INVD_PARAM, s)
    else if m_au8SkeAlgBlockSize.getD u32Alg 0 = SKE_BLOCK_SIZE_16BYTE then
      (LL_OK, s.wr (HwOp.din (readBytes inp 0 16)))
    else (LL_OK, s.wr (HwOp.din (readBytes inp 0 8)))

/-- Embedding of `SKE_ReadBlock(u32Alg, &pu8Out[off])`; returns the new content of the output buffer. -/
def SKE_ReadBlock (env : SkeEnv) (u32Alg : Nat) (pu8Out : Option (List Nat)) (off : Nat)
    (s : SkeHw) : LLRet × Option (List Nat) :=
  match pu8Out with
  | none => (LL_ERR_INVD_PARAM, none)
  | some out =>
    if !IS_SKE_ALG u32Alg then (LL_ERR_INVD_PARAM, some out)
    else if m_au8SkeAlgBlockSize.getD u32Alg 0 = SKE_BLOCK_SIZE_16BYTE then
      (LL_OK, some (SKE_CopyByte out off (env.dout s.log s.tick) 0 16))
    else (LL_OK, some (SKE_CopyByte out off (env.dout s.log s.tick) 0 8))

def SKE_ReadMidIv (env : SkeEnv) (pu8Out : Option (List Nat)) (s : SkeHw) :
    LLRet × Option (List Nat) :=
  match pu8Out with
  | none => (LL_ERR_INVD_PARAM, none)
  | some out => (LL_OK, some (SKE_CopyByte out 0 (env.midIv s.log s.tick) 0 16))

/-- Whether the mode is one of GCM, CCM, CMAC (the test made twice by `SKE_UpdateOneBlock`). -/
def isMarkMode (mp u32Mode : Nat) : Bool :=
  (u32Mode == SKE_MD_GCM mp) || (u32Mode == SKE_MD_CCM mp) || (u32Mode == SKE_MD_CMAC mp)

/-- Embedding of `SKE_UpdateOneBlock(u32Alg, u32Mode, pu8In, &pu8Out[off], u8IsLastBlock)`. -/
def SKE_UpdateOneBlock (mp : Nat) (env : SkeEnv) (u32Alg u32Mode : Nat)
    (pu8In : Option (List Nat)) (pu8Out : Option (List Nat)) (off : Nat) (u8IsLastBlock : Nat)
    (s : SkeHw) : Option (LLRet × Option (List Nat) × SkeHw) :=
  if pu8In.isNone then some (LL_ERR_INVD_PARAM, pu8Out, s)
  else
    let s1 := if isMarkMode mp u32Mode && (u8IsLastBlock != 0) then s.wr (HwOp.dinCrLast 1) else s
    let s2 := (SKE_WriteBlock u32Alg pu8In s1).2
    let s3 := s2.wr HwOp.ctrlStart
    match SKE_WaitTillDone env s3 with
    | none => none
    | some (i32Ret, s4) =>
      if i32Ret ≠ LL_OK then some (i32Ret, pu8Out, s4)
      else
        let out1 := if pu8Out.isSome then (SKE_ReadBlock env u32Alg pu8Out off s4).2 else pu8Out
        let s5 :=
          if isMarkMode mp u32Mode && (u8IsLastBlock != 0) then
            if u32Mode == SKE_MD_CMAC mp then
              (s4.wr (HwOp.dinCrLast 0)).wr HwOp.dinCrClrLastLen
            else s4.wr (HwOp.dinCrLast 0)
          else s4
        some (LL_OK, out1, s5)

/-- Body of the leading-block loop of `SKE_CryptoBlocksInternal`: the block at offset `i`. -/
def SKE_CryptoBlocksInternal.body (mp : Nat) (env : SkeEnv) (u32Alg u32Mode : Nat)
    (inp : List Nat) (i : Nat) (pu8Out : Option (List Nat)) (s : SkeHw) :
    Option (LLRet × Option (List Nat) × SkeHw) :=
  match pu8Out with
  | none => SKE_UpdateOneBlock mp env u32Alg u32Mode (some (inp.drop i)) none 0 0 s
  | some out => SKE_UpdateOneBlock mp env u32Alg u32Mode (some (inp.drop i)) (some out) i 0 s

/-- Leading-block loop of `SKE_CryptoBlocksInternal`; returns also the final value of `i`. -/
def SKE_CryptoBlocksInternal.loop (mp : Nat) (env : SkeEnv) (u32Alg u32Mode : Nat)
    (inp : List Nat) (u32BlockSize u32CryptoSize : Nat) :
    Nat → Nat → Option (List Nat) → SkeHw → Option (LLRet × Nat × Option (List Nat) × SkeHw)
  | 0, _, _, _ => none
  | fuel + 1, i, pu8Out, s =>
    if i < u32CryptoSize then
      match SKE_CryptoBlocksInternal.body mp env u32Alg u32Mode inp i pu8Out s with
      | none => none
      | some (i32Ret, out1, s1) =>
        if i32Ret ≠ LL_OK then some (i32Ret, i, out1, s1)
        else SKE_CryptoBlocksInternal.loop mp env u32Alg u32Mode inp u32BlockSize u32CryptoSize
          fuel ((i + u32BlockSize) % U32_MOD) out1 s1
    else some (LL_OK, i, pu8Out, s)

/-- Embedding of `SKE_CryptoBlocksInternal(u32Alg, u32Mode, pu8In, pu8Out, u32CryptoSize)`; returns the result
code, the new content of the output buffer and the new peripheral state. -/
def SKE_CryptoBlocksInternal (mp : Nat) (env : SkeEnv) (u32Alg u32Mode : Nat)
    (pu8In : Option (List Nat)) (pu8Out : Option (List Nat)) (u32CryptoSize : Nat) (s : SkeHw) :
    Option (LLRet × Option (List Nat) × SkeHw) :=
  match pu8In with
  | none => some (LL_ERR_INVD_PARAM, pu8Out, s)
  | some inp =>
    if u32CryptoSize = 0 ∨ IS_SKE_ALG_MD mp u32Alg u32Mode = false then
      some (LL_ERR_INVD_PARAM, pu8Out, s)
    else
      let u8LastBlockFlag := if u32Mode = SKE_MD_CMAC mp then 0 else 1
      let u32BlockSize := m_au8SkeAlgBlockSize.getD u32Alg 0
      let u32RmainSize0 := u32CryptoSize % u32BlockSize
      let u32RmainSize := if u32RmainSize0 = 0 then u32BlockSize else u32RmainSize0
      let u32Size := u32_sub u32CryptoSize u32RmainSize
      let au8LastBlock := SKE_CopyByte (List.replicate SKE_BLOCK_SIZE_MAX 0) 0 inp u32Size u32RmainSize
      match SKE_CryptoBlocksInternal.loop mp env u32Alg u32Mode inp u32BlockSize u32Size
          (u32Size + 1) 0 pu8Out s with
      | none => none
      | some (i32Ret, i, out1, s1) =>
        if i32Ret ≠ LL_OK then some (i32Ret, out1, s1)
        else
          match SKE_UpdateOneBlock mp env u32Alg u32Mode (some au8LastBlock) (some au8LastBlock) 0
              u8LastBlockFlag s1 with
          | none => none
          | some (i32Ret2, last1, s2) =>
            match i32Ret2, out1, last1 with
            | LL_OK, some out, some lb => some (LL_OK, some (SKE_CopyByte out i lb 0 u32RmainSize), s2)
            | _, _, _ => some (i32Ret2, out1, s2)

/-! ## Reading the log -/

/-- The block transforms contained in a sequence of register writes: each `START` that follows a
write of the data-in registers is one transform, recorded with the block written and the state of
the last-block mark at that moment.  `m` is the mark and `p` the block pending before the
sequence; `lp` is the bit position of `LAST` in `DIN_CR` (device header). -/
def issued (lp : Nat) : Bool → Option (List Nat) → List HwOp → List (List Nat × Bool)
  | _, _, [] => []
  | _, p, HwOp.dinCrLast v :: r => issued lp (v != 0) p r
  | _, p, HwOp.dinCrWrite v :: r => issued lp (v.testBit lp) p r
  | m, _, HwOp.din b :: r => issued lp m (some b) r
  | m, some b, HwOp.ctrlStart :: r => (b, m) :: issued lp m none r
  | m, p, _ :: r => issued lp m p r

/-- Every status poll finds the engine done and idle within the polling bound. -/
def AllDone (env : SkeEnv) : Prop :=
  ∀ (log : List HwOp) (t : Nat), ∃ i, i ≤ SKE_TIMEOUT_VAL ∧
    env.done log (t + i) = true ∧ env.busy log (t + i) = false

/-- An engine that is always done and idle and returns the bytes `d` everywhere. -/
def envConst (d : List Nat) : SkeEnv :=
  { busy := fun _ _ => false, done := fun _ _ => true, midValid := fun _ _ => true,
    dout := fun _ _ => d, midIv := fun _ _ => d }

/-- The register writes of one `SKE_UpdateOneBlock` up to the completion of the transform;
`mark` tells whether the last-block mark is handled. -/
def blockPre (mark : Bool) (b : List Nat) : List HwOp :=
  (if mark then [HwOp.dinCrLast 1] else []) ++ [HwOp.din b, HwOp.ctrlStart, HwOp.sr2Done 0]

/-- The register writes of one `SKE_UpdateOneBlock` after the transform; `cmac` tells whether the
mode is CMAC. -/
def blockPost (mark cmac : Bool) : List HwOp :=
  if mark then (if cmac then [HwOp.dinCrLast 0, HwOp.dinCrClrLastLen] else [HwOp.dinCrLast 0])
  else []

/-- All register writes of one `SKE_UpdateOneBlock` that completes. -/
def blockOps (mark cmac : Bool) (b : List Nat) : List HwOp :=
  blockPre mark b ++ blockPost mark cmac

/-- The register writes of the leading-block loop: `k` blocks of `bs` bytes from offset `i`. -/
def leadOps (inp : List Nat) (bs : Nat) : Nat → Nat → List HwOp
  | 0, _ => []
  | k + 1, i => blockOps false false (readBytes inp i bs) ++ leadOps inp bs k (i + bs)

/-- The blocks of the leading-block loop. -/
def leadBlocks (inp : List Nat) (bs : Nat) : Nat → Nat → List (List Nat)
  | 0, _ => []
  | k + 1, i => readBytes inp i bs :: leadBlocks inp bs k (i + bs)

/-- The zero-padded trailing block of an input of `n` bytes for block size `bs`. -/
def lastBlock (inp : List Nat) (n bs : Nat) : List Nat :=
  (inp.drop (n - ((n - 1) % bs + 1))).take ((n - 1) % bs + 1) ++
    List.replicate (bs - ((n - 1) % bs + 1)) 0

def SKE_GetBlockSize (u32Alg : Nat) : Nat :=
  if IS_SKE_ALG u32Alg then m_au8SkeAlgBlockSize.getD u32Alg 0 else 0

/-! ## Configuration structures -/

structure stc_ske_gcm_init_para_t where
  u32CryptoSize : Nat
  u32AadSize : Nat
  pu8Aad : Option (List Nat)

structure stc_ske_ccm_init_para_t where
  u32CryptoSize : Nat
  u32AadSize : Nat
  u32MacSize : Nat
  u32LengthSize : Nat
  pu8Nonce : Option (List Nat)
  pu8Aad : Option (List Nat)

structure stc_ske_init_t where
  u32Alg : Nat
  u32Mode : Nat
  u32DataType : Nat
  u32Crypto : Nat
  pu8Key : Option (List Nat)
  pu8Iv : Option (List Nat)
  pstcGcmInit : Option stc_ske_gcm_init_para_t
  pstcCcmInit : Option stc_ske_ccm_init_para_t

structure stc_ske_ccm_ctx_t where
  u32Alg : Nat
  u32CryptoSize : Nat
  u32AadSize : Nat
  u32MacSize : Nat
  u32LengthSize : Nat
  u32AadStartOffset : Nat
  u32AadRemainSize : Nat
  au8Buffer : List Nat
  deriving DecidableEq, Repr

structure stc_ske_cmac_action_t where
  u32Alg : Nat
  u32Action : Nat
  pu8Msg : Option (List Nat)
  u32MsgSize : Nat
  pu8Mac : Option (List Nat)
  u32MacSize : Nat

structure stc_ske_xcm_final_t where
  u32Alg : Nat
  u32Mode : Nat
  u32Crypto : Nat
  pu8Mac : Option (List Nat)
  u32MacSize : Nat

/-! ## Key, IV and initialisation -/

def SKE_SetKey (u32Alg : Nat) (pu8Key : Option (List Nat)) (s : SkeHw) : LLRet × SkeHw :=
  match pu8Key with
  | none => (LL_ERR_INVD_PARAM, s)
  | some k =>
    if !IS_SKE_ALG u32Alg then (LL_ERR_INVD_PARAM, s)
    else (LL_OK, s.wr (HwOp.key (readBytes k 0 (4 * (m_au8SkeAlgKeySize.getD u32Alg 0 / 4)))))

def SKE_ExpandKey (env : SkeEnv) (s : SkeHw) : Option (LLRet × SkeHw) :=
  match SKE_WaitTillDone env ((s.wr (HwOp.cfgUpCfg ENABLE)).wr HwOp.ctrlStart) with
  | none => none
  | some (i32Ret, s1) =>
    if i32Ret = LL_OK then some (i32Ret, s1.wr (HwOp.cfgUpCfg DISABLE)) else some (i32Ret, s1)

def SKE_SetIv (mp : Nat) (u32Alg u32Mode : Nat) (pu8Iv : Option (List Nat)) (s : SkeHw) :
    LLRet × SkeHw :=
  match pu8Iv with
  | none => (LL_ERR_INVD_PARAM, s)
  | some ivb =>
    if !IS_SKE_ALG_MD mp u32Alg u32Mode then (LL_ERR_INVD_PARAM, s)
    else
      let u32IvSize :=
        if u32Mode = SKE_MD_GCM mp then SKE_IV_SIZE_12BYTE else m_au8SkeAlgBlockSize.getD u32Alg 0
      let au32Iv0 := List.replicate 16 0
      let au32Iv := if u32Mode ≠ SKE_MD_CMAC mp then SKE_CopyByte au32Iv0 0 ivb 0 u32IvSize else au32Iv0
      (LL_OK, s.wr (HwOp.iv au32Iv))

def SKE_CmacPrepareInit (s : SkeHw) : LLRet × SkeHw :=
  (LL_OK, s.wr (HwOp.cfgWrite 0))

def SKE_GcmPrepareInit (pstcSkeInit : stc_ske_init_t) (s : SkeHw) : LLRet × SkeHw :=
  match pstcSkeInit.pstcGcmInit with
  | none => (LL_ERR_INVD_PARAM, s)
  | some g =>
    if (g.u32AadSize ||| g.u32CryptoSize) = 0 then (LL_ERR_INVD_PARAM, s)
    else (LL_OK, SKE_SetCryptoSize g.u32CryptoSize (SKE_SetAadSize g.u32AadSize s))

/-- Loop of `SKE_CcmPrepareInit` counting the bytes of `u32CryptoSize`; returns `u32Len`. -/
def SKE_CcmPrepareInit.loop : Nat → Nat → Nat → Option Nat
  | 0, _, _ => none
  | fuel + 1, u32Tmp, u32Len =>
    if u32Tmp ≠ 0 then SKE_CcmPrepareInit.loop fuel (u32Tmp >>> 8) (u32Len + 1) else some u32Len

/-- Embedding of `SKE_CcmPrepareInit(pstcSkeInit, pCtx)`; returns the result code, the new content of the IV
buffer, the new context and the new peripheral state. -/
def SKE_CcmPrepareInit (pstcSkeInit : stc_ske_init_t) (pCtx : Option stc_ske_ccm_ctx_t)
    (s : SkeHw) : Option (LLRet × Option (List Nat) × Option stc_ske_ccm_ctx_t × SkeHw) :=
  match pCtx, pstcSkeInit.pstcCcmInit with
  | none, _ => some (LL_ERR_INVD_PARAM, pstcSkeInit.pu8Iv, pCtx, s)
  | some _, none => some (LL_ERR_INVD_PARAM, pstcSkeInit.pu8Iv, pCtx, s)
  | some ctx, some c =>
    match c.pu8Nonce with
    | none => some (LL_ERR_INVD_PARAM, pstcSkeInit.pu8Iv, pCtx, s)
    | some nonce =>
      if (c.u32AadSize ||| c.u32CryptoSize) = 0 then
        some (LL_ERR_INVD_PARAM, pstcSkeInit.pu8Iv, pCtx, s)
      else
        match SKE_CcmPrepareInit.loop 5 c.u32CryptoSize 0 with
        | none => none
        | some u32Len =>
          if u32Len > c.u32LengthSize then some (LL_ERR_INVD_PARAM, pstcSkeInit.pu8Iv, pCtx, s)
          else
            let ctx1 := { ctx with u32Alg := pstcSkeInit.u32Alg, u32MacSize := c.u32MacSize,
                                   u32LengthSize := c.u32LengthSize }
            let iv1 := pstcSkeInit.pu8Iv.map (fun ivb =>
              let a0 := ivb.set 0 (u32_sub ctx1.u32LengthSize 1 % 256)
              let a1 := SKE_CopyByte a0 1 nonce 0 (u32_sub 15 ctx1.u32LengthSize)
              SKE_SetByte a1 (u32_sub 16 ctx1.u32LengthSize) 0 ctx1.u32LengthSize)
            let ctx2 := { ctx1 with u32CryptoSize := c.u32CryptoSize }
            let s1 := SKE_SetCryptoSize c.u32CryptoSize s
            let ctx3 := { ctx2 with u32AadSize := c.u32AadSize }
            let s2 := SKE_SetAadSize c.u32AadSize s1
            some (LL_OK, iv1, some ctx3, s2)

/-- Embedding of `SKE_CcmGetB0(pCtx, pu8Nonce)`; returns the new context. -/
def SKE_CcmGetB0 (pCtx : stc_ske_ccm_ctx_t) (pu8Nonce : List Nat) : stc_ske_ccm_ctx_t :=
  let b0 := 0
  let b1 := b0 ||| (((u32_sub pCtx.u32MacSize 2 / 2) <<< 3) % U32_MOD % 256)
  let b2 := b1 ||| (u32_sub pCtx.u32LengthSize 1 % 256)
  let b3 := if pCtx.u32AadSize > 0 then b2 ||| 0x40 else b2
  let buf1 := pCtx.au8Buffer.set 0 b3
  let buf2 := SKE_CopyByte buf1 1 pu8Nonce 0 (u32_sub 15 pCtx.u32LengthSize)
  let buf3 := SKE_SetByte buf2 (u32_sub 16 pCtx.u32LengthSize) 0 pCtx.u32LengthSize
  let au8Tmp := SKE_ReverseByteArray (u32Bytes pCtx.u32CryptoSize) (List.replicate 4 0) 4
  let buf4 :=
    if pCtx.u32LengthSize ≤ 4 then
      SKE_CopyByte buf3 (u32_sub 16 pCtx.u32LengthSize) au8Tmp (u32_sub 4 pCtx.u32LengthSize)
        pCtx.u32LengthSize
    else SKE_CopyByte buf3 12 au8Tmp 0 4
  { pCtx with au8Buffer := buf4 }

/-- Embedding of `SKE_CcmPrepareB1(pCtx, pu8Aad)`; returns the new context. -/
def SKE_CcmPrepareB1 (pCtx : stc_ske_ccm_ctx_t) (pu8Aad : List Nat) : stc_ske_ccm_ctx_t :=
  let au8Tmp := SKE_ReverseByteArray (u32Bytes pCtx.u32AadSize) (List.replicate 4 0) 4
  let hdr : List Nat × Nat × Nat :=
    if pCtx.u32AadSize < 65280 then (SKE_CopyByte pCtx.au8Buffer 0 au8Tmp 2 2, 2, 14)
    else (SKE_CopyByte ((pCtx.au8Buffer.set 0 0xFF).set 1 0xFE) 2 au8Tmp 0 4, 6, 10)
  let buf := hdr.1
  let u32Offset := hdr.2.1
  let u32RemainSize := hdr.2.2
  if pCtx.u32AadSize ≤ u32RemainSize then
    let buf1 := SKE_CopyByte buf u32Offset pu8Aad 0 pCtx.u32AadSize
    let u32Offset1 := u32Offset + pCtx.u32AadSize
    let u32RemainSize1 := u32_sub 16 u32Offset1
    let buf2 := SKE_SetByte buf1 u32Offset1 0 u32RemainSize1
    { pCtx with au8Buffer := buf2, u32AadRemainSize := 0, u32AadStartOffset := 0 }
  else
    let buf1 := SKE_CopyByte buf u32Offset pu8Aad 0 u32RemainSize
    { pCtx with au8Buffer := buf1, u32AadRemainSize := u32_sub pCtx.u32AadSize u32RemainSize,
                u32AadStartOffset := u32RemainSize }

/-- Embedding of `SKE_CcmContinueInit(pstcSkeInit, pCtx)`.  A `NULL` nonce or AAD pointer is read as empty
memory; `SKE_Init` reaches this function with a non-`NULL` nonce only. -/
def SKE_CcmContinueInit (mp : Nat) (env : SkeEnv) (pstcSkeInit : stc_ske_init_t)
    (pCtx : Option stc_ske_ccm_ctx_t) (s : SkeHw) :
    Option (LLRet × Option stc_ske_ccm_ctx_t × SkeHw) :=
  match pstcSkeInit.pstcCcmInit, pCtx with
  | none, _ => some (LL_ERR_INVD_PARAM, pCtx, s)
  | some _, none => some (LL_ERR_INVD_PARAM, pCtx, s)
  | some c, some ctx =>
    let ctx1 := SKE_CcmGetB0 ctx (c.pu8Nonce.getD [])
    let s1 := if c.u32AadSize = 0 then s.wr (HwOp.dinCrLast 1) else s
    match SKE_UpdateOneBlock mp env pstcSkeInit.u32Alg pstcSkeInit.u32Mode (some ctx1.au8Buffer)
        none 0 0 s1 with
    | none => none
    | some (i32Ret, _, s2) =>
      if i32Ret = LL_OK then
        let s3 := if ctx1.u32AadSize = 0 then s2.wr (HwOp.dinCrLast 0) else s2
        let ctx2 := if c.u32AadSize ≠ 0 then SKE_CcmPrepareB1 ctx1 (c.pu8Aad.getD []) else ctx1
        some (i32Ret, some ctx2, s3)
      else some (i32Ret, some ctx1, s2)

def SKE_InitInternal (mp : Nat) (env : SkeEnv) (pstcSkeInit : stc_ske_init_t) (s : SkeHw) :
    Option (LLRet × SkeHw) :=
  let s1 := s.wr (HwOp.cfgUpCfg ENABLE)
  let s2 := s1.wr (HwOp.cfgInit
    (pstcSkeInit.u32Mode ||| pstcSkeInit.u32DataType ||| pstcSkeInit.u32Alg))
  let s3 :=
    if pstcSkeInit.u32Mode = SKE_MD_CMAC mp then s2.wr (HwOp.cfgDec SKE_CRYPTO_ENCRYPT)
    else s2.wr (HwOp.cfgDec pstcSkeInit.u32Crypto)
  let s4 := s3.wr (HwOp.dinCrLast 0)
  let s5 :=
    if pstcSkeInit.u32Mode ≠ SKE_MD_ECB mp then
      (SKE_SetIv mp pstcSkeInit.u32Alg pstcSkeInit.u32Mode pstcSkeInit.pu8Iv s4).2
    else s4
  let s6 := (SKE_SetKey pstcSkeInit.u32Alg pstcSkeInit.pu8Key s5).2
  SKE_ExpandKey env s6

def SKE_GcmUpdateAadBlocks (mp : Nat) (env : SkeEnv) (u32Alg : Nat) (pu8Aad : Option (List Nat))
    (u32AadSize : Nat) (s : SkeHw) : Option (LLRet × SkeHw) :=
  if u32AadSize ≠ 0 ∧ pu8Aad.isSome then
    (SKE_CryptoBlocksInternal mp env u32Alg (SKE_MD_GCM mp) pu8Aad none u32AadSize s).map
      (fun r => (r.1, r.2.2))
  else some (LL_ERR_BUF_EMPTY, s)

def SKE_CcmUpdateAadBlocks (mp : Nat) (env : SkeEnv) (pCtx : Option stc_ske_ccm_ctx_t)
    (pu8Aad : Option (List Nat)) (s : SkeHw) : Option (LLRet × SkeHw) :=
  match pCtx with
  | none => some (LL_ERR_INVD_PARAM, s)
  | some ctx =>
    match pu8Aad with
    | none => some (LL_ERR_BUF_EMPTY, s)
    | some aad =>
      if ctx.u32AadSize = 0 then some (LL_ERR_BUF_EMPTY, s)
      else if ctx.u32AadRemainSize = 0 then
        (SKE_UpdateOneBlock mp env ctx.u32Alg (SKE_MD_CCM mp) (some ctx.au8Buffer) none 0 1 s).map
          (fun r => (r.1, r.2.2))
      else
        match SKE_UpdateOneBlock mp env ctx.u32Alg (SKE_MD_CCM mp) (some ctx.au8Buffer) none 0 0
            s with
        | none => none
        | some (i32Ret, _, s1) =>
          if i32Ret = LL_OK then
            (SKE_CryptoBlocksInternal mp env ctx.u32Alg (SKE_MD_CCM mp)
              (some (aad.drop ctx.u32AadStartOffset)) none ctx.u32AadRemainSize s1).map
              (fun r => (r.1, r.2.2))
          else some (i32Ret, s1)

/-- Loop of `SKE_Init` waiting for the engine to leave the busy state; `true` when it has. -/
def SKE_Init.waitIdle (env : SkeEnv) : Nat → Nat → SkeHw → Option (Bool × SkeHw)
  | 0, _, _ => none
  | fuel + 1, cnt, s =>
    if env.busy s.log s.tick then
      if cnt + 1 > SKE_TIMEOUT_VAL then some (false, { s with tick := s.tick + 1 })
      else SKE_Init.waitIdle env fuel (cnt + 1) { s with tick := s.tick + 1 }
    else some (true, { s with tick := s.tick + 1 })

/-- Second half of `SKE_Init`, after the preparation step has returned `LL_OK`. -/
def SKE_Init.finish (mp : Nat) (env : SkeEnv) (pstcSkeInit : stc_ske_init_t)
    (pCtx : Option stc_ske_ccm_ctx_t) (s : SkeHw) : Option (LLRet × SkeHw) :=
  match SKE_InitInternal mp env pstcSkeInit s with
  | none => none
  | some (i32Ret, s1) =>
    if i32Ret = LL_OK then
      if pstcSkeInit.u32Mode = SKE_MD_GCM mp then
        match pstcSkeInit.pstcGcmInit with
        | none => some (i32Ret, s1)
        | some g =>
          if g.pu8Aad.isSome ∧ g.u32AadSize > 0 then
            SKE_GcmUpdateAadBlocks mp env pstcSkeInit.u32Alg g.pu8Aad g.u32AadSize s1
          else some (i32Ret, s1)
      else if pstcSkeInit.u32Mode = SKE_MD_CCM mp then
        match SKE_CcmContinueInit mp env pstcSkeInit pCtx s1 with
        | none => none
        | some (i32Ret1, pCtx1, s2) =>
          match pstcSkeInit.pstcCcmInit with
          | none => some (i32Ret1, s2)
          | some c =>
            if i32Ret1 = LL_OK ∧ c.u32AadSize > 0 then
              SKE_CcmUpdateAadBlocks mp env pCtx1 c.pu8Aad s2
            else some (i32Ret1, s2)
      else some (i32Ret, s1)
    else some (i32Ret, s1)

/-- Embedding of `SKE_Init(pstcSkeInit)`; `stcCcmCtx` is the initial content of the local context variable.
Returns the result code, the new content of the IV buffer and the new peripheral state. -/
def SKE_Init (mp : Nat) (env : SkeEnv) (pstcSkeInit : Option stc_ske_init_t)
    (stcCcmCtx : stc_ske_ccm_ctx_t) (s : SkeHw) : Option (LLRet × Option (List Nat) × SkeHw) :=
  match pstcSkeInit with
  | none => some (LL_ERR_INVD_PARAM, none, s)
  | some init =>
    if init.pu8Key.isNone ∨
        (init.u32Mode ≠ SKE_MD_ECB mp ∧ init.u32Mode ≠ SKE_MD_CMAC mp ∧ init.pu8Iv.isNone) then
      some (LL_ERR_INVD_PARAM, init.pu8Iv, s)
    else
      match SKE_Init.waitIdle env (SKE_TIMEOUT_VAL + 1) 0 s with
      | none => none
      | some (false, s0) => some (LL_ERR, init.pu8Iv, s0)
      | some (true, s0) =>
        let s1 := s0.wr (HwOp.sr2Done 0)
        if init.u32Mode = SKE_MD_GCM mp then
          match SKE_GcmPrepareInit init s1 with
          | (LL_OK, s2) => (SKE_Init.finish mp env init (some stcCcmCtx) s2).map
              (fun r => (r.1, init.pu8Iv, r.2))
          | (i32Ret, s2) => some (i32Ret, init.pu8Iv, s2)
        else if init.u32Mode = SKE_MD_CCM mp then
          match SKE_CcmPrepareInit init (some stcCcmCtx) s1 with
          | none => none
          | some (LL_OK, iv1, pCtx1, s2) =>
            (SKE_Init.finish mp env { init with pu8Iv := iv1 } pCtx1 s2).map
              (fun r => (r.1, iv1, r.2))
          | some (i32Ret, iv1, _, s2) => some (i32Ret, iv1, s2)
        else if init.u32Mode = SKE_MD_CMAC mp then
          match SKE_CmacPrepareInit s1 with
          | (LL_OK, s2) => (SKE_Init.finish mp env init (some stcCcmCtx) s2).map
              (fun r => (r.1, init.pu8Iv, r.2))
          | (i32Ret, s2) => some (i32Ret, init.pu8Iv, s2)
        else
          (SKE_Init.finish mp env init (some stcCcmCtx) s1).map (fun r => (r.1, init.pu8Iv, r.2))


/-! ## MAC generation and verification -/

/-- First part of `SKE_CmacAction`, up to and including the update of the last block: returns the
result code so far, `au8Buffer` and the peripheral state. -/
def SKE_CmacAction.feed (mp : Nat) (env : SkeEnv) (u32Alg : Nat) (pu8Msg : Option (List Nat))
    (u32MsgSize0 : Nat) (s : SkeHw) : Option (LLRet × List Nat × SkeHw) :=
  let u32BlockSize := m_au8SkeAlgBlockSize.getD u32Alg 0
  let au8Buffer0 := List.replicate SKE_BLOCK_SIZE_MAX 0
  let r1 : Option (LLRet × Nat × List Nat × SkeHw) :=
    match pu8Msg with
    | none => some (LL_OK, 0, au8Buffer0, s)
    | some msg =>
      if u32MsgSize0 > 0 then
        let u32RmainSize0 := u32MsgSize0 % u32BlockSize
        let u32RmainSize := if u32RmainSize0 = 0 then u32BlockSize else u32RmainSize0
        let u32MsgSize := u32_sub u32MsgSize0 u32RmainSize
        let au8Buffer := SKE_CopyByte au8Buffer0 0 msg u32MsgSize u32RmainSize
        if u32MsgSize > 0 then
          match SKE_CryptoBlocksInternal mp env u32Alg (SKE_MD_CMAC mp) (some msg) none u32MsgSize
              s with
          | none => none
          | some (i32Ret, _, s1) => some (i32Ret, u32RmainSize, au8Buffer, s1)
        else some (LL_OK, u32RmainSize, au8Buffer, s)
      else some (LL_OK, 0, au8Buffer0, s)
  match r1 with
  | none => none
  | some (i32Ret, u32RmainSize, au8Buffer, s1) =>
    if i32Ret = LL_OK then
      let s2 := s1.wr (HwOp.dinCrWrite ((u32RmainSize <<< 3) % U32_MOD))
      match SKE_UpdateOneBlock mp env u32Alg (SKE_MD_CMAC mp) (some au8Buffer) none 0 1 s2 with
      | none => none
      | some (i32Ret2, _, s3) => some (i32Ret2, au8Buffer, s3)
    else some (i32Ret, au8Buffer, s1)

/-- Polling loop of `SKE_CmacAction` for the intermediate value; `cnt` is `u32TimeCount`. Returns
the result code, the new content of the MAC buffer and the peripheral state. -/
def SKE_CmacAction.poll (env : SkeEnv) (u32Action : Nat) (mac : List Nat) (u32MacSize : Nat)
    (au8Buffer : List Nat) : Nat → Nat → SkeHw → Option (LLRet × List Nat × SkeHw)
  | 0, _, _ => none
  | fuel + 1, cnt, s =>
    let s1 : SkeHw := { s with tick := s.tick + 1 }
    if env.midValid s.log s.tick then
      let s2 := s1.wr (HwOp.sr1MidValid 0)
      let buf := ((SKE_ReadMidIv env (some au8Buffer) s2).2).getD au8Buffer
      if u32Action = SKE_CMAC_GENERATE then
        some (LL_OK, SKE_CopyByte mac 0 buf 0 u32MacSize, s2)
      else some (SKE_CompareByte mac buf u32MacSize, mac, s2)
    else if cnt + 1 > SKE_TIMEOUT_VAL then some (LL_ERR_TIMEOUT, mac, s1)
    else SKE_CmacAction.poll env u32Action mac u32MacSize au8Buffer fuel (cnt + 1) s1

/-- Embedding of `SKE_CmacAction(pstcAction)`; returns the result code, the new content of the MAC buffer and
the new peripheral state. -/
def SKE_CmacAction (mp : Nat) (env : SkeEnv) (pstcAction : Option stc_ske_cmac_action_t)
    (s : SkeHw) : Option (LLRet × Option (List Nat) × SkeHw) :=
  match pstcAction with
  | none => some (LL_ERR_INVD_PARAM, none, s)
  | some a =>
    match a.pu8Mac with
    | none => some (LL_ERR_INVD_PARAM, none, s)
    | some mac =>
      if a.u32MacSize = 0 ∨ IS_SKE_ALG a.u32Alg = false then
        some (LL_ERR_INVD_PARAM, some mac, s)
      else
        match SKE_CmacAction.feed mp env a.u32Alg a.pu8Msg a.u32MsgSize s with
        | none => none
        | some (i32Ret, au8Buffer, s1) =>
          if i32Ret = LL_OK then
            (SKE_CmacAction.poll env a.u32Action mac a.u32MacSize au8Buffer
              (SKE_TIMEOUT_VAL + 1) 0 s1).map (fun r => (r.1, some r.2.1, r.2.2))
          else some (i32Ret, some mac, s1)

/-- Embedding of `SKE_XcmFinal(pstcFinal)`; `au8Mac` is the initial content of the local array.  Returns the
result code, the new content of the MAC buffer and the new peripheral state. -/
def SKE_XcmFinal (env : SkeEnv) (pstcFinal : Option stc_ske_xcm_final_t) (au8Mac : List Nat)
    (s : SkeHw) : Option (LLRet × Option (List Nat) × SkeHw) :=
  match pstcFinal with
  | none => some (LL_ERR_INVD_PARAM, none, s)
  | some f =>
    match SKE_WaitTillDone env (s.wr HwOp.ctrlStart) with
    | none => none
    | some (i32Ret, s1) =>
      if i32Ret = LL_OK then
        match f.pu8Mac with
        | none => some (i32Ret, none, s1)
        | some mac =>
          if f.u32MacSize ≠ 0 then
            let au8Mac1 := ((SKE_ReadBlock env f.u32Alg (some au8Mac) 0 s1).2).getD au8Mac
            if f.u32Crypto = SKE_CRYPTO_ENCRYPT then
              some (i32Ret, some (SKE_CopyByte mac 0 au8Mac1 0 f.u32MacSize), s1)
            else if f.u32Crypto = SKE_CRYPTO_DECRYPT then
              some (SKE_CompareByte au8Mac1 mac f.u32MacSize, some mac, s1)
            else some (i32Ret, some mac, s1)
          else some (i32Ret, some mac, s1)
      else some (i32Ret, f.pu8Mac, s1)

/-- The flags byte of B0 in the words of the specification. -/
def spec_b0Flags (macSize lengthSize aadSize : Nat) : Nat :=
  ((((macSize - 2) / 2) <<< 3) ||| (lengthSize - 1)) ||| (if aadSize > 0 then 0x40 else 0)

/-- Big-endian encoding of `x` in `len` bytes. -/
def spec_bigEndian (len x : Nat) : List Nat :=
  (List.range len).map (fun i => x / 256 ^ (len - 1 - i) % 256)

/-- The length field that starts B1, in the words of the specification. -/
def spec_aadLenField (aadSize : Nat) : List Nat :=
  if aadSize < 65280 then spec_bigEndian 2 aadSize
  else [0xFF, 0xFE] ++ spec_bigEndian 4 aadSize

/-- The part of the AAD that B1 has room for. -/
def spec_b1Window (aadSize : Nat) : Nat := 16 - (spec_aadLenField aadSize).length

/-- The value of a big-endian byte string. -/
def spec_beValue (bytes : List Nat) : Nat := bytes.foldl (fun a b => a * 256 + b) 0

/-- The minimal number of bytes that hold a 32-bit value. -/
def spec_minBytes (x : Nat) : Nat :=
  if x = 0 then 0 else if x < 256 then 1 else if x < 65536 then 2 else if x < 16777216 then 3
  else 4

/-- The register writes of `SKE_InitInternal` when the key expansion completes, the IV and
key pointers being valid. -/
def initOps (mp : Nat) (init : stc_ske_init_t) (ivb key : List Nat) : List HwOp :=
  [HwOp.cfgUpCfg ENABLE,
   HwOp.cfgInit (init.u32Mode ||| init.u32DataType ||| init.u32Alg),
   HwOp.cfgDec (if init.u32Mode = SKE_MD_CMAC mp then SKE_CRYPTO_ENCRYPT else init.u32Crypto),
   HwOp.dinCrLast 0] ++
  (if init.u32Mode ≠ SKE_MD_ECB mp then
    [HwOp.iv (if init.u32Mode ≠ SKE_MD_CMAC mp then
      SKE_CopyByte (List.replicate 16 0) 0 ivb 0
        (if init.u32Mode = SKE_MD_GCM mp then SKE_IV_SIZE_12BYTE
         else m_au8SkeAlgBlockSize.getD init.u32Alg 0)
      else List.replicate 16 0)]
   else []) ++
  [HwOp.key (readBytes key 0 (4 * (m_au8SkeAlgKeySize.getD init.u32Alg 0 / 4))),
   HwOp.cfgUpCfg ENABLE, HwOp.ctrlStart, HwOp.sr2Done 0, HwOp.cfgUpCfg DISABLE]

/-- The register writes of `SKE_SetCryptoSize` followed by `SKE_SetAadSize`. -/
def sizeOps (cryptoSize aadSize : Nat) : List HwOp :=
  [HwOp.clen1 (((cryptoSize <<< 3) % U32_MOD) &&& 0xFFFFFFF8),
   HwOp.clen2 ((cryptoSize >>> 29) &&& 0x7),
   HwOp.aad1 (((aadSize <<< 3) % U32_MOD) &&& 0xFFFFFFF8),
   HwOp.aad2 ((aadSize >>> 29) &&& 0x7)]

/-- The CCM context as `SKE_CcmPrepareInit` leaves it. -/
def ccmCtxPrepared (init : stc_ske_init_t) (c : stc_ske_ccm_init_para_t)
    (ctx : stc_ske_ccm_ctx_t) : stc_ske_ccm_ctx_t :=
  { ctx with u32Alg := init.u32Alg, u32MacSize := c.u32MacSize,
             u32LengthSize := c.u32LengthSize, u32CryptoSize := c.u32CryptoSize,
             u32AadSize := c.u32AadSize }

/-- The A0 block as `SKE_CcmPrepareInit` writes it into the IV buffer. -/
def ccmA0 (ivb nonce : List Nat) (lengthSize : Nat) : List Nat :=
  SKE_SetByte (SKE_CopyByte (ivb.set 0 (u32_sub lengthSize 1 % 256)) 1 nonce 0
    (u32_sub 15 lengthSize)) (u32_sub 16 lengthSize) 0 lengthSize

/-- The register writes of `SKE_CcmUpdateAadBlocks` after `SKE_CcmPrepareB1`, see
`ccmUpdateAad_ok`. -/
def ccmAadOps (ctx : stc_ske_ccm_ctx_t) (aad : List Nat) : List HwOp :=
  if ctx.u32AadSize ≤ spec_b1Window ctx.u32AadSize then
    blockOps true false (SKE_CcmPrepareB1 ctx aad).au8Buffer
  else
    blockOps false false (SKE_CcmPrepareB1 ctx aad).au8Buffer ++
    (leadOps (aad.drop (spec_b1Window ctx.u32AadSize)) 16
      ((ctx.u32AadSize - spec_b1Window ctx.u32AadSize -
        ((ctx.u32AadSize - spec_b1Window ctx.u32AadSize - 1) % 16 + 1)) / 16) 0 ++
     blockOps true false (lastBlock (aad.drop (spec_b1Window ctx.u32AadSize))
      (ctx.u32AadSize - spec_b1Window ctx.u32AadSize) 16))

/-- The blocks that follow B0 in a CCM initialisation with AAD: B1, then the blocks of the rest
of the AAD. -/
def ccmAadBlocks (ctx : stc_ske_ccm_ctx_t) (aad : List Nat) : List (List Nat) :=
  if ctx.u32AadSize ≤ spec_b1Window ctx.u32AadSize then
    [(SKE_CcmPrepareB1 ctx aad).au8Buffer]
  else
    (SKE_CcmPrepareB1 ctx aad).au8Buffer ::
    (leadBlocks (aad.drop (spec_b1Window ctx.u32AadSize)) 16
      ((ctx.u32AadSize - spec_b1Window ctx.u32AadSize -
        ((ctx.u32AadSize - spec_b1Window ctx.u32AadSize - 1) % 16 + 1)) / 16) 0 ++
     [lastBlock (aad.drop (spec_b1Window ctx.u32AadSize))
      (ctx.u32AadSize - spec_b1Window ctx.u32AadSize) 16])

/-- Every poll for the intermediate value finds it valid within the polling bound. -/
def AllMidValid (env : SkeEnv) : Prop :=
  ∀ (log : List HwOp) (t : Nat), ∃ i, i ≤ SKE_TIMEOUT_VAL ∧ env.midValid log (t + i) = true

/-! ## Block processing entry point and status flags -/

structure stc_ske_crypto_t where
  u32Alg : Nat
  u32Mode : Nat
  pu8In : Option (List Nat)
  pu8Out : Option (List Nat)
  u32CryptoSize : Nat

/-- Embedding of `SKE_CryptoBlocks(pstcCrypto)`; returns the result code, the new content of the output
buffer and the new peripheral state. -/
def SKE_CryptoBlocks (mp : Nat) (env : SkeEnv) (pstcCrypto : Option stc_ske_crypto_t)
    (s : SkeHw) : Option (LLRet × Option (List Nat) × SkeHw) :=
  match pstcCrypto with
  | none => some (LL_ERR_INVD_PARAM, none, s)
  | some c => SKE_CryptoBlocksInternal mp env c.u32Alg c.u32Mode c.pu8In c.pu8Out c.u32CryptoSize s

/-- The flag status type of the library (`hc32_ll_def.h`). -/
inductive en_flag_status_t
  | RESET
  | SET
  deriving DecidableEq, Repr

open en_flag_status_t

def SKE_FLAG_BUSY : Nat := 1 <<< 0
def SKE_FLAG_MID_VALID : Nat := 1 <<< 1
def SKE_FLAG_DONE : Nat := 1 <<< 16
def SKE_FLAG_ALL : Nat := SKE_FLAG_BUSY ||| SKE_FLAG_MID_VALID ||| SKE_FLAG_DONE
def SKE_SR1_FLAG : Nat := SKE_FLAG_BUSY ||| SKE_FLAG_MID_VALID

/-- Embedding of `SKE_GetStatus(u32Flag)`; `sr1` is the content of the register `SR1` and `coreDone` the
bit `CORE_DONE` of `SR2` at the time of the call. -/
def SKE_GetStatus (sr1 coreDone : Nat) (u32Flag : Nat) : en_flag_status_t :=
  let enStatus0 := RESET
  let enStatus1 := if (sr1 &&& SKE_SR1_FLAG) ≠ 0 then SET else enStatus0
  if (u32Flag &&& SKE_FLAG_DONE) ≠ 0 then
    if coreDone ≠ 0 then SET else enStatus1
  else enStatus1

/-- The status flags that are set, as a mask of `SKE_FLAG_BUSY`, `SKE_FLAG_MID_VALID` and
`SKE_FLAG_DONE`, for the register contents `sr1` and `coreDone`. -/
def spec_flagsSet (sr1 coreDone : Nat) : Nat :=
  (sr1 &&& SKE_SR1_FLAG) ||| (if coreDone ≠ 0 then SKE_FLAG_DONE else 0)

/-- The valid pairs of algorithm and mode in the words of the specification. -/
def spec_validPair (mp alg md : Nat) : Prop :=
  (alg ∈ [SKE_ALG_AES_128, SKE_ALG_AES_192, SKE_ALG_AES_256, SKE_ALG_SM4, SKE_ALG_DES] ∧
    md ∈ [SKE_MD_ECB mp, SKE_MD_CBC mp, SKE_MD_CFB mp, SKE_MD_OFB mp, SKE_MD_CTR mp,
      SKE_MD_CMAC mp]) ∨
  (alg ∈ [SKE_ALG_AES_128, SKE_ALG_AES_192, SKE_ALG_AES_256, SKE_ALG_SM4] ∧
    md ∈ [SKE_MD_GCM mp, SKE_MD_CCM mp])

/-- The content of the IV registers after the register writes `log`, `iv0` being their content
before. -/
def ivRegs (iv0 : List Nat) : List HwOp → List Nat
  | [] => iv0
  | HwOp.iv v :: r => ivRegs v r
  | _ :: r => ivRegs iv0 r

/-- An engine that stays busy and never completes. -/
def envBusy : SkeEnv :=
  { busy := fun _ _ => true, done := fun _ _ => false, midValid := fun _ _ => false,
    dout := fun _ _ => [], midIv := fun _ _ => [] }

/-- The register writes of one `SKE_UpdateOneBlock` up to and including `START`. -/
def blockStart (mark : Bool) (b : List Nat) : List HwOp :=
  (if mark then [HwOp.dinCrLast 1] else []) ++ [HwOp.din b, HwOp.ctrlStart]

/-- The transform started by the register writes `log` completes: whenever the driver starts
polling, it finds the engine done and idle within the polling bound. -/
def TransformCompletes (env : SkeEnv) (log : List HwOp) : Prop :=
  ∀ t : Nat, ∃ i, i ≤ SKE_TIMEOUT_VAL ∧ env.done log (t + i) = true ∧ env.busy log (t + i) = false

/-- The transform started by the register writes `log` never completes: no poll finds the
engine done and idle. -/
def TransformStuck (env : SkeEnv) (log : List HwOp) : Prop :=
  ∀ t : Nat, (env.done log t && !env.busy log t) = false

/-- The number of blocks that the loop of `SKE_CryptoBlocksInternal` processes for `n` bytes: all
blocks but the trailing one. -/
def leadCount (n bs : Nat) : Nat := (n - ((n - 1) % bs + 1)) / bs

/-- The register writes of `SKE_CryptoBlocksInternal` on `n` input bytes from the start of the
call up to the `START` of transform `j` (counted from 0), the earlier transforms having
completed; `mark` tells whether the trailing block carries the last-block mark. -/
def crStartLog (mark : Bool) (inp : List Nat) (n bs j : Nat) : List HwOp :=
  if j < leadCount n bs then
    leadOps inp bs j 0 ++ blockStart false (readBytes inp (j * bs) bs)
  else
    leadOps inp bs (leadCount n bs) 0 ++ blockStart mark (lastBlock inp n bs)

/-- The blocks that `SKE_CryptoBlocksInternal` feeds for `n` input bytes: the leading blocks and
the zero-padded trailing block. -/
def crBlocks (inp : List Nat) (n bs : Nat) : List (List Nat) :=
  leadBlocks inp bs (leadCount n bs) 0 ++ [lastBlock inp n bs]

/-! ## The engine as a block-stream transformer

The engine itself is not part of the driver.  For the round-trip properties it is a parameter:
a function `step` that maps the chaining state of the engine (IV, counter, previous block; a
byte string) and the block in the data-in registers to the output block and the next chaining
state.  `ECB` ignores the state; `CBC`, `CFB`, `OFB` and `CTR` use it. -/

/-- The outputs of an engine with transform `step`, started in chaining state `c`, for a
sequence of input blocks. -/
def runSteps (step : List Nat → List Nat → List Nat × List Nat) :
    List Nat → List (List Nat) → List (List Nat)
  | _, [] => []
  | c, b :: r => (step c b).1 :: runSteps step (step c b).2 r

/-- The chaining state of an engine with transform `step`, started in chaining state `c`, after
a sequence of input blocks. -/
def chainAfter (step : List Nat → List Nat → List Nat × List Nat) :
    List Nat → List (List Nat) → List Nat
  | c, [] => c
  | c, b :: r => chainAfter step (step c b).2 r

/-- The content of the data-out registers of an engine with transform `step` after the register
writes `ops`: each `START` transforms the block last written to the data-in registers.  `c` is
the chaining state, `p` the content of the data-in registers and `o` that of the data-out
registers before `ops`. -/
def engineOut (step : List Nat → List Nat → List Nat × List Nat) :
    List Nat → Option (List Nat) → List Nat → List HwOp → List Nat
  | _, _, o, [] => o
  | c, _, o, HwOp.din b :: r => engineOut step c (some b) o r
  | c, some b, _, HwOp.ctrlStart :: r => engineOut step (step c b).2 (some b) (step c b).1 r
  | c, p, o, _ :: r => engineOut step c p o r

/-- An engine that completes every transform at once, configured by the first register write of
the log: after `cfgDec SKE_CRYPTO_ENCRYPT` it transforms with `enc`, after another `cfgDec` with
`dec`, in both cases starting from the chaining state `c0`. -/
def engineEnv (enc dec : List Nat → List Nat → List Nat × List Nat) (c0 : List Nat) : SkeEnv :=
  { busy := fun _ _ => false
    done := fun _ _ => true
    midValid := fun _ _ => false
    dout := fun log _ =>
      match log with
      | HwOp.cfgDec v :: ops =>
        engineOut (if v = SKE_CRYPTO_ENCRYPT then enc else dec) c0 none [] ops
      | _ => []
    midIv := fun _ _ => [] }

/-- A block transform that is its own inverse and mixes the byte positions: the block
reversed (the chaining state is not used, as in `ECB`). -/
def revStep (c b : List Nat) : List Nat × List Nat := (b.reverse, c)

/-- A block transform that is its own inverse and acts on each byte position separately, as the
stream modes do: every byte is combined with the key-stream byte `0x5A` by exclusive or. -/
def xorStep (c b : List Nat) : List Nat × List Nat := (b.map (fun x => x ^^^ 0x5A), c)

/-- An engine whose first `k` transforms complete at once and whose later transforms never
complete. -/
def envStuckAfter (k : Nat) (d : List Nat) : SkeEnv :=
  { busy := fun _ _ => false
    done := fun log _ => decide (log.count HwOp.ctrlStart ≤ k)
    midValid := fun _ _ => false
    dout := fun _ _ => d
    midIv := fun _ _ => [] }

/-! ## Reading the last-block mark, the AAD length and the polls -/

/-- The state of the last-block mark after the register writes `ops`, `m` being its state
before; `lp` is the bit position of `LAST` in `DIN_CR` (device header). -/
def lastMarkAfter (lp : Nat) : Bool → List HwOp → Bool
  | m, [] => m
  | _, HwOp.dinCrLast v :: r => lastMarkAfter lp (v != 0) r
  | _, HwOp.dinCrWrite v :: r => lastMarkAfter lp (v.testBit lp) r
  | m, _ :: r => lastMarkAfter lp m r

/-- The AAD length read back from the first bytes of a B1 block: after `0xFF, 0xFE` the next four
bytes big-endian, otherwise the first two bytes big-endian. -/
def spec_decodeAadLen (b1 : List Nat) : Nat :=
  if b1.getD 0 0 = 0xFF ∧ b1.getD 1 0 = 0xFE then spec_beValue ((b1.drop 2).take 4)
  else spec_beValue (b1.take 2)

/-- Whether a poll at time `t` after the register writes `log` finds the engine done and idle. -/
def pollReady (env : SkeEnv) (log : List HwOp) (t : Nat) : Bool :=
  env.done log t && !env.busy log t

/-- The register writes of `SKE_CmacAction.feed` for a message of `n ≥ 1` bytes and block size
`bs`, every transform completing: the full blocks, the bit length of the trailing block, the
trailing block. -/
def cmacFeedOps (msg : List Nat) (n bs : Nat) : List HwOp :=
  (if n - ((n - 1) % bs + 1) > 0 then
    leadOps msg bs (leadCount (n - ((n - 1) % bs + 1)) bs) 0 ++
      blockOps false false (lastBlock msg (n - ((n - 1) % bs + 1)) bs)
   else []) ++
  [HwOp.dinCrWrite (8 * ((n - 1) % bs + 1))] ++ blockOps true true (lastBlock msg n bs)

/-- The full blocks of a message of `n ≥ 1` bytes, which `SKE_CmacAction` passes to
`SKE_CryptoBlocksInternal`. -/
def cmacFullBlocks (msg : List Nat) (n bs : Nat) : List (List Nat) :=
  if n - ((n - 1) % bs + 1) > 0 then crBlocks msg (n - ((n - 1) % bs + 1)) bs else []

/-! ## Lemmas on the byte helpers -/

theorem getD_set_nat (l : List Nat) (a v j : Nat) :
    (l.set a v).getD j 0 = if a = j ∧ j < l.length then v else l.getD j 0 := by
  simp only [List.getD_eq_getElem?_getD, List.getElem?_set]
  by_cases h : a = j
  · subst h
    by_cases h2 : a < l.length
    · simp [h2]
    · simp [h2, List.getElem?_eq_none (Nat.le_of_not_lt h2)]
  · simp [h]

theorem ext_getD {l1 l2 : List Nat} (hl : l1.length = l2.length)
    (h : ∀ j, j < l1.length → l1.getD j 0 = l2.getD j 0) : l1 = l2 := by
  apply List.ext_getElem hl
  intro j h1 h2
  have := h j h1
  simpa [List.getD_eq_getElem?_getD, List.getElem?_eq_getElem h1, List.getElem?_eq_getElem h2] using this

theorem getD_append_nat (l1 l2 : List Nat) (j : Nat) :
    (l1 ++ l2).getD j 0 = if j < l1.length then l1.getD j 0 else l2.getD (j - l1.length) 0 := by
  simp only [List.getD_eq_getElem?_getD]
  by_cases h : j < l1.length
  · simp [h, List.getElem?_append_left h]
  · simp [h, List.getElem?_append_right (Nat.le_of_not_lt h)]

theorem readBytes_length (buf : List Nat) (off n : Nat) : (readBytes buf off n).length = n := by
  simp [readBytes]

theorem readBytes_getD (buf : List Nat) (off n j : Nat) :
    (readBytes buf off n).getD j 0 = if j < n then buf.getD (off + j) 0 else 0 := by
  simp only [readBytes, List.getD_eq_getElem?_getD, List.getElem?_map, List.getElem?_range]
  by_cases h : j < n
  · simp [h, List.getElem?_range h]
  · simp [h, List.getElem?_eq_none (l := List.range n) (by simpa using Nat.le_of_not_lt h)]

theorem copy_loop_length (src : List Nat) (doff soff : Nat) :
    ∀ (k i : Nat) (dest : List Nat), (SKE_CopyByte.loop src doff soff k i dest).length = dest.length
  | 0, _, _ => rfl
  | k + 1, i, dest => by
    rw [SKE_CopyByte.loop, copy_loop_length src doff soff k (i + 1), List.length_set]

theorem copy_loop_getD (src : List Nat) (doff soff : Nat) :
    ∀ (k i : Nat) (dest : List Nat) (j : Nat),
      (SKE_CopyByte.loop src doff soff k i dest).getD j 0 =
        if doff + i ≤ j ∧ j < doff + i + k ∧ j < dest.length then src.getD (soff + (j - doff)) 0
        else dest.getD j 0
  | 0, i, dest, j => by
    have : ¬ (doff + i ≤ j ∧ j < doff + i + 0 ∧ j < dest.length) := by omega
    rw [SKE_CopyByte.loop, if_neg this]
  | k + 1, i, dest, j => by
    rw [SKE_CopyByte.loop, copy_loop_getD src doff soff k (i + 1), List.length_set, getD_set_nat]
    by_cases h1 : doff + (i + 1) ≤ j ∧ j < doff + (i + 1) + k ∧ j < dest.length
    · have : doff + i ≤ j ∧ j < doff + i + (k + 1) ∧ j < dest.length := by omega
      simp [h1, this]
    · by_cases h2 : doff + i = j ∧ j < dest.length
      · have : doff + i ≤ j ∧ j < doff + i + (k + 1) ∧ j < dest.length := by omega
        have e : soff + (j - doff) = soff + i := by omega
        simp [h1, h2, this, e]
      · have : ¬ (doff + i ≤ j ∧ j < doff + i + (k + 1) ∧ j < dest.length) := by omega
        simp [h1, h2, this]

theorem SKE_CopyByte_length (dest : List Nat) (doff : Nat) (src : List Nat) (soff n : Nat) :
    (SKE_CopyByte dest doff src soff n).length = dest.length :=
  copy_loop_length src doff soff n 0 dest

theorem SKE_CopyByte_getD (dest : List Nat) (doff : Nat) (src : List Nat) (soff n j : Nat) :
    (SKE_CopyByte dest doff src soff n).getD j 0 =
      if doff ≤ j ∧ j < doff + n ∧ j < dest.length then src.getD (soff + (j - doff)) 0
      else dest.getD j 0 := by
  simpa using copy_loop_getD src doff soff n 0 dest j

theorem readBytes_eq_take (buf : List Nat) (off n : Nat) (h : off + n ≤ buf.length) :
    readBytes buf off n = (buf.drop off).take n := by
  apply ext_getD
  · simp [readBytes_length]; omega
  · intro j hj
    rw [readBytes_length] at hj
    rw [readBytes_getD]
    simp only [List.getD_eq_getElem?_getD, hj, if_true, List.getElem?_take, List.getElem?_drop]

theorem allDone_envConst (d : List Nat) : AllDone (envConst d) := by
  intro log t
  exact ⟨0, Nat.zero_le _, rfl, rfl⟩

theorem wait_loop_ok (env : SkeEnv) (log : List HwOp) :
    ∀ (i fuel cnt t : Nat), i < fuel → cnt + i ≤ SKE_TIMEOUT_VAL →
      env.done log (t + i) = true → env.busy log (t + i) = false →
      ∃ t', SKE_WaitTillDone.loop env fuel cnt ⟨log, t⟩ = some (LL_OK, ⟨log ++ [HwOp.sr2Done 0], t'⟩)
  | 0, fuel, cnt, t, hf, _, hd, hb => by
    obtain ⟨f, rfl⟩ : ∃ f, fuel = f + 1 := ⟨fuel - 1, by omega⟩
    simp only [Nat.add_zero] at hd hb
    exact ⟨t + 1, by simp [SKE_WaitTillDone.loop, hd, hb, SkeHw.wr]⟩
  | i + 1, fuel, cnt, t, hf, hc, hd, hb => by
    obtain ⟨f, rfl⟩ : ∃ f, fuel = f + 1 := ⟨fuel - 1, by omega⟩
    by_cases h : (env.done log t && !env.busy log t) = true
    · exact ⟨t + 1, by simp [SKE_WaitTillDone.loop, h, SkeHw.wr]⟩
    · have hc2 : ¬ (cnt + 1 > SKE_TIMEOUT_VAL) := by omega
      have e : t + (i + 1) = t + 1 + i := by omega
      rw [e] at hd hb
      obtain ⟨t', ht'⟩ := wait_loop_ok env log i f (cnt + 1) (t + 1) (by omega) (by omega) hd hb
      refine ⟨t', ?_⟩
      rw [SKE_WaitTillDone.loop]
      simp only [h, hc2, if_false]
      exact ht'

theorem wait_ok (env : SkeEnv) (hd : AllDone env) (s : SkeHw) :
    ∃ t', SKE_WaitTillDone env s = some (LL_OK, ⟨s.log ++ [HwOp.sr2Done 0], t'⟩) := by
  obtain ⟨i, hi, h1, h2⟩ := hd s.log s.tick
  obtain ⟨log, t⟩ := s
  exact wait_loop_ok env log i (SKE_TIMEOUT_VAL + 1) 0 t (by omega) (by omega) h1 h2

theorem blockSize_of_alg (alg : Nat) (h : IS_SKE_ALG alg = true) :
    m_au8SkeAlgBlockSize.getD alg 0 = (if alg = SKE_ALG_DES then 8 else 16) := by
  simp only [IS_SKE_ALG, SKE_ALG_AES_128, SKE_ALG_AES_256, Bool.and_eq_true, decide_eq_true_eq] at h
  obtain ⟨h1, h2⟩ := h
  interval_cases alg <;> rfl

theorem writeBlock_ok (alg : Nat) (h : IS_SKE_ALG alg = true) (inp : List Nat) (s : SkeHw) :
    SKE_WriteBlock alg (some inp) s =
      (LL_OK, s.wr (HwOp.din (readBytes inp 0 (m_au8SkeAlgBlockSize.getD alg 0)))) := by
  have hbs := blockSize_of_alg alg h
  unfold SKE_WriteBlock
  simp only [h, Bool.not_true, Bool.false_eq_true, if_false, SKE_BLOCK_SIZE_16BYTE]
  rw [hbs]
  by_cases hdes : alg = SKE_ALG_DES <;> simp [hdes]

theorem readBlock_isSome (env : SkeEnv) (alg : Nat) (out : Option (List Nat)) (off : Nat)
    (s : SkeHw) : (SKE_ReadBlock env alg out off s).2.isSome = out.isSome := by
  unfold SKE_ReadBlock
  cases out with
  | none => rfl
  | some o => dsimp only; split_ifs <;> rfl

theorem update_ok (mp : Nat) (env : SkeEnv) (hd : AllDone env) (alg mode : Nat)
    (h : IS_SKE_ALG alg = true) (inp : List Nat) (out : Option (List Nat)) (off isLast : Nat)
    (s : SkeHw) :
    ∃ t', SKE_UpdateOneBlock mp env alg mode (some inp) out off isLast s =
      some (LL_OK,
        (if out.isSome then (SKE_ReadBlock env alg out off
          ⟨s.log ++ blockPre (isMarkMode mp mode && (isLast != 0))
            (readBytes inp 0 (m_au8SkeAlgBlockSize.getD alg 0)), t'⟩).2 else out),
        ⟨s.log ++ blockOps (isMarkMode mp mode && (isLast != 0))
          (mode == SKE_MD_CMAC mp) (readBytes inp 0 (m_au8SkeAlgBlockSize.getD alg 0)), t'⟩) := by
  obtain ⟨log, t⟩ := s
  simp only [SKE_UpdateOneBlock, writeBlock_ok alg h, Option.isNone_some, Bool.false_eq_true,
    if_false]
  generalize readBytes inp 0 (m_au8SkeAlgBlockSize.getD alg 0) = b
  by_cases hm : (isMarkMode mp mode && (isLast != 0)) = true
  · simp only [hm, if_true]
    obtain ⟨t', ht'⟩ := wait_ok env hd
      ((((⟨log, t⟩ : SkeHw).wr (HwOp.dinCrLast 1)).wr (HwOp.din b)).wr HwOp.ctrlStart)
    rw [ht']
    refine ⟨t', ?_⟩
    by_cases hc : (mode == SKE_MD_CMAC mp) = true <;>
      simp [hc, SkeHw.wr, blockOps, blockPre, blockPost]
  · simp only [hm, Bool.false_eq_true, if_false]
    obtain ⟨t', ht'⟩ := wait_ok env hd
      (((⟨log, t⟩ : SkeHw).wr (HwOp.din b)).wr HwOp.ctrlStart)
    rw [ht']
    refine ⟨t', ?_⟩
    simp [SkeHw.wr, blockOps, blockPre, blockPost]

theorem readBytes_drop (inp : List Nat) (i n : Nat) :
    readBytes (inp.drop i) 0 n = readBytes inp i n := by
  simp [readBytes, List.getD_eq_getElem?_getD, List.getElem?_drop]

theorem blockOps_false (c : Bool) (b : List Nat) :
    blockOps false c b = [HwOp.din b, HwOp.ctrlStart, HwOp.sr2Done 0] := by
  simp [blockOps, blockPre, blockPost]

theorem lead_loop_ok (mp : Nat) (env : SkeEnv) (hd : AllDone env) (alg mode : Nat)
    (h : IS_SKE_ALG alg = true) (inp : List Nat) (size bs : Nat) (hsz : size < U32_MOD)
    (hb : m_au8SkeAlgBlockSize.getD alg 0 = bs) (hpos : 0 < bs) :
    ∀ (k i fuel : Nat) (out : Option (List Nat)) (s : SkeHw),
      i + k * bs = size → k < fuel →
      ∃ out' t', SKE_CryptoBlocksInternal.loop mp env alg mode inp bs size fuel i out s =
        some (LL_OK, size, out', ⟨s.log ++ leadOps inp bs k i, t'⟩) ∧
        out'.isSome = out.isSome
  | 0, i, fuel, out, s, hi, hf => by
    obtain ⟨f, rfl⟩ : ∃ f, fuel = f + 1 := ⟨fuel - 1, by omega⟩
    have : ¬ (i < size) := by omega
    have e : i = size := by omega
    refine ⟨out, s.tick, ?_, rfl⟩
    unfold SKE_CryptoBlocksInternal.loop
    rw [if_neg this, e]
    simp [leadOps]
  | k + 1, i, fuel, out, s, hi, hf => by
    obtain ⟨f, rfl⟩ : ∃ f, fuel = f + 1 := ⟨fuel - 1, by omega⟩
    have hlt : i < size := by
      have : (k + 1) * bs = k * bs + bs := by ring
      omega
    have hnext : (i + bs) % U32_MOD = i + bs := by
      apply Nat.mod_eq_of_lt
      have : (k + 1) * bs = k * bs + bs := by ring
      omega
    have hi2 : (i + bs) + k * bs = size := by
      have : (k + 1) * bs = k * bs + bs := by ring
      omega
    unfold SKE_CryptoBlocksInternal.loop
    rw [if_pos hlt]
    unfold SKE_CryptoBlocksInternal.body
    cases out with
    | none =>
      obtain ⟨t1, h1⟩ := update_ok mp env hd alg mode h (inp.drop i) none 0 0 s
      rw [hb] at h1
      obtain ⟨out', t', h2, h3⟩ := lead_loop_ok mp env hd alg mode h inp size bs hsz hb hpos
        k (i + bs) f none ⟨s.log ++ blockOps false (mode == SKE_MD_CMAC mp)
          (readBytes (inp.drop i) 0 bs), t1⟩ hi2 (by omega)
      refine ⟨out', t', ?_, h3⟩
      simp only [h1]
      simp only [ne_eq, not_true, if_false, hnext, Bool.and_false, bne_self_eq_false,
        Option.isSome_none, Bool.false_eq_true] at h2 ⊢
      rw [h2]
      simp [leadOps, blockOps_false, readBytes_drop]
    | some o =>
      obtain ⟨t1, h1⟩ := update_ok mp env hd alg mode h (inp.drop i) (some o) i 0 s
      rw [hb] at h1
      obtain ⟨out', t', h2, h3⟩ := lead_loop_ok mp env hd alg mode h inp size bs hsz hb hpos
        k (i + bs) f _ ⟨s.log ++ blockOps false (mode == SKE_MD_CMAC mp)
          (readBytes (inp.drop i) 0 bs), t1⟩ hi2 (by omega)
      refine ⟨out', t', ?_, ?_⟩
      · simp only [h1]
        simp only [ne_eq, not_true, if_false, hnext, Bool.and_false, bne_self_eq_false,
          Option.isSome_some, if_true] at h2 ⊢
        rw [h2]
        simp [leadOps, blockOps_false, readBytes_drop]
      · rw [h3]
        simp [readBlock_isSome]

theorem shl_inj (a b mp : Nat) : (a <<< mp = b <<< mp) ↔ a = b := by
  rw [Nat.shiftLeft_eq, Nat.shiftLeft_eq]
  exact Nat.mul_left_inj (by positivity)

theorem alg_of_alg_md (mp alg mode : Nat) (h : IS_SKE_ALG_MD mp alg mode = true) :
    IS_SKE_ALG alg = true := by
  unfold IS_SKE_ALG_MD IS_SKE_XCM_MD_ALG at h
  cases hA : IS_SKE_ALG alg
  · simp [hA] at h
  · rfl

theorem xcm_mark (mp mode : Nat) :
    (isMarkMode mp mode && ((if mode = SKE_MD_CMAC mp then 0 else 1) != 0)) =
      IS_SKE_XCM_MD mp mode := by
  unfold isMarkMode IS_SKE_XCM_MD
  by_cases h : mode = SKE_MD_CMAC mp
  · subst h
    simp [SKE_MD_CMAC, SKE_MD_GCM, SKE_MD_CCM, shl_inj]
  · simp [h]

theorem xcm_not_cmac (mp mode : Nat) (h : IS_SKE_XCM_MD mp mode = true) :
    (mode == SKE_MD_CMAC mp) = false := by
  unfold IS_SKE_XCM_MD at h
  simp only [Bool.or_eq_true, beq_iff_eq] at h
  rcases h with h | h <;> subst h <;> simp [SKE_MD_CMAC, SKE_MD_GCM, SKE_MD_CCM, shl_inj]

theorem blockOps_xcm (mp mode : Nat) (b : List Nat) :
    blockOps (IS_SKE_XCM_MD mp mode) (mode == SKE_MD_CMAC mp) b =
      blockOps (IS_SKE_XCM_MD mp mode) false b := by
  cases h : IS_SKE_XCM_MD mp mode
  · simp [blockOps, blockPost]
  · rw [xcm_not_cmac mp mode h]

theorem lastBlock_eq (inp : List Nat) (n bs : Nat) (hn1 : 1 ≤ n) (hlen : n ≤ inp.length)
    (hbs : bs = 8 ∨ bs = 16) :
    readBytes (SKE_CopyByte (List.replicate SKE_BLOCK_SIZE_MAX 0) 0 inp
      (n - ((n - 1) % bs + 1)) ((n - 1) % bs + 1)) 0 bs = lastBlock inp n bs := by
  unfold lastBlock
  have hr : (n - 1) % bs + 1 ≤ bs := by
    have : (n - 1) % bs < bs := Nat.mod_lt _ (by omega)
    omega
  have hr2 : (n - 1) % bs + 1 ≤ n := by
    have : (n - 1) % bs ≤ n - 1 := Nat.mod_le _ _
    omega
  generalize hrm : (n - 1) % bs + 1 = r at *
  apply ext_getD
  · simp [readBytes_length]
    omega
  · intro j hj
    rw [readBytes_length] at hj
    rw [readBytes_getD, if_pos hj, SKE_CopyByte_getD, getD_append_nat]
    simp only [List.length_replicate, SKE_BLOCK_SIZE_MAX, SKE_BLOCK_SIZE_16BYTE, List.length_take,
      List.length_drop]
    by_cases h1 : j < r
    · have c1 : 0 ≤ 0 + j ∧ 0 + j < 0 + r ∧ 0 + j < 16 := by omega
      have c2 : j < min r (inp.length - (n - r)) := by omega
      rw [if_pos c1, if_pos c2]
      simp [List.getD_eq_getElem?_getD, List.getElem?_take, List.getElem?_drop, h1]
    · have c1 : ¬ (0 ≤ 0 + j ∧ 0 + j < 0 + r ∧ 0 + j < 16) := by omega
      have c2 : ¬ (j < min r (inp.length - (n - r))) := by omega
      rw [if_neg c1, if_neg c2]
      simp only [List.getD_eq_getElem?_getD]
      rw [List.getElem?_replicate, List.getElem?_replicate]
      split_ifs <;> rfl

theorem cryptoBlocks_ok (mp : Nat) (env : SkeEnv) (hd : AllDone env) (alg mode : Nat)
    (hv : IS_SKE_ALG_MD mp alg mode = true) (inp : List Nat) (pu8Out : Option (List Nat))
    (n : Nat) (hn1 : 1 ≤ n) (hn : n < U32_MOD) (hlen : n ≤ inp.length) (s : SkeHw) :
    ∃ out' t', SKE_CryptoBlocksInternal mp env alg mode (some inp) pu8Out n s =
      some (LL_OK, out', ⟨s.log ++
        (leadOps inp (m_au8SkeAlgBlockSize.getD alg 0)
          ((n - ((n - 1) % (m_au8SkeAlgBlockSize.getD alg 0) + 1)) /
            (m_au8SkeAlgBlockSize.getD alg 0)) 0 ++
         blockOps (IS_SKE_XCM_MD mp mode) false
          (lastBlock inp n (m_au8SkeAlgBlockSize.getD alg 0))), t'⟩) ∧
      out'.isSome = pu8Out.isSome := by
  have halg := alg_of_alg_md mp alg mode hv
  have hbs := blockSize_of_alg alg halg
  generalize hb : m_au8SkeAlgBlockSize.getD alg 0 = bs at *
  have hbs2 : bs = 8 ∨ bs = 16 := by
    by_cases h : alg = SKE_ALG_DES
    · left; simpa [h] using hbs
    · right; simpa [h] using hbs
  have hrem : (if n % bs = 0 then bs else n % bs) = (n - 1) % bs + 1 := by
    rcases hbs2 with rfl | rfl <;> split_ifs <;> omega
  have hr2 : (n - 1) % bs + 1 ≤ n := by
    have : (n - 1) % bs ≤ n - 1 := Nat.mod_le _ _
    omega
  have hsub : u32_sub n ((n - 1) % bs + 1) = n - ((n - 1) % bs + 1) := by
    unfold u32_sub U32_MOD at *
    rcases hbs2 with rfl | rfl <;> omega
  have hk : 0 + ((n - ((n - 1) % bs + 1)) / bs) * bs = n - ((n - 1) % bs + 1) := by
    rcases hbs2 with rfl | rfl <;> omega
  have hn0 : ¬ (n = 0) := by omega
  unfold SKE_CryptoBlocksInternal
  simp only [hn0, hv, Bool.true_eq_false, or_self, if_false, hb, hrem, hsub]
  obtain ⟨o1, t1, h1, h1s⟩ := lead_loop_ok mp env hd alg mode halg inp
    (n - ((n - 1) % bs + 1)) bs (by omega) hb (by omega)
    ((n - ((n - 1) % bs + 1)) / bs) 0 (n - ((n - 1) % bs + 1) + 1) pu8Out s hk
    (by
      have : (n - ((n - 1) % bs + 1)) / bs ≤ n - ((n - 1) % bs + 1) := Nat.div_le_self _ _
      omega)
  rw [h1]
  simp only [ne_eq, not_true, if_false]
  obtain ⟨t2, h2⟩ := update_ok mp env hd alg mode halg
    (SKE_CopyByte (List.replicate SKE_BLOCK_SIZE_MAX 0) 0 inp
      (n - ((n - 1) % bs + 1)) ((n - 1) % bs + 1))
    (some (SKE_CopyByte (List.replicate SKE_BLOCK_SIZE_MAX 0) 0 inp
      (n - ((n - 1) % bs + 1)) ((n - 1) % bs + 1))) 0
    (if mode = SKE_MD_CMAC mp then 0 else 1)
    ⟨s.log ++ leadOps inp bs ((n - ((n - 1) % bs + 1)) / bs) 0, t1⟩
  rw [hb, xcm_mark, lastBlock_eq inp n bs hn1 hlen hbs2, blockOps_xcm] at h2
  rw [h2]
  simp only [Option.isSome_some, if_true]
  have hsome : ∃ lb, (SKE_ReadBlock env alg
      (some (SKE_CopyByte (List.replicate SKE_BLOCK_SIZE_MAX 0) 0 inp
        (n - ((n - 1) % bs + 1)) ((n - 1) % bs + 1))) 0
      ⟨s.log ++ leadOps inp bs ((n - ((n - 1) % bs + 1)) / bs) 0 ++
        blockPre (IS_SKE_XCM_MD mp mode) (lastBlock inp n bs), t2⟩).2 = some lb := by
    rw [← Option.isSome_iff_exists, readBlock_isSome]
    rfl
  obtain ⟨lb, hlb⟩ := hsome
  rw [hlb]
  cases o1 with
  | none =>
    refine ⟨none, t2, ?_, ?_⟩
    · simp [List.append_assoc]
    · simpa using h1s
  | some o =>
    refine ⟨some (SKE_CopyByte o (n - ((n - 1) % bs + 1)) lb 0 ((n - 1) % bs + 1)), t2, ?_, ?_⟩
    · simp [List.append_assoc]
    · simpa using h1s

theorem issued_block_plain (lp : Nat) (m : Bool) (p : Option (List Nat)) (b : List Nat)
    (rest : List HwOp) :
    issued lp m p ([HwOp.din b, HwOp.ctrlStart, HwOp.sr2Done 0] ++ rest) =
      (b, m) :: issued lp m none rest := by
  simp [issued]

theorem issued_leadOps (lp : Nat) (m : Bool) (inp : List Nat) (bs : Nat) (rest : List HwOp) :
    ∀ (k i : Nat) (p : Option (List Nat)),
      issued lp m p (leadOps inp bs k i ++ rest) =
        (leadBlocks inp bs k i).map (fun b => (b, m)) ++
          issued lp m (if k = 0 then p else none) rest
  | 0, i, p => by simp [leadOps, leadBlocks]
  | k + 1, i, p => by
    simp only [leadOps, leadBlocks, blockOps_false, List.append_assoc, List.map_cons,
      List.cons_append]
    simp only [issued, List.nil_append]
    rw [issued_leadOps lp m inp bs rest k (i + bs) none]
    simp

theorem issued_blockOps_last (lp : Nat) (m mark : Bool) (p : Option (List Nat)) (b : List Nat) :
    issued lp m p (blockOps mark false b) = [(b, mark || m)] := by
  cases mark <;> simp [blockOps, blockPre, blockPost, issued]

theorem count_start_leadOps (inp : List Nat) (bs : Nat) :
    ∀ (k i : Nat), (leadOps inp bs k i).count HwOp.ctrlStart = k
  | 0, i => by simp [leadOps]
  | k + 1, i => by
    rw [leadOps, List.count_append, count_start_leadOps inp bs k (i + bs), blockOps_false]
    simp [List.count_cons]
    omega

theorem count_start_blockOps (mark c : Bool) (b : List Nat) :
    (blockOps mark c b).count HwOp.ctrlStart = 1 := by
  cases mark <;> cases c <;> simp [blockOps, blockPre, blockPost, List.count_cons]

theorem leadBlocks_length (inp : List Nat) (bs : Nat) :
    ∀ (k i : Nat), (leadBlocks inp bs k i).length = k
  | 0, _ => rfl
  | k + 1, i => by simp [leadBlocks, leadBlocks_length inp bs k (i + bs)]

theorem leadBlocks_mem_length (inp : List Nat) (bs : Nat) :
    ∀ (k i : Nat) (b : List Nat), b ∈ leadBlocks inp bs k i → b.length = bs
  | 0, _, b, h => by simp [leadBlocks] at h
  | k + 1, i, b, h => by
    simp only [leadBlocks, List.mem_cons] at h
    rcases h with h | h
    · rw [h, readBytes_length]
    · exact leadBlocks_mem_length inp bs k (i + bs) b h

theorem leadBlocks_flatten (inp : List Nat) (bs : Nat) :
    ∀ (k i : Nat), i + k * bs ≤ inp.length →
      (leadBlocks inp bs k i).flatten = (inp.drop i).take (k * bs)
  | 0, i, _ => by simp [leadBlocks]
  | k + 1, i, h => by
    have e : (k + 1) * bs = bs + k * bs := by ring
    rw [leadBlocks, List.flatten_cons, leadBlocks_flatten inp bs k (i + bs) (by omega),
      readBytes_eq_take inp i bs (by omega), e, List.take_add, List.drop_drop]

theorem lastBlock_length (inp : List Nat) (n bs : Nat) (hn1 : 1 ≤ n) (hlen : n ≤ inp.length)
    (hbs : 0 < bs) : (lastBlock inp n bs).length = bs := by
  have hr : (n - 1) % bs < bs := Nat.mod_lt _ hbs
  have hr2 : (n - 1) % bs ≤ n - 1 := Nat.mod_le _ _
  simp [lastBlock]
  omega

/-- Input followed by the padding equals the leading bytes followed by the padded trailing block. -/
theorem take_append_lastBlock (inp : List Nat) (n bs : Nat) (hn1 : 1 ≤ n) (hbs : bs = 8 ∨ bs = 16) :
    inp.take (n - ((n - 1) % bs + 1)) ++ lastBlock inp n bs =
      inp.take n ++ List.replicate ((bs - n % bs) % bs) 0 := by
  have hr2 : (n - 1) % bs ≤ n - 1 := Nat.mod_le _ _
  have e1 : n = (n - ((n - 1) % bs + 1)) + ((n - 1) % bs + 1) := by omega
  have e2 : (bs - n % bs) % bs = bs - ((n - 1) % bs + 1) := by
    rcases hbs with rfl | rfl <;> omega
  rw [lastBlock, e2, ← List.append_assoc]
  congr 1
  conv_rhs => rw [e1, List.take_add]

theorem map_fst_pair (l : List (List Nat)) (m : Bool) :
    (l.map (fun b => (b, m))).map Prod.fst = l := by
  simp [List.map_map, Function.comp_def]

theorem getBlockSize_of_alg (alg : Nat) (h : IS_SKE_ALG alg = true) :
    SKE_GetBlockSize alg = m_au8SkeAlgBlockSize.getD alg 0 := by
  simp [SKE_GetBlockSize, h]

/-- C1: for a valid algorithm/mode pair and an input of `n ≥ 1` bytes (every transform
completing), `SKE_CryptoBlocksInternal` returns `LL_OK` having started exactly `ceil(n / bs)`
block transforms; the blocks fed are `bs` bytes each (8 for DES, 16 otherwise) and their
concatenation is the first `n` input bytes followed by `(bs - n mod bs) mod bs` zero bytes.  The
leading-block loop feeds the first `n - remain` bytes, `remain = ((n - 1) mod bs) + 1`, and the
trailing block, fed after the loop, is the last `remain` input bytes zero-padded (no padding when
`n` is a multiple of `bs`).  The input buffer may be longer than `n`: bytes beyond `n` do not
occur in what is fed. -/
theorem C1_blocks_fed (mp lp : Nat) (env : SkeEnv) (alg mode : Nat) (inp : List Nat)
    (pu8Out : Option (List Nat)) (n bs : Nat) (s : SkeHw) (m0 : Bool) (p0 : Option (List Nat))
    (hv : IS_SKE_ALG_MD mp alg mode = true) (hbs : bs = SKE_GetBlockSize alg)
    (hn1 : 1 ≤ n) (hn : n < U32_MOD) (hlen : n ≤ inp.length) (hd : AllDone env) :
    ∃ (out' : Option (List Nat)) (s' : SkeHw) (ops : List HwOp) (lead : List (List Nat)),
      SKE_CryptoBlocksInternal mp env alg mode (some inp) pu8Out n s = some (LL_OK, out', s') ∧
      s'.log = s.log ++ ops ∧
      bs = (if alg = SKE_ALG_DES then 8 else 16) ∧
      ops.count HwOp.ctrlStart = (n + bs - 1) / bs ∧
      (issued lp m0 p0 ops).map Prod.fst = lead ++ [lastBlock inp n bs] ∧
      (lead ++ [lastBlock inp n bs]).length = (n + bs - 1) / bs ∧
      (∀ b ∈ lead ++ [lastBlock inp n bs], b.length = bs) ∧
      (lead ++ [lastBlock inp n bs]).flatten =
        inp.take n ++ List.replicate ((bs - n % bs) % bs) 0 ∧
      (∃ (o1 : Option (List Nat)) (s1 : SkeHw),
        SKE_CryptoBlocksInternal.loop mp env alg mode inp bs (n - ((n - 1) % bs + 1))
          (n - ((n - 1) % bs + 1) + 1) 0 pu8Out s =
          some (LL_OK, n - ((n - 1) % bs + 1), o1, s1) ∧
        (issued lp m0 p0 (s1.log.drop s.log.length)).map Prod.fst = lead) ∧
      lead.flatten = inp.take (n - ((n - 1) % bs + 1)) ∧
      1 ≤ (n - 1) % bs + 1 ∧ (n - 1) % bs + 1 ≤ bs ∧
      (n % bs = 0 → lastBlock inp n bs = (inp.drop (n - bs)).take bs) := by
  have halg := alg_of_alg_md mp alg mode hv
  have hbsA := blockSize_of_alg alg halg
  rw [getBlockSize_of_alg alg halg] at hbs
  rw [← hbs] at hbsA
  have hbs2 : bs = 8 ∨ bs = 16 := by
    by_cases h : alg = SKE_ALG_DES
    · left; simpa [h] using hbsA
    · right; simpa [h] using hbsA
  have hr2 : (n - 1) % bs ≤ n - 1 := Nat.mod_le _ _
  have hk : ((n - ((n - 1) % bs + 1)) / bs) * bs = n - ((n - 1) % bs + 1) := by
    rcases hbs2 with rfl | rfl <;> omega
  have hceil : (n + bs - 1) / bs = (n - ((n - 1) % bs + 1)) / bs + 1 := by
    rcases hbs2 with rfl | rfl <;> omega
  obtain ⟨out', t', h1, _⟩ := cryptoBlocks_ok mp env hd alg mode hv inp pu8Out n hn1 hn hlen s
  rw [← hbs] at h1
  obtain ⟨o1, t1, h2, _⟩ := lead_loop_ok mp env hd alg mode halg inp
    (n - ((n - 1) % bs + 1)) bs (by omega) hbs.symm (by omega)
    ((n - ((n - 1) % bs + 1)) / bs) 0 (n - ((n - 1) % bs + 1) + 1) pu8Out s (by omega)
    (by
      have : (n - ((n - 1) % bs + 1)) / bs ≤ n - ((n - 1) % bs + 1) := Nat.div_le_self _ _
      omega)
  have hfl : (leadBlocks inp bs ((n - ((n - 1) % bs + 1)) / bs) 0).flatten =
      inp.take (n - ((n - 1) % bs + 1)) := by
    rw [leadBlocks_flatten inp bs _ 0 (by omega), hk]
    rfl
  refine ⟨out', _, _, leadBlocks inp bs ((n - ((n - 1) % bs + 1)) / bs) 0, h1, rfl, hbsA, ?_, ?_,
    ?_, ?_, ?_, ⟨o1, _, h2, ?_⟩, hfl, by omega, ?_, ?_⟩
  · rw [List.count_append, count_start_leadOps, count_start_blockOps, hceil]
  · rw [issued_leadOps, issued_blockOps_last, List.map_append, map_fst_pair]
    rfl
  · rw [List.length_append, leadBlocks_length, hceil]
    rfl
  · intro b hb
    rw [List.mem_append] at hb
    rcases hb with hb | hb
    · exact leadBlocks_mem_length inp bs _ 0 b hb
    · rw [List.mem_singleton] at hb
      rw [hb]
      exact lastBlock_length inp n bs hn1 hlen (by omega)
  · rw [List.flatten_append, hfl]
    simp only [List.flatten_cons, List.flatten_nil, List.append_nil]
    exact take_append_lastBlock inp n bs hn1 hbs2
  · simp only [List.drop_left]
    have := issued_leadOps lp m0 inp bs [] ((n - ((n - 1) % bs + 1)) / bs) 0 p0
    simp only [List.append_nil, issued] at this
    rw [this, map_fst_pair]
  · have : (n - 1) % bs < bs := Nat.mod_lt _ (by omega)
    omega
  · intro h0
    have e : (n - 1) % bs + 1 = bs := by
      rcases hbs2 with rfl | rfl <;> omega
    simp [lastBlock, e]

theorem C1_blocks_fed_witness :
    (IS_SKE_ALG_MD 28 SKE_ALG_DES (SKE_MD_CBC 28) = true ∧ AllDone (envConst [])) ∧
    ∃ (out' : Option (List Nat)) (s' : SkeHw) (ops : List HwOp),
      SKE_CryptoBlocksInternal 28 (envConst []) SKE_ALG_DES (SKE_MD_CBC 28)
        (some [1, 2, 3, 4, 5, 6, 7, 8, 9, 10, 11]) none 10 ⟨[], 0⟩ = some (LL_OK, out', s') ∧
      s'.log = [] ++ ops ∧ ops.count HwOp.ctrlStart = (10 + 8 - 1) / 8 := by
  refine ⟨⟨by decide, allDone_envConst []⟩, ?_⟩
  obtain ⟨out', s', ops, lead, h1, h2, -, h3, -⟩ :=
    C1_blocks_fed 28 8 (envConst []) SKE_ALG_DES (SKE_MD_CBC 28)
      [1, 2, 3, 4, 5, 6, 7, 8, 9, 10, 11] none 10 8 ⟨[], 0⟩ false none (by decide) (by decide)
      (by decide) (by decide) (by decide) (allDone_envConst [])
  exact ⟨out', s', ops, h1, h2, h3⟩

/-- Evaluation of the model: 10 bytes through DES-CBC are fed as two 8-byte blocks. -/
theorem cryptoBlocks_eval :
    (SKE_CryptoBlocksInternal 28 (envConst []) SKE_ALG_DES (SKE_MD_CBC 28)
        (some [1, 2, 3, 4, 5, 6, 7, 8, 9, 10, 11]) none 10 ⟨[], 0⟩).map
      (fun r => issued 8 false none r.2.2.log) =
      some [([1, 2, 3, 4, 5, 6, 7, 8], false), ([9, 10, 0, 0, 0, 0, 0, 0], false)] := by
  decide

theorem exists_cons_of_length {l : List Nat} {n : Nat} (h : l.length = n + 1) :
    ∃ a t, l = a :: t ∧ t.length = n := by
  cases l with
  | nil => simp at h
  | cons a t => exact ⟨a, t, rfl, by simpa using h⟩

theorem u32_sub_of_le (a b : Nat) (h : b ≤ a) (ha : a < U32_MOD) : u32_sub a b = a - b := by
  unfold u32_sub U32_MOD at *
  omega

theorem reverse_u32Bytes (x : Nat) :
    SKE_ReverseByteArray (u32Bytes x) (List.replicate 4 0) 4 =
      [x / 16777216 % 256, x / 65536 % 256, x / 256 % 256, x % 256] := by
  simp [SKE_ReverseByteArray, SKE_ReverseByteArray.loop, u32Bytes, u32_sub, U32_MOD,
    List.replicate]

theorem list16 (l : List Nat) (h : l.length = 16) :
    ∃ a0 a1 a2 a3 a4 a5 a6 a7 a8 a9 a10 a11 a12 a13 a14 a15 : Nat, l = [a0, a1, a2, a3, a4, a5, a6, a7, a8, a9, a10, a11, a12, a13, a14, a15] := by
  rcases l with _ | ⟨a0, l⟩
  · simp at h
  rcases l with _ | ⟨a1, l⟩
  · simp at h
  rcases l with _ | ⟨a2, l⟩
  · simp at h
  rcases l with _ | ⟨a3, l⟩
  · simp at h
  rcases l with _ | ⟨a4, l⟩
  · simp at h
  rcases l with _ | ⟨a5, l⟩
  · simp at h
  rcases l with _ | ⟨a6, l⟩
  · simp at h
  rcases l with _ | ⟨a7, l⟩
  · simp at h
  rcases l with _ | ⟨a8, l⟩
  · simp at h
  rcases l with _ | ⟨a9, l⟩
  · simp at h
  rcases l with _ | ⟨a10, l⟩
  · simp at h
  rcases l with _ | ⟨a11, l⟩
  · simp at h
  rcases l with _ | ⟨a12, l⟩
  · simp at h
  rcases l with _ | ⟨a13, l⟩
  · simp at h
  rcases l with _ | ⟨a14, l⟩
  · simp at h
  rcases l with _ | ⟨a15, l⟩
  · simp at h
  rcases l with _ | ⟨x, l⟩
  · exact ⟨a0, a1, a2, a3, a4, a5, a6, a7, a8, a9, a10, a11, a12, a13, a14, a15, rfl⟩
  · simp at h

theorem readBytes_zero_eq_take (buf : List Nat) (n : Nat) (h : n ≤ buf.length) :
    readBytes buf 0 n = buf.take n := by
  rw [readBytes_eq_take buf 0 n (by omega)]
  rfl

theorem reverse_u32Bytes_lit (x : Nat) :
    SKE_ReverseByteArray (u32Bytes x) [0, 0, 0, 0] 4 =
      [x / 16777216 % 256, x / 65536 % 256, x / 256 % 256, x % 256] :=
  reverse_u32Bytes x

theorem b0_layout_aux (ctx : stc_ske_ccm_ctx_t) (nonce : List Nat)
    (hL2 : 2 ≤ ctx.u32LengthSize) (hL8 : ctx.u32LengthSize ≤ 8)
    (hcs : ctx.u32CryptoSize < U32_MOD)
    (hbuf : ctx.au8Buffer.length = 16) (hnonce : 15 - ctx.u32LengthSize ≤ nonce.length) :
    (SKE_CcmGetB0 ctx nonce).au8Buffer =
      [(SKE_CcmGetB0 ctx nonce).au8Buffer.getD 0 0] ++ nonce.take (15 - ctx.u32LengthSize) ++
        spec_bigEndian ctx.u32LengthSize ctx.u32CryptoSize := by
  obtain ⟨alg, cs, aad, mac, L, so, rs, buf⟩ := ctx
  simp only at hL2 hL8 hbuf hnonce hcs ⊢
  obtain ⟨b0, b1, b2, b3, b4, b5, b6, b7, b8, b9, b10, b11, b12, b13, b14, b15, rfl⟩ := list16 buf hbuf
  rw [← readBytes_zero_eq_take nonce (15 - L) hnonce]
  have e1 : u32_sub 15 L = 15 - L := u32_sub_of_le 15 L (by omega) (by decide)
  have e2 : u32_sub 16 L = 16 - L := u32_sub_of_le 16 L (by omega) (by decide)
  have e3 : u32_sub L 1 = L - 1 := u32_sub_of_le L 1 (by omega) (by unfold U32_MOD; omega)
  have e4 : L ≤ 4 → u32_sub 4 L = 4 - L := fun h => u32_sub_of_le 4 L h (by decide)
  unfold U32_MOD at hcs
  simp only [SKE_CcmGetB0, e1, e2, e3]
  interval_cases L
  · simp [e4, reverse_u32Bytes_lit, SKE_CopyByte, SKE_CopyByte.loop, SKE_SetByte,
      SKE_SetByte.loop, spec_bigEndian, List.range_succ, readBytes]
  · simp [e4, reverse_u32Bytes_lit, SKE_CopyByte, SKE_CopyByte.loop, SKE_SetByte,
      SKE_SetByte.loop, spec_bigEndian, List.range_succ, readBytes]
  · simp [e4, reverse_u32Bytes_lit, SKE_CopyByte, SKE_CopyByte.loop, SKE_SetByte,
      SKE_SetByte.loop, spec_bigEndian, List.range_succ, readBytes]
  · simp [reverse_u32Bytes_lit, SKE_CopyByte, SKE_CopyByte.loop, SKE_SetByte,
      SKE_SetByte.loop, spec_bigEndian, List.range_succ, readBytes]
    omega
  · simp [reverse_u32Bytes_lit, SKE_CopyByte, SKE_CopyByte.loop, SKE_SetByte,
      SKE_SetByte.loop, spec_bigEndian, List.range_succ, readBytes]
    omega
  · simp [reverse_u32Bytes_lit, SKE_CopyByte, SKE_CopyByte.loop, SKE_SetByte,
      SKE_SetByte.loop, spec_bigEndian, List.range_succ, readBytes]
    omega
  · simp [reverse_u32Bytes_lit, SKE_CopyByte, SKE_CopyByte.loop, SKE_SetByte,
      SKE_SetByte.loop, spec_bigEndian, List.range_succ, readBytes]
    omega

theorem set_loop_length (doff v : Nat) :
    ∀ (k i : Nat) (dest : List Nat), (SKE_SetByte.loop doff v k i dest).length = dest.length
  | 0, _, _ => rfl
  | k + 1, i, dest => by
    rw [SKE_SetByte.loop, set_loop_length doff v k (i + 1), List.length_set]

theorem set_loop_getD (doff v : Nat) :
    ∀ (k i : Nat) (dest : List Nat) (j : Nat),
      (SKE_SetByte.loop doff v k i dest).getD j 0 =
        if doff + i ≤ j ∧ j < doff + i + k ∧ j < dest.length then v else dest.getD j 0
  | 0, i, dest, j => by
    have : ¬ (doff + i ≤ j ∧ j < doff + i + 0 ∧ j < dest.length) := by omega
    rw [SKE_SetByte.loop, if_neg this]
  | k + 1, i, dest, j => by
    rw [SKE_SetByte.loop, set_loop_getD doff v k (i + 1), List.length_set, getD_set_nat]
    by_cases h1 : doff + (i + 1) ≤ j ∧ j < doff + (i + 1) + k ∧ j < dest.length
    · have : doff + i ≤ j ∧ j < doff + i + (k + 1) ∧ j < dest.length := by omega
      simp [h1, this]
    · by_cases h2 : doff + i = j ∧ j < dest.length
      · have : doff + i ≤ j ∧ j < doff + i + (k + 1) ∧ j < dest.length := by omega
        simp [h1, h2, this]
      · have : ¬ (doff + i ≤ j ∧ j < doff + i + (k + 1) ∧ j < dest.length) := by omega
        simp [h1, h2, this]

theorem SKE_SetByte_length (dest : List Nat) (doff v n : Nat) :
    (SKE_SetByte dest doff v n).length = dest.length :=
  set_loop_length doff v n 0 dest

theorem SKE_SetByte_getD (dest : List Nat) (doff v n j : Nat) :
    (SKE_SetByte dest doff v n).getD j 0 =
      if doff ≤ j ∧ j < doff + n ∧ j < dest.length then v else dest.getD j 0 := by
  simpa using set_loop_getD doff v n 0 dest j

theorem ccm_mac_size_cases (x : Nat) (h : IS_SKE_CCM_MAC_SIZE x = true) :
    x = 4 ∨ x = 6 ∨ x = 8 ∨ x = 10 ∨ x = 12 ∨ x = 14 ∨ x = 16 := by
  unfold IS_SKE_CCM_MAC_SIZE at h
  simp only [Bool.and_eq_true, decide_eq_true_eq, beq_iff_eq] at h
  obtain ⟨⟨h1, h2⟩, h3⟩ := h
  interval_cases x <;> simp at h3 <;> simp

theorem ccm_l_size_cases (x : Nat) (h : IS_SKE_CCM_L_SIZE x = true) : 2 ≤ x ∧ x ≤ 8 := by
  unfold IS_SKE_CCM_L_SIZE at h
  simpa using h

theorem b0_flags (ctx : stc_ske_ccm_ctx_t) (nonce : List Nat)
    (hmac : IS_SKE_CCM_MAC_SIZE ctx.u32MacSize = true)
    (hL : IS_SKE_CCM_L_SIZE ctx.u32LengthSize = true) (hbuf : 0 < ctx.au8Buffer.length) :
    (SKE_CcmGetB0 ctx nonce).au8Buffer.getD 0 0 =
      spec_b0Flags ctx.u32MacSize ctx.u32LengthSize ctx.u32AadSize := by
  obtain ⟨hL2, hL8⟩ := ccm_l_size_cases _ hL
  have hm := ccm_mac_size_cases _ hmac
  obtain ⟨alg, cs, aad, mac, L, so, rs, buf⟩ := ctx
  simp only at hL2 hL8 hbuf hm ⊢
  have e1 : u32_sub 15 L = 15 - L := u32_sub_of_le 15 L (by omega) (by decide)
  have e2 : u32_sub 16 L = 16 - L := u32_sub_of_le 16 L (by omega) (by decide)
  have e3 : u32_sub L 1 = L - 1 := u32_sub_of_le L 1 (by omega) (by unfold U32_MOD; omega)
  have e5 : u32_sub mac 2 = mac - 2 := u32_sub_of_le mac 2 (by omega) (by unfold U32_MOD; omega)
  simp only [SKE_CcmGetB0, e1, e2, e3, e5]
  have hfl : ∀ a : Nat, (if a > 0 then
      ((0 ||| ((mac - 2) / 2) <<< 3 % U32_MOD % 256) ||| (L - 1) % 256) ||| 0x40
      else (0 ||| ((mac - 2) / 2) <<< 3 % U32_MOD % 256) ||| (L - 1) % 256) =
      spec_b0Flags mac L a := by
    intro a
    unfold spec_b0Flags
    by_cases ha : a > 0
    · simp only [ha, if_true]
      rcases hm with rfl | rfl | rfl | rfl | rfl | rfl | rfl <;> interval_cases L <;> decide
    · simp only [ha, if_false]
      rcases hm with rfl | rfl | rfl | rfl | rfl | rfl | rfl <;> interval_cases L <;> decide
  rw [hfl aad]
  split_ifs with h4
  · rw [SKE_CopyByte_getD, SKE_SetByte_getD, SKE_CopyByte_getD, getD_set_nat]
    have c1 : ¬ (16 - L ≤ 0 ∧ 0 < 16 - L + L ∧
        0 < (SKE_SetByte (SKE_CopyByte (buf.set 0 (spec_b0Flags mac L aad)) 1 nonce 0 (15 - L))
          (16 - L) 0 L).length) := by omega
    have c2 : ¬ (16 - L ≤ 0 ∧ 0 < 16 - L + L ∧
        0 < (SKE_CopyByte (buf.set 0 (spec_b0Flags mac L aad)) 1 nonce 0 (15 - L)).length) := by
      omega
    have c3 : ¬ (1 ≤ 0 ∧ 0 < 1 + (15 - L) ∧ 0 < (buf.set 0 (spec_b0Flags mac L aad)).length) := by
      omega
    rw [if_neg c1, if_neg c2, if_neg c3, if_pos ⟨rfl, hbuf⟩]
  · rw [SKE_CopyByte_getD, SKE_SetByte_getD, SKE_CopyByte_getD, getD_set_nat]
    have c1 : ¬ (12 ≤ 0 ∧ 0 < 12 + 4 ∧
        0 < (SKE_SetByte (SKE_CopyByte (buf.set 0 (spec_b0Flags mac L aad)) 1 nonce 0 (15 - L))
          (16 - L) 0 L).length) := by omega
    have c2 : ¬ (16 - L ≤ 0 ∧ 0 < 16 - L + L ∧
        0 < (SKE_CopyByte (buf.set 0 (spec_b0Flags mac L aad)) 1 nonce 0 (15 - L)).length) := by
      omega
    have c3 : ¬ (1 ≤ 0 ∧ 0 < 1 + (15 - L) ∧ 0 < (buf.set 0 (spec_b0Flags mac L aad)).length) := by
      omega
    rw [if_neg c1, if_neg c2, if_neg c3, if_pos ⟨rfl, hbuf⟩]

theorem getD_replicate_zero (n j : Nat) : (List.replicate n 0).getD j 0 = 0 := by
  simp only [List.getD_eq_getElem?_getD, List.getElem?_replicate]
  split_ifs <;> rfl

theorem spec_aadLenField_length (a : Nat) :
    (spec_aadLenField a).length = if a < 65280 then 2 else 6 := by
  unfold spec_aadLenField spec_bigEndian
  split_ifs <;> simp

theorem spec_aadLenField_getD_lt (a j : Nat) (h : a < 65280) :
    (spec_aadLenField a).getD j 0 = [a / 256 % 256, a % 256].getD j 0 := by
  simp [spec_aadLenField, h, spec_bigEndian, List.range_succ]

theorem spec_aadLenField_getD_ge (a j : Nat) (h : ¬ a < 65280) :
    (spec_aadLenField a).getD j 0 =
      [0xFF, 0xFE, a / 16777216 % 256, a / 65536 % 256, a / 256 % 256, a % 256].getD j 0 := by
  simp [spec_aadLenField, h, spec_bigEndian, List.range_succ]

/-- Content of B1 after `SKE_CcmPrepareB1`. -/
theorem b1_buffer (ctx : stc_ske_ccm_ctx_t) (aad : List Nat)
    (hA : ctx.u32AadSize < U32_MOD) (hbuf : ctx.au8Buffer.length = 16) :
    (SKE_CcmPrepareB1 ctx aad).au8Buffer =
      spec_aadLenField ctx.u32AadSize ++
        readBytes aad 0 (min ctx.u32AadSize (spec_b1Window ctx.u32AadSize)) ++
        List.replicate (spec_b1Window ctx.u32AadSize -
          min ctx.u32AadSize (spec_b1Window ctx.u32AadSize)) 0 := by
  obtain ⟨alg, cs, A, mac, L, so, rs, buf⟩ := ctx
  simp only at hA hbuf ⊢
  unfold U32_MOD at hA
  simp only [SKE_CcmPrepareB1, spec_b1Window, reverse_u32Bytes, spec_aadLenField_length]
  by_cases h1 : A < 65280
  · simp only [h1, if_true]
    by_cases h2 : A ≤ 14
    · simp only [h2, if_true]
      have e : u32_sub 16 (2 + A) = 14 - A := by
        rw [u32_sub_of_le _ _ (by omega) (by decide)]; omega
      rw [e]
      apply ext_getD
      · simp [SKE_SetByte_length, SKE_CopyByte_length, hbuf, spec_aadLenField_length, h1,
          readBytes_length]
      · intro j hj
        simp only [SKE_SetByte_length, SKE_CopyByte_length, hbuf] at hj
        simp only [SKE_SetByte_getD, SKE_CopyByte_getD, SKE_SetByte_length, SKE_CopyByte_length,
          hbuf, getD_append_nat, readBytes_getD, getD_replicate_zero, spec_aadLenField_length,
          List.length_append, readBytes_length, h1, if_true, spec_aadLenField_getD_lt _ _ h1]
        have hmin : min A (16 - 2) = A := by omega
        rw [hmin]
        by_cases c1 : j < 2
        · interval_cases j <;> simp
          split_ifs <;> first | rfl | omega
        · split_ifs <;> first | rfl | omega
    · simp only [h2, if_false]
      apply ext_getD
      · simp [SKE_SetByte_length, SKE_CopyByte_length, hbuf, spec_aadLenField_length, h1,
          readBytes_length]
      · intro j hj
        simp only [SKE_SetByte_length, SKE_CopyByte_length, hbuf] at hj
        simp only [SKE_SetByte_getD, SKE_CopyByte_getD, SKE_SetByte_length, SKE_CopyByte_length,
          hbuf, getD_append_nat, readBytes_getD, getD_replicate_zero, spec_aadLenField_length,
          List.length_append, readBytes_length, h1, if_true, spec_aadLenField_getD_lt _ _ h1]
        have hmin : min A (16 - 2) = 14 := by omega
        rw [hmin]
        by_cases c1 : j < 2
        · interval_cases j <;> simp
        · split_ifs <;> first | rfl | omega
  · simp only [h1, if_false]
    have h2 : ¬ A ≤ 10 := by omega
    simp only [h2, if_false]
    apply ext_getD
    · simp [SKE_SetByte_length, SKE_CopyByte_length, hbuf, spec_aadLenField_length, h1,
        readBytes_length]
    · intro j hj
      simp only [SKE_SetByte_length, SKE_CopyByte_length, List.length_set, hbuf] at hj
      simp only [SKE_SetByte_getD, SKE_CopyByte_getD, SKE_SetByte_length, SKE_CopyByte_length,
        hbuf, getD_append_nat, readBytes_getD, getD_replicate_zero, spec_aadLenField_length,
        List.length_append, readBytes_length, h1, if_false, spec_aadLenField_getD_ge _ _ h1,
        getD_set_nat, List.length_set]
      have hmin : min A (16 - 6) = 10 := by omega
      rw [hmin]
      by_cases c1 : j < 6
      · interval_cases j <;> simp
      · split_ifs <;> first | rfl | omega

/-- The bookkeeping fields after `SKE_CcmPrepareB1`. -/
theorem b1_fields (ctx : stc_ske_ccm_ctx_t) (aad : List Nat) (hA : ctx.u32AadSize < U32_MOD) :
    (SKE_CcmPrepareB1 ctx aad).u32AadRemainSize =
        ctx.u32AadSize - min ctx.u32AadSize (spec_b1Window ctx.u32AadSize) ∧
    (SKE_CcmPrepareB1 ctx aad).u32AadStartOffset =
        (if ctx.u32AadSize ≤ spec_b1Window ctx.u32AadSize then 0
         else spec_b1Window ctx.u32AadSize) ∧
    (SKE_CcmPrepareB1 ctx aad).u32AadSize = ctx.u32AadSize ∧
    (SKE_CcmPrepareB1 ctx aad).u32Alg = ctx.u32Alg := by
  obtain ⟨alg, cs, A, mac, L, so, rs, buf⟩ := ctx
  simp only at hA ⊢
  simp only [SKE_CcmPrepareB1, spec_b1Window, spec_aadLenField_length]
  by_cases h1 : A < 65280
  · simp only [h1, if_true]
    by_cases h2 : A ≤ 14
    · simp [h2]
    · have e : u32_sub A 14 = A - 14 := u32_sub_of_le _ _ (by omega) hA
      simp [h2, e]
      omega
  · simp only [h1, if_false]
    have h2 : ¬ A ≤ 10 := by omega
    have e : u32_sub A 10 = A - 10 := u32_sub_of_le _ _ (by omega) hA
    simp [h2, e]
    omega

theorem spec_bigEndian_length (len x : Nat) : (spec_bigEndian len x).length = len := by
  simp [spec_bigEndian]

/-- C2: for a CCM context with `LengthSize = L` in `[2, 8]`, a valid `MacSize` and
`CryptoSize < 256 ^ L`, `SKE_CcmGetB0` leaves in the 16-byte buffer the flags byte, then the first
`15 - L` nonce bytes, then `CryptoSize` big-endian in the final `L` bytes; the three fields have
lengths `1`, `15 - L` and `L`, the length field decodes to `CryptoSize`, and its bytes above the
low four are zero. -/
theorem C2_b0_layout (ctx : stc_ske_ccm_ctx_t) (nonce : List Nat)
    (hL : IS_SKE_CCM_L_SIZE ctx.u32LengthSize = true)
    (hmac : IS_SKE_CCM_MAC_SIZE ctx.u32MacSize = true)
    (hcs : ctx.u32CryptoSize < 256 ^ ctx.u32LengthSize) (hcs32 : ctx.u32CryptoSize < U32_MOD)
    (hbuf : ctx.au8Buffer.length = 16) (hnonce : 15 - ctx.u32LengthSize ≤ nonce.length) :
    (SKE_CcmGetB0 ctx nonce).au8Buffer =
      [spec_b0Flags ctx.u32MacSize ctx.u32LengthSize ctx.u32AadSize] ++
        nonce.take (15 - ctx.u32LengthSize) ++
        spec_bigEndian ctx.u32LengthSize ctx.u32CryptoSize ∧
    (nonce.take (15 - ctx.u32LengthSize)).length = 15 - ctx.u32LengthSize ∧
    (spec_bigEndian ctx.u32LengthSize ctx.u32CryptoSize).length = ctx.u32LengthSize ∧
    1 + (15 - ctx.u32LengthSize) + ctx.u32LengthSize = 16 ∧
    spec_beValue (spec_bigEndian ctx.u32LengthSize ctx.u32CryptoSize) = ctx.u32CryptoSize ∧
    (∀ i, i + 4 < ctx.u32LengthSize →
      (spec_bigEndian ctx.u32LengthSize ctx.u32CryptoSize).getD i 0 = 0) := by
  obtain ⟨hL2, hL8⟩ := ccm_l_size_cases _ hL
  have h1 := b0_layout_aux ctx nonce hL2 hL8 hcs32 hbuf hnonce
  rw [b0_flags ctx nonce hmac hL (by omega)] at h1
  refine ⟨h1, ?_, spec_bigEndian_length _ _, by omega, ?_, ?_⟩
  · rw [List.length_take]; omega
  · generalize ctx.u32LengthSize = L at *
    generalize ctx.u32CryptoSize = cs at *
    unfold U32_MOD at hcs32
    interval_cases L <;>
      simp [spec_beValue, spec_bigEndian, List.range_succ] at hcs ⊢ <;> omega
  · generalize ctx.u32LengthSize = L at *
    generalize ctx.u32CryptoSize = cs at *
    unfold U32_MOD at hcs32
    intro i hi
    have hi4 : i < 4 := by omega
    interval_cases L <;> interval_cases i <;>
      first | omega | (simp [spec_bigEndian, List.range_succ]; omega)

theorem C2_b0_layout_witness :
    (SKE_CcmGetB0 ⟨1, 0x1234, 0, 8, 2, 0, 0, List.replicate 16 0xAA⟩
      [1, 2, 3, 4, 5, 6, 7, 8, 9, 10, 11, 12, 13]).au8Buffer =
      [0x19, 1, 2, 3, 4, 5, 6, 7, 8, 9, 10, 11, 12, 13, 0x12, 0x34] :=
  (C2_b0_layout ⟨1, 0x1234, 0, 8, 2, 0, 0, List.replicate 16 0xAA⟩
    [1, 2, 3, 4, 5, 6, 7, 8, 9, 10, 11, 12, 13] (by decide) (by decide) (by decide) (by decide)
    (by decide) (by decide)).1.trans (by decide)

/-- C3: for a valid `MacSize` and `LengthSize`, byte 0 of the B0 block built by `SKE_CcmGetB0` is
`(((MacSize - 2) / 2) << 3) | (LengthSize - 1)`, with bit `0x40` set in addition exactly when
`AadSize > 0`. -/
theorem C3_b0_flags (ctx : stc_ske_ccm_ctx_t) (nonce : List Nat)
    (hmac : IS_SKE_CCM_MAC_SIZE ctx.u32MacSize = true)
    (hL : IS_SKE_CCM_L_SIZE ctx.u32LengthSize = true) (hbuf : ctx.au8Buffer.length = 16) :
    (SKE_CcmGetB0 ctx nonce).au8Buffer.getD 0 0 =
      ((((ctx.u32MacSize - 2) / 2) <<< 3) ||| (ctx.u32LengthSize - 1)) |||
        (if ctx.u32AadSize > 0 then 0x40 else 0) ∧
    (((((ctx.u32MacSize - 2) / 2) <<< 3) ||| (ctx.u32LengthSize - 1)) &&& 0x40 = 0) ∧
    ((SKE_CcmGetB0 ctx nonce).au8Buffer.getD 0 0 &&& 0x40 = 0x40 ↔ ctx.u32AadSize > 0) := by
  obtain ⟨hL2, hL8⟩ := ccm_l_size_cases _ hL
  have hm := ccm_mac_size_cases _ hmac
  have h1 := b0_flags ctx nonce hmac hL (by omega)
  rw [h1]
  unfold spec_b0Flags
  generalize ctx.u32LengthSize = L at *
  generalize ctx.u32MacSize = mac at *
  refine ⟨rfl, ?_, ?_⟩
  · rcases hm with rfl | rfl | rfl | rfl | rfl | rfl | rfl <;> interval_cases L <;> decide
  · by_cases ha : ctx.u32AadSize > 0
    · simp only [ha, if_true, iff_true]
      rcases hm with rfl | rfl | rfl | rfl | rfl | rfl | rfl <;> interval_cases L <;> decide
    · simp only [ha, if_false, iff_false]
      rcases hm with rfl | rfl | rfl | rfl | rfl | rfl | rfl <;> interval_cases L <;> decide

theorem C3_b0_flags_witness :
    (SKE_CcmGetB0 ⟨1, 32, 0, 8, 2, 0, 0, List.replicate 16 0⟩ []).au8Buffer.getD 0 0 = 0x19 ∧
    (SKE_CcmGetB0 ⟨1, 32, 5, 8, 2, 0, 0, List.replicate 16 0⟩ []).au8Buffer.getD 0 0 = 0x59 :=
  ⟨(C3_b0_flags ⟨1, 32, 0, 8, 2, 0, 0, List.replicate 16 0⟩ [] (by decide) (by decide)
      (by decide)).1.trans (by decide),
   (C3_b0_flags ⟨1, 32, 5, 8, 2, 0, 0, List.replicate 16 0⟩ [] (by decide) (by decide)
      (by decide)).1.trans (by decide)⟩

/-- C4: for every 32-bit `AadSize` (in particular in `[1, 2^32 - 1]`), B1 as built by `SKE_CcmPrepareB1` starts with the length
field: the 2 bytes of `AadSize` big-endian when `AadSize < 65280`, otherwise the 6 bytes `0xFF`,
`0xFE` followed by `AadSize` as 4 bytes big-endian. -/
theorem C4_b1_length_field (ctx : stc_ske_ccm_ctx_t) (aad : List Nat)
    (hA : ctx.u32AadSize < U32_MOD) (hbuf : ctx.au8Buffer.length = 16) :
    (ctx.u32AadSize < 65280 →
      (SKE_CcmPrepareB1 ctx aad).au8Buffer.take 2 =
        [ctx.u32AadSize / 256 % 256, ctx.u32AadSize % 256]) ∧
    (65280 ≤ ctx.u32AadSize →
      (SKE_CcmPrepareB1 ctx aad).au8Buffer.take 6 =
        [0xFF, 0xFE, ctx.u32AadSize / 16777216 % 256, ctx.u32AadSize / 65536 % 256,
          ctx.u32AadSize / 256 % 256, ctx.u32AadSize % 256]) ∧
    (SKE_CcmPrepareB1 ctx aad).au8Buffer.take (spec_aadLenField ctx.u32AadSize).length =
      spec_aadLenField ctx.u32AadSize := by
  have h := b1_buffer ctx aad hA hbuf
  rw [h]
  refine ⟨?_, ?_, ?_⟩
  · intro h1
    simp [spec_aadLenField, h1, spec_bigEndian, List.range_succ]
  · intro h1
    have h2 : ¬ ctx.u32AadSize < 65280 := by omega
    simp [spec_aadLenField, h2, spec_bigEndian, List.range_succ]
  · rw [List.append_assoc, List.take_left']
    rfl

theorem C4_b1_length_field_witness :
    (SKE_CcmPrepareB1 ⟨1, 0, 100, 8, 2, 0, 0, List.replicate 16 0⟩ []).au8Buffer.take 2 =
      [0x00, 0x64] ∧
    (SKE_CcmPrepareB1 ⟨1, 0, 70000, 8, 2, 0, 0, List.replicate 16 0⟩ []).au8Buffer.take 6 =
      [0xFF, 0xFE, 0x00, 0x01, 0x11, 0x70] :=
  ⟨((C4_b1_length_field ⟨1, 0, 100, 8, 2, 0, 0, List.replicate 16 0⟩ [] (by decide)
      (by decide)).1 (by decide)).trans (by decide),
   ((C4_b1_length_field ⟨1, 0, 70000, 8, 2, 0, 0, List.replicate 16 0⟩ [] (by decide)
      (by decide)).2.1 (by decide)).trans (by decide)⟩

theorem waitIdle_loop_ok (env : SkeEnv) (log : List HwOp) :
    ∀ (i fuel cnt t : Nat), i < fuel → cnt + i ≤ SKE_TIMEOUT_VAL →
      env.busy log (t + i) = false →
      ∃ t', SKE_Init.waitIdle env fuel cnt ⟨log, t⟩ = some (true, ⟨log, t'⟩)
  | 0, fuel, cnt, t, hf, _, hb => by
    obtain ⟨f, rfl⟩ : ∃ f, fuel = f + 1 := ⟨fuel - 1, by omega⟩
    simp only [Nat.add_zero] at hb
    exact ⟨t + 1, by simp [SKE_Init.waitIdle, hb]⟩
  | i + 1, fuel, cnt, t, hf, hc, hb => by
    obtain ⟨f, rfl⟩ : ∃ f, fuel = f + 1 := ⟨fuel - 1, by omega⟩
    by_cases h : env.busy log t = true
    · have hc2 : ¬ (cnt + 1 > SKE_TIMEOUT_VAL) := by omega
      have e : t + (i + 1) = t + 1 + i := by omega
      rw [e] at hb
      obtain ⟨t', ht'⟩ := waitIdle_loop_ok env log i f (cnt + 1) (t + 1) (by omega) (by omega) hb
      refine ⟨t', ?_⟩
      rw [SKE_Init.waitIdle]
      simp only [h, hc2, if_true, if_false]
      exact ht'
    · exact ⟨t + 1, by simp [SKE_Init.waitIdle, h]⟩

theorem waitIdle_ok (env : SkeEnv) (hd : AllDone env) (s : SkeHw) :
    ∃ t', SKE_Init.waitIdle env (SKE_TIMEOUT_VAL + 1) 0 s = some (true, ⟨s.log, t'⟩) := by
  obtain ⟨i, hi, _, h2⟩ := hd s.log s.tick
  obtain ⟨log, t⟩ := s
  exact waitIdle_loop_ok env log i (SKE_TIMEOUT_VAL + 1) 0 t (by omega) (by omega) h2

theorem prepare_loop_eq (cs : Nat) (h : cs < U32_MOD) :
    SKE_CcmPrepareInit.loop 5 cs 0 = some (spec_minBytes cs) := by
  unfold U32_MOD at h
  unfold spec_minBytes
  simp only [SKE_CcmPrepareInit.loop, Nat.shiftRight_eq_div_pow]
  have e1 : cs / 2 ^ 8 / 2 ^ 8 = cs / 65536 := by rw [Nat.div_div_eq_div_mul]; norm_num
  have e2 : cs / 65536 / 2 ^ 8 = cs / 16777216 := by rw [Nat.div_div_eq_div_mul]; norm_num
  have e3 : cs / 16777216 / 2 ^ 8 = cs / 4294967296 := by
    rw [Nat.div_div_eq_div_mul]; norm_num
  rw [e1, e2, e3]
  have e0 : (2 : Nat) ^ 8 = 256 := by norm_num
  rw [e0]
  split_ifs <;> first | rfl | omega

theorem spec_minBytes_le_iff (cs L : Nat) (h : cs < U32_MOD) :
    spec_minBytes cs ≤ L ↔ cs < 256 ^ L := by
  unfold U32_MOD at h
  unfold spec_minBytes
  by_cases hL : 4 ≤ L
  · have : (256 : Nat) ^ 4 ≤ 256 ^ L := Nat.pow_le_pow_right (by norm_num) hL
    have h4 : (256 : Nat) ^ 4 = 4294967296 := by norm_num
    constructor
    · intro _; omega
    · intro _; split_ifs <;> omega
  · have hL3 : L < 4 := by omega
    have p0 : (256 : Nat) ^ 0 = 1 := by norm_num
    have p1 : (256 : Nat) ^ 1 = 256 := by norm_num
    have p2 : (256 : Nat) ^ 2 = 65536 := by norm_num
    have p3 : (256 : Nat) ^ 3 = 16777216 := by norm_num
    interval_cases L
    · rw [p0]; constructor <;> intro hh <;> split_ifs at hh ⊢ <;> omega
    · rw [p1]; constructor <;> intro hh <;> split_ifs at hh ⊢ <;> omega
    · rw [p2]; constructor <;> intro hh <;> split_ifs at hh ⊢ <;> omega
    · rw [p3]; constructor <;> intro hh <;> split_ifs at hh ⊢ <;> omega

theorem expandKey_ok (env : SkeEnv) (hd : AllDone env) (s : SkeHw) :
    ∃ t', SKE_ExpandKey env s = some (LL_OK, ⟨s.log ++
      [HwOp.cfgUpCfg ENABLE, HwOp.ctrlStart, HwOp.sr2Done 0, HwOp.cfgUpCfg DISABLE], t'⟩) := by
  obtain ⟨t', ht'⟩ := wait_ok env hd ((s.wr (HwOp.cfgUpCfg ENABLE)).wr HwOp.ctrlStart)
  refine ⟨t', ?_⟩
  unfold SKE_ExpandKey
  rw [ht']
  simp [SkeHw.wr]

theorem initInternal_ok (mp : Nat) (env : SkeEnv) (hd : AllDone env) (init : stc_ske_init_t)
    (ivb key : List Nat) (hv : IS_SKE_ALG_MD mp init.u32Alg init.u32Mode = true)
    (hiv : init.pu8Iv = some ivb) (hkey : init.pu8Key = some key) (s : SkeHw) :
    ∃ t', SKE_InitInternal mp env init s =
      some (LL_OK, ⟨s.log ++ initOps mp init ivb key, t'⟩) := by
  have halg := alg_of_alg_md mp _ _ hv
  unfold SKE_InitInternal
  simp only [hiv, hkey, SKE_SetIv, SKE_SetKey, hv, halg, Bool.not_true, Bool.false_eq_true,
    if_false]
  by_cases hecb : init.u32Mode = SKE_MD_ECB mp
  · obtain ⟨t', ht'⟩ := expandKey_ok env hd
      ((((if init.u32Mode = SKE_MD_CMAC mp then
          ((s.wr (HwOp.cfgUpCfg ENABLE)).wr (HwOp.cfgInit
            (init.u32Mode ||| init.u32DataType ||| init.u32Alg))).wr
              (HwOp.cfgDec SKE_CRYPTO_ENCRYPT)
        else ((s.wr (HwOp.cfgUpCfg ENABLE)).wr (HwOp.cfgInit
            (init.u32Mode ||| init.u32DataType ||| init.u32Alg))).wr
              (HwOp.cfgDec init.u32Crypto)).wr (HwOp.dinCrLast 0)).wr
        (HwOp.key (readBytes key 0 (4 * (m_au8SkeAlgKeySize.getD init.u32Alg 0 / 4))))))
    refine ⟨t', ?_⟩
    simp only [hecb, ne_eq, not_true, if_false] at ht' ⊢
    rw [ht']
    by_cases hc : SKE_MD_ECB mp = SKE_MD_CMAC mp <;> simp [initOps, hecb, hc, SkeHw.wr]
  · obtain ⟨t', ht'⟩ := expandKey_ok env hd
      (((((if init.u32Mode = SKE_MD_CMAC mp then
          ((s.wr (HwOp.cfgUpCfg ENABLE)).wr (HwOp.cfgInit
            (init.u32Mode ||| init.u32DataType ||| init.u32Alg))).wr
              (HwOp.cfgDec SKE_CRYPTO_ENCRYPT)
        else ((s.wr (HwOp.cfgUpCfg ENABLE)).wr (HwOp.cfgInit
            (init.u32Mode ||| init.u32DataType ||| init.u32Alg))).wr
              (HwOp.cfgDec init.u32Crypto)).wr (HwOp.dinCrLast 0)).wr
        (HwOp.iv (if init.u32Mode ≠ SKE_MD_CMAC mp then
          SKE_CopyByte (List.replicate 16 0) 0 ivb 0
            (if init.u32Mode = SKE_MD_GCM mp then SKE_IV_SIZE_12BYTE
             else m_au8SkeAlgBlockSize.getD init.u32Alg 0)
          else List.replicate 16 0))).wr
        (HwOp.key (readBytes key 0 (4 * (m_au8SkeAlgKeySize.getD init.u32Alg 0 / 4))))))
    refine ⟨t', ?_⟩
    simp only [hecb, ne_eq, not_false_eq_true, if_true] at ht' ⊢
    rw [ht']
    by_cases hc : init.u32Mode = SKE_MD_CMAC mp
    · have hne : ¬ (SKE_MD_CMAC mp = SKE_MD_ECB mp) := by simp [SKE_MD_CMAC, SKE_MD_ECB, shl_inj]
      simp [initOps, hc, hne, SkeHw.wr]
    · simp [initOps, hecb, hc, SkeHw.wr]

theorem lor_eq_zero (a b : Nat) : a ||| b = 0 ↔ a = 0 ∧ b = 0 := by
  constructor
  · intro h
    have h2 : ∀ i, (a.testBit i || b.testBit i) = false := by
      intro i
      rw [← Nat.testBit_or, h, Nat.zero_testBit]
    constructor
    · apply Nat.eq_of_testBit_eq
      intro i
      have := h2 i
      rw [Bool.or_eq_false_iff] at this
      rw [this.1, Nat.zero_testBit]
    · apply Nat.eq_of_testBit_eq
      intro i
      have := h2 i
      rw [Bool.or_eq_false_iff] at this
      rw [this.2, Nat.zero_testBit]
  · rintro ⟨rfl, rfl⟩
    rfl

theorem ccmPrepareInit_accept (init : stc_ske_init_t) (c : stc_ske_ccm_init_para_t)
    (ctx : stc_ske_ccm_ctx_t) (nonce : List Nat) (s : SkeHw)
    (hccm : init.pstcCcmInit = some c) (hnonce : c.pu8Nonce = some nonce)
    (hnz : ¬ (c.u32AadSize = 0 ∧ c.u32CryptoSize = 0))
    (hcs32 : c.u32CryptoSize < U32_MOD) (hcs : c.u32CryptoSize < 256 ^ c.u32LengthSize) :
    SKE_CcmPrepareInit init (some ctx) s =
      some (LL_OK, init.pu8Iv.map (fun ivb => ccmA0 ivb nonce c.u32LengthSize),
        some (ccmCtxPrepared init c ctx), ⟨s.log ++ sizeOps c.u32CryptoSize c.u32AadSize, s.tick⟩) := by
  have h1 : ¬ ((c.u32AadSize ||| c.u32CryptoSize) = 0) := by
    rw [lor_eq_zero]; exact hnz
  have h2 : ¬ (spec_minBytes c.u32CryptoSize > c.u32LengthSize) := by
    have := (spec_minBytes_le_iff c.u32CryptoSize c.u32LengthSize hcs32).mpr hcs
    omega
  unfold SKE_CcmPrepareInit
  simp only [hccm, hnonce, h1, if_false, prepare_loop_eq _ hcs32, h2]
  simp [ccmCtxPrepared, ccmA0, SKE_SetCryptoSize, SKE_SetAadSize, SkeHw.wr, sizeOps]

theorem getB0_fields (ctx : stc_ske_ccm_ctx_t) (nonce : List Nat) :
    (SKE_CcmGetB0 ctx nonce).u32AadSize = ctx.u32AadSize ∧
    (SKE_CcmGetB0 ctx nonce).u32Alg = ctx.u32Alg ∧
    (SKE_CcmGetB0 ctx nonce).au8Buffer.length = ctx.au8Buffer.length := by
  refine ⟨rfl, rfl, ?_⟩
  simp only [SKE_CcmGetB0]
  split_ifs <;> simp [SKE_CopyByte_length, SKE_SetByte_length]

theorem readBytes_self (l : List Nat) (n : Nat) (h : l.length = n) : readBytes l 0 n = l := by
  rw [readBytes_zero_eq_take l n (by omega), ← h, List.take_length]

theorem xcm_alg_blockSize (alg : Nat) (h : IS_SKE_XCM_MD_ALG alg = true) :
    IS_SKE_ALG alg = true ∧ m_au8SkeAlgBlockSize.getD alg 0 = 16 := by
  unfold IS_SKE_XCM_MD_ALG at h
  simp only [Bool.and_eq_true, bne_iff_ne, ne_eq] at h
  refine ⟨h.1, ?_⟩
  rw [blockSize_of_alg alg h.1, if_neg h.2]

theorem xcm_alg_md (mp alg : Nat) (h : IS_SKE_XCM_MD_ALG alg = true) :
    IS_SKE_ALG_MD mp alg (SKE_MD_CCM mp) = true := by
  simp [IS_SKE_ALG_MD, h, IS_SKE_XCM_MD]

/-- The register writes of `SKE_CcmUpdateAadBlocks` on the context prepared by
`SKE_CcmPrepareB1` for an AAD of `a` bytes. -/
theorem ccmUpdateAad_ok (mp : Nat) (env : SkeEnv) (hd : AllDone env) (ctx : stc_ske_ccm_ctx_t)
    (aad : List Nat) (s : SkeHw) (halg : IS_SKE_XCM_MD_ALG ctx.u32Alg = true)
    (hA1 : 1 ≤ ctx.u32AadSize) (hA : ctx.u32AadSize < U32_MOD)
    (hlen : ctx.u32AadSize ≤ aad.length) (hbuf : ctx.au8Buffer.length = 16) :
    ∃ t', SKE_CcmUpdateAadBlocks mp env (some (SKE_CcmPrepareB1 ctx aad)) (some aad) s =
      some (LL_OK, ⟨s.log ++
        (if ctx.u32AadSize ≤ spec_b1Window ctx.u32AadSize then
          blockOps true false (SKE_CcmPrepareB1 ctx aad).au8Buffer
        else
          blockOps false false (SKE_CcmPrepareB1 ctx aad).au8Buffer ++
          (leadOps (aad.drop (spec_b1Window ctx.u32AadSize)) 16
            ((ctx.u32AadSize - spec_b1Window ctx.u32AadSize -
              ((ctx.u32AadSize - spec_b1Window ctx.u32AadSize - 1) % 16 + 1)) / 16) 0 ++
           blockOps true false (lastBlock (aad.drop (spec_b1Window ctx.u32AadSize))
            (ctx.u32AadSize - spec_b1Window ctx.u32AadSize) 16))), t'⟩) := by
  obtain ⟨hf1, hf2, hf3, hf4⟩ := b1_fields ctx aad hA
  obtain ⟨halg1, hbs⟩ := xcm_alg_blockSize _ halg
  have hb1len : (SKE_CcmPrepareB1 ctx aad).au8Buffer.length = 16 := by
    rw [b1_buffer ctx aad hA hbuf]
    simp only [List.length_append, spec_aadLenField_length, readBytes_length,
      List.length_replicate, spec_b1Window]
    split_ifs <;> omega
  have hw : spec_b1Window ctx.u32AadSize = if ctx.u32AadSize < 65280 then 14 else 10 := by
    unfold spec_b1Window
    rw [spec_aadLenField_length]
    split_ifs <;> rfl
  have hmark1 : (isMarkMode mp (SKE_MD_CCM mp) && ((1 : Nat) != 0)) = true := by
    simp [isMarkMode]
  have hmark0 : (isMarkMode mp (SKE_MD_CCM mp) && ((0 : Nat) != 0)) = false := by
    simp
  have hcm : (SKE_MD_CCM mp == SKE_MD_CMAC mp) = false := by
    simp [SKE_MD_CCM, SKE_MD_CMAC, shl_inj]
  unfold SKE_CcmUpdateAadBlocks
  have hne : ¬ ((SKE_CcmPrepareB1 ctx aad).u32AadSize = 0) := by omega
  simp only [hne, if_false]
  by_cases hfit : ctx.u32AadSize ≤ spec_b1Window ctx.u32AadSize
  · have hr0 : (SKE_CcmPrepareB1 ctx aad).u32AadRemainSize = 0 := by
      rw [hf1]; omega
    simp only [hr0, if_true, hfit]
    obtain ⟨t', ht'⟩ := update_ok mp env hd (SKE_CcmPrepareB1 ctx aad).u32Alg (SKE_MD_CCM mp)
      (hf4 ▸ halg1) (SKE_CcmPrepareB1 ctx aad).au8Buffer none 0 1 s
    refine ⟨t', ?_⟩
    rw [ht', hf4, hbs, hmark1, hcm, readBytes_self _ 16 hb1len]
    rfl
  · have hr : (SKE_CcmPrepareB1 ctx aad).u32AadRemainSize =
        ctx.u32AadSize - spec_b1Window ctx.u32AadSize := by
      rw [hf1]; omega
    have hr0 : ¬ ((SKE_CcmPrepareB1 ctx aad).u32AadRemainSize = 0) := by
      rw [hr]; omega
    have hso : (SKE_CcmPrepareB1 ctx aad).u32AadStartOffset = spec_b1Window ctx.u32AadSize := by
      rw [hf2, if_neg hfit]
    simp only [hr0, if_false, hfit]
    obtain ⟨t1, ht1⟩ := update_ok mp env hd (SKE_CcmPrepareB1 ctx aad).u32Alg (SKE_MD_CCM mp)
      (hf4 ▸ halg1) (SKE_CcmPrepareB1 ctx aad).au8Buffer none 0 0 s
    rw [ht1, hf4, hbs, hmark0, readBytes_self _ 16 hb1len, hr, hso]
    simp only [if_true]
    obtain ⟨out', t', h2, -⟩ := cryptoBlocks_ok mp env hd ctx.u32Alg (SKE_MD_CCM mp)
      (xcm_alg_md mp _ halg) (aad.drop (spec_b1Window ctx.u32AadSize)) none
      (ctx.u32AadSize - spec_b1Window ctx.u32AadSize) (by omega) (by omega)
      (by rw [List.length_drop]; omega)
      ⟨s.log ++ blockOps false (SKE_MD_CCM mp == SKE_MD_CMAC mp)
        (SKE_CcmPrepareB1 ctx aad).au8Buffer, t1⟩
    refine ⟨t', ?_⟩
    rw [h2, hbs, blockOps_false, blockOps_false]
    have hx : IS_SKE_XCM_MD mp (SKE_MD_CCM mp) = true := by simp [IS_SKE_XCM_MD]
    simp [hx]

theorem ccmContinueInit_aad_ok (mp : Nat) (env : SkeEnv) (hd : AllDone env)
    (init : stc_ske_init_t) (c : stc_ske_ccm_init_para_t) (ctx : stc_ske_ccm_ctx_t)
    (nonce aad : List Nat) (s : SkeHw)
    (hccm : init.pstcCcmInit = some c) (hnonce : c.pu8Nonce = some nonce)
    (haad : c.pu8Aad = some aad) (hA : c.u32AadSize ≠ 0) (hctxA : ctx.u32AadSize = c.u32AadSize)
    (halg : IS_SKE_XCM_MD_ALG init.u32Alg = true) (hmode : init.u32Mode = SKE_MD_CCM mp)
    (hbuf : ctx.au8Buffer.length = 16) :
    ∃ t', SKE_CcmContinueInit mp env init (some ctx) s =
      some (LL_OK, some (SKE_CcmPrepareB1 (SKE_CcmGetB0 ctx nonce) aad),
        ⟨s.log ++ blockOps false false (SKE_CcmGetB0 ctx nonce).au8Buffer, t'⟩) := by
  obtain ⟨halg1, hbs⟩ := xcm_alg_blockSize _ halg
  obtain ⟨g1, _, g3⟩ := getB0_fields ctx nonce
  unfold SKE_CcmContinueInit
  simp only [hccm, hnonce, haad, Option.getD_some, hA, if_false, hmode]
  obtain ⟨t', ht'⟩ := update_ok mp env hd init.u32Alg (SKE_MD_CCM mp) halg1
    (SKE_CcmGetB0 ctx nonce).au8Buffer none 0 0 s
  refine ⟨t', ?_⟩
  rw [ht', hbs, readBytes_self _ 16 (by rw [g3, hbuf])]
  have h0 : ¬ ((SKE_CcmGetB0 ctx nonce).u32AadSize = 0) := by rw [g1, hctxA]; exact hA
  simp [h0, blockOps_false, hA]

theorem ccmInit_ok_aux (mp : Nat) (env : SkeEnv) (hd : AllDone env)
    (alg dt cr : Nat) (pg : Option stc_ske_gcm_init_para_t) (c : stc_ske_ccm_init_para_t)
    (ctx0 : stc_ske_ccm_ctx_t) (key ivb nonce aad : List Nat) (s : SkeHw)
    (halg : IS_SKE_XCM_MD_ALG alg = true)
    (hnonce : c.pu8Nonce = some nonce)
    (haad : c.pu8Aad = some aad) (hA1 : 1 ≤ c.u32AadSize) (hA : c.u32AadSize < U32_MOD)
    (hlen : c.u32AadSize ≤ aad.length)
    (hcs32 : c.u32CryptoSize < U32_MOD) (hcs : c.u32CryptoSize < 256 ^ c.u32LengthSize)
    (hbuf : ctx0.au8Buffer.length = 16) :
    ∃ t', SKE_Init mp env
        (some ⟨alg, SKE_MD_CCM mp, dt, cr, some key, some ivb, pg, some c⟩) ctx0 s =
      some (LL_OK, some (ccmA0 ivb nonce c.u32LengthSize),
        ⟨s.log ++ ([HwOp.sr2Done 0] ++ sizeOps c.u32CryptoSize c.u32AadSize ++
          initOps mp ⟨alg, SKE_MD_CCM mp, dt, cr, some key,
              some (ccmA0 ivb nonce c.u32LengthSize), pg, some c⟩
            (ccmA0 ivb nonce c.u32LengthSize) key ++
          blockOps false false (SKE_CcmGetB0 (ccmCtxPrepared
            ⟨alg, SKE_MD_CCM mp, dt, cr, some key, some ivb, pg, some c⟩ c ctx0) nonce).au8Buffer ++
          ccmAadOps (SKE_CcmGetB0 (ccmCtxPrepared
            ⟨alg, SKE_MD_CCM mp, dt, cr, some key, some ivb, pg, some c⟩ c ctx0) nonce) aad),
          t'⟩) := by
  obtain ⟨t0, h0⟩ := waitIdle_ok env hd s
  have hgcm : ¬ (SKE_MD_CCM mp = SKE_MD_GCM mp) := by simp [SKE_MD_CCM, SKE_MD_GCM, shl_inj]
  have hprep := ccmPrepareInit_accept
    ⟨alg, SKE_MD_CCM mp, dt, cr, some key, some ivb, pg, some c⟩ c ctx0 nonce
    ((⟨s.log, t0⟩ : SkeHw).wr (HwOp.sr2Done 0)) rfl hnonce (by omega) hcs32 hcs
  generalize hcp : ccmCtxPrepared
    ⟨alg, SKE_MD_CCM mp, dt, cr, some key, some ivb, pg, some c⟩ c ctx0 = cp at *
  have hcpA : cp.u32AadSize = c.u32AadSize := by rw [← hcp]; rfl
  have hcpAlg : cp.u32Alg = alg := by rw [← hcp]; rfl
  have hcpBuf : cp.au8Buffer.length = 16 := by rw [← hcp]; exact hbuf
  obtain ⟨g1, g2, g3⟩ := getB0_fields cp nonce
  obtain ⟨t1, h1⟩ := initInternal_ok mp env hd
    ⟨alg, SKE_MD_CCM mp, dt, cr, some key, some (ccmA0 ivb nonce c.u32LengthSize), pg, some c⟩
    (ccmA0 ivb nonce c.u32LengthSize) key (xcm_alg_md mp _ halg) rfl rfl
    ⟨s.log ++ [HwOp.sr2Done 0] ++ sizeOps c.u32CryptoSize c.u32AadSize, t0⟩
  generalize hio : initOps mp
    ⟨alg, SKE_MD_CCM mp, dt, cr, some key, some (ccmA0 ivb nonce c.u32LengthSize), pg, some c⟩
    (ccmA0 ivb nonce c.u32LengthSize) key = io at *
  obtain ⟨t2, h2⟩ := ccmContinueInit_aad_ok mp env hd
    ⟨alg, SKE_MD_CCM mp, dt, cr, some key, some (ccmA0 ivb nonce c.u32LengthSize), pg, some c⟩ c
    cp nonce aad
    ⟨s.log ++ [HwOp.sr2Done 0] ++ sizeOps c.u32CryptoSize c.u32AadSize ++ io, t1⟩
    rfl hnonce haad (by omega) hcpA halg rfl hcpBuf
  obtain ⟨t3, h3⟩ := ccmUpdateAad_ok mp env hd (SKE_CcmGetB0 cp nonce) aad
    ⟨s.log ++ [HwOp.sr2Done 0] ++ sizeOps c.u32CryptoSize c.u32AadSize ++ io ++
      blockOps false false (SKE_CcmGetB0 cp nonce).au8Buffer, t2⟩
    (by rw [g2, hcpAlg]; exact halg) (by rw [g1, hcpA]; exact hA1) (by rw [g1, hcpA]; exact hA)
    (by rw [g1, hcpA]; exact hlen) (by rw [g3]; exact hcpBuf)
  refine ⟨t3, ?_⟩
  unfold SKE_Init
  simp only [Option.isNone_some, Bool.false_eq_true, false_or, and_false, if_false, h0,
    hgcm, if_true]
  rw [hprep]
  simp only [Option.map_some', SkeHw.wr]
  unfold SKE_Init.finish
  rw [h1]
  simp only [if_true, hgcm, if_false, h2]
  have hc : LL_OK = LL_OK ∧ c.u32AadSize > 0 := ⟨rfl, by omega⟩
  simp only [hc, and_self, if_true, haad, h3, Option.map_some']
  simp [ccmAadOps, List.append_assoc]

theorem issued_init_part (mp lp : Nat) (m0 : Bool) (cs a : Nat) (init : stc_ske_init_t)
    (ivb key : List Nat) (rest : List HwOp) :
    issued lp m0 none ([HwOp.sr2Done 0] ++ sizeOps cs a ++ initOps mp init ivb key ++ rest) =
      issued lp false none rest := by
  unfold sizeOps initOps
  split_ifs <;> simp [issued]

theorem issued_blockOps_cons (lp : Nat) (m mark : Bool) (p : Option (List Nat)) (b : List Nat)
    (rest : List HwOp) :
    issued lp m p (blockOps mark false b ++ rest) =
      (b, mark || m) :: issued lp (!mark && m) none rest := by
  cases mark <;> simp [blockOps, blockPre, blockPost, issued]

theorem issued_ccmAadOps (lp : Nat) (ctx : stc_ske_ccm_ctx_t) (aad : List Nat) :
    (issued lp false none (ccmAadOps ctx aad)).map Prod.fst = ccmAadBlocks ctx aad ∧
    (issued lp false none (ccmAadOps ctx aad)).map Prod.snd =
      List.replicate ((ccmAadBlocks ctx aad).length - 1) false ++ [true] := by
  unfold ccmAadOps ccmAadBlocks
  split_ifs
  · rw [issued_blockOps_last]
    simp
  · rw [issued_blockOps_cons, issued_leadOps, issued_blockOps_last]
    simp only [Bool.or_self, Bool.not_false, Bool.and_false, List.map_cons, List.map_append,
      map_fst_pair, List.map_nil, Bool.or_false, List.length_cons, List.length_append,
      leadBlocks_length, List.length_singleton, List.length_nil, Nat.add_sub_cancel, true_and]
    rw [List.map_map]
    simp [List.replicate_succ, Function.comp_def, leadBlocks_length]

theorem ccmAadBlocks_ne_nil (ctx : stc_ske_ccm_ctx_t) (aad : List Nat) :
    ccmAadBlocks ctx aad ≠ [] := by
  unfold ccmAadBlocks
  split_ifs <;> simp

theorem spec_b1Window_eq (a : Nat) : spec_b1Window a = if a < 65280 then 14 else 10 := by
  unfold spec_b1Window
  rw [spec_aadLenField_length]
  split_ifs <;> rfl

theorem b1_length (ctx : stc_ske_ccm_ctx_t) (aad : List Nat)
    (hA : ctx.u32AadSize < U32_MOD) (hbuf : ctx.au8Buffer.length = 16) :
    (SKE_CcmPrepareB1 ctx aad).au8Buffer.length = 16 := by
  rw [b1_buffer ctx aad hA hbuf]
  simp only [List.length_append, spec_aadLenField_length, readBytes_length,
    List.length_replicate, spec_b1Window]
  split_ifs <;> omega

theorem ccmAadBlocks_props (ctx : stc_ske_ccm_ctx_t) (aad : List Nat)
    (hA1 : 1 ≤ ctx.u32AadSize) (hA : ctx.u32AadSize < U32_MOD)
    (hlen : ctx.u32AadSize ≤ aad.length) (hbuf : ctx.au8Buffer.length = 16) :
    (ccmAadBlocks ctx aad).flatten =
      spec_aadLenField ctx.u32AadSize ++ aad.take ctx.u32AadSize ++
        List.replicate
          ((16 - ((spec_aadLenField ctx.u32AadSize).length + ctx.u32AadSize) % 16) % 16) 0 ∧
    (∀ b ∈ ccmAadBlocks ctx aad, b.length = 16) ∧
    (ccmAadBlocks ctx aad).length =
      ((spec_aadLenField ctx.u32AadSize).length + ctx.u32AadSize + 15) / 16 := by
  have hb1 := b1_buffer ctx aad hA hbuf
  have hb1len := b1_length ctx aad hA hbuf
  have hw := spec_b1Window_eq ctx.u32AadSize
  have hfl := spec_aadLenField_length ctx.u32AadSize
  unfold ccmAadBlocks
  generalize ctx.u32AadSize = A at *
  generalize spec_b1Window A = w at *
  generalize (spec_aadLenField A).length = hl at *
  have hlw : hl + w = 16 := by split_ifs at hw hfl <;> omega
  by_cases hfit : A ≤ w
  · simp only [hfit, if_true, List.flatten_cons, List.flatten_nil, List.append_nil,
      List.mem_singleton, forall_eq, List.length_singleton]
    refine ⟨?_, hb1len, by omega⟩
    rw [hb1, Nat.min_eq_left hfit, readBytes_zero_eq_take aad A hlen]
    congr 2
    omega
  · have hwA : w < A := by omega
    have hn1 : 1 ≤ A - w := by omega
    have hdl : A - w ≤ (aad.drop w).length := by rw [List.length_drop]; omega
    have hr2 : (A - w - 1) % 16 ≤ A - w - 1 := Nat.mod_le _ _
    have hk : ((A - w - ((A - w - 1) % 16 + 1)) / 16) * 16 = A - w - ((A - w - 1) % 16 + 1) := by
      omega
    simp only [hfit, if_false]
    refine ⟨?_, ?_, ?_⟩
    · rw [List.flatten_cons, List.flatten_append, leadBlocks_flatten _ 16 _ 0 (by omega), hk]
      simp only [List.flatten_cons, List.flatten_nil, List.append_nil, List.drop_zero]
      rw [take_append_lastBlock (aad.drop w) (A - w) 16 hn1 (Or.inr rfl), hb1,
        Nat.min_eq_right (by omega), Nat.sub_self, readBytes_zero_eq_take aad w (by omega)]
      simp only [List.replicate_zero, List.append_nil, List.append_assoc]
      congr 1
      rw [← List.append_assoc, ← List.take_add]
      have e1 : w + (A - w) = A := by omega
      have e2 : (16 - (A - w) % 16) % 16 = (16 - (hl + A) % 16) % 16 := by omega
      rw [e1, e2]
    · intro b hb
      simp only [List.mem_cons, List.mem_append, List.mem_singleton, List.not_mem_nil,
        or_false] at hb
      rcases hb with hb | hb | hb
      · rw [hb]; exact hb1len
      · exact leadBlocks_mem_length _ 16 _ 0 b hb
      · rw [hb]; exact lastBlock_length _ _ 16 hn1 hdl (by omega)
    · simp only [List.length_cons, List.length_append, leadBlocks_length, List.length_singleton,
        List.length_nil]
      split_ifs at hw hfl <;> omega

/-- C5: a CCM initialisation by `SKE_Init` with `AadSize ≥ 1` and a non-null AAD buffer (every
transform completing, `CryptoSize` encodable in `LengthSize` bytes) returns `LL_OK`, and the blocks
fed to the engine are B0 followed by blocks of 16 bytes whose concatenation is the length field,
then the `AadSize` AAD bytes, then zero bytes up to the next multiple of 16.  The first of them is
B1 as built by `SKE_CcmPrepareB1`, there are `ceil((fieldLen + AadSize) / 16)` of them, and the
last-block mark is set for the final one only (B0 is not marked). -/
theorem C5_ccm_aad_blocks (mp lp : Nat) (env : SkeEnv) (init : stc_ske_init_t)
    (c : stc_ske_ccm_init_para_t) (ctx0 : stc_ske_ccm_ctx_t) (key ivb nonce aad : List Nat)
    (s : SkeHw) (m0 : Bool)
    (hmode : init.u32Mode = SKE_MD_CCM mp) (halg : IS_SKE_XCM_MD_ALG init.u32Alg = true)
    (hkey : init.pu8Key = some key) (hiv : init.pu8Iv = some ivb)
    (hccm : init.pstcCcmInit = some c) (hnonce : c.pu8Nonce = some nonce)
    (haad : c.pu8Aad = some aad) (hA1 : 1 ≤ c.u32AadSize) (hA : c.u32AadSize < U32_MOD)
    (hlen : c.u32AadSize ≤ aad.length)
    (hcs32 : c.u32CryptoSize < U32_MOD) (hcs : c.u32CryptoSize < 256 ^ c.u32LengthSize)
    (hbuf : ctx0.au8Buffer.length = 16) (hd : AllDone env) :
    ∃ (iv' : Option (List Nat)) (s' : SkeHw) (ops : List HwOp) (b0 : List Nat)
        (blocks : List (List Nat)),
      SKE_Init mp env (some init) ctx0 s = some (LL_OK, iv', s') ∧
      s'.log = s.log ++ ops ∧
      (issued lp m0 none ops).map Prod.fst = b0 :: blocks ∧
      (issued lp m0 none ops).map Prod.snd =
        false :: (List.replicate (blocks.length - 1) false ++ [true]) ∧
      b0 = (SKE_CcmGetB0 (ccmCtxPrepared init c ctx0) nonce).au8Buffer ∧
      blocks.head? = some (SKE_CcmPrepareB1
        (SKE_CcmGetB0 (ccmCtxPrepared init c ctx0) nonce) aad).au8Buffer ∧
      blocks.flatten =
        spec_aadLenField c.u32AadSize ++ aad.take c.u32AadSize ++
          List.replicate
            ((16 - ((spec_aadLenField c.u32AadSize).length + c.u32AadSize) % 16) % 16) 0 ∧
      (∀ b ∈ blocks, b.length = 16) ∧
      blocks.length = ((spec_aadLenField c.u32AadSize).length + c.u32AadSize + 15) / 16 := by
  obtain ⟨alg, mode, dt, cr, pk, pi, pg, pc⟩ := init
  simp only at hmode halg hkey hiv hccm
  subst hmode hkey hiv hccm
  obtain ⟨t', h1⟩ := ccmInit_ok_aux mp env hd alg dt cr pg c ctx0 key ivb nonce aad s halg hnonce
    haad hA1 hA hlen hcs32 hcs hbuf
  generalize hcp : SKE_CcmGetB0 (ccmCtxPrepared
    ⟨alg, SKE_MD_CCM mp, dt, cr, some key, some ivb, pg, some c⟩ c ctx0) nonce = cb at *
  have hcbA : cb.u32AadSize = c.u32AadSize := by rw [← hcp]; rfl
  have hcbBuf : cb.au8Buffer.length = 16 := by
    rw [← hcp, (getB0_fields _ _).2.2]; exact hbuf
  obtain ⟨p1, p2, p3⟩ := ccmAadBlocks_props cb aad (by rw [hcbA]; exact hA1)
    (by rw [hcbA]; exact hA) (by rw [hcbA]; exact hlen) hcbBuf
  rw [hcbA] at p1 p3
  obtain ⟨q1, q2⟩ := issued_ccmAadOps lp cb aad
  refine ⟨_, _, _, cb.au8Buffer, ccmAadBlocks cb aad, h1, rfl, ?_, ?_, rfl, ?_, p1, p2, p3⟩
  · rw [List.append_assoc, issued_init_part, issued_blockOps_cons]
    simp only [Bool.or_self, Bool.not_false, Bool.and_false, List.map_cons]
    rw [q1]
  · rw [List.append_assoc, issued_init_part, issued_blockOps_cons]
    simp only [Bool.or_self, Bool.not_false, Bool.and_false, List.map_cons]
    rw [q2]
  · unfold ccmAadBlocks
    split_ifs <;> rfl

theorem C5_ccm_aad_blocks_witness :
    ∃ (iv' : Option (List Nat)) (s' : SkeHw) (ops : List HwOp) (blocks : List (List Nat)),
      SKE_Init 28 (envConst [])
        (some ⟨SKE_ALG_AES_128, SKE_MD_CCM 28, 0, 0, some (List.replicate 16 1),
          some (List.replicate 16 0), none,
          some ⟨3, 20, 8, 2, some (List.replicate 13 2), some (List.replicate 20 3)⟩⟩)
        ⟨0, 0, 0, 0, 0, 0, 0, List.replicate 16 0⟩ ⟨[], 0⟩ = some (LL_OK, iv', s') ∧
      s'.log = [] ++ ops ∧
      blocks.flatten = spec_aadLenField 20 ++ (List.replicate 20 3).take 20 ++
        List.replicate ((16 - ((spec_aadLenField 20).length + 20) % 16) % 16) 0 := by
  obtain ⟨iv', s', ops, b0, blocks, h1, h2, -, -, -, -, h3, -⟩ :=
    C5_ccm_aad_blocks 28 8 (envConst [])
      ⟨SKE_ALG_AES_128, SKE_MD_CCM 28, 0, 0, some (List.replicate 16 1),
        some (List.replicate 16 0), none,
        some ⟨3, 20, 8, 2, some (List.replicate 13 2), some (List.replicate 20 3)⟩⟩
      ⟨3, 20, 8, 2, some (List.replicate 13 2), some (List.replicate 20 3)⟩
      ⟨0, 0, 0, 0, 0, 0, 0, List.replicate 16 0⟩ (List.replicate 16 1) (List.replicate 16 0)
      (List.replicate 13 2) (List.replicate 20 3) ⟨[], 0⟩ false rfl (by decide) rfl rfl rfl rfl
      rfl (by decide) (by decide) (by decide) (by decide) (by decide) (by decide)
      (allDone_envConst [])
  exact ⟨iv', s', ops, blocks, h1, h2, h3⟩

/-- Evaluation of the model: CCM initialisation with 20 AAD bytes feeds B0, B1 and one more
block, the last one marked. -/
theorem ccmInit_eval :
    (SKE_Init 28 (envConst [])
        (some ⟨SKE_ALG_AES_128, SKE_MD_CCM 28, 0, 0, some (List.replicate 16 1),
          some (List.replicate 16 0), none,
          some ⟨3, 20, 8, 2, some (List.replicate 13 2), some (List.replicate 20 3)⟩⟩)
        ⟨0, 0, 0, 0, 0, 0, 0, List.replicate 16 0⟩ ⟨[], 0⟩).map
      (fun r => (r.1, issued 8 false none r.2.2.log)) =
      some (LL_OK,
        [([0x59, 2, 2, 2, 2, 2, 2, 2, 2, 2, 2, 2, 2, 2, 0, 3], false),
         ([0, 20, 3, 3, 3, 3, 3, 3, 3, 3, 3, 3, 3, 3, 3, 3], false),
         ([3, 3, 3, 3, 3, 3, 0, 0, 0, 0, 0, 0, 0, 0, 0, 0], true)]) := by
  decide

theorem compare_loop_eq (a b : List Nat) :
    ∀ (k i : Nat), SKE_CompareByte.loop a b k i =
      if ∀ j, i ≤ j → j < i + k → a.getD j 0 = b.getD j 0 then LL_OK else LL_ERR
  | 0, i => by
    have : ∀ j, i ≤ j → j < i + 0 → a.getD j 0 = b.getD j 0 := by intro j h1 h2; omega
    rw [SKE_CompareByte.loop, if_pos this]
  | k + 1, i => by
    rw [SKE_CompareByte.loop, compare_loop_eq a b k (i + 1)]
    by_cases h : a.getD i 0 = b.getD i 0
    · simp only [h, ne_eq, not_true, if_false]
      by_cases h2 : ∀ j, i + 1 ≤ j → j < i + 1 + k → a.getD j 0 = b.getD j 0
      · have h3 : ∀ j, i ≤ j → j < i + (k + 1) → a.getD j 0 = b.getD j 0 := by
          intro j h4 h5
          by_cases h6 : j = i
          · rw [h6]; exact h
          · exact h2 j (by omega) (by omega)
        rw [if_pos h2, if_pos h3]
      · have h3 : ¬ ∀ j, i ≤ j → j < i + (k + 1) → a.getD j 0 = b.getD j 0 := by
          intro h4
          exact h2 (fun j h5 h6 => h4 j (by omega) (by omega))
        rw [if_neg h2, if_neg h3]
    · have h3 : ¬ ∀ j, i ≤ j → j < i + (k + 1) → a.getD j 0 = b.getD j 0 := by
        intro h4
        exact h (h4 i (by omega) (by omega))
      simp only [ne_eq, h, not_false_eq_true, if_true]
      rw [if_neg h3]

theorem readBytes_eq_iff (a b : List Nat) (n : Nat) :
    readBytes a 0 n = readBytes b 0 n ↔ ∀ j, j < n → a.getD j 0 = b.getD j 0 := by
  constructor
  · intro h j hj
    have := congrArg (fun l => l.getD j 0) h
    simp only [readBytes_getD, hj, if_true, Nat.zero_add] at this
    exact this
  · intro h
    apply ext_getD
    · simp [readBytes_length]
    · intro j hj
      rw [readBytes_length] at hj
      rw [readBytes_getD, readBytes_getD, if_pos hj, if_pos hj]
      simpa using h j hj

theorem SKE_CompareByte_eq (a b : List Nat) (n : Nat) :
    SKE_CompareByte a b n = if readBytes a 0 n = readBytes b 0 n then LL_OK else LL_ERR := by
  unfold SKE_CompareByte
  rw [compare_loop_eq]
  by_cases h : readBytes a 0 n = readBytes b 0 n
  · rw [if_pos h, if_pos]
    intro j _ hj
    exact (readBytes_eq_iff a b n).mp h j (by omega)
  · rw [if_neg h, if_neg]
    intro h2
    exact h ((readBytes_eq_iff a b n).mpr (fun j hj => h2 j (by omega) (by omega)))

theorem SKE_CopyByte_eq (dest : List Nat) (src : List Nat) (n : Nat) (h : n ≤ dest.length) :
    SKE_CopyByte dest 0 src 0 n = readBytes src 0 n ++ dest.drop n := by
  apply ext_getD
  · simp [SKE_CopyByte_length, readBytes_length]
    omega
  · intro j hj
    rw [SKE_CopyByte_length] at hj
    rw [SKE_CopyByte_getD, getD_append_nat, readBytes_length, readBytes_getD]
    by_cases c : j < n
    · have c1 : 0 ≤ j ∧ j < 0 + n ∧ j < dest.length := by omega
      rw [if_pos c1, if_pos c, if_pos c]
      simp
    · have c1 : ¬ (0 ≤ j ∧ j < 0 + n ∧ j < dest.length) := by omega
      rw [if_neg c1, if_neg c]
      simp only [List.getD_eq_getElem?_getD, List.getElem?_drop]
      congr 2
      omega

theorem readBytes_copy16 (buf src : List Nat) (n : Nat) (hn : n ≤ 16) (hbuf : buf.length = 16) :
    readBytes (SKE_CopyByte buf 0 src 0 16) 0 n = readBytes src 0 n := by
  rw [readBytes_eq_iff]
  intro j hj
  rw [SKE_CopyByte_getD]
  have c1 : 0 ≤ j ∧ j < 0 + 16 ∧ j < buf.length := by omega
  rw [if_pos c1]
  simp

theorem xor_bit_ne (x b : Nat) : x ^^^ (1 <<< b) ≠ x := by
  intro h
  have h2 : x ^^^ (1 <<< b) = x ^^^ 0 := by rw [h, Nat.xor_zero]
  have h3 := Nat.xor_right_injective h2
  rw [Nat.shiftLeft_eq, Nat.one_mul] at h3
  exact absurd h3 (by positivity)

theorem take_set_ne (l : List Nat) (i n v : Nat) (hi : i < n) (hn : n ≤ l.length)
    (hv : v ≠ l.getD i 0) : (l.set i v).take n ≠ l.take n := by
  intro h
  have h2 := congrArg (fun x => x.getD i 0) h
  simp only [List.getD_eq_getElem?_getD, List.getElem?_take, hi, if_true, List.getElem?_set] at h2
  have hil : i < l.length := by omega
  simp [hil] at h2
  apply hv
  rw [List.getD_eq_getElem?_getD, List.getElem?_eq_getElem hil]
  simpa using h2

theorem readBlock16 (env : SkeEnv) (alg : Nat) (h : IS_SKE_XCM_MD_ALG alg = true)
    (buf : List Nat) (s : SkeHw) :
    (SKE_ReadBlock env alg (some buf) 0 s).2 =
      some (SKE_CopyByte buf 0 (env.dout s.log s.tick) 0 16) := by
  obtain ⟨h1, h2⟩ := xcm_alg_blockSize alg h
  simp only [SKE_ReadBlock, h1, h2, SKE_BLOCK_SIZE_16BYTE, Bool.not_true, Bool.false_eq_true,
    if_false, if_true]

/-- C6: `SKE_XcmFinal` with a non-null MAC buffer and `1 ≤ MacSize ≤ 16`, when the final transform
completes (the wait after `START` returns `LL_OK` in state `s1`).  Encrypting, it returns `LL_OK`
and the MAC buffer holds the first `MacSize` bytes of the result block, the rest of the buffer
being unchanged.  Decrypting, it returns `LL_OK` if the first `MacSize` bytes of the supplied tag
equal those of the result block and `LL_ERR` otherwise, and the tag buffer is unchanged; if a tag
is accepted, the tag with any single bit flipped in one of its first `MacSize` bytes is
rejected. -/
theorem C6_xcm_final (env : SkeEnv) (f : stc_ske_xcm_final_t) (mac au8Mac : List Nat)
    (s s1 : SkeHw) (halg : IS_SKE_XCM_MD_ALG f.u32Alg = true) (hmac : f.pu8Mac = some mac)
    (hsz1 : 1 ≤ f.u32MacSize) (hsz : f.u32MacSize ≤ SKE_MAC_SIZE_MAX)
    (hlen : f.u32MacSize ≤ mac.length) (hbuf : au8Mac.length = SKE_BLOCK_SIZE_MAX)
    (hw : SKE_WaitTillDone env (s.wr HwOp.ctrlStart) = some (LL_OK, s1)) :
    (f.u32Crypto = SKE_CRYPTO_ENCRYPT →
      SKE_XcmFinal env (some f) au8Mac s =
        some (LL_OK, some (readBytes (env.dout s1.log s1.tick) 0 f.u32MacSize ++
          mac.drop f.u32MacSize), s1)) ∧
    (f.u32Crypto = SKE_CRYPTO_DECRYPT →
      SKE_XcmFinal env (some f) au8Mac s =
        some ((if mac.take f.u32MacSize = readBytes (env.dout s1.log s1.tick) 0 f.u32MacSize
          then LL_OK else LL_ERR), some mac, s1)) ∧
    (f.u32Crypto = SKE_CRYPTO_DECRYPT →
      mac.take f.u32MacSize = readBytes (env.dout s1.log s1.tick) 0 f.u32MacSize →
      ∀ i b, i < f.u32MacSize → b < 8 →
        SKE_XcmFinal env
          (some { f with pu8Mac := some (mac.set i (mac.getD i 0 ^^^ (1 <<< b))) }) au8Mac s =
          some (LL_ERR, some (mac.set i (mac.getD i 0 ^^^ (1 <<< b))), s1)) := by
  unfold SKE_MAC_SIZE_MAX SKE_BLOCK_SIZE_16BYTE at hsz
  unfold SKE_BLOCK_SIZE_MAX SKE_BLOCK_SIZE_16BYTE at hbuf
  have hne : f.u32MacSize ≠ 0 := by omega
  have hdec : ∀ tag : List Nat, f.u32MacSize ≤ tag.length →
      f.u32Crypto = SKE_CRYPTO_DECRYPT →
      SKE_XcmFinal env (some { f with pu8Mac := some tag }) au8Mac s =
        some ((if tag.take f.u32MacSize = readBytes (env.dout s1.log s1.tick) 0 f.u32MacSize
          then LL_OK else LL_ERR), some tag, s1) := by
    intro tag htl hc
    have hc2 : ¬ (SKE_CRYPTO_DECRYPT = SKE_CRYPTO_ENCRYPT) := by decide
    unfold SKE_XcmFinal
    simp only [hw, if_true, ne_eq, hne, not_false_eq_true, hc, hc2, if_false,
      readBlock16 env f.u32Alg halg, Option.getD_some, SKE_CompareByte_eq,
      readBytes_copy16 au8Mac _ _ hsz hbuf, readBytes_zero_eq_take tag _ htl]
    by_cases h : tag.take f.u32MacSize = readBytes (env.dout s1.log s1.tick) 0 f.u32MacSize
    · rw [if_pos h, if_pos h.symm]
    · rw [if_neg h, if_neg (fun h2 => h h2.symm)]
  refine ⟨?_, ?_, ?_⟩
  · intro hc
    unfold SKE_XcmFinal
    simp only [hw, if_true, hmac, ne_eq, hne, not_false_eq_true, hc,
      readBlock16 env f.u32Alg halg, Option.getD_some]
    rw [SKE_CopyByte_eq mac _ _ hlen, readBytes_copy16 au8Mac _ _ hsz hbuf]
  · intro hc
    have := hdec mac hlen hc
    obtain ⟨a1, a2, a3, a4, a5⟩ := f
    simp only at hmac
    subst hmac
    exact this
  · intro hc hvalid i b hi _
    have h1 := hdec (mac.set i (mac.getD i 0 ^^^ (1 <<< b))) (by rw [List.length_set]; exact hlen)
      hc
    rw [h1, if_neg]
    rw [← hvalid]
    exact take_set_ne mac i f.u32MacSize _ hi hlen (xor_bit_ne _ _)

theorem C6_xcm_final_witness :
    SKE_XcmFinal (envConst [1, 2, 3, 4, 5, 6, 7, 8, 9, 10, 11, 12, 13, 14, 15, 16])
      (some ⟨SKE_ALG_AES_128, SKE_MD_GCM 28, SKE_CRYPTO_DECRYPT, some [1, 2, 3, 5], 4⟩)
      (List.replicate 16 0) ⟨[], 0⟩ =
      some (LL_ERR, some [1, 2, 3, 5], ⟨[HwOp.ctrlStart, HwOp.sr2Done 0], 1⟩) :=
  ((C6_xcm_final (envConst [1, 2, 3, 4, 5, 6, 7, 8, 9, 10, 11, 12, 13, 14, 15, 16])
    ⟨SKE_ALG_AES_128, SKE_MD_GCM 28, SKE_CRYPTO_DECRYPT, some [1, 2, 3, 5], 4⟩ [1, 2, 3, 5]
    (List.replicate 16 0) ⟨[], 0⟩ ⟨[HwOp.ctrlStart, HwOp.sr2Done 0], 1⟩ (by decide) rfl
    (by decide) (by decide) (by decide) (by decide) (by decide)).2.1 rfl).trans (by decide)

theorem allMidValid_envConst (d : List Nat) : AllMidValid (envConst d) := by
  intro log t
  exact ⟨0, Nat.zero_le _, rfl⟩

theorem alg_md_cmac (mp alg : Nat) (h : IS_SKE_ALG alg = true) :
    IS_SKE_ALG_MD mp alg (SKE_MD_CMAC mp) = true := by
  simp [IS_SKE_ALG_MD, h]

theorem cmac_feed_ok (mp : Nat) (env : SkeEnv) (hd : AllDone env) (alg : Nat)
    (halg : IS_SKE_ALG alg = true) (pu8Msg : Option (List Nat)) (n : Nat) (hn : n < U32_MOD)
    (hlen : ∀ msg, pu8Msg = some msg → n ≤ msg.length) (s : SkeHw) :
    ∃ (buf : List Nat) (s1 : SkeHw),
      SKE_CmacAction.feed mp env alg pu8Msg n s = some (LL_OK, buf, s1) ∧ buf.length = 16 := by
  have hbs := blockSize_of_alg alg halg
  have hbs2 : m_au8SkeAlgBlockSize.getD alg 0 = 8 ∨ m_au8SkeAlgBlockSize.getD alg 0 = 16 := by
    by_cases h : alg = SKE_ALG_DES
    · left; simpa [h] using hbs
    · right; simpa [h] using hbs
  have hfin : ∀ (r : Nat) (buf : List Nat) (s1 : SkeHw), buf.length = 16 →
      ∃ s2, (match (some (LL_OK, r, buf, s1) : Option (LLRet × Nat × List Nat × SkeHw)) with
        | none => none
        | some (i32Ret, u32RmainSize, au8Buffer, s1) =>
          if i32Ret = LL_OK then
            match SKE_UpdateOneBlock mp env alg (SKE_MD_CMAC mp) (some au8Buffer) none 0 1
              (s1.wr (HwOp.dinCrWrite ((u32RmainSize <<< 3) % U32_MOD))) with
            | none => none
            | some (i32Ret2, _, s3) => some (i32Ret2, au8Buffer, s3)
          else some (i32Ret, au8Buffer, s1)) = some (LL_OK, buf, s2) := by
    intro r buf s1 _
    obtain ⟨t', ht'⟩ := update_ok mp env hd alg (SKE_MD_CMAC mp) halg buf none 0 1
      (s1.wr (HwOp.dinCrWrite ((r <<< 3) % U32_MOD)))
    simp only [if_true, ht']
    exact ⟨_, rfl⟩
  unfold SKE_CmacAction.feed
  cases pu8Msg with
  | none =>
    obtain ⟨s2, h2⟩ := hfin 0 (List.replicate SKE_BLOCK_SIZE_MAX 0) s (by simp [SKE_BLOCK_SIZE_MAX, SKE_BLOCK_SIZE_16BYTE])
    exact ⟨_, s2, h2, by simp [SKE_BLOCK_SIZE_MAX, SKE_BLOCK_SIZE_16BYTE]⟩
  | some msg =>
    have hl := hlen msg rfl
    by_cases hn0 : n > 0
    · simp only [hn0, if_true]
      generalize hb : m_au8SkeAlgBlockSize.getD alg 0 = bs at *
      have hrem : (if n % bs = 0 then bs else n % bs) = (n - 1) % bs + 1 := by
        rcases hbs2 with rfl | rfl <;> split_ifs <;> omega
      have hr2 : (n - 1) % bs + 1 ≤ n := by
        have : (n - 1) % bs ≤ n - 1 := Nat.mod_le _ _
        omega
      have hsub : u32_sub n ((n - 1) % bs + 1) = n - ((n - 1) % bs + 1) :=
        u32_sub_of_le _ _ hr2 hn
      rw [hrem, hsub]
      have hbl : (SKE_CopyByte (List.replicate SKE_BLOCK_SIZE_MAX 0) 0 msg
          (n - ((n - 1) % bs + 1)) ((n - 1) % bs + 1)).length = 16 := by
        simp [SKE_CopyByte_length, SKE_BLOCK_SIZE_MAX, SKE_BLOCK_SIZE_16BYTE]
      by_cases hs : n - ((n - 1) % bs + 1) > 0
      · simp only [hs, if_true]
        obtain ⟨out', t', h1, -⟩ := cryptoBlocks_ok mp env hd alg (SKE_MD_CMAC mp)
          (alg_md_cmac mp alg halg) msg none (n - ((n - 1) % bs + 1)) (by omega) (by omega)
          (by omega) s
        rw [h1]
        obtain ⟨s2, h2⟩ := hfin ((n - 1) % bs + 1) _ ⟨s.log ++
          (leadOps msg (m_au8SkeAlgBlockSize.getD alg 0)
            ((n - ((n - 1) % bs + 1) - ((n - ((n - 1) % bs + 1) - 1) %
              m_au8SkeAlgBlockSize.getD alg 0 + 1)) / m_au8SkeAlgBlockSize.getD alg 0) 0 ++
            blockOps (IS_SKE_XCM_MD mp (SKE_MD_CMAC mp)) false
              (lastBlock msg (n - ((n - 1) % bs + 1)) (m_au8SkeAlgBlockSize.getD alg 0))), t'⟩ hbl
        exact ⟨_, s2, h2, hbl⟩
      · simp only [hs, if_false]
        obtain ⟨s2, h2⟩ := hfin ((n - 1) % bs + 1) _ s hbl
        exact ⟨_, s2, h2, hbl⟩
    · simp only [hn0, if_false]
      obtain ⟨s2, h2⟩ := hfin 0 (List.replicate SKE_BLOCK_SIZE_MAX 0) s (by simp [SKE_BLOCK_SIZE_MAX, SKE_BLOCK_SIZE_16BYTE])
      exact ⟨_, s2, h2, by simp [SKE_BLOCK_SIZE_MAX, SKE_BLOCK_SIZE_16BYTE]⟩

theorem cmac_poll_ok (env : SkeEnv) (macSize : Nat) (buf : List Nat) (log : List HwOp) :
    ∀ (i fuel cnt t : Nat), i < fuel → cnt + i ≤ SKE_TIMEOUT_VAL →
      env.midValid log (t + i) = true →
      ∃ t', ∀ (action : Nat) (mac : List Nat),
        SKE_CmacAction.poll env action mac macSize buf fuel cnt ⟨log, t⟩ =
          some (if action = SKE_CMAC_GENERATE then
              (LL_OK, SKE_CopyByte mac 0 (SKE_CopyByte buf 0
                (env.midIv (log ++ [HwOp.sr1MidValid 0]) t') 0 16) 0 macSize,
                ⟨log ++ [HwOp.sr1MidValid 0], t'⟩)
            else
              (SKE_CompareByte mac (SKE_CopyByte buf 0
                (env.midIv (log ++ [HwOp.sr1MidValid 0]) t') 0 16) macSize, mac,
                ⟨log ++ [HwOp.sr1MidValid 0], t'⟩))
  | 0, fuel, cnt, t, hf, _, hv => by
    obtain ⟨f, rfl⟩ : ∃ f, fuel = f + 1 := ⟨fuel - 1, by omega⟩
    simp only [Nat.add_zero] at hv
    refine ⟨t + 1, fun action mac => ?_⟩
    simp only [SKE_CmacAction.poll, hv, if_true, SkeHw.wr, SKE_ReadMidIv, Option.getD_some]
    split_ifs <;> rfl
  | i + 1, fuel, cnt, t, hf, hc, hv => by
    obtain ⟨f, rfl⟩ : ∃ f, fuel = f + 1 := ⟨fuel - 1, by omega⟩
    by_cases h : env.midValid log t = true
    · refine ⟨t + 1, fun action mac => ?_⟩
      simp only [SKE_CmacAction.poll, h, if_true, SkeHw.wr, SKE_ReadMidIv, Option.getD_some]
      split_ifs <;> rfl
    · have hc2 : ¬ (cnt + 1 > SKE_TIMEOUT_VAL) := by omega
      have e : t + (i + 1) = t + 1 + i := by omega
      rw [e] at hv
      obtain ⟨t', ht'⟩ := cmac_poll_ok env macSize buf log i f (cnt + 1) (t + 1) (by omega)
        (by omega) hv
      refine ⟨t', fun action mac => ?_⟩
      rw [SKE_CmacAction.poll]
      simp only [h, hc2, if_false, Bool.false_eq_true]
      exact ht' action mac

/-- C7: `SKE_CmacAction` with valid parameters (valid algorithm, non-null MAC buffer of at least
`MacSize` bytes, `1 ≤ MacSize ≤ 16`, message buffer of at least `MsgSize` bytes) on an engine
that completes every transform and signals the intermediate value.  There is one intermediate
block `mid`, read from `MID_IV` in the final state and independent of the action and of the MAC
buffer, such that: Generate returns `LL_OK` with the first `MacSize` bytes of `mid` copied to the
MAC buffer (the rest unchanged); Verify returns `LL_OK` if the first `MacSize` bytes of the
caller's MAC equal those of `mid` and `LL_ERR` otherwise, leaving the MAC unchanged; and Verify
of the MAC written by Generate (same engine, state, key and message) returns `LL_OK`. -/
theorem C7_cmac_action (mp : Nat) (env : SkeEnv) (alg : Nat) (pu8Msg : Option (List Nat))
    (n macSize : Nat) (s : SkeHw) (hd : AllDone env) (hmv : AllMidValid env)
    (halg : IS_SKE_ALG alg = true) (hn : n < U32_MOD)
    (hlen : ∀ msg, pu8Msg = some msg → n ≤ msg.length)
    (hsz1 : 1 ≤ macSize) (hsz : macSize ≤ SKE_MAC_SIZE_MAX) :
    ∃ (mid : List Nat) (s' : SkeHw), mid = env.midIv s'.log s'.tick ∧
      ∀ mac : List Nat, macSize ≤ mac.length →
        SKE_CmacAction mp env (some ⟨alg, SKE_CMAC_GENERATE, pu8Msg, n, some mac, macSize⟩) s =
          some (LL_OK, some (readBytes mid 0 macSize ++ mac.drop macSize), s') ∧
        SKE_CmacAction mp env (some ⟨alg, SKE_CMAC_VERIFY, pu8Msg, n, some mac, macSize⟩) s =
          some ((if mac.take macSize = readBytes mid 0 macSize then LL_OK else LL_ERR),
            some mac, s') ∧
        SKE_CmacAction mp env (some ⟨alg, SKE_CMAC_VERIFY, pu8Msg, n,
            some (readBytes mid 0 macSize ++ mac.drop macSize), macSize⟩) s =
          some (LL_OK, some (readBytes mid 0 macSize ++ mac.drop macSize), s') := by
  unfold SKE_MAC_SIZE_MAX SKE_BLOCK_SIZE_16BYTE at hsz
  obtain ⟨buf, s1, hfeed, hbuf⟩ := cmac_feed_ok mp env hd alg halg pu8Msg n hn hlen s
  obtain ⟨i, hi, hv⟩ := hmv s1.log s1.tick
  obtain ⟨log1, t1⟩ := s1
  obtain ⟨t', hpoll⟩ := cmac_poll_ok env macSize buf log1 i (SKE_TIMEOUT_VAL + 1) 0 t1
    (by omega) (by omega) hv
  have hne : ¬ (macSize = 0 ∨ IS_SKE_ALG alg = false) := by
    rw [halg]; simp; omega
  have hver : ∀ tag : List Nat, macSize ≤ tag.length →
      SKE_CmacAction mp env (some ⟨alg, SKE_CMAC_VERIFY, pu8Msg, n, some tag, macSize⟩) s =
        some ((if tag.take macSize = readBytes (env.midIv (log1 ++ [HwOp.sr1MidValid 0]) t') 0
            macSize then LL_OK else LL_ERR), some tag, ⟨log1 ++ [HwOp.sr1MidValid 0], t'⟩) := by
    intro tag htl
    have hvg : ¬ (SKE_CMAC_VERIFY = SKE_CMAC_GENERATE) := by decide
    unfold SKE_CmacAction
    simp only [hne, if_false, hfeed, if_true, hpoll, hvg, Option.map_some', SKE_CompareByte_eq,
      readBytes_copy16 buf _ _ hsz hbuf, readBytes_zero_eq_take tag _ htl]
  refine ⟨env.midIv (log1 ++ [HwOp.sr1MidValid 0]) t', ⟨log1 ++ [HwOp.sr1MidValid 0], t'⟩, rfl,
    fun mac hml => ⟨?_, hver mac hml, ?_⟩⟩
  · unfold SKE_CmacAction
    simp only [hne, if_false, hfeed, if_true, hpoll, Option.map_some']
    rw [SKE_CopyByte_eq mac _ _ hml, readBytes_copy16 buf _ _ hsz hbuf]
  · rw [hver _ (by simp [readBytes_length])]
    rw [if_pos]
    rw [List.take_left' (readBytes_length _ _ _)]

theorem C7_cmac_action_witness :
    SKE_CmacAction 28 (envConst [1, 2, 3, 4, 5, 6, 7, 8, 9, 10, 11, 12, 13, 14, 15, 16])
      (some ⟨SKE_ALG_AES_128, SKE_CMAC_GENERATE, some [9, 9, 9], 3, some [0, 0, 0, 0, 0], 4⟩)
      ⟨[], 0⟩ =
    some (LL_OK, some [1, 2, 3, 4, 0],
      ⟨[HwOp.dinCrWrite 24, HwOp.dinCrLast 1,
        HwOp.din [9, 9, 9, 0, 0, 0, 0, 0, 0, 0, 0, 0, 0, 0, 0, 0], HwOp.ctrlStart,
        HwOp.sr2Done 0, HwOp.dinCrLast 0, HwOp.dinCrClrLastLen, HwOp.sr1MidValid 0], 2⟩) := by
  obtain ⟨mid, s', _, h⟩ := C7_cmac_action 28
    (envConst [1, 2, 3, 4, 5, 6, 7, 8, 9, 10, 11, 12, 13, 14, 15, 16]) SKE_ALG_AES_128
    (some [9, 9, 9]) 3 4 ⟨[], 0⟩ (allDone_envConst _) (allMidValid_envConst _) (by decide)
    (by decide) (by intro msg h; cases h; decide) (by decide) (by decide)
  have h1 := (h [0, 0, 0, 0, 0] (by decide)).1
  rw [h1]
  exact h1.symm.trans (by decide)

theorem waitIdle_idle (env : SkeEnv) (s : SkeHw) (h : env.busy s.log s.tick = false) :
    SKE_Init.waitIdle env (SKE_TIMEOUT_VAL + 1) 0 s = some (true, ⟨s.log, s.tick + 1⟩) := by
  simp [SKE_Init.waitIdle, h]

theorem ccmPrepareInit_reject (init : stc_ske_init_t) (c : stc_ske_ccm_init_para_t)
    (ctx : stc_ske_ccm_ctx_t) (nonce : List Nat) (s : SkeHw)
    (hccm : init.pstcCcmInit = some c) (hnonce : c.pu8Nonce = some nonce)
    (hcs32 : c.u32CryptoSize < U32_MOD)
    (hrej : (c.u32AadSize = 0 ∧ c.u32CryptoSize = 0) ∨ 256 ^ c.u32LengthSize ≤ c.u32CryptoSize) :
    SKE_CcmPrepareInit init (some ctx) s =
      some (LL_ERR_INVD_PARAM, init.pu8Iv, some ctx, s) := by
  unfold SKE_CcmPrepareInit
  simp only [hccm, hnonce]
  by_cases h0 : c.u32AadSize = 0 ∧ c.u32CryptoSize = 0
  · have h1 : (c.u32AadSize ||| c.u32CryptoSize) = 0 := (lor_eq_zero _ _).mpr h0
    simp only [h1, if_true]
  · have h1 : ¬ ((c.u32AadSize ||| c.u32CryptoSize) = 0) := by rw [lor_eq_zero]; exact h0
    have h2 : 256 ^ c.u32LengthSize ≤ c.u32CryptoSize := by
      rcases hrej with h | h
      · exact absurd h h0
      · exact h
    have h3 : spec_minBytes c.u32CryptoSize > c.u32LengthSize := by
      have := (spec_minBytes_le_iff c.u32CryptoSize c.u32LengthSize hcs32).not
      omega
    simp only [h1, if_false, prepare_loop_eq _ hcs32, h3, if_true]

/-- C8: for a GCM or CCM configuration with non-null key, IV and mode parameters and an idle
engine, in which `CryptoSize` and `AadSize` are both 0, `SKE_Init` returns `LL_ERR_INVD_PARAM`;
the IV buffer is returned unchanged and the only register write is the clearing of the done flag
(no key, IV or length register is written and nothing is started).  Conversely the test
`(AadSize | CryptoSize) == 0` holds only when both are 0: `SKE_GcmPrepareInit` rejects exactly the
both-zero configurations, and `SKE_CcmPrepareInit` accepts every configuration with a non-zero
size whose `CryptoSize` fits `LengthSize`. -/
theorem C8_both_sizes_zero (mp : Nat) (env : SkeEnv) (init : stc_ske_init_t)
    (ctx0 : stc_ske_ccm_ctx_t) (s : SkeHw) (key ivb : List Nat)
    (hkey : init.pu8Key = some key) (hiv : init.pu8Iv = some ivb)
    (hidle : env.busy s.log s.tick = false)
    (hcfg : (init.u32Mode = SKE_MD_GCM mp ∧
        ∃ g, init.pstcGcmInit = some g ∧ g.u32AadSize = 0 ∧ g.u32CryptoSize = 0) ∨
      (init.u32Mode = SKE_MD_CCM mp ∧
        ∃ c nonce, init.pstcCcmInit = some c ∧ c.pu8Nonce = some nonce ∧
          c.u32AadSize = 0 ∧ c.u32CryptoSize = 0)) :
    SKE_Init mp env (some init) ctx0 s =
      some (LL_ERR_INVD_PARAM, some ivb, ⟨s.log ++ [HwOp.sr2Done 0], s.tick + 1⟩) ∧
    (∀ a c : Nat, (a ||| c) = 0 ↔ a = 0 ∧ c = 0) ∧
    (∀ g, init.pstcGcmInit = some g →
      ((SKE_GcmPrepareInit init s).1 = LL_ERR_INVD_PARAM ↔
        g.u32AadSize = 0 ∧ g.u32CryptoSize = 0)) ∧
    (∀ c nonce, init.pstcCcmInit = some c → c.pu8Nonce = some nonce →
      ¬ (c.u32AadSize = 0 ∧ c.u32CryptoSize = 0) → c.u32CryptoSize < U32_MOD →
      c.u32CryptoSize < 256 ^ c.u32LengthSize →
      (SKE_CcmPrepareInit init (some ctx0) s).map (fun r => r.1) = some LL_OK) := by
  refine ⟨?_, lor_eq_zero, ?_, ?_⟩
  · have hgc : ¬ (SKE_MD_CCM mp = SKE_MD_GCM mp) := by simp [SKE_MD_CCM, SKE_MD_GCM, shl_inj]
    rcases hcfg with ⟨hm, g, hg, ha, hc⟩ | ⟨hm, c, nonce, hcc, hn, ha, hc⟩
    · unfold SKE_Init
      simp only [hkey, hiv, Option.isNone_some, Bool.false_eq_true, false_or, and_false, if_false,
        waitIdle_idle env s hidle, hm, if_true, SKE_GcmPrepareInit, hg, ha, hc]
      simp [SkeHw.wr]
    · have hrej := ccmPrepareInit_reject init c ctx0 nonce
        ((⟨s.log, s.tick + 1⟩ : SkeHw).wr (HwOp.sr2Done 0)) hcc hn
        (by rw [hc]; decide) (Or.inl ⟨ha, hc⟩)
      unfold SKE_Init
      simp only [hkey, hiv, Option.isNone_some, Bool.false_eq_true, false_or, and_false, if_false,
        waitIdle_idle env s hidle, hm, hgc, if_true, hrej]
      simp [SkeHw.wr]
  · intro g hg
    unfold SKE_GcmPrepareInit
    rw [hg]
    by_cases h : (g.u32AadSize ||| g.u32CryptoSize) = 0
    · simp only [h, if_true, true_iff]
      exact (lor_eq_zero _ _).mp h
    · simp only [h, if_false]
      constructor
      · intro h2; cases h2
      · intro h2; exact absurd ((lor_eq_zero _ _).mpr h2) h
  · intro c nonce hcc hn hnz h32 hfit
    rw [ccmPrepareInit_accept init c ctx0 nonce s hcc hn hnz h32 hfit]
    rfl

theorem C8_both_sizes_zero_witness :
    SKE_Init 28 (envConst [])
      (some ⟨SKE_ALG_AES_128, SKE_MD_GCM 28, 0, 0, some [1], some [2], some ⟨0, 0, none⟩, none⟩)
      ⟨0, 0, 0, 0, 0, 0, 0, []⟩ ⟨[], 0⟩ =
      some (LL_ERR_INVD_PARAM, some [2], ⟨[] ++ [HwOp.sr2Done 0], 0 + 1⟩) :=
  (C8_both_sizes_zero 28 (envConst [])
    ⟨SKE_ALG_AES_128, SKE_MD_GCM 28, 0, 0, some [1], some [2], some ⟨0, 0, none⟩, none⟩
    ⟨0, 0, 0, 0, 0, 0, 0, []⟩ ⟨[], 0⟩ [1] [2] rfl rfl rfl
    (Or.inl ⟨rfl, ⟨0, 0, none⟩, rfl, rfl, rfl⟩)).1

/-- C9: for a CCM configuration with non-null context, parameters and nonce and not both sizes
zero, `SKE_CcmPrepareInit` returns `LL_ERR_INVD_PARAM` when `CryptoSize ≥ 256 ^ LengthSize`, that
is when the byte count computed by its loop (the minimal number of bytes holding `CryptoSize`)
exceeds `LengthSize`; the IV buffer, the context and the peripheral state are then unchanged.
Otherwise it returns `LL_OK`. -/
theorem C9_ccm_length_size (init : stc_ske_init_t) (c : stc_ske_ccm_init_para_t)
    (ctx : stc_ske_ccm_ctx_t) (nonce : List Nat) (s : SkeHw)
    (hccm : init.pstcCcmInit = some c) (hnonce : c.pu8Nonce = some nonce)
    (hnz : ¬ (c.u32AadSize = 0 ∧ c.u32CryptoSize = 0)) (hcs32 : c.u32CryptoSize < U32_MOD) :
    (256 ^ c.u32LengthSize ≤ c.u32CryptoSize →
      SKE_CcmPrepareInit init (some ctx) s =
        some (LL_ERR_INVD_PARAM, init.pu8Iv, some ctx, s)) ∧
    (c.u32CryptoSize < 256 ^ c.u32LengthSize →
      ∃ iv' ctx' s', SKE_CcmPrepareInit init (some ctx) s = some (LL_OK, iv', ctx', s')) ∧
    SKE_CcmPrepareInit.loop 5 c.u32CryptoSize 0 = some (spec_minBytes c.u32CryptoSize) ∧
    (spec_minBytes c.u32CryptoSize > c.u32LengthSize ↔
      256 ^ c.u32LengthSize ≤ c.u32CryptoSize) := by
  refine ⟨fun h => ccmPrepareInit_reject init c ctx nonce s hccm hnonce hcs32 (Or.inr h),
    fun h => ⟨_, _, _, ccmPrepareInit_accept init c ctx nonce s hccm hnonce hnz hcs32 h⟩,
    prepare_loop_eq _ hcs32, ?_⟩
  have := spec_minBytes_le_iff c.u32CryptoSize c.u32LengthSize hcs32
  constructor
  · intro h
    by_contra h2
    have := this.mpr (by omega)
    omega
  · intro h
    by_contra h2
    have := this.mp (by omega)
    omega

theorem C9_ccm_length_size_witness :
    SKE_CcmPrepareInit
      ⟨SKE_ALG_AES_128, SKE_MD_CCM 28, 0, 0, some [1], some [2], none,
        some ⟨65536, 1, 8, 2, some [3], none⟩⟩
      (some ⟨0, 0, 0, 0, 0, 0, 0, []⟩) ⟨[], 0⟩ =
      some (LL_ERR_INVD_PARAM, some [2], some ⟨0, 0, 0, 0, 0, 0, 0, []⟩, ⟨[], 0⟩) :=
  (C9_ccm_length_size
    ⟨SKE_ALG_AES_128, SKE_MD_CCM 28, 0, 0, some [1], some [2], none,
      some ⟨65536, 1, 8, 2, some [3], none⟩⟩ ⟨65536, 1, 8, 2, some [3], none⟩
    ⟨0, 0, 0, 0, 0, 0, 0, []⟩ [3] ⟨[], 0⟩ rfl rfl (by decide) (by decide)).1 (by decide)

theorem mem_initOps_iv (mp : Nat) (init : stc_ske_init_t) (ivb key : List Nat)
    (h : init.u32Mode ≠ SKE_MD_ECB mp) : ∃ v, HwOp.iv v ∈ initOps mp init ivb key := by
  unfold initOps
  rw [if_pos h]
  refine ⟨(if init.u32Mode ≠ SKE_MD_CMAC mp then
      SKE_CopyByte (List.replicate 16 0) 0 ivb 0
        (if init.u32Mode = SKE_MD_GCM mp then SKE_IV_SIZE_12BYTE
         else m_au8SkeAlgBlockSize.getD init.u32Alg 0)
      else List.replicate 16 0), ?_⟩
  simp only [List.mem_append, List.mem_singleton, true_or, or_true]

theorem wait_loop_cases (env : SkeEnv) (log : List HwOp) :
    ∀ (f cnt t : Nat), SKE_TIMEOUT_VAL ≤ cnt + f →
      ∃ t', SKE_WaitTillDone.loop env (f + 1) cnt ⟨log, t⟩ =
          some (LL_OK, ⟨log ++ [HwOp.sr2Done 0], t'⟩) ∨
        SKE_WaitTillDone.loop env (f + 1) cnt ⟨log, t⟩ = some (LL_ERR_TIMEOUT, ⟨log, t'⟩)
  | 0, cnt, t, h => by
    by_cases hr : (env.done log t && !env.busy log t) = true
    · exact ⟨t + 1, Or.inl (by simp [SKE_WaitTillDone.loop, hr, SkeHw.wr])⟩
    · have hc : cnt + 1 > SKE_TIMEOUT_VAL := by omega
      exact ⟨t + 1, Or.inr (by simp [SKE_WaitTillDone.loop, hr, hc])⟩
  | f + 1, cnt, t, h => by
    by_cases hr : (env.done log t && !env.busy log t) = true
    · exact ⟨t + 1, Or.inl (by simp [SKE_WaitTillDone.loop, hr, SkeHw.wr])⟩
    · by_cases hc : cnt + 1 > SKE_TIMEOUT_VAL
      · exact ⟨t + 1, Or.inr (by rw [SKE_WaitTillDone.loop]; simp [hr, hc])⟩
      · obtain ⟨t', ht'⟩ := wait_loop_cases env log f (cnt + 1) (t + 1) (by omega)
        refine ⟨t', ?_⟩
        rw [SKE_WaitTillDone.loop]
        simp only [hr, hc, if_false]
        exact ht'

theorem wait_cases (env : SkeEnv) (s : SkeHw) :
    ∃ t', SKE_WaitTillDone env s = some (LL_OK, ⟨s.log ++ [HwOp.sr2Done 0], t'⟩) ∨
      SKE_WaitTillDone env s = some (LL_ERR_TIMEOUT, ⟨s.log, t'⟩) := by
  obtain ⟨log, t⟩ := s
  exact wait_loop_cases env log SKE_TIMEOUT_VAL 0 t (by omega)

theorem wait_loop_stuck (env : SkeEnv) (log : List HwOp) (hs : TransformStuck env log) :
    ∀ (f cnt t : Nat), SKE_TIMEOUT_VAL ≤ cnt + f →
      ∃ t', SKE_WaitTillDone.loop env (f + 1) cnt ⟨log, t⟩ = some (LL_ERR_TIMEOUT, ⟨log, t'⟩)
  | 0, cnt, t, h => by
    have hr := hs t
    have hc : cnt + 1 > SKE_TIMEOUT_VAL := by omega
    exact ⟨t + 1, by simp [SKE_WaitTillDone.loop, hr, hc]⟩
  | f + 1, cnt, t, h => by
    have hr := hs t
    by_cases hc : cnt + 1 > SKE_TIMEOUT_VAL
    · exact ⟨t + 1, by rw [SKE_WaitTillDone.loop]; simp [hr, hc]⟩
    · obtain ⟨t', ht'⟩ := wait_loop_stuck env log hs f (cnt + 1) (t + 1) (by omega)
      refine ⟨t', ?_⟩
      rw [SKE_WaitTillDone.loop]
      simp only [hr, hc, if_false, Bool.false_eq_true]
      exact ht'

theorem wait_stuck_at (env : SkeEnv) (s : SkeHw) (hs : TransformStuck env s.log) :
    ∃ t', SKE_WaitTillDone env s = some (LL_ERR_TIMEOUT, ⟨s.log, t'⟩) := by
  obtain ⟨log, t⟩ := s
  exact wait_loop_stuck env log hs SKE_TIMEOUT_VAL 0 t (by omega)

theorem wait_ok_at (env : SkeEnv) (s : SkeHw) (hc : TransformCompletes env s.log) :
    ∃ t', SKE_WaitTillDone env s = some (LL_OK, ⟨s.log ++ [HwOp.sr2Done 0], t'⟩) := by
  obtain ⟨i, hi, h1, h2⟩ := hc s.tick
  obtain ⟨log, t⟩ := s
  exact wait_loop_ok env log i (SKE_TIMEOUT_VAL + 1) 0 t (by omega) (by omega) h1 h2

theorem completes_of_allDone (env : SkeEnv) (hd : AllDone env) (log : List HwOp) :
    TransformCompletes env log := fun t => hd log t

/-- The function `SKE_UpdateOneBlock` on a valid input pointer, in terms of the wait it contains. -/
theorem update_eq (mp : Nat) (env : SkeEnv) (alg mode : Nat)
    (h : IS_SKE_ALG alg = true) (inp : List Nat) (out : Option (List Nat)) (off isLast : Nat)
    (s : SkeHw) :
    SKE_UpdateOneBlock mp env alg mode (some inp) out off isLast s =
      match SKE_WaitTillDone env ⟨s.log ++ blockStart (isMarkMode mp mode && (isLast != 0))
          (readBytes inp 0 (m_au8SkeAlgBlockSize.getD alg 0)), s.tick⟩ with
      | none => none
      | some (i32Ret, s4) =>
        if i32Ret ≠ LL_OK then some (i32Ret, out, s4)
        else some (LL_OK,
          (if out.isSome then (SKE_ReadBlock env alg out off s4).2 else out),
          ⟨s4.log ++ blockPost (isMarkMode mp mode && (isLast != 0)) (mode == SKE_MD_CMAC mp),
            s4.tick⟩) := by
  obtain ⟨log, t⟩ := s
  simp only [SKE_UpdateOneBlock, writeBlock_ok alg h, Option.isNone_some, Bool.false_eq_true,
    if_false]
  generalize readBytes inp 0 (m_au8SkeAlgBlockSize.getD alg 0) = b
  by_cases hm : (isMarkMode mp mode && (isLast != 0)) = true
  · simp only [hm, if_true, SkeHw.wr, blockStart, List.append_assoc, List.singleton_append,
      blockPost, List.cons_append, List.nil_append]
    generalize SKE_WaitTillDone env _ = w
    rcases w with _ | ⟨ret, s4⟩
    · rfl
    · by_cases hc : (mode == SKE_MD_CMAC mp) = true <;> by_cases hr : ret = LL_OK <;>
        simp [hc, hr, SkeHw.wr]
  · simp only [hm, Bool.false_eq_true, if_false, SkeHw.wr, blockStart, List.append_assoc,
      List.singleton_append, blockPost, List.nil_append, List.append_nil, List.cons_append]

theorem blockPre_eq (mark : Bool) (b : List Nat) :
    blockPre mark b = blockStart mark b ++ [HwOp.sr2Done 0] := by
  cases mark <;> simp [blockPre, blockStart]

theorem update_ok_at (mp : Nat) (env : SkeEnv) (alg mode : Nat)
    (h : IS_SKE_ALG alg = true) (inp : List Nat) (out : Option (List Nat)) (off isLast : Nat)
    (s : SkeHw)
    (hc : TransformCompletes env (s.log ++ blockStart (isMarkMode mp mode && (isLast != 0))
      (readBytes inp 0 (m_au8SkeAlgBlockSize.getD alg 0)))) :
    ∃ t', SKE_UpdateOneBlock mp env alg mode (some inp) out off isLast s =
      some (LL_OK,
        (if out.isSome then (SKE_ReadBlock env alg out off
          ⟨s.log ++ blockPre (isMarkMode mp mode && (isLast != 0))
            (readBytes inp 0 (m_au8SkeAlgBlockSize.getD alg 0)), t'⟩).2 else out),
        ⟨s.log ++ blockOps (isMarkMode mp mode && (isLast != 0))
          (mode == SKE_MD_CMAC mp) (readBytes inp 0 (m_au8SkeAlgBlockSize.getD alg 0)), t'⟩) := by
  rw [update_eq mp env alg mode h]
  obtain ⟨t', ht'⟩ := wait_ok_at env ⟨s.log ++ blockStart (isMarkMode mp mode && (isLast != 0))
      (readBytes inp 0 (m_au8SkeAlgBlockSize.getD alg 0)), s.tick⟩ hc
  refine ⟨t', ?_⟩
  rw [ht']
  simp [blockOps, blockPre_eq, List.append_assoc]

theorem update_stuck_at (mp : Nat) (env : SkeEnv) (alg mode : Nat)
    (h : IS_SKE_ALG alg = true) (inp : List Nat) (out : Option (List Nat)) (off isLast : Nat)
    (s : SkeHw)
    (hc : TransformStuck env (s.log ++ blockStart (isMarkMode mp mode && (isLast != 0))
      (readBytes inp 0 (m_au8SkeAlgBlockSize.getD alg 0)))) :
    ∃ t', SKE_UpdateOneBlock mp env alg mode (some inp) out off isLast s =
      some (LL_ERR_TIMEOUT, out,
        ⟨s.log ++ blockStart (isMarkMode mp mode && (isLast != 0))
          (readBytes inp 0 (m_au8SkeAlgBlockSize.getD alg 0)), t'⟩) := by
  rw [update_eq mp env alg mode h]
  obtain ⟨t', ht'⟩ := wait_stuck_at env ⟨s.log ++ blockStart (isMarkMode mp mode && (isLast != 0))
      (readBytes inp 0 (m_au8SkeAlgBlockSize.getD alg 0)), s.tick⟩ hc
  refine ⟨t', ?_⟩
  rw [ht']
  simp

theorem update_cases (mp : Nat) (env : SkeEnv) (alg mode : Nat)
    (h : IS_SKE_ALG alg = true) (inp : List Nat) (out : Option (List Nat)) (off isLast : Nat)
    (s : SkeHw) :
    ∃ r, SKE_UpdateOneBlock mp env alg mode (some inp) out off isLast s = some r ∧
      (r.1 = LL_OK ∨ r.1 = LL_ERR_TIMEOUT) ∧ r.2.1.isSome = out.isSome := by
  rw [update_eq mp env alg mode h]
  obtain ⟨t', ht' | ht'⟩ := wait_cases env
    ⟨s.log ++ blockStart (isMarkMode mp mode && (isLast != 0))
      (readBytes inp 0 (m_au8SkeAlgBlockSize.getD alg 0)), s.tick⟩
  · rw [ht']
    refine ⟨_, rfl, Or.inl rfl, ?_⟩
    cases out with
    | none => rfl
    | some o => simp [readBlock_isSome]
  · rw [ht']
    exact ⟨_, rfl, Or.inr rfl, rfl⟩

theorem readBlock_eq (env : SkeEnv) (alg : Nat) (h : IS_SKE_ALG alg = true) (o : List Nat)
    (off : Nat) (s : SkeHw) :
    (SKE_ReadBlock env alg (some o) off s).2 =
      some (SKE_CopyByte o off (env.dout s.log s.tick) 0 (m_au8SkeAlgBlockSize.getD alg 0)) := by
  have hbs := blockSize_of_alg alg h
  unfold SKE_ReadBlock
  simp only [h, Bool.not_true, Bool.false_eq_true, if_false, SKE_BLOCK_SIZE_16BYTE]
  rw [hbs]
  by_cases hdes : alg = SKE_ALG_DES <;> simp [hdes]

theorem copy_splice (o : List Nat) (off : Nat) (src : List Nat) (n : Nat)
    (h : off + n ≤ o.length) :
    SKE_CopyByte o off src 0 n = o.take off ++ readBytes src 0 n ++ o.drop (off + n) := by
  apply ext_getD
  · simp [SKE_CopyByte_length, readBytes_length]
    omega
  · intro j hj
    rw [SKE_CopyByte_length] at hj
    rw [SKE_CopyByte_getD, getD_append_nat, getD_append_nat, readBytes_getD]
    simp only [List.length_append, List.length_take, readBytes_length]
    have hmin : min off o.length = off := by omega
    rw [hmin]
    by_cases c1 : j < off
    · have c2 : ¬ (off ≤ j ∧ j < off + n ∧ j < o.length) := by omega
      have c3 : j < off + n := by omega
      rw [if_neg c2, if_pos c3, if_pos c1]
      simp [List.getD_eq_getElem?_getD, List.getElem?_take, c1]
    · by_cases c2 : j < off + n
      · have c3 : off ≤ j ∧ j < off + n ∧ j < o.length := by omega
        have c4 : j - off < n := by omega
        rw [if_pos c3, if_pos c2, if_neg c1, if_pos c4]
      · have c3 : ¬ (off ≤ j ∧ j < off + n ∧ j < o.length) := by omega
        rw [if_neg c3, if_neg c2]
        simp only [List.getD_eq_getElem?_getD, List.getElem?_drop]
        congr 2
        omega

theorem lead_loop_total (mp : Nat) (env : SkeEnv) (alg mode : Nat)
    (h : IS_SKE_ALG alg = true) (inp : List Nat) (size bs : Nat) (hsz : size < U32_MOD)
    (hpos : 0 < bs) :
    ∀ (k i fuel : Nat) (out : Option (List Nat)) (s : SkeHw),
      i + k * bs = size → k < fuel →
      ∃ r, SKE_CryptoBlocksInternal.loop mp env alg mode inp bs size fuel i out s = some r ∧
        (r.1 = LL_OK ∨ r.1 = LL_ERR_TIMEOUT) ∧ r.2.2.1.isSome = out.isSome ∧
        (r.1 = LL_OK → r.2.1 = size)
  | 0, i, fuel, out, s, hi, hf => by
    obtain ⟨f, rfl⟩ : ∃ f, fuel = f + 1 := ⟨fuel - 1, by omega⟩
    have : ¬ (i < size) := by omega
    have e : i = size := by omega
    unfold SKE_CryptoBlocksInternal.loop
    rw [if_neg this]
    exact ⟨_, rfl, Or.inl rfl, rfl, fun _ => e⟩
  | k + 1, i, fuel, out, s, hi, hf => by
    obtain ⟨f, rfl⟩ : ∃ f, fuel = f + 1 := ⟨fuel - 1, by omega⟩
    have hk : (k + 1) * bs = k * bs + bs := by ring
    have hlt : i < size := by omega
    have hnext : (i + bs) % U32_MOD = i + bs := Nat.mod_eq_of_lt (by omega)
    have hi2 : (i + bs) + k * bs = size := by omega
    unfold SKE_CryptoBlocksInternal.loop
    rw [if_pos hlt]
    have hbody : ∃ r, SKE_CryptoBlocksInternal.body mp env alg mode inp i out s = some r ∧
        (r.1 = LL_OK ∨ r.1 = LL_ERR_TIMEOUT) ∧ r.2.1.isSome = out.isSome := by
      unfold SKE_CryptoBlocksInternal.body
      cases out with
      | none => exact update_cases mp env alg mode h (inp.drop i) none 0 0 s
      | some o => exact update_cases mp env alg mode h (inp.drop i) (some o) i 0 s
    obtain ⟨⟨ret, out1, s1⟩, hb1, hb2, hb3⟩ := hbody
    rw [hb1]
    simp only at hb2 hb3 ⊢
    rcases hb2 with rfl | rfl
    · simp only [ne_eq, not_true, if_false, hnext]
      obtain ⟨r, hr1, hr2, hr3, hr4⟩ := lead_loop_total mp env alg mode h inp size bs hsz hpos
        k (i + bs) f out1 s1 hi2 (by omega)
      exact ⟨r, hr1, hr2, hr3.trans hb3, hr4⟩
    · refine ⟨_, rfl, Or.inr rfl, hb3, ?_⟩
      intro hh
      cases hh

theorem blockSize_cases (alg : Nat) (h : IS_SKE_ALG alg = true) :
    m_au8SkeAlgBlockSize.getD alg 0 = 8 ∨ m_au8SkeAlgBlockSize.getD alg 0 = 16 := by
  rw [blockSize_of_alg alg h]
  by_cases hd : alg = SKE_ALG_DES
  · left; simp [hd]
  · right; simp [hd]

theorem cryptoBlocks_total (mp : Nat) (env : SkeEnv) (alg mode : Nat)
    (hv : IS_SKE_ALG_MD mp alg mode = true) (inp : List Nat) (pu8Out : Option (List Nat))
    (n : Nat) (hn1 : 1 ≤ n) (hn : n < U32_MOD) (s : SkeHw) :
    ∃ r, SKE_CryptoBlocksInternal mp env alg mode (some inp) pu8Out n s = some r ∧
      (r.1 = LL_OK ∨ r.1 = LL_ERR_TIMEOUT) := by
  have halg := alg_of_alg_md mp alg mode hv
  have hbs2 := blockSize_cases alg halg
  generalize hb : m_au8SkeAlgBlockSize.getD alg 0 = bs at *
  have hrem : (if n % bs = 0 then bs else n % bs) = (n - 1) % bs + 1 := by
    rcases hbs2 with rfl | rfl <;> split_ifs <;> omega
  have hr2 : (n - 1) % bs + 1 ≤ n := by
    have : (n - 1) % bs ≤ n - 1 := Nat.mod_le _ _
    omega
  have hsub : u32_sub n ((n - 1) % bs + 1) = n - ((n - 1) % bs + 1) := by
    unfold u32_sub U32_MOD at *
    rcases hbs2 with rfl | rfl <;> omega
  have hk : 0 + ((n - ((n - 1) % bs + 1)) / bs) * bs = n - ((n - 1) % bs + 1) := by
    rcases hbs2 with rfl | rfl <;> omega
  have hn0 : ¬ (n = 0) := by omega
  unfold SKE_CryptoBlocksInternal
  simp only [hn0, hv, Bool.true_eq_false, or_self, if_false, hb, hrem, hsub]
  obtain ⟨⟨ret, i, out1, s1⟩, h1, h2, -, -⟩ := lead_loop_total mp env alg mode halg inp
    (n - ((n - 1) % bs + 1)) bs (by omega) (by omega)
    ((n - ((n - 1) % bs + 1)) / bs) 0 (n - ((n - 1) % bs + 1) + 1) pu8Out s hk
    (by
      have : (n - ((n - 1) % bs + 1)) / bs ≤ n - ((n - 1) % bs + 1) := Nat.div_le_self _ _
      omega)
  rw [h1]
  simp only at h2 ⊢
  rcases h2 with rfl | rfl
  · simp only [ne_eq, not_true, if_false]
    obtain ⟨⟨ret2, last1, s2⟩, h3, h4, h5⟩ := update_cases mp env alg mode halg
      (SKE_CopyByte (List.replicate SKE_BLOCK_SIZE_MAX 0) 0 inp
        (n - ((n - 1) % bs + 1)) ((n - 1) % bs + 1))
      (some (SKE_CopyByte (List.replicate SKE_BLOCK_SIZE_MAX 0) 0 inp
        (n - ((n - 1) % bs + 1)) ((n - 1) % bs + 1))) 0
      (if mode = SKE_MD_CMAC mp then 0 else 1) s1
    rw [h3]
    simp only at h4 h5 ⊢
    rcases h4 with rfl | rfl
    · cases out1 <;> cases last1 <;> exact ⟨_, rfl, Or.inl rfl⟩
    · cases out1 <;> cases last1 <;> exact ⟨_, rfl, Or.inr rfl⟩
  · exact ⟨(LL_ERR_TIMEOUT, out1, s1), by simp, Or.inr rfl⟩

theorem validPair_iff (mp alg md : Nat) :
    IS_SKE_ALG_MD mp alg md = true ↔ spec_validPair mp alg md := by
  have ha : IS_SKE_ALG alg = true ↔
      alg ∈ [SKE_ALG_AES_128, SKE_ALG_AES_192, SKE_ALG_AES_256, SKE_ALG_SM4, SKE_ALG_DES] := by
    simp only [IS_SKE_ALG, SKE_ALG_AES_128, SKE_ALG_AES_256, Bool.and_eq_true, decide_eq_true_eq,
      SKE_ALG_AES_192, SKE_ALG_SM4, SKE_ALG_DES, List.mem_cons, List.mem_singleton,
      List.not_mem_nil, or_false]
    omega
  have hx : IS_SKE_XCM_MD_ALG alg = true ↔
      alg ∈ [SKE_ALG_AES_128, SKE_ALG_AES_192, SKE_ALG_AES_256, SKE_ALG_SM4] := by
    simp only [IS_SKE_XCM_MD_ALG, IS_SKE_ALG, SKE_ALG_AES_128, SKE_ALG_AES_256, SKE_ALG_DES,
      Bool.and_eq_true, decide_eq_true_eq, bne_iff_ne, ne_eq, SKE_ALG_AES_192, SKE_ALG_SM4,
      List.mem_cons, List.mem_singleton, List.not_mem_nil, or_false]
    omega
  have hm6 : md ∈ [SKE_MD_ECB mp, SKE_MD_CBC mp, SKE_MD_CFB mp, SKE_MD_OFB mp, SKE_MD_CTR mp,
      SKE_MD_CMAC mp] ↔ (IS_SKE_BASE_MD mp md = true ∨ md = SKE_MD_CMAC mp) := by
    simp only [IS_SKE_BASE_MD, Bool.or_eq_true, beq_iff_eq, List.mem_cons, List.mem_singleton,
      List.not_mem_nil, or_false]
    tauto
  have hm2 : md ∈ [SKE_MD_GCM mp, SKE_MD_CCM mp] ↔ IS_SKE_XCM_MD mp md = true := by
    simp only [IS_SKE_XCM_MD, Bool.or_eq_true, beq_iff_eq, List.mem_cons, List.mem_singleton,
      List.not_mem_nil, or_false]
  unfold spec_validPair
  rw [← ha, ← hx, hm6, hm2]
  simp only [IS_SKE_ALG_MD, Bool.or_eq_true, Bool.and_eq_true, beq_iff_eq]
  tauto

theorem not_validPair_des_xcm (mp md : Nat) (h : IS_SKE_XCM_MD mp md = true) :
    ¬ spec_validPair mp SKE_ALG_DES md := by
  rw [← validPair_iff]
  have h1 : IS_SKE_BASE_MD mp md = false := by
    unfold IS_SKE_XCM_MD at h
    simp only [Bool.or_eq_true, beq_iff_eq] at h
    rcases h with h | h <;> subst h <;>
      simp [IS_SKE_BASE_MD, SKE_MD_ECB, SKE_MD_CBC, SKE_MD_CFB, SKE_MD_OFB, SKE_MD_CTR,
        SKE_MD_GCM, SKE_MD_CCM, shl_inj]
  have h2 := xcm_not_cmac mp md h
  have h3 : IS_SKE_XCM_MD_ALG SKE_ALG_DES = false := by decide
  simp [IS_SKE_ALG_MD, h1, h2, h3]

theorem not_validPair_alg (mp alg md : Nat) (h : alg < 1 ∨ 5 < alg) :
    ¬ spec_validPair mp alg md := by
  rw [← validPair_iff]
  have h1 : IS_SKE_ALG alg = false := by
    simp only [IS_SKE_ALG, SKE_ALG_AES_128, SKE_ALG_AES_256, Bool.and_eq_false_iff,
      decide_eq_false_iff_not]
    omega
  simp [IS_SKE_ALG_MD, IS_SKE_XCM_MD_ALG, h1]

/-- C11: `SKE_CryptoBlocks` returns a result for every descriptor and every behaviour of the
engine, and the result is `LL_ERR_INVD_PARAM` if and only if the descriptor is null, the input
pointer is null, the size is 0 or the (algorithm, mode) pair is not valid, the valid pairs being
the five algorithms with ECB, CBC, CFB, OFB, CTR, CMAC and the four algorithms other than DES
with GCM, CCM.  When it is returned, the peripheral state is unchanged (no register is written,
no transform started) and so is the output buffer.  DES with GCM or CCM and every algorithm value
outside `1..5` are not valid. -/
theorem C11_crypto_blocks_invalid (mp : Nat) (env : SkeEnv) (d : Option stc_ske_crypto_t)
    (s : SkeHw) (hsz : ∀ c, d = some c → c.u32CryptoSize < U32_MOD) :
    (∃ r, SKE_CryptoBlocks mp env d s = some r ∧
      (r.1 = LL_ERR_INVD_PARAM ↔
        (d = none ∨ ∃ c, d = some c ∧
          (c.pu8In = none ∨ c.u32CryptoSize = 0 ∨ ¬ spec_validPair mp c.u32Alg c.u32Mode))) ∧
      (r.1 = LL_ERR_INVD_PARAM → r.2.2 = s ∧ r.2.1 = d.bind (fun c => c.pu8Out))) ∧
    ¬ spec_validPair mp SKE_ALG_DES (SKE_MD_GCM mp) ∧
    ¬ spec_validPair mp SKE_ALG_DES (SKE_MD_CCM mp) ∧
    (∀ alg md, alg < 1 ∨ 5 < alg → ¬ spec_validPair mp alg md) := by
  refine ⟨?_, not_validPair_des_xcm mp _ (by simp [IS_SKE_XCM_MD]),
    not_validPair_des_xcm mp _ (by simp [IS_SKE_XCM_MD]), not_validPair_alg mp⟩
  cases d with
  | none => exact ⟨_, rfl, by simp, by simp⟩
  | some c =>
    obtain ⟨alg, mode, pin, pout, n⟩ := c
    have hn := hsz _ rfl
    simp only at hn
    simp only [SKE_CryptoBlocks, Option.some.injEq, false_or, exists_eq_left', Option.bind_some,
      reduceCtorEq]
    cases pin with
    | none => exact ⟨_, rfl, by simp, by simp⟩
    | some inp =>
      by_cases h0 : n = 0
      · refine ⟨(LL_ERR_INVD_PARAM, pout, s), ?_, by simp [h0], by simp⟩
        simp [SKE_CryptoBlocksInternal, h0]
      · by_cases hv : IS_SKE_ALG_MD mp alg mode = true
        · obtain ⟨r, hr1, hr2⟩ := cryptoBlocks_total mp env alg mode hv inp pout n (by omega) hn s
          have hne : r.1 ≠ LL_ERR_INVD_PARAM := by
            rcases hr2 with h | h <;> rw [h] <;> decide
          refine ⟨r, hr1, ?_, fun h => absurd h hne⟩
          simp [hne, h0, ← validPair_iff, hv]
        · have hv2 : IS_SKE_ALG_MD mp alg mode = false := by simpa using hv
          refine ⟨(LL_ERR_INVD_PARAM, pout, s), ?_, ?_, by simp⟩
          · simp [SKE_CryptoBlocksInternal, hv2]
          · simp [← validPair_iff, hv2]

theorem C11_crypto_blocks_invalid_witness :
    ∃ r, SKE_CryptoBlocks 28 (envConst [])
        (some ⟨SKE_ALG_DES, SKE_MD_GCM 28, some [1, 2, 3], some [0, 0, 0], 3⟩) ⟨[], 0⟩ = some r ∧
      r.1 = LL_ERR_INVD_PARAM ∧ r.2.2 = ⟨[], 0⟩ := by
  obtain ⟨⟨r, h1, h2, h3⟩, h4, -⟩ := C11_crypto_blocks_invalid 28 (envConst [])
    (some ⟨SKE_ALG_DES, SKE_MD_GCM 28, some [1, 2, 3], some [0, 0, 0], 3⟩) ⟨[], 0⟩
    (by intro c hc; cases hc; decide)
  have h5 : r.1 = LL_ERR_INVD_PARAM := h2.mpr (Or.inr ⟨_, rfl, Or.inr (Or.inr h4)⟩)
  exact ⟨r, h1, h5, (h3 h5).1⟩

theorem waitIdle_busy (env : SkeEnv) (log : List HwOp) (hb : ∀ t, env.busy log t = true) :
    ∀ (f cnt t : Nat), SKE_TIMEOUT_VAL ≤ cnt + f →
      ∃ t', SKE_Init.waitIdle env (f + 1) cnt ⟨log, t⟩ = some (false, ⟨log, t'⟩)
  | 0, cnt, t, h => by
    have hc : cnt + 1 > SKE_TIMEOUT_VAL := by omega
    exact ⟨t + 1, by simp [SKE_Init.waitIdle, hb, hc]⟩
  | f + 1, cnt, t, h => by
    by_cases hc : cnt + 1 > SKE_TIMEOUT_VAL
    · exact ⟨t + 1, by rw [SKE_Init.waitIdle]; simp [hb, hc]⟩
    · obtain ⟨t', ht'⟩ := waitIdle_busy env log hb f (cnt + 1) (t + 1) (by omega)
      refine ⟨t', ?_⟩
      rw [SKE_Init.waitIdle]
      simp only [hb, hc, if_true, if_false]
      exact ht'

/-- C17, the code at the failing input: the engine stays busy, the configuration is a valid
AES-128 ECB one.  The wait of `SKE_Init` for the engine to leave the busy state exceeds its bound
and `SKE_Init` returns `LL_ERR`, which is none of `LL_OK`, `LL_ERR_INVD_PARAM`, `LL_ERR_TIMEOUT`,
without writing any register; `LL_ERR` is the code that `SKE_XcmFinal` returns for a tag that
does not match. -/
theorem C17_busy_wait_returns_err :
    (∃ t', SKE_Init 28 envBusy
        (some ⟨SKE_ALG_AES_128, SKE_MD_ECB 28, 0, SKE_CRYPTO_ENCRYPT, some (List.replicate 16 1),
          none, none, none⟩)
        ⟨0, 0, 0, 0, 0, 0, 0, List.replicate 16 0⟩ ⟨[], 0⟩ = some (LL_ERR, none, ⟨[], t'⟩)) ∧
    LL_ERR ≠ LL_OK ∧ LL_ERR ≠ LL_ERR_INVD_PARAM ∧ LL_ERR ≠ LL_ERR_TIMEOUT ∧
    (SKE_XcmFinal (envConst (List.replicate 16 7))
        (some ⟨SKE_ALG_AES_128, SKE_MD_GCM 28, SKE_CRYPTO_DECRYPT, some (List.replicate 16 0), 16⟩)
        (List.replicate 16 0) ⟨[], 0⟩).map (fun r => r.1) = some LL_ERR := by
  refine ⟨?_, by decide, by decide, by decide, by decide⟩
  obtain ⟨t', ht'⟩ := waitIdle_busy envBusy [] (fun _ => rfl) SKE_TIMEOUT_VAL 0 0 (by omega)
  refine ⟨t', ?_⟩
  unfold SKE_Init
  simp only [Option.isNone_some, Bool.false_eq_true, false_or, ne_eq, not_true_eq_false,
    false_and, if_false, ht']

/-- C18, the code at the failing input: CMAC initialisation with `pu8Iv = NULL` (as the header
asks for) on an engine whose IV registers hold `0xA5` bytes from an earlier use.  `SKE_Init`
returns `LL_OK` and the IV registers still hold the `0xA5` bytes: `SKE_SetIv` returns at its
`NULL` check before writing them.  With a non-null `pu8Iv` (whatever it points to) the same
initialisation writes zeros to the IV registers. -/
theorem C18_cmac_null_iv_not_zeroed :
    (SKE_Init 28 (envConst [])
        (some ⟨SKE_ALG_AES_128, SKE_MD_CMAC 28, 0, SKE_CRYPTO_ENCRYPT, some (List.replicate 16 1),
          none, none, none⟩)
        ⟨0, 0, 0, 0, 0, 0, 0, List.replicate 16 0⟩
        ⟨[HwOp.iv (List.replicate 16 0xA5)], 0⟩).map (fun r => (r.1, ivRegs [] r.2.2.log)) =
      some (LL_OK, List.replicate 16 0xA5) ∧
    (SKE_Init 28 (envConst [])
        (some ⟨SKE_ALG_AES_128, SKE_MD_CMAC 28, 0, SKE_CRYPTO_ENCRYPT, some (List.replicate 16 1),
          some (List.replicate 16 9), none, none⟩)
        ⟨0, 0, 0, 0, 0, 0, 0, List.replicate 16 0⟩
        ⟨[HwOp.iv (List.replicate 16 0xA5)], 0⟩).map (fun r => (r.1, ivRegs [] r.2.2.log)) =
      some (LL_OK, List.replicate 16 0) := by
  decide

/-- C19, the code at the failing input: `u32Flag = SKE_FLAG_DONE`, the engine busy (`SR1 = 1`)
and not done.  No flag named in `u32Flag` is set, yet `SKE_GetStatus` returns `SET`: the test of
`SR1` does not look at `u32Flag`.  With `SR1 = 0` the same call returns `RESET`. -/
theorem C19_get_status_ignores_flag :
    SKE_GetStatus 1 0 SKE_FLAG_DONE = SET ∧
    SKE_FLAG_DONE &&& spec_flagsSet 1 0 = 0 ∧
    SKE_GetStatus 0 0 SKE_FLAG_DONE = RESET := by
  decide

/-- C20, the code at the failing input: a GCM descriptor with `u32MacSize = 17` and a 20-byte MAC
buffer.  `SKE_XcmFinal` starts the engine and returns `LL_OK`, not `LL_ERR_INVD_PARAM`, and has
written 17 bytes of the MAC buffer (the 17th is read beyond the 16-byte local array, modelled
as 0); in the decrypt direction 17 bytes are compared. -/
theorem C20_mac_size_17 :
    SKE_XcmFinal (envConst (List.replicate 16 7))
        (some ⟨SKE_ALG_AES_128, SKE_MD_GCM 28, SKE_CRYPTO_ENCRYPT, some (List.replicate 20 0xFF),
          17⟩)
        (List.replicate 16 0) ⟨[], 0⟩ =
      some (LL_OK, some (List.replicate 16 7 ++ [0] ++ List.replicate 3 0xFF),
        ⟨[HwOp.ctrlStart, HwOp.sr2Done 0], 1⟩) ∧
    (SKE_XcmFinal (envConst (List.replicate 16 7))
        (some ⟨SKE_ALG_AES_128, SKE_MD_GCM 28, SKE_CRYPTO_DECRYPT,
          some (List.replicate 16 7 ++ [1]), 17⟩)
        (List.replicate 16 0) ⟨[], 0⟩).map (fun r => r.1) = some LL_ERR ∧
    (SKE_XcmFinal (envConst (List.replicate 16 7))
        (some ⟨SKE_ALG_AES_128, SKE_MD_GCM 28, SKE_CRYPTO_DECRYPT,
          some (List.replicate 16 7 ++ [1]), 16⟩)
        (List.replicate 16 0) ⟨[], 0⟩).map (fun r => r.1) = some LL_OK := by
  decide

theorem splice_next (o d ds : List Nat) (i bs r : Nat) (hd : d.length = bs)
    (hi : i + bs + r ≤ o.length) :
    (o.take i ++ d ++ o.drop (i + bs)).take (i + bs) ++ ds ++
        (o.take i ++ d ++ o.drop (i + bs)).drop (i + bs + r) =
      o.take i ++ (d ++ ds) ++ o.drop (i + bs + r) := by
  have hl : (o.take i ++ d).length = i + bs := by
    simp only [List.length_append, List.length_take, hd]
    omega
  have h1 : (o.take i ++ d ++ o.drop (i + bs)).take (i + bs) = o.take i ++ d :=
    List.take_left' hl
  have h2 : (o.take i ++ d ++ o.drop (i + bs)).drop (i + bs + r) = o.drop (i + bs + r) := by
    rw [← List.drop_drop r (i + bs), List.drop_left' hl, List.drop_drop]
  rw [h1, h2]
  simp [List.append_assoc]

theorem lead_steps (mp : Nat) (env : SkeEnv) (alg mode : Nat)
    (h : IS_SKE_ALG alg = true) (inp : List Nat) (size bs : Nat) (hsz : size < U32_MOD)
    (hb : m_au8SkeAlgBlockSize.getD alg 0 = bs) (hpos : 0 < bs) :
    ∀ (k i fuel : Nat) (out : Option (List Nat)) (s : SkeHw),
      i + k * bs ≤ size → k < fuel →
      (∀ o, out = some o → i + k * bs ≤ o.length) →
      (∀ j, j < k → TransformCompletes env
        (s.log ++ leadOps inp bs j i ++ blockStart false (readBytes inp (i + j * bs) bs))) →
      ∃ (ds : List (List Nat)) (t' : Nat),
        SKE_CryptoBlocksInternal.loop mp env alg mode inp bs size fuel i out s =
          SKE_CryptoBlocksInternal.loop mp env alg mode inp bs size (fuel - k) (i + k * bs)
            (out.map (fun o => o.take i ++ ds.flatten ++ o.drop (i + k * bs)))
            ⟨s.log ++ leadOps inp bs k i, t'⟩ ∧
        ds.length = k ∧ (∀ d ∈ ds, d.length = bs) ∧
        ∀ j, j < k → ∃ t, ds.getD j [] = readBytes (env.dout
          (s.log ++ leadOps inp bs j i ++ blockPre false (readBytes inp (i + j * bs) bs)) t) 0 bs
  | 0, i, fuel, out, s, _, _, _, _ => by
    refine ⟨[], s.tick, ?_, rfl, by simp, by intro j hj; omega⟩
    have e : out.map (fun o => o.take i ++ ([] : List (List Nat)).flatten ++ o.drop (i + 0 * bs))
        = out := by
      cases out with
      | none => rfl
      | some o => simp
    rw [e]
    simp [leadOps]
  | k + 1, i, fuel, out, s, hi, hf, hlen, hc => by
    obtain ⟨f, rfl⟩ : ∃ f, fuel = f + 1 := ⟨fuel - 1, by omega⟩
    have hk : (k + 1) * bs = k * bs + bs := by ring
    have hlt : i < size := by omega
    have hnext : (i + bs) % U32_MOD = i + bs := Nat.mod_eq_of_lt (by omega)
    have hc0 : TransformCompletes env (s.log ++ blockStart (isMarkMode mp mode && ((0 : Nat) != 0))
        (readBytes (inp.drop i) 0 (m_au8SkeAlgBlockSize.getD alg 0))) := by
      have := hc 0 (by omega)
      rw [hb, readBytes_drop]
      simpa [leadOps] using this
    have hfu : f + 1 - (k + 1) = f - k := by omega
    have hix : i + (k + 1) * bs = i + bs + k * bs := by omega
    rw [SKE_CryptoBlocksInternal.loop, if_pos hlt]
    unfold SKE_CryptoBlocksInternal.body
    cases out with
    | none =>
      obtain ⟨t1, h1⟩ := update_ok_at mp env alg mode h (inp.drop i) none 0 0 s hc0
      rw [hb, readBytes_drop] at h1
      simp only [h1, ne_eq, not_true, if_false, hnext, Option.isSome_none, Bool.false_eq_true]
      obtain ⟨ds, t', e1, e2, e3, e4⟩ := lead_steps mp env alg mode h inp size bs hsz hb hpos
        k (i + bs) f none ⟨s.log ++ blockOps (isMarkMode mp mode && ((0 : Nat) != 0))
          (mode == SKE_MD_CMAC mp) (readBytes inp i bs), t1⟩ (by omega) (by omega)
        (by intro o ho; cases ho)
        (by
          intro j hj
          have := hc (j + 1) (by omega)
          have e : i + (j + 1) * bs = i + bs + j * bs := by ring
          rw [e] at this
          simpa [leadOps, blockOps_false, List.append_assoc] using this)
      refine ⟨readBytes (env.dout (s.log ++ blockPre false (readBytes inp i bs)) t1) 0 bs :: ds,
        t', ?_, by simp [e2], ?_, ?_⟩
      · rw [e1, hfu, hix]
        simp [leadOps, blockOps_false, List.append_assoc]
      · intro d hd
        rcases List.mem_cons.mp hd with rfl | hd
        · exact readBytes_length _ _ _
        · exact e3 d hd
      · intro j hj
        cases j with
        | zero => exact ⟨t1, by simp [leadOps]⟩
        | succ j =>
          obtain ⟨t, ht⟩ := e4 j (by omega)
          refine ⟨t, ?_⟩
          have e : i + (j + 1) * bs = i + bs + j * bs := by ring
          rw [e]
          simpa [leadOps, blockOps_false, List.append_assoc] using ht
    | some o =>
      have hol : i + (k + 1) * bs ≤ o.length := hlen o rfl
      obtain ⟨t1, h1⟩ := update_ok_at mp env alg mode h (inp.drop i) (some o) i 0 s hc0
      rw [hb, readBytes_drop] at h1
      simp only [h1, ne_eq, not_true, if_false, hnext, Option.isSome_some, if_true]
      rw [readBlock_eq env alg h, hb, copy_splice o i _ bs (by omega)]
      simp only []
      obtain ⟨ds, t', e1, e2, e3, e4⟩ := lead_steps mp env alg mode h inp size bs hsz hb hpos
        k (i + bs) f
        (some (o.take i ++ readBytes (env.dout (s.log ++ blockPre (isMarkMode mp mode &&
          ((0 : Nat) != 0)) (readBytes inp i bs)) t1) 0 bs ++ o.drop (i + bs)))
        ⟨s.log ++ blockOps (isMarkMode mp mode && ((0 : Nat) != 0))
          (mode == SKE_MD_CMAC mp) (readBytes inp i bs), t1⟩ (by omega) (by omega)
        (by
          intro o' ho'
          cases ho'
          simp only [List.length_append, List.length_take, readBytes_length, List.length_drop]
          omega)
        (by
          intro j hj
          have := hc (j + 1) (by omega)
          have e : i + (j + 1) * bs = i + bs + j * bs := by ring
          rw [e] at this
          simpa [leadOps, blockOps_false, List.append_assoc] using this)
      refine ⟨readBytes (env.dout (s.log ++ blockPre false (readBytes inp i bs)) t1) 0 bs :: ds,
        t', ?_, by simp [e2], ?_, ?_⟩
      · rw [e1, hfu, hix]
        simp only [Option.map_some', Bool.and_false, bne_self_eq_false, List.flatten_cons]
        rw [splice_next o _ ds.flatten i bs (k * bs) (readBytes_length _ _ _) (by omega)]
        simp [leadOps, blockOps_false, List.append_assoc]
      · intro d hd
        rcases List.mem_cons.mp hd with rfl | hd
        · exact readBytes_length _ _ _
        · exact e3 d hd
      · intro j hj
        cases j with
        | zero => exact ⟨t1, by simp [leadOps]⟩
        | succ j =>
          obtain ⟨t, ht⟩ := e4 j (by omega)
          refine ⟨t, ?_⟩
          have e : i + (j + 1) * bs = i + bs + j * bs := by ring
          rw [e]
          simpa [leadOps, blockOps_false, List.append_assoc] using ht

theorem flatten_length_of (bs : Nat) :
    ∀ (ds : List (List Nat)), (∀ d ∈ ds, d.length = bs) → ds.flatten.length = ds.length * bs
  | [], _ => by simp
  | d :: ds, h => by
    have h1 := h d (List.mem_cons_self _ _)
    have h2 := flatten_length_of bs ds (fun x hx => h x (List.mem_cons_of_mem _ hx))
    simp only [List.flatten_cons, List.length_append, List.length_cons, h1, h2]
    ring

theorem loop_done (mp : Nat) (env : SkeEnv) (alg mode : Nat) (inp : List Nat) (bs size f i : Nat)
    (out : Option (List Nat)) (s : SkeHw) (h : ¬ i < size) :
    SKE_CryptoBlocksInternal.loop mp env alg mode inp bs size (f + 1) i out s =
      some (LL_OK, i, out, s) := by
  rw [SKE_CryptoBlocksInternal.loop, if_neg h]

theorem readBytes_copy_take (lb src : List Nat) (bs r : Nat) (hr : r ≤ bs) (hbs : bs ≤ lb.length) :
    readBytes (SKE_CopyByte lb 0 src 0 bs) 0 r = (readBytes src 0 bs).take r := by
  apply ext_getD
  · simp [readBytes_length, hr]
  · intro j hj
    rw [readBytes_length] at hj
    rw [readBytes_getD, if_pos hj, SKE_CopyByte_getD]
    have c1 : 0 ≤ 0 + j ∧ 0 + j < 0 + bs ∧ 0 + j < lb.length := by omega
    rw [if_pos c1]
    simp only [List.getD_eq_getElem?_getD, List.getElem?_take, hj, if_true]
    have := readBytes_getD src 0 bs j
    simp only [List.getD_eq_getElem?_getD] at this
    rw [this, if_pos (by omega)]
    simp

/-- Numeric facts on the split of `n` bytes into leading blocks and a trailing block. -/
theorem split_facts (n bs : Nat) (hn1 : 1 ≤ n) (hbs : bs = 8 ∨ bs = 16) :
    (if n % bs = 0 then bs else n % bs) = (n - 1) % bs + 1 ∧
    (n - 1) % bs + 1 ≤ n ∧ (n - 1) % bs + 1 ≤ bs ∧
    leadCount n bs * bs = n - ((n - 1) % bs + 1) ∧
    leadCount n bs * bs + ((n - 1) % bs + 1) = n := by
  unfold leadCount
  rcases hbs with rfl | rfl <;> refine ⟨?_, ?_, ?_, ?_, ?_⟩ <;> first | (split_ifs <;> omega) | omega

theorem final_splice (o dsf dl X : List Nat) (n r : Nat) (hr : r ≤ n) (hn : n ≤ o.length)
    (hfl : dsf.length = n - r) (hX : readBytes X 0 r = dl.take r) :
    SKE_CopyByte (List.take 0 o ++ dsf ++ List.drop (n - r) o) (n - r) X 0 r =
      (dsf ++ dl).take n ++ o.drop n := by
  have hlen : (n - r) + r ≤ (List.take 0 o ++ dsf ++ List.drop (n - r) o).length := by
    simp only [List.take_zero, List.nil_append, List.length_append, List.length_drop, hfl]
    omega
  have h1 : (dsf ++ o.drop (n - r)).take (n - r) = dsf := List.take_left' hfl
  have h2 : (dsf ++ o.drop (n - r)).drop (n - r + r) = o.drop n := by
    rw [← List.drop_drop r (n - r), List.drop_left' hfl, List.drop_drop]
    congr 1
    omega
  have h4 : dsf.length ≤ n := by omega
  have h3 : (dsf ++ dl).take n = dsf ++ dl.take r := by
    rw [List.take_append_eq_append_take, List.take_of_length_le h4]
    congr 2
    omega
  rw [copy_splice _ _ _ _ hlen, hX]
  simp only [List.take_zero, List.nil_append]
  rw [h1, h2, h3]

theorem cryptoBlocks_run_at (mp : Nat) (env : SkeEnv) (alg mode : Nat)
    (hv : IS_SKE_ALG_MD mp alg mode = true) (inp o : List Nat)
    (n : Nat) (hn1 : 1 ≤ n) (hn : n < U32_MOD) (hlen : n ≤ inp.length) (holen : n ≤ o.length)
    (s : SkeHw)
    (hc : ∀ j, j ≤ leadCount n (m_au8SkeAlgBlockSize.getD alg 0) → TransformCompletes env
      (s.log ++ crStartLog (IS_SKE_XCM_MD mp mode) inp n (m_au8SkeAlgBlockSize.getD alg 0) j)) :
    ∃ (ds : List (List Nat)) (t' : Nat),
      SKE_CryptoBlocksInternal mp env alg mode (some inp) (some o) n s =
        some (LL_OK, some ((ds.flatten).take n ++ o.drop n), ⟨s.log ++
          (leadOps inp (m_au8SkeAlgBlockSize.getD alg 0)
            (leadCount n (m_au8SkeAlgBlockSize.getD alg 0)) 0 ++
           blockOps (IS_SKE_XCM_MD mp mode) false
            (lastBlock inp n (m_au8SkeAlgBlockSize.getD alg 0))), t'⟩) ∧
      ds.length = leadCount n (m_au8SkeAlgBlockSize.getD alg 0) + 1 ∧
      (∀ d ∈ ds, d.length = m_au8SkeAlgBlockSize.getD alg 0) ∧
      ∀ j, j ≤ leadCount n (m_au8SkeAlgBlockSize.getD alg 0) →
        ∃ t, ds.getD j [] = readBytes (env.dout (s.log ++
          crStartLog (IS_SKE_XCM_MD mp mode) inp n (m_au8SkeAlgBlockSize.getD alg 0) j ++
            [HwOp.sr2Done 0]) t) 0 (m_au8SkeAlgBlockSize.getD alg 0) := by
  have halg := alg_of_alg_md mp alg mode hv
  have hbs2 := blockSize_cases alg halg
  generalize hb : m_au8SkeAlgBlockSize.getD alg 0 = bs at *
  obtain ⟨hrem, hr2, hrbs, hK, hKn⟩ := split_facts n bs hn1 hbs2
  have hpos : 0 < bs := by rcases hbs2 with rfl | rfl <;> omega
  have hsub : u32_sub n ((n - 1) % bs + 1) = n - ((n - 1) % bs + 1) := by
    unfold u32_sub U32_MOD at *
    omega
  generalize hr : (n - 1) % bs + 1 = r at *
  generalize hKd : leadCount n bs = K at *
  have hn0 : ¬ (n = 0) := by omega
  -- the leading blocks
  obtain ⟨ds, t1, e1, e2, e3, e4⟩ := lead_steps mp env alg mode halg inp (n - r) bs (by omega) hb
    hpos K 0 (n - r + 1) (some o) s (by omega)
    (by
      have : K ≤ K * bs := Nat.le_mul_of_pos_right K hpos
      omega)
    (by intro o' ho'; cases ho'; omega)
    (by
      intro j hj
      have := hc j (by omega)
      rw [crStartLog, hKd, if_pos hj] at this
      simpa [List.append_assoc] using this)
  have hfl : ds.flatten.length = n - r := by rw [flatten_length_of bs ds e3, e2, hK]
  have hcK := hc K (le_refl K)
  rw [crStartLog, hKd, if_neg (lt_irrefl K)] at hcK
  -- the trailing block
  obtain ⟨t2, h2⟩ := update_ok_at mp env alg mode halg
    (SKE_CopyByte (List.replicate SKE_BLOCK_SIZE_MAX 0) 0 inp (n - r) r)
    (some (SKE_CopyByte (List.replicate SKE_BLOCK_SIZE_MAX 0) 0 inp (n - r) r)) 0
    (if mode = SKE_MD_CMAC mp then 0 else 1)
    ⟨s.log ++ leadOps inp bs K 0, t1⟩
    (by
      rw [hb, xcm_mark, ← hr, lastBlock_eq inp n bs hn1 hlen hbs2]
      simpa [List.append_assoc] using hcK)
  rw [hb, xcm_mark, ← hr, lastBlock_eq inp n bs hn1 hlen hbs2, blockOps_xcm, hr] at h2
  rw [readBlock_eq env alg halg, hb] at h2
  simp only [Option.isSome_some, if_true] at h2
  obtain ⟨f', hf'⟩ : ∃ f', n - r + 1 - K = f' + 1 := by
    have : K ≤ K * bs := Nat.le_mul_of_pos_right K hpos
    exact ⟨n - r - K, by omega⟩
  have hidx : 0 + K * bs = n - r := by omega
  rw [hf', hidx, loop_done mp env alg mode inp bs (n - r) f' (n - r) _ _ (lt_irrefl _)] at e1
  refine ⟨ds ++ [readBytes (env.dout (s.log ++ leadOps inp bs K 0 ++
    blockPre (IS_SKE_XCM_MD mp mode) (lastBlock inp n bs)) t2) 0 bs], t2, ?_, by simp [e2], ?_, ?_⟩
  · unfold SKE_CryptoBlocksInternal
    simp only [hn0, hv, Bool.true_eq_false, or_self, if_false, hb, hrem, hsub, e1, ne_eq,
      not_true, h2, Option.map_some']
    have hX := readBytes_copy_take
      (SKE_CopyByte (List.replicate SKE_BLOCK_SIZE_MAX 0) 0 inp (n - r) r)
      (env.dout (s.log ++ leadOps inp bs K 0 ++
        blockPre (IS_SKE_XCM_MD mp mode) (lastBlock inp n bs)) t2) bs r hrbs
      (by
        simp only [SKE_CopyByte_length, SKE_BLOCK_SIZE_MAX, SKE_BLOCK_SIZE_16BYTE,
          List.length_replicate]
        rcases hbs2 with rfl | rfl <;> omega)
    rw [final_splice o ds.flatten _ _ n r hr2 holen hfl hX]
    simp [List.append_assoc]
  · intro d hd
    rcases List.mem_append.mp hd with hd | hd
    · exact e3 d hd
    · rw [List.mem_singleton.mp hd, readBytes_length]
  · intro j hj
    by_cases hjK : j < K
    · obtain ⟨t, ht⟩ := e4 j hjK
      refine ⟨t, ?_⟩
      rw [crStartLog, hKd, if_pos hjK, List.getD_eq_getElem?_getD,
        List.getElem?_append_left (by omega), ← List.getD_eq_getElem?_getD, ht, blockPre_eq]
      simp [List.append_assoc]
    · have hjeq : j = K := by omega
      subst hjeq
      refine ⟨t2, ?_⟩
      rw [crStartLog, hKd, if_neg (lt_irrefl _), List.getD_eq_getElem?_getD,
        List.getElem?_append_right (by omega), blockPre_eq]
      simp [e2, List.append_assoc]

theorem cryptoBlocks_timeout_at (mp : Nat) (env : SkeEnv) (alg mode : Nat)
    (hv : IS_SKE_ALG_MD mp alg mode = true) (inp : List Nat) (out : Option (List Nat))
    (n : Nat) (hn1 : 1 ≤ n) (hn : n < U32_MOD) (hlen : n ≤ inp.length)
    (holen : ∀ o, out = some o → n ≤ o.length) (s : SkeHw) (k : Nat)
    (hk : k ≤ leadCount n (m_au8SkeAlgBlockSize.getD alg 0))
    (hc : ∀ j, j < k → TransformCompletes env
      (s.log ++ crStartLog (IS_SKE_XCM_MD mp mode) inp n (m_au8SkeAlgBlockSize.getD alg 0) j))
    (hs : TransformStuck env
      (s.log ++ crStartLog (IS_SKE_XCM_MD mp mode) inp n (m_au8SkeAlgBlockSize.getD alg 0) k)) :
    ∃ (ds : List (List Nat)) (t' : Nat),
      SKE_CryptoBlocksInternal mp env alg mode (some inp) out n s =
        some (LL_ERR_TIMEOUT,
          out.map (fun o => ds.flatten ++ o.drop (k * m_au8SkeAlgBlockSize.getD alg 0)),
          ⟨s.log ++ crStartLog (IS_SKE_XCM_MD mp mode) inp n (m_au8SkeAlgBlockSize.getD alg 0) k,
            t'⟩) ∧
      ds.length = k ∧
      (∀ d ∈ ds, d.length = m_au8SkeAlgBlockSize.getD alg 0) ∧
      ∀ j, j < k →
        ∃ t, ds.getD j [] = readBytes (env.dout (s.log ++
          crStartLog (IS_SKE_XCM_MD mp mode) inp n (m_au8SkeAlgBlockSize.getD alg 0) j ++
            [HwOp.sr2Done 0]) t) 0 (m_au8SkeAlgBlockSize.getD alg 0) := by
  have halg := alg_of_alg_md mp alg mode hv
  have hbs2 := blockSize_cases alg halg
  generalize hb : m_au8SkeAlgBlockSize.getD alg 0 = bs at *
  obtain ⟨hrem, hr2, hrbs, hK, hKn⟩ := split_facts n bs hn1 hbs2
  have hpos : 0 < bs := by rcases hbs2 with rfl | rfl <;> omega
  have hsub : u32_sub n ((n - 1) % bs + 1) = n - ((n - 1) % bs + 1) := by
    unfold u32_sub U32_MOD at *
    omega
  generalize hr : (n - 1) % bs + 1 = r at *
  generalize hKd : leadCount n bs = K at *
  have hn0 : ¬ (n = 0) := by omega
  have hkK : k * bs ≤ K * bs := Nat.mul_le_mul_right bs hk
  have hKle : K ≤ K * bs := Nat.le_mul_of_pos_right K hpos
  obtain ⟨ds, t1, e1, e2, e3, e4⟩ := lead_steps mp env alg mode halg inp (n - r) bs (by omega) hb
    hpos k 0 (n - r + 1) out s (by omega) (by omega)
    (by intro o' ho'; have := holen o' ho'; omega)
    (by
      intro j hj
      have := hc j hj
      rw [crStartLog, hKd, if_pos (by omega)] at this
      simpa [List.append_assoc] using this)
  obtain ⟨f', hf'⟩ : ∃ f', n - r + 1 - k = f' + 1 := ⟨n - r - k, by omega⟩
  have hmap : out.map (fun o => o.take 0 ++ ds.flatten ++ o.drop (0 + k * bs)) =
      out.map (fun o => ds.flatten ++ o.drop (k * bs)) := by
    cases out <;> simp
  rw [hf', hmap, Nat.zero_add] at e1
  have hds : ∀ j, j < k →
      ∃ t, ds.getD j [] = readBytes (env.dout (s.log ++
        crStartLog (IS_SKE_XCM_MD mp mode) inp n bs j ++ [HwOp.sr2Done 0]) t) 0 bs := by
    intro j hj
    obtain ⟨t, ht⟩ := e4 j hj
    refine ⟨t, ?_⟩
    rw [crStartLog, hKd, if_pos (by omega), ht, blockPre_eq]
    simp [List.append_assoc]
  by_cases hkK2 : k < K
  · -- a leading block times out
    have hlt : k * bs < n - r := by
      have : (k + 1) * bs ≤ K * bs := Nat.mul_le_mul_right bs hkK2
      have e : (k + 1) * bs = k * bs + bs := by ring
      omega
    have hs' : TransformStuck env ((⟨s.log ++ leadOps inp bs k 0, t1⟩ : SkeHw).log ++
        blockStart (isMarkMode mp mode && ((0 : Nat) != 0))
          (readBytes (inp.drop (k * bs)) 0 (m_au8SkeAlgBlockSize.getD alg 0))) := by
      rw [crStartLog, hKd, if_pos hkK2] at hs
      rw [hb, readBytes_drop]
      simpa [List.append_assoc] using hs
    have hbody : ∃ t2, SKE_CryptoBlocksInternal.body mp env alg mode inp (k * bs)
        (out.map (fun o => ds.flatten ++ o.drop (k * bs))) ⟨s.log ++ leadOps inp bs k 0, t1⟩ =
        some (LL_ERR_TIMEOUT, out.map (fun o => ds.flatten ++ o.drop (k * bs)),
          ⟨s.log ++ crStartLog (IS_SKE_XCM_MD mp mode) inp n bs k, t2⟩) := by
      unfold SKE_CryptoBlocksInternal.body
      cases out with
      | none =>
        obtain ⟨t2, h2⟩ := update_stuck_at mp env alg mode halg (inp.drop (k * bs)) none 0 0
          ⟨s.log ++ leadOps inp bs k 0, t1⟩ hs'
        refine ⟨t2, ?_⟩
        simp only [Option.map_none']
        rw [h2, hb, readBytes_drop, crStartLog, hKd, if_pos hkK2]
        simp [List.append_assoc]
      | some o =>
        obtain ⟨t2, h2⟩ := update_stuck_at mp env alg mode halg (inp.drop (k * bs))
          (some (ds.flatten ++ o.drop (k * bs))) (k * bs) 0 ⟨s.log ++ leadOps inp bs k 0, t1⟩ hs'
        refine ⟨t2, ?_⟩
        simp only [Option.map_some']
        rw [h2, hb, readBytes_drop, crStartLog, hKd, if_pos hkK2]
        simp [List.append_assoc]
    obtain ⟨t2, h2⟩ := hbody
    have hstep : SKE_CryptoBlocksInternal.loop mp env alg mode inp bs (n - r) (f' + 1) (k * bs)
        (out.map (fun o => ds.flatten ++ o.drop (k * bs))) ⟨s.log ++ leadOps inp bs k 0, t1⟩ =
        some (LL_ERR_TIMEOUT, k * bs, out.map (fun o => ds.flatten ++ o.drop (k * bs)),
          ⟨s.log ++ crStartLog (IS_SKE_XCM_MD mp mode) inp n bs k, t2⟩) := by
      rw [SKE_CryptoBlocksInternal.loop, if_pos hlt, h2]
      simp
    rw [hstep] at e1
    refine ⟨ds, t2, ?_, e2, e3, hds⟩
    unfold SKE_CryptoBlocksInternal
    simp only [hn0, hv, Bool.true_eq_false, or_self, if_false, hb, hrem, hsub, e1, ne_eq,
      reduceCtorEq, not_false_eq_true, if_true]
  · -- the trailing block times out
    have hkeq : k = K := by omega
    subst hkeq
    have hidx : k * bs = n - r := by omega
    rw [hidx, loop_done mp env alg mode inp bs (n - r) f' (n - r) _ _ (lt_irrefl _)] at e1
    rw [crStartLog, hKd, if_neg (lt_irrefl _)] at hs
    obtain ⟨t2, h2⟩ := update_stuck_at mp env alg mode halg
      (SKE_CopyByte (List.replicate SKE_BLOCK_SIZE_MAX 0) 0 inp (n - r) r)
      (some (SKE_CopyByte (List.replicate SKE_BLOCK_SIZE_MAX 0) 0 inp (n - r) r)) 0
      (if mode = SKE_MD_CMAC mp then 0 else 1)
      ⟨s.log ++ leadOps inp bs k 0, t1⟩
      (by
        rw [hb, xcm_mark, ← hr, lastBlock_eq inp n bs hn1 hlen hbs2]
        simpa [List.append_assoc] using hs)
    rw [hb, xcm_mark, ← hr, lastBlock_eq inp n bs hn1 hlen hbs2, hr] at h2
    refine ⟨ds, t2, ?_, e2, e3, hds⟩
    unfold SKE_CryptoBlocksInternal
    simp only [hn0, hv, Bool.true_eq_false, or_self, if_false, hb, hrem, hsub, e1, ne_eq,
      not_true, h2, hidx]
    rw [crStartLog, hKd, if_neg (lt_irrefl _)]
    cases out <;> simp [List.append_assoc]

theorem flatten_getD (bs : Nat) (hpos : 0 < bs) :
    ∀ (ds : List (List Nat)) (i : Nat), (∀ d ∈ ds, d.length = bs) → i < ds.length * bs →
      ds.flatten.getD i 0 = (ds.getD (i / bs) []).getD (i % bs) 0
  | [], i, _, hi => by simp at hi
  | d :: ds, i, h, hi => by
    have h1 := h d (List.mem_cons_self _ _)
    rw [List.flatten_cons, getD_append_nat, h1]
    by_cases c : i < bs
    · rw [if_pos c, Nat.div_eq_of_lt c, Nat.mod_eq_of_lt c]
      rfl
    · have hge : i ≥ bs := by omega
      have hi2 : i - bs < ds.length * bs := by
        simp only [List.length_cons] at hi
        have : (ds.length + 1) * bs = ds.length * bs + bs := by ring
        omega
      rw [if_neg c, flatten_getD bs hpos ds (i - bs) (fun x hx => h x (List.mem_cons_of_mem _ hx))
        hi2, Nat.div_eq_sub_div hpos hge, Nat.mod_eq_sub_mod hge]
      rfl

theorem leadCount_eq (n bs : Nat) (hbs : bs = 8 ∨ bs = 16) : leadCount n bs = (n - 1) / bs := by
  unfold leadCount
  rcases hbs with rfl | rfl <;> omega

/-- C14: for a valid algorithm/mode pair and an input of `n ≥ 1` bytes, every transform
completing.  With an output buffer `o` of at least `n` bytes, `SKE_CryptoBlocksInternal` returns
`LL_OK` and the buffer `take n (d_0 ++ d_1 ++ ...) ++ drop n o`, where `d_j` is the block read
from the data-out registers after transform `j`: output byte `i < n` is byte `i mod bs` of
`d_(i / bs)` (the leading blocks at the offsets of their inputs, then the first
`remain = n - leadCount * bs` bytes of the last transformed block at offset `n - remain`), the
bytes at index `≥ n` are those of `o` and the length is unchanged.  The input is a value that
the function only reads.  Without an output buffer the result holds no output buffer. -/
theorem C14_output_frame (mp : Nat) (env : SkeEnv) (alg mode : Nat) (inp o : List Nat)
    (n : Nat) (s : SkeHw)
    (hv : IS_SKE_ALG_MD mp alg mode = true) (hn1 : 1 ≤ n) (hn : n < U32_MOD)
    (hlen : n ≤ inp.length) (holen : n ≤ o.length) (hd : AllDone env) :
    (∃ (ds : List (List Nat)) (s' : SkeHw),
      SKE_CryptoBlocksInternal mp env alg mode (some inp) (some o) n s =
        some (LL_OK, some ((ds.flatten).take n ++ o.drop n), s') ∧
      ds.length = (n - 1) / SKE_GetBlockSize alg + 1 ∧
      leadCount n (SKE_GetBlockSize alg) = (n - 1) / SKE_GetBlockSize alg ∧
      (∀ d ∈ ds, d.length = SKE_GetBlockSize alg) ∧
      (∀ j, j ≤ (n - 1) / SKE_GetBlockSize alg →
        ∃ t, ds.getD j [] = readBytes (env.dout (s.log ++
          crStartLog (IS_SKE_XCM_MD mp mode) inp n (SKE_GetBlockSize alg) j ++
            [HwOp.sr2Done 0]) t) 0 (SKE_GetBlockSize alg)) ∧
      (∀ i, i < n → ((ds.flatten).take n ++ o.drop n).getD i 0 =
        (ds.getD (i / SKE_GetBlockSize alg) []).getD (i % SKE_GetBlockSize alg) 0) ∧
      (∀ i, n ≤ i → ((ds.flatten).take n ++ o.drop n).getD i 0 = o.getD i 0) ∧
      ((ds.flatten).take n ++ o.drop n).length = o.length) ∧
    (∃ s', SKE_CryptoBlocksInternal mp env alg mode (some inp) none n s =
      some (LL_OK, none, s')) := by
  have halg := alg_of_alg_md mp alg mode hv
  have hbs2 := blockSize_cases alg halg
  rw [getBlockSize_of_alg alg halg]
  constructor
  · obtain ⟨ds, t', h1, h2, h3, h4⟩ := cryptoBlocks_run_at mp env alg mode hv inp o n hn1 hn hlen
      holen s (fun j _ => completes_of_allDone env hd _)
    generalize hb : m_au8SkeAlgBlockSize.getD alg 0 = bs at *
    have hpos : 0 < bs := by rcases hbs2 with rfl | rfl <;> omega
    have hK := leadCount_eq n bs hbs2
    obtain ⟨-, hr2, hrbs, hKm, hKn⟩ := split_facts n bs hn1 hbs2
    have hfl : ds.flatten.length = ds.length * bs := flatten_length_of bs ds h3
    have hnle : n ≤ ds.flatten.length := by
      rw [hfl, h2]
      have : (leadCount n bs + 1) * bs = leadCount n bs * bs + bs := by ring
      omega
    have htl : (ds.flatten.take n).length = n := by
      rw [List.length_take]
      omega
    rw [hK] at h2 h4
    refine ⟨ds, _, h1, h2, hK, h3, h4, ?_, ?_, ?_⟩
    · intro i hi
      rw [getD_append_nat, htl, if_pos hi, ← flatten_getD bs hpos ds i h3 (by omega)]
      simp [List.getD_eq_getElem?_getD, List.getElem?_take, hi]
    · intro i hi
      rw [getD_append_nat, htl, if_neg (by omega)]
      simp only [List.getD_eq_getElem?_getD, List.getElem?_drop]
      congr 2
      omega
    · rw [List.length_append, htl, List.length_drop]
      omega
  · obtain ⟨out', t', h1, h2⟩ := cryptoBlocks_ok mp env hd alg mode hv inp none n hn1 hn hlen s
    cases out' with
    | none => exact ⟨_, h1⟩
    | some x => simp at h2

theorem C14_output_frame_witness :
    ∃ (ds : List (List Nat)) (s' : SkeHw),
      SKE_CryptoBlocksInternal 28 (envConst (List.replicate 16 7)) SKE_ALG_AES_128 (SKE_MD_CBC 28)
          (some (List.replicate 20 1)) (some (List.replicate 24 9)) 20 ⟨[], 0⟩ =
        some (LL_OK, some ((ds.flatten).take 20 ++ (List.replicate 24 9).drop 20), s') ∧
      ds.length = (20 - 1) / SKE_GetBlockSize SKE_ALG_AES_128 + 1 := by
  obtain ⟨⟨ds, s', h1, h2, -⟩, -⟩ := C14_output_frame 28 (envConst (List.replicate 16 7))
    SKE_ALG_AES_128 (SKE_MD_CBC 28) (List.replicate 20 1) (List.replicate 24 9) 20 ⟨[], 0⟩
    (by decide) (by decide) (by decide) (by decide) (by decide) (allDone_envConst _)
  exact ⟨ds, s', h1, h2⟩

theorem C14_eval :
    (SKE_CryptoBlocksInternal 28 (envConst (List.replicate 16 7)) SKE_ALG_AES_128 (SKE_MD_CBC 28)
        (some (List.replicate 20 1)) (some (List.replicate 24 9)) 20 ⟨[], 0⟩).map
      (fun r => (r.1, r.2.1)) =
      some (LL_OK, some (List.replicate 20 7 ++ List.replicate 4 9)) := by
  decide

theorem leadBlocks_succ (inp : List Nat) (bs : Nat) :
    ∀ (k i : Nat), leadBlocks inp bs (k + 1) i =
      leadBlocks inp bs k i ++ [readBytes inp (i + k * bs) bs]
  | 0, i => by simp [leadBlocks]
  | k + 1, i => by
    rw [leadBlocks, leadBlocks_succ inp bs k (i + bs), leadBlocks]
    have e : i + bs + k * bs = i + (k + 1) * bs := by ring
    rw [e]
    rfl

theorem leadBlocks_take (inp : List Nat) (bs : Nat) :
    ∀ (K j i : Nat), j ≤ K → (leadBlocks inp bs K i).take j = leadBlocks inp bs j i
  | _, 0, _, _ => by simp [leadBlocks]
  | 0, j + 1, _, h => by omega
  | K + 1, j + 1, i, h => by
    rw [leadBlocks, leadBlocks, List.take_succ_cons,
      leadBlocks_take inp bs K j (i + bs) (by omega)]

theorem issued_blockStart (lp : Nat) (m mark : Bool) (p : Option (List Nat)) (b : List Nat) :
    issued lp m p (blockStart mark b) = [(b, mark || m)] := by
  cases mark <;> simp [blockStart, issued]

theorem count_start_blockStart (mark : Bool) (b : List Nat) :
    (blockStart mark b).count HwOp.ctrlStart = 1 := by
  cases mark <;> simp [blockStart, List.count_cons]

theorem count_start_crStartLog (mark : Bool) (inp : List Nat) (n bs k : Nat)
    (hk : k ≤ leadCount n bs) : (crStartLog mark inp n bs k).count HwOp.ctrlStart = k + 1 := by
  unfold crStartLog
  split_ifs with h
  · rw [List.count_append, count_start_leadOps, count_start_blockStart]
  · have : k = leadCount n bs := by omega
    rw [List.count_append, count_start_leadOps, count_start_blockStart, this]

theorem issued_crStartLog (lp : Nat) (m mark : Bool) (p : Option (List Nat)) (inp : List Nat)
    (n bs k : Nat) (hk : k ≤ leadCount n bs) :
    (issued lp m p (crStartLog mark inp n bs k)).map Prod.fst = (crBlocks inp n bs).take (k + 1) := by
  unfold crStartLog crBlocks
  split_ifs with h
  · rw [issued_leadOps, issued_blockStart, List.map_append, map_fst_pair,
      List.take_append_of_le_length (by rw [leadBlocks_length]; omega),
      leadBlocks_take inp bs _ (k + 1) 0 (by omega), leadBlocks_succ]
    simp
  · have e : k = leadCount n bs := by omega
    rw [issued_leadOps, issued_blockStart, List.map_append, map_fst_pair, e,
      List.take_of_length_le (by simp [leadBlocks_length])]
    rfl

/-- C15: for a valid algorithm/mode pair and an input of `n ≥ 1` bytes, let the transforms
`0 .. k - 1` of the call complete and let transform `k` (the `k + 1`-th block, leading or
trailing) never complete.  `SKE_CryptoBlocksInternal` returns `LL_ERR_TIMEOUT`, and so does
`SKE_CryptoBlocks` with the same output and state.  The register writes of the call end with the
`START` of transform `k`: exactly `k + 1` transforms were started, for the first `k + 1` blocks
of the input, and nothing follows.  The output buffer holds the `k` blocks read after the
completed transforms in its first `k * bs` bytes and its old content from there on (nothing is
undone, nothing else written). -/
theorem C15_timeout (mp lp : Nat) (env : SkeEnv) (alg mode : Nat) (inp : List Nat)
    (out : Option (List Nat)) (n k : Nat) (s : SkeHw) (m0 : Bool) (p0 : Option (List Nat))
    (hv : IS_SKE_ALG_MD mp alg mode = true) (hn1 : 1 ≤ n) (hn : n < U32_MOD)
    (hlen : n ≤ inp.length) (holen : ∀ o, out = some o → n ≤ o.length)
    (hk : k ≤ (n - 1) / SKE_GetBlockSize alg)
    (hc : ∀ j, j < k → TransformCompletes env
      (s.log ++ crStartLog (IS_SKE_XCM_MD mp mode) inp n (SKE_GetBlockSize alg) j))
    (hs : TransformStuck env
      (s.log ++ crStartLog (IS_SKE_XCM_MD mp mode) inp n (SKE_GetBlockSize alg) k)) :
    ∃ (ds : List (List Nat)) (s' : SkeHw),
      SKE_CryptoBlocksInternal mp env alg mode (some inp) out n s =
        some (LL_ERR_TIMEOUT,
          out.map (fun o => ds.flatten ++ o.drop (k * SKE_GetBlockSize alg)), s') ∧
      SKE_CryptoBlocks mp env (some ⟨alg, mode, some inp, out, n⟩) s =
        some (LL_ERR_TIMEOUT,
          out.map (fun o => ds.flatten ++ o.drop (k * SKE_GetBlockSize alg)), s') ∧
      s'.log = s.log ++ crStartLog (IS_SKE_XCM_MD mp mode) inp n (SKE_GetBlockSize alg) k ∧
      (crStartLog (IS_SKE_XCM_MD mp mode) inp n (SKE_GetBlockSize alg) k).count
        HwOp.ctrlStart = k + 1 ∧
      (issued lp m0 p0 (crStartLog (IS_SKE_XCM_MD mp mode) inp n (SKE_GetBlockSize alg) k)).map
        Prod.fst = (crBlocks inp n (SKE_GetBlockSize alg)).take (k + 1) ∧
      ds.length = k ∧ (∀ d ∈ ds, d.length = SKE_GetBlockSize alg) ∧
      (∀ j, j < k → ∃ t, ds.getD j [] = readBytes (env.dout (s.log ++
        crStartLog (IS_SKE_XCM_MD mp mode) inp n (SKE_GetBlockSize alg) j ++
          [HwOp.sr2Done 0]) t) 0 (SKE_GetBlockSize alg)) ∧
      (∀ o, out = some o →
        (ds.flatten ++ o.drop (k * SKE_GetBlockSize alg)).length = o.length ∧
        ∀ i, k * SKE_GetBlockSize alg ≤ i →
          (ds.flatten ++ o.drop (k * SKE_GetBlockSize alg)).getD i 0 = o.getD i 0) := by
  have halg := alg_of_alg_md mp alg mode hv
  have hbs2 := blockSize_cases alg halg
  rw [getBlockSize_of_alg alg halg] at hk hc hs ⊢
  have hK := leadCount_eq n _ hbs2
  rw [← hK] at hk
  obtain ⟨ds, t', h1, h2, h3, h4⟩ := cryptoBlocks_timeout_at mp env alg mode hv inp out n hn1 hn
    hlen holen s k hk hc hs
  generalize hb : m_au8SkeAlgBlockSize.getD alg 0 = bs at *
  obtain ⟨-, hr2, hrbs, hKm, hKn⟩ := split_facts n bs hn1 hbs2
  have hfl : ds.flatten.length = k * bs := by rw [flatten_length_of bs ds h3, h2]
  have hkK : k * bs ≤ leadCount n bs * bs := Nat.mul_le_mul_right bs hk
  refine ⟨ds, _, h1, ?_, rfl, count_start_crStartLog _ inp n bs k hk,
    issued_crStartLog lp m0 _ p0 inp n bs k hk, h2, h3, h4, ?_⟩
  · simp only [SKE_CryptoBlocks]
    exact h1
  · intro o ho
    have hol := holen o ho
    constructor
    · rw [List.length_append, hfl, List.length_drop]
      omega
    · intro i hi
      rw [getD_append_nat, hfl, if_neg (by omega)]
      simp only [List.getD_eq_getElem?_getD, List.getElem?_drop]
      congr 2
      omega

theorem C15_timeout_witness :
    ∃ (ds : List (List Nat)) (s' : SkeHw),
      SKE_CryptoBlocks 28 (envStuckAfter 1 (List.replicate 16 7))
          (some ⟨SKE_ALG_AES_128, SKE_MD_CBC 28, some (List.replicate 40 1),
            some (List.replicate 40 9), 40⟩) ⟨[], 0⟩ =
        some (LL_ERR_TIMEOUT, (some (List.replicate 40 9)).map
          (fun o => ds.flatten ++ o.drop (1 * SKE_GetBlockSize SKE_ALG_AES_128)), s') ∧
      ds.length = 1 ∧ s'.log.count HwOp.ctrlStart = 2 := by
  obtain ⟨ds, s', -, h1, h2, h3, -, h4, -⟩ := C15_timeout 28 8 (envStuckAfter 1 (List.replicate 16 7))
    SKE_ALG_AES_128 (SKE_MD_CBC 28) (List.replicate 40 1) (some (List.replicate 40 9)) 40 1
    ⟨[], 0⟩ false none (by decide) (by decide) (by decide) (by decide)
    (by intro o ho; cases ho; decide) (by decide)
    (by
      intro j hj
      have hj0 : j = 0 := by omega
      subst hj0
      intro t
      exact ⟨0, by decide, rfl, rfl⟩)
    (by intro t; rfl)
  refine ⟨ds, s', h1, h4, ?_⟩
  rw [h2]
  simpa using h3

set_option maxRecDepth 100000 in
theorem C15_eval :
    (SKE_CryptoBlocks 28 (envStuckAfter 1 (List.replicate 16 7))
        (some ⟨SKE_ALG_AES_128, SKE_MD_CBC 28, some (List.replicate 40 1),
          some (List.replicate 40 9), 40⟩) ⟨[], 0⟩).map
      (fun r => (r.1, r.2.1, r.2.2.log.count HwOp.ctrlStart)) =
      some (LL_ERR_TIMEOUT, some (List.replicate 16 7 ++ List.replicate 24 9), 2) := by
  decide

theorem runSteps_length (step : List Nat → List Nat → List Nat × List Nat) :
    ∀ (c : List Nat) (l : List (List Nat)), (runSteps step c l).length = l.length
  | _, [] => rfl
  | c, b :: r => by simp [runSteps, runSteps_length step (step c b).2 r]

theorem runSteps_append (step : List Nat → List Nat → List Nat × List Nat) :
    ∀ (c : List Nat) (l1 l2 : List (List Nat)),
      runSteps step c (l1 ++ l2) = runSteps step c l1 ++ runSteps step (chainAfter step c l1) l2
  | _, [], _ => rfl
  | c, b :: r, l2 => by
    simp [runSteps, chainAfter, runSteps_append step (step c b).2 r l2]

theorem engineOut_lead (step : List Nat → List Nat → List Nat × List Nat) (inp : List Nat)
    (bs : Nat) (b : List Nat) :
    ∀ (j i : Nat) (c : List Nat) (p : Option (List Nat)) (o : List Nat),
      engineOut step c p o (leadOps inp bs j i ++ [HwOp.din b, HwOp.ctrlStart, HwOp.sr2Done 0]) =
        (runSteps step c (leadBlocks inp bs j i ++ [b])).getD j []
  | 0, i, c, p, o => by simp [leadOps, leadBlocks, engineOut, runSteps]
  | j + 1, i, c, p, o => by
    simp only [leadOps, leadBlocks, blockOps_false, List.cons_append, List.nil_append,
      List.append_assoc, engineOut, runSteps]
    rw [engineOut_lead step inp bs b j (i + bs)]
    simp

theorem runSteps_getD_left (step : List Nat → List Nat → List Nat × List Nat)
    (c : List Nat) (l1 l2 : List (List Nat)) (j : Nat) (hj : j < l1.length) :
    (runSteps step c (l1 ++ l2)).getD j [] = (runSteps step c l1).getD j [] := by
  rw [runSteps_append]
  simp only [List.getD_eq_getElem?_getD]
  rw [List.getElem?_append_left (by rw [runSteps_length]; exact hj)]

theorem engineOut_crStartLog (step : List Nat → List Nat → List Nat × List Nat) (inp : List Nat)
    (n bs j : Nat) (hj : j ≤ leadCount n bs) (c : List Nat) (p : Option (List Nat))
    (o : List Nat) :
    engineOut step c p o (crStartLog false inp n bs j ++ [HwOp.sr2Done 0]) =
      (runSteps step c (crBlocks inp n bs)).getD j [] := by
  unfold crStartLog crBlocks
  split_ifs with h
  · have e1 : leadOps inp bs j 0 ++ blockStart false (readBytes inp (j * bs) bs) ++
        [HwOp.sr2Done 0] = leadOps inp bs j 0 ++
          [HwOp.din (readBytes inp (j * bs) bs), HwOp.ctrlStart, HwOp.sr2Done 0] := by
      simp [blockStart]
    have hlen1 : j < (leadBlocks inp bs j 0 ++ [readBytes inp (j * bs) bs]).length := by
      simp [leadBlocks_length]
    have hpre : leadBlocks inp bs (leadCount n bs) 0 ++ [lastBlock inp n bs] =
        (leadBlocks inp bs j 0 ++ [readBytes inp (j * bs) bs]) ++
          ((leadBlocks inp bs (leadCount n bs) 0).drop (j + 1) ++ [lastBlock inp n bs]) := by
      have := leadBlocks_take inp bs (leadCount n bs) (j + 1) 0 (by omega)
      rw [leadBlocks_succ, Nat.zero_add] at this
      rw [← this, ← List.append_assoc, List.take_append_drop]
    rw [e1, engineOut_lead, hpre, runSteps_getD_left step c _ _ j hlen1]
  · have e : j = leadCount n bs := by omega
    have e1 : leadOps inp bs (leadCount n bs) 0 ++ blockStart false (lastBlock inp n bs) ++
        [HwOp.sr2Done 0] = leadOps inp bs (leadCount n bs) 0 ++
          [HwOp.din (lastBlock inp n bs), HwOp.ctrlStart, HwOp.sr2Done 0] := by
      simp [blockStart]
    rw [e1, engineOut_lead, e]

theorem ds_eq_runSteps (step : List Nat → List Nat → List Nat × List Nat) (env : SkeEnv)
    (base : List HwOp) (c0 : List Nat) (inp : List Nat) (n bs : Nat) (ds : List (List Nat))
    (hE : ∀ ops t, env.dout (base ++ ops) t = engineOut step c0 none [] ops)
    (hl : ds.length = leadCount n bs + 1)
    (hds : ∀ j, j ≤ leadCount n bs → ∃ t, ds.getD j [] =
      readBytes (env.dout (base ++ crStartLog false inp n bs j ++ [HwOp.sr2Done 0]) t) 0 bs) :
    ds = (runSteps step c0 (crBlocks inp n bs)).map (fun x => readBytes x 0 bs) := by
  have hl2 : ((runSteps step c0 (crBlocks inp n bs)).map (fun x => readBytes x 0 bs)).length =
      leadCount n bs + 1 := by
    simp [runSteps_length, crBlocks, leadBlocks_length]
  apply List.ext_getElem (by rw [hl, hl2])
  intro j h1 h2
  obtain ⟨t, ht⟩ := hds j (by omega)
  rw [List.append_assoc, hE, engineOut_crStartLog step inp n bs j (by omega)] at ht
  have h3 : j < (runSteps step c0 (crBlocks inp n bs)).length := by
    simpa using h2
  rw [List.getD_eq_getElem?_getD, List.getElem?_eq_getElem h1, Option.getD_some,
    List.getD_eq_getElem?_getD, List.getElem?_eq_getElem h3, Option.getD_some] at ht
  rw [ht, List.getElem_map]

theorem runSteps_inv (enc dec : List Nat → List Nat → List Nat × List Nat) (bs : Nat)
    (hinv : ∀ c p, p.length = bs → dec c (enc c p).1 = (p, (enc c p).2)) :
    ∀ (c : List Nat) (ps : List (List Nat)), (∀ b ∈ ps, b.length = bs) →
      runSteps dec c (runSteps enc c ps) = ps ∧
      chainAfter dec c (runSteps enc c ps) = chainAfter enc c ps
  | _, [], _ => ⟨rfl, rfl⟩
  | c, b :: r, h => by
    have h1 := hinv c b (h b (List.mem_cons_self _ _))
    have h2 := runSteps_inv enc dec bs hinv (enc c b).2 r (fun x hx => h x (List.mem_cons_of_mem _ hx))
    simp only [runSteps, chainAfter, h1, h2.1, h2.2, and_self]

theorem runSteps_mem_length (step : List Nat → List Nat → List Nat × List Nat) (bs : Nat)
    (hlen : ∀ c b, b.length = bs → (step c b).1.length = bs) :
    ∀ (c : List Nat) (ps : List (List Nat)), (∀ b ∈ ps, b.length = bs) →
      ∀ x ∈ runSteps step c ps, x.length = bs
  | _, [], _, x, hx => by simp [runSteps] at hx
  | c, b :: r, h, x, hx => by
    simp only [runSteps, List.mem_cons] at hx
    rcases hx with rfl | hx
    · exact hlen c b (h b (List.mem_cons_self _ _))
    · exact runSteps_mem_length step bs hlen (step c b).2 r
        (fun y hy => h y (List.mem_cons_of_mem _ hy)) x hx

theorem map_readBytes_id (bs : Nat) :
    ∀ (l : List (List Nat)), (∀ x ∈ l, x.length = bs) → l.map (fun x => readBytes x 0 bs) = l
  | [], _ => rfl
  | x :: r, h => by
    have h1 := h x (List.mem_cons_self _ _)
    rw [List.map_cons, map_readBytes_id bs r (fun y hy => h y (List.mem_cons_of_mem _ hy)),
      readBytes_self x bs h1]

theorem flatten_inj (bs : Nat) (hpos : 0 < bs) :
    ∀ (l1 l2 : List (List Nat)), (∀ x ∈ l1, x.length = bs) → (∀ x ∈ l2, x.length = bs) →
      l1.flatten = l2.flatten → l1 = l2
  | [], [], _, _, _ => rfl
  | [], y :: r, _, h2, h => by
    have := h2 y (List.mem_cons_self _ _)
    have hl := congrArg List.length h
    simp only [List.flatten_nil, List.flatten_cons, List.length_nil, List.length_append] at hl
    omega
  | x :: r, [], h1, _, h => by
    have := h1 x (List.mem_cons_self _ _)
    have hl := congrArg List.length h
    simp only [List.flatten_nil, List.flatten_cons, List.length_nil, List.length_append] at hl
    omega
  | x :: r1, y :: r2, h1, h2, h => by
    have hx := h1 x (List.mem_cons_self _ _)
    have hy := h2 y (List.mem_cons_self _ _)
    simp only [List.flatten_cons] at h
    obtain ⟨e1, e2⟩ := List.append_inj h (by rw [hx, hy])
    rw [e1, flatten_inj bs hpos r1 r2 (fun z hz => h1 z (List.mem_cons_of_mem _ hz))
      (fun z hz => h2 z (List.mem_cons_of_mem _ hz)) e2]

theorem crBlocks_mem_length (inp : List Nat) (n bs : Nat) (hn1 : 1 ≤ n) (hlen : n ≤ inp.length)
    (hbs : 0 < bs) : ∀ b ∈ crBlocks inp n bs, b.length = bs := by
  intro b hb
  rw [crBlocks, List.mem_append] at hb
  rcases hb with hb | hb
  · exact leadBlocks_mem_length inp bs _ 0 b hb
  · rw [List.mem_singleton.mp hb]
    exact lastBlock_length inp n bs hn1 hlen hbs

theorem crBlocks_flatten (inp : List Nat) (n bs : Nat) (hn1 : 1 ≤ n) (hlen : n ≤ inp.length)
    (hbs : bs = 8 ∨ bs = 16) :
    (crBlocks inp n bs).flatten = inp.take n ++ List.replicate ((bs - n % bs) % bs) 0 := by
  obtain ⟨-, hr2, hrbs, hKm, hKn⟩ := split_facts n bs hn1 hbs
  rw [crBlocks, List.flatten_append, leadBlocks_flatten inp bs _ 0 (by omega), hKm]
  simp only [List.flatten_cons, List.flatten_nil, List.append_nil, List.drop_zero]
  exact take_append_lastBlock inp n bs hn1 hbs

theorem base_md_valid (mp alg mode : Nat) (halg : IS_SKE_ALG alg = true)
    (hmode : IS_SKE_BASE_MD mp mode = true) :
    IS_SKE_ALG_MD mp alg mode = true ∧ IS_SKE_XCM_MD mp mode = false := by
  constructor
  · simp [IS_SKE_ALG_MD, halg, hmode]
  · unfold IS_SKE_BASE_MD at hmode
    simp only [Bool.or_eq_true, beq_iff_eq] at hmode
    rcases hmode with (((h | h) | h) | h) | h <;> subst h <;>
      simp [IS_SKE_XCM_MD, SKE_MD_ECB, SKE_MD_CBC, SKE_MD_CFB, SKE_MD_OFB, SKE_MD_CTR,
        SKE_MD_GCM, SKE_MD_CCM, shl_inj]

/-- One run of `SKE_CryptoBlocksInternal` in a base mode on an engine that transforms the blocks
with `step` from the chaining state `c0`. -/
theorem engine_run (mp : Nat) (env : SkeEnv) (step : List Nat → List Nat → List Nat × List Nat)
    (c0 : List Nat) (alg mode : Nat) (inp o : List Nat) (n : Nat) (s : SkeHw)
    (halg : IS_SKE_ALG alg = true) (hmode : IS_SKE_BASE_MD mp mode = true)
    (hn1 : 1 ≤ n) (hn : n < U32_MOD) (hlen : n ≤ inp.length) (holen : n ≤ o.length)
    (hd : AllDone env)
    (hE : ∀ ops t, env.dout (s.log ++ ops) t = engineOut step c0 none [] ops) :
    ∃ s', SKE_CryptoBlocksInternal mp env alg mode (some inp) (some o) n s =
      some (LL_OK, some ((((runSteps step c0
        (crBlocks inp n (m_au8SkeAlgBlockSize.getD alg 0))).map
          (fun x => readBytes x 0 (m_au8SkeAlgBlockSize.getD alg 0))).flatten).take n ++
            o.drop n), s') := by
  obtain ⟨hv, hx⟩ := base_md_valid mp alg mode halg hmode
  obtain ⟨ds, t', h1, h2, -, h4⟩ := cryptoBlocks_run_at mp env alg mode hv inp o n hn1 hn hlen
    holen s (fun j _ => completes_of_allDone env hd _)
  rw [hx] at h1 h4
  have := ds_eq_runSteps step env s.log c0 inp n _ ds hE h2 h4
  rw [← this]
  exact ⟨_, h1⟩

/-- C12: ECB, CBC, CFB, OFB or CTR with a valid algorithm on an engine whose transforms are
`enc` in the encrypt session and `dec` in the decrypt session, both from the same chaining state
(same key and IV), where `dec` inverts `enc` on every block: `dec c (enc c p)` is `p` with the
same next chaining state.  For a message of `n` bytes, `n` a positive multiple of the block size
(one block or several), `SKE_CryptoBlocks` in the encrypt session returns `LL_OK` with an output
`C`, and `SKE_CryptoBlocks` in the decrypt session on `C` returns `LL_OK` with an output whose
first `n` bytes are the message. -/
theorem C12_round_trip_blocks (mp : Nat) (env : SkeEnv)
    (enc dec : List Nat → List Nat → List Nat × List Nat) (c0 : List Nat) (alg mode : Nat)
    (P oE oD : List Nat) (n : Nat) (sE sD : SkeHw)
    (halg : IS_SKE_ALG alg = true) (hmode : IS_SKE_BASE_MD mp mode = true)
    (hn1 : 1 ≤ n) (hn : n < U32_MOD) (hmul : n % SKE_GetBlockSize alg = 0)
    (hP : n ≤ P.length) (hoE : n ≤ oE.length) (hoD : n ≤ oD.length)
    (hd : AllDone env)
    (hE : ∀ ops t, env.dout (sE.log ++ ops) t = engineOut enc c0 none [] ops)
    (hD : ∀ ops t, env.dout (sD.log ++ ops) t = engineOut dec c0 none [] ops)
    (hlenE : ∀ c b, b.length = SKE_GetBlockSize alg → (enc c b).1.length = SKE_GetBlockSize alg)
    (hinv : ∀ c p, p.length = SKE_GetBlockSize alg → dec c (enc c p).1 = (p, (enc c p).2)) :
    ∃ (C P' : List Nat) (sE' sD' : SkeHw),
      SKE_CryptoBlocks mp env (some ⟨alg, mode, some P, some oE, n⟩) sE =
        some (LL_OK, some C, sE') ∧
      SKE_CryptoBlocks mp env (some ⟨alg, mode, some C, some oD, n⟩) sD =
        some (LL_OK, some P', sD') ∧
      P'.take n = P.take n := by
  have hbs2 := blockSize_cases alg halg
  rw [getBlockSize_of_alg alg halg] at hmul hlenE hinv
  obtain ⟨sE', h1⟩ := engine_run mp env enc c0 alg mode P oE n sE halg hmode hn1 hn hP hoE hd hE
  generalize hb : m_au8SkeAlgBlockSize.getD alg 0 = bs at *
  have hpos : 0 < bs := by rcases hbs2 with rfl | rfl <;> omega
  obtain ⟨-, hr2, hrbs, hKm, hKn⟩ := split_facts n bs hn1 hbs2
  have hpad : (bs - n % bs) % bs = 0 := by rw [hmul]; simp
  -- the blocks of the message and of the encrypted output
  have hpE := crBlocks_mem_length P n bs hn1 hP hpos
  have hcE := runSteps_mem_length enc bs hlenE c0 (crBlocks P n bs) hpE
  rw [map_readBytes_id bs _ hcE] at h1
  have hflP : (crBlocks P n bs).flatten = P.take n := by
    rw [crBlocks_flatten P n bs hn1 hP hbs2, hpad]
    simp
  have hcl : ((runSteps enc c0 (crBlocks P n bs)).flatten).length = n := by
    rw [flatten_length_of bs _ hcE, runSteps_length, ← flatten_length_of bs _ hpE, hflP,
      List.length_take]
    omega
  have hCl : n ≤ (((runSteps enc c0 (crBlocks P n bs)).flatten).take n ++ oE.drop n).length := by
    rw [List.length_append, List.length_take, List.length_drop, hcl]
    omega
  obtain ⟨sD', h2⟩ := engine_run mp env dec c0 alg mode
    (((runSteps enc c0 (crBlocks P n bs)).flatten).take n ++ oE.drop n) oD n sD halg hmode hn1 hn
    hCl hoD hd hD
  rw [hb] at h2
  have hCtake : (((runSteps enc c0 (crBlocks P n bs)).flatten).take n ++ oE.drop n).take n =
      (runSteps enc c0 (crBlocks P n bs)).flatten := by
    rw [List.take_of_length_le (le_of_eq hcl), List.take_left' hcl]
  have hblocks : crBlocks (((runSteps enc c0 (crBlocks P n bs)).flatten).take n ++ oE.drop n)
      n bs = runSteps enc c0 (crBlocks P n bs) := by
    apply flatten_inj bs hpos _ _ (crBlocks_mem_length _ n bs hn1 hCl hpos) hcE
    rw [crBlocks_flatten _ n bs hn1 hCl hbs2, hpad, hCtake]
    simp
  rw [hblocks, (runSteps_inv enc dec bs hinv c0 (crBlocks P n bs) hpE).1,
    map_readBytes_id bs _ hpE, hflP] at h2
  refine ⟨_, _, sE', sD', h1, h2, ?_⟩
  have hl : ((P.take n).take n).length = n := by
    rw [List.length_take, List.length_take]
    omega
  rw [List.take_left' hl, List.take_take, Nat.min_self]

theorem allDone_engineEnv (enc dec : List Nat → List Nat → List Nat × List Nat) (c0 : List Nat) :
    AllDone (engineEnv enc dec c0) := by
  intro log t
  exact ⟨0, Nat.zero_le _, rfl, rfl⟩

theorem C12_round_trip_blocks_witness :
    ∃ (C P' : List Nat) (sE' sD' : SkeHw),
      SKE_CryptoBlocks 28 (engineEnv revStep revStep [])
          (some ⟨SKE_ALG_DES, SKE_MD_CBC 28, some [1, 2, 3, 4, 5, 6, 7, 8, 9, 10, 11, 12, 13, 14,
            15, 16], some (List.replicate 16 0), 16⟩) ⟨[HwOp.cfgDec SKE_CRYPTO_ENCRYPT], 0⟩ =
        some (LL_OK, some C, sE') ∧
      SKE_CryptoBlocks 28 (engineEnv revStep revStep [])
          (some ⟨SKE_ALG_DES, SKE_MD_CBC 28, some C, some (List.replicate 16 0), 16⟩)
          ⟨[HwOp.cfgDec SKE_CRYPTO_DECRYPT], 0⟩ = some (LL_OK, some P', sD') ∧
      P'.take 16 = [1, 2, 3, 4, 5, 6, 7, 8, 9, 10, 11, 12, 13, 14, 15, 16].take 16 :=
  C12_round_trip_blocks 28 (engineEnv revStep revStep []) revStep revStep [] SKE_ALG_DES
    (SKE_MD_CBC 28) [1, 2, 3, 4, 5, 6, 7, 8, 9, 10, 11, 12, 13, 14, 15, 16]
    (List.replicate 16 0) (List.replicate 16 0) 16 ⟨[HwOp.cfgDec SKE_CRYPTO_ENCRYPT], 0⟩
    ⟨[HwOp.cfgDec SKE_CRYPTO_DECRYPT], 0⟩ (by decide) (by decide) (by decide) (by decide)
    (by decide) (by decide) (by decide) (by decide) (allDone_engineEnv _ _ _)
    (fun _ _ => rfl) (fun _ _ => rfl)
    (by intro c b hb; simpa [revStep] using hb)
    (by intro c p _; simp [revStep])

/-- C13, counterexample: DES in ECB mode on an engine whose block transform, in both
directions, reverses the block (the decrypt transform inverts the encrypt transform).  The
11-byte message `1 .. 11` encrypts to `8 .. 1, 0, 0, 0`, and these 11 bytes decrypt to
`1 .. 8, 0, 0, 0`: the ragged last three bytes are not recovered. -/
theorem C13_counterexample :
    (∀ c p : List Nat, revStep c (revStep c p).1 = (p, (revStep c p).2)) ∧
    (SKE_CryptoBlocks 28 (engineEnv revStep revStep [])
        (some ⟨SKE_ALG_DES, SKE_MD_ECB 28, some [1, 2, 3, 4, 5, 6, 7, 8, 9, 10, 11],
          some (List.replicate 11 0xFF), 11⟩) ⟨[HwOp.cfgDec SKE_CRYPTO_ENCRYPT], 0⟩).map
      (fun r => (r.1, r.2.1)) = some (LL_OK, some [8, 7, 6, 5, 4, 3, 2, 1, 0, 0, 0]) ∧
    (SKE_CryptoBlocks 28 (engineEnv revStep revStep [])
        (some ⟨SKE_ALG_DES, SKE_MD_ECB 28, some [8, 7, 6, 5, 4, 3, 2, 1, 0, 0, 0],
          some (List.replicate 11 0xFF), 11⟩) ⟨[HwOp.cfgDec SKE_CRYPTO_DECRYPT], 0⟩).map
      (fun r => (r.1, r.2.1)) = some (LL_OK, some [1, 2, 3, 4, 5, 6, 7, 8, 0, 0, 0]) ∧
    [1, 2, 3, 4, 5, 6, 7, 8, 0, 0, 0] ≠ [1, 2, 3, 4, 5, 6, 7, 8, 9, 10, 11] := by
  refine ⟨by intro c p; simp [revStep], by decide, by decide, by decide⟩

theorem runSteps_snoc (step : List Nat → List Nat → List Nat × List Nat) (c : List Nat)
    (l : List (List Nat)) (x : List Nat) :
    runSteps step c (l ++ [x]) = runSteps step c l ++ [(step (chainAfter step c l) x).1] := by
  rw [runSteps_append]
  rfl

theorem take_append_snoc (A x : List Nat) (n r : Nat) (hA : A.length = n - r) (hr : r ≤ n) :
    (A ++ x).take n = A ++ x.take r := by
  have h1 : A.length ≤ n := by omega
  rw [List.take_append_eq_append_take, List.take_of_length_le h1]
  congr 2
  omega

theorem readBytes_take_of (x : List Nat) (bs r : Nat) (hr : r ≤ bs) (hx : r ≤ x.length) :
    (readBytes x 0 bs).take r = x.take r := by
  apply ext_getD
  · simp only [List.length_take, readBytes_length]
    omega
  · intro j hj
    simp only [List.length_take, readBytes_length] at hj
    have hjr : j < r := by omega
    have := readBytes_getD x 0 bs j
    simp only [List.getD_eq_getElem?_getD] at this ⊢
    rw [List.getElem?_take, List.getElem?_take, if_pos hjr, if_pos hjr, this, if_pos (by omega)]
    simp

theorem lastBlock_take (inp : List Nat) (n bs : Nat) (hlen : n ≤ inp.length) (hn1 : 1 ≤ n) :
    (lastBlock inp n bs).take ((n - 1) % bs + 1) =
      (inp.drop (n - ((n - 1) % bs + 1))).take ((n - 1) % bs + 1) := by
  have hr2 : (n - 1) % bs ≤ n - 1 := Nat.mod_le _ _
  have hl : ((inp.drop (n - ((n - 1) % bs + 1))).take ((n - 1) % bs + 1)).length =
      (n - 1) % bs + 1 := by
    rw [List.length_take, List.length_drop]
    omega
  rw [lastBlock, List.take_left' hl]

/-- The round trip of a message with a ragged last block through an engine whose decrypt
transform inverts its encrypt transform: the two runs and the message bytes they recover. -/
theorem ragged_round_trip (mp : Nat) (env : SkeEnv)
    (enc dec : List Nat → List Nat → List Nat × List Nat) (c0 : List Nat) (alg mode : Nat)
    (P oE oD : List Nat) (n bs r : Nat) (sE sD : SkeHw)
    (halg : IS_SKE_ALG alg = true) (hmode : IS_SKE_BASE_MD mp mode = true)
    (hb : m_au8SkeAlgBlockSize.getD alg 0 = bs) (hr : (n - 1) % bs + 1 = r)
    (hn1 : 1 ≤ n) (hn : n < U32_MOD)
    (hP : n ≤ P.length) (hoE : n ≤ oE.length) (hoD : n ≤ oD.length)
    (hd : AllDone env)
    (hE : ∀ ops t, env.dout (sE.log ++ ops) t = engineOut enc c0 none [] ops)
    (hD : ∀ ops t, env.dout (sD.log ++ ops) t = engineOut dec c0 none [] ops)
    (hlenE : ∀ c b, b.length = bs → (enc c b).1.length = bs)
    (hinv : ∀ c p, p.length = bs → dec c (enc c p).1 = (p, (enc c p).2)) :
    ∃ (C P' : List Nat) (sE' sD' : SkeHw),
      SKE_CryptoBlocksInternal mp env alg mode (some P) (some oE) n sE =
        some (LL_OK, some C, sE') ∧
      SKE_CryptoBlocksInternal mp env alg mode (some C) (some oD) n sD =
        some (LL_OK, some P', sD') ∧
      P'.take (n - r) = P.take (n - r) ∧
      ((∀ c a a', a.length = bs → a'.length = bs → a.take r = a'.take r →
          (dec c a).1.take r = (dec c a').1.take r) →
        P'.take n = P.take n) := by
  have hbs2 := blockSize_cases alg halg
  rw [hb] at hbs2
  obtain ⟨sE', h1⟩ := engine_run mp env enc c0 alg mode P oE n sE halg hmode hn1 hn hP hoE hd hE
  rw [hb] at h1
  have hpos : 0 < bs := by rcases hbs2 with rfl | rfl <;> omega
  obtain ⟨-, hr2, hrbs, hKm, hKn⟩ := split_facts n bs hn1 hbs2
  rw [hr] at hr2 hrbs hKm hKn
  have hpad : (bs - n % bs) % bs = bs - r := by
    rcases hbs2 with rfl | rfl <;> omega
  -- the blocks of the message: the leading blocks `L` and the padded trailing block
  have hpE := crBlocks_mem_length P n bs hn1 hP hpos
  have hcE := runSteps_mem_length enc bs hlenE c0 (crBlocks P n bs) hpE
  rw [map_readBytes_id bs _ hcE] at h1
  have hLl : ∀ b ∈ leadBlocks P bs (leadCount n bs) 0, b.length = bs :=
    leadBlocks_mem_length P bs _ 0
  have hlastl : (lastBlock P n bs).length = bs := lastBlock_length P n bs hn1 hP hpos
  have hLfl : (leadBlocks P bs (leadCount n bs) 0).flatten = P.take (n - r) := by
    rw [leadBlocks_flatten P bs _ 0 (by omega), hKm]
    rfl
  have hcLl := runSteps_mem_length enc bs hlenE c0 _ hLl
  have hcLfl : ((runSteps enc c0 (leadBlocks P bs (leadCount n bs) 0)).flatten).length = n - r := by
    rw [flatten_length_of bs _ hcLl, runSteps_length, leadBlocks_length, hKm]
  have hcll := hlenE (chainAfter enc c0 (leadBlocks P bs (leadCount n bs) 0)) _ hlastl
  generalize hL : leadBlocks P bs (leadCount n bs) 0 = L at *
  generalize hcK : chainAfter enc c0 L = cK at *
  generalize hcl : (enc cK (lastBlock P n bs)).1 = cl at *
  have hcE2 : runSteps enc c0 (crBlocks P n bs) = runSteps enc c0 L ++ [cl] := by
    rw [crBlocks, hL, runSteps_snoc, hcK, hcl]
  rw [hcE2, List.flatten_append, List.flatten_cons, List.flatten_nil, List.append_nil,
    take_append_snoc _ cl n r hcLfl hr2] at h1
  generalize hCdef : (runSteps enc c0 L).flatten ++ cl.take r ++ oE.drop n = C at *
  have hctl : (cl.take r).length = r := by
    rw [List.length_take]
    omega
  have hCl : n ≤ C.length := by
    rw [← hCdef]
    simp only [List.length_append, List.length_drop, hcLfl, hctl]
    omega
  have hCtake : C.take n = (runSteps enc c0 L).flatten ++ cl.take r := by
    rw [← hCdef]
    have : ((runSteps enc c0 L).flatten ++ cl.take r).length = n := by
      rw [List.length_append, hcLfl, hctl]
      omega
    exact List.take_left' this
  -- the decrypt run
  obtain ⟨sD', h2⟩ := engine_run mp env dec c0 alg mode C oD n sD halg hmode hn1 hn hCl hoD hd hD
  rw [hb] at h2
  have hal : (cl.take r ++ List.replicate (bs - r) 0).length = bs := by
    rw [List.length_append, hctl, List.length_replicate]
    omega
  have hblocks : crBlocks C n bs =
      runSteps enc c0 L ++ [cl.take r ++ List.replicate (bs - r) 0] := by
    apply flatten_inj bs hpos _ _ (crBlocks_mem_length _ n bs hn1 hCl hpos)
    · intro x hx
      rcases List.mem_append.mp hx with hx | hx
      · exact hcLl x hx
      · rw [List.mem_singleton.mp hx]
        exact hal
    · rw [crBlocks_flatten _ n bs hn1 hCl hbs2, hpad, hCtake]
      simp [List.append_assoc]
  obtain ⟨hi1, hi2⟩ := runSteps_inv enc dec bs hinv c0 L hLl
  rw [hcK] at hi2
  rw [hblocks, runSteps_snoc, hi1, hi2, List.map_append, map_readBytes_id bs _ hLl,
    List.map_cons, List.map_nil, List.flatten_append, List.flatten_cons, List.flatten_nil,
    List.append_nil, hLfl] at h2
  have hPl : (P.take (n - r)).length = n - r := by
    rw [List.length_take]
    omega
  rw [take_append_snoc _ _ n r hPl hr2] at h2
  refine ⟨C, _, sE', sD', h1, h2, ?_, ?_⟩
  · rw [List.append_assoc, List.take_left' hPl]
  · intro hpre
    have hx : (dec cK (cl.take r ++ List.replicate (bs - r) 0)).1.take r =
        (lastBlock P n bs).take r := by
      have h3 := hpre cK (cl.take r ++ List.replicate (bs - r) 0) cl hal hcll
        (List.take_left' hctl)
      rw [h3, ← hcl, hinv cK _ hlastl]
    have hlt : (lastBlock P n bs).take r = (P.drop (n - r)).take r := by
      have := lastBlock_take P n bs hP hn1
      rwa [hr] at this
    have hxl : r ≤ (dec cK (cl.take r ++ List.replicate (bs - r) 0)).1.length := by
      have := congrArg List.length hx
      rw [hlt, List.length_take, List.length_take, List.length_drop] at this
      omega
    rw [readBytes_take_of _ bs r hrbs hxl, hx, hlt]
    have hl2 : (P.take (n - r) ++ (P.drop (n - r)).take r).length = n := by
      rw [List.length_append, hPl, List.length_take, List.length_drop]
      omega
    rw [List.take_left' hl2]
    have e : n = (n - r) + r := by omega
    conv_rhs => rw [e, List.take_add]

/-- C13, amended: ECB, CBC, CFB, OFB or CTR with a valid algorithm on an engine whose decrypt
transform `dec` inverts its encrypt transform `enc` on every block, both sessions starting from
the same chaining state.  For a message of `n` bytes with a ragged last block
(`remain = n mod bs ≠ 0`), `SKE_CryptoBlocks` in the encrypt session returns `LL_OK` with an
output `C`, and `SKE_CryptoBlocks` in the decrypt session on `C` returns `LL_OK` with an output
whose first `n - remain` bytes are those of the message.  The whole `n`-byte message is returned
when, moreover, the first `remain` output bytes of `dec` depend only on the first `remain` bytes
of its input block, as in the stream modes CFB, OFB and CTR. -/
theorem C13_round_trip_ragged (mp : Nat) (env : SkeEnv)
    (enc dec : List Nat → List Nat → List Nat × List Nat) (c0 : List Nat) (alg mode : Nat)
    (P oE oD : List Nat) (n : Nat) (sE sD : SkeHw)
    (halg : IS_SKE_ALG alg = true) (hmode : IS_SKE_BASE_MD mp mode = true)
    (hn : n < U32_MOD) (hrag : n % SKE_GetBlockSize alg ≠ 0)
    (hP : n ≤ P.length) (hoE : n ≤ oE.length) (hoD : n ≤ oD.length)
    (hd : AllDone env)
    (hE : ∀ ops t, env.dout (sE.log ++ ops) t = engineOut enc c0 none [] ops)
    (hD : ∀ ops t, env.dout (sD.log ++ ops) t = engineOut dec c0 none [] ops)
    (hlenE : ∀ c b, b.length = SKE_GetBlockSize alg → (enc c b).1.length = SKE_GetBlockSize alg)
    (hinv : ∀ c p, p.length = SKE_GetBlockSize alg → dec c (enc c p).1 = (p, (enc c p).2)) :
    ∃ (C P' : List Nat) (sE' sD' : SkeHw),
      SKE_CryptoBlocks mp env (some ⟨alg, mode, some P, some oE, n⟩) sE =
        some (LL_OK, some C, sE') ∧
      SKE_CryptoBlocks mp env (some ⟨alg, mode, some C, some oD, n⟩) sD =
        some (LL_OK, some P', sD') ∧
      P'.take (n - n % SKE_GetBlockSize alg) = P.take (n - n % SKE_GetBlockSize alg) ∧
      ((∀ c a a', a.length = SKE_GetBlockSize alg → a'.length = SKE_GetBlockSize alg →
          a.take (n % SKE_GetBlockSize alg) = a'.take (n % SKE_GetBlockSize alg) →
          (dec c a).1.take (n % SKE_GetBlockSize alg) =
            (dec c a').1.take (n % SKE_GetBlockSize alg)) →
        P'.take n = P.take n) := by
  have hbs2 := blockSize_cases alg halg
  rw [getBlockSize_of_alg alg halg] at hrag hlenE hinv ⊢
  generalize hb : m_au8SkeAlgBlockSize.getD alg 0 = bs at *
  have hn1 : 1 ≤ n := by
    rcases Nat.eq_zero_or_pos n with h | h
    · rw [h] at hrag
      simp at hrag
    · exact h
  have hr : (n - 1) % bs + 1 = n % bs := by
    rcases hbs2 with rfl | rfl <;> omega
  obtain ⟨C, P', sE', sD', h1, h2, h3, h4⟩ := ragged_round_trip mp env enc dec c0 alg mode P oE oD
    n bs (n % bs) sE sD halg hmode hb hr hn1 hn hP hoE hoD hd hE hD hlenE hinv
  exact ⟨C, P', sE', sD', h1, h2, h3, h4⟩

theorem C13_round_trip_ragged_witness :
    ∃ (C P' : List Nat) (sE' sD' : SkeHw),
      SKE_CryptoBlocks 28 (engineEnv xorStep xorStep [])
          (some ⟨SKE_ALG_DES, SKE_MD_CTR 28, some [1, 2, 3, 4, 5, 6, 7, 8, 9, 10, 11],
            some (List.replicate 11 0), 11⟩) ⟨[HwOp.cfgDec SKE_CRYPTO_ENCRYPT], 0⟩ =
        some (LL_OK, some C, sE') ∧
      SKE_CryptoBlocks 28 (engineEnv xorStep xorStep [])
          (some ⟨SKE_ALG_DES, SKE_MD_CTR 28, some C, some (List.replicate 11 0), 11⟩)
          ⟨[HwOp.cfgDec SKE_CRYPTO_DECRYPT], 0⟩ = some (LL_OK, some P', sD') ∧
      P'.take 11 = [1, 2, 3, 4, 5, 6, 7, 8, 9, 10, 11].take 11 := by
  obtain ⟨C, P', sE', sD', h1, h2, -, h4⟩ := C13_round_trip_ragged 28
    (engineEnv xorStep xorStep []) xorStep xorStep [] SKE_ALG_DES
    (SKE_MD_CTR 28) [1, 2, 3, 4, 5, 6, 7, 8, 9, 10, 11]
    (List.replicate 11 0) (List.replicate 11 0) 11 ⟨[HwOp.cfgDec SKE_CRYPTO_ENCRYPT], 0⟩
    ⟨[HwOp.cfgDec SKE_CRYPTO_DECRYPT], 0⟩ (by decide) (by decide) (by decide) (by decide)
    (by decide) (by decide) (by decide) (allDone_engineEnv _ _ _)
    (fun _ _ => rfl) (fun _ _ => rfl)
    (by intro c b hb; simpa [xorStep] using hb)
    (by
      intro c p _
      simp only [xorStep, List.map_map, Prod.mk.injEq, and_true]
      conv_rhs => rw [← List.map_id p]
      apply List.map_congr_left
      intro x _
      simp [Nat.xor_assoc])
  refine ⟨C, P', sE', sD', h1, h2, h4 ?_⟩
  intro c a a' _ _ h
  simp only [xorStep, ← List.map_take, h]

theorem C13_eval :
    (SKE_CryptoBlocks 28 (engineEnv xorStep xorStep [])
        (some ⟨SKE_ALG_DES, SKE_MD_CTR 28, some [1, 2, 3, 4, 5, 6, 7, 8, 9, 10, 11],
          some (List.replicate 11 0), 11⟩) ⟨[HwOp.cfgDec SKE_CRYPTO_ENCRYPT], 0⟩).map
      (fun r => (r.1, r.2.1)) =
      some (LL_OK, some [91, 88, 89, 94, 95, 92, 93, 82, 83, 80, 81]) ∧
    (SKE_CryptoBlocks 28 (engineEnv xorStep xorStep [])
        (some ⟨SKE_ALG_DES, SKE_MD_CTR 28, some [91, 88, 89, 94, 95, 92, 93, 82, 83, 80, 81],
          some (List.replicate 11 0), 11⟩) ⟨[HwOp.cfgDec SKE_CRYPTO_DECRYPT], 0⟩).map
      (fun r => (r.1, r.2.1)) =
      some (LL_OK, some [1, 2, 3, 4, 5, 6, 7, 8, 9, 10, 11]) := by
  decide

theorem and_mask_f8 (x : Nat) : ((x <<< 3) % U32_MOD) &&& 0xFFFFFFF8 = (x % 2 ^ 29) * 8 := by
  have e1 : (x <<< 3) % U32_MOD = (x % 2 ^ 29) <<< 3 := by
    simp only [Nat.shiftLeft_eq, U32_MOD]
    omega
  have e2 : (0xFFFFFFF8 : Nat) = (2 ^ 29 - 1) <<< 3 := by norm_num [Nat.shiftLeft_eq]
  have ha : x % 2 ^ 29 < 2 ^ 29 := Nat.mod_lt _ (by norm_num)
  rw [e1, e2]
  generalize x % 2 ^ 29 = a at ha
  have e3 : a <<< 3 &&& (2 ^ 29 - 1) <<< 3 = a <<< 3 := by
    apply Nat.eq_of_testBit_eq
    intro j
    rw [Nat.testBit_and, Nat.testBit_shiftLeft, Nat.testBit_shiftLeft, Nat.testBit_two_pow_sub_one]
    by_cases hj : j - 3 < 29
    · simp only [hj, decide_True, Bool.and_true, Bool.and_self]
      cases decide (j ≥ 3) <;> simp
    · have : a.testBit (j - 3) = false :=
        Nat.testBit_lt_two_pow (lt_of_lt_of_le ha (Nat.pow_le_pow_right (by norm_num) (by omega)))
      simp [this]
  rw [e3, Nat.shiftLeft_eq]

theorem and_mask_7 (x : Nat) : (x >>> 29) &&& 0x7 = x / 2 ^ 29 % 8 := by
  have e : (0x7 : Nat) = 2 ^ 3 - 1 := by norm_num
  rw [e, Nat.and_pow_two_sub_one_eq_mod, Nat.shiftRight_eq_div_pow]

/-- C16: for every 32-bit byte count, `SKE_SetAadSize` and `SKE_SetCryptoSize` write
`low = (s << 3) mod 2^32` masked with `0xFFFFFFF8` to the low register and
`high = (s >> 29) & 7` to the high register, and `high * 2^32 + low = 8 * s`: the 35-bit bit
length is kept exactly, the low register's bottom three bits are zero and `high < 8`. -/
theorem C16_size_registers (size : Nat) (s : SkeHw) (h : size < U32_MOD) :
    ∃ low high,
      low = ((size <<< 3) % 2 ^ 32) &&& 0xFFFFFFF8 ∧
      high = (size >>> 29) &&& 0x7 ∧
      SKE_SetAadSize size s = ⟨s.log ++ [HwOp.aad1 low, HwOp.aad2 high], s.tick⟩ ∧
      SKE_SetCryptoSize size s = ⟨s.log ++ [HwOp.clen1 low, HwOp.clen2 high], s.tick⟩ ∧
      high * 2 ^ 32 + low = 8 * size ∧
      low % 8 = 0 ∧ low < 2 ^ 32 ∧ high < 8 := by
  have hl := and_mask_f8 size
  have hh := and_mask_7 size
  simp only [U32_MOD] at hl h
  norm_num only at hl hh ⊢
  refine ⟨_, _, rfl, rfl, ?_, ?_, ?_, ?_, ?_, ?_⟩
  · simp [SKE_SetAadSize, SkeHw.wr, U32_MOD]
  · simp [SKE_SetCryptoSize, SkeHw.wr, U32_MOD]
  · rw [hl, hh]; omega
  · rw [hl]; omega
  · rw [hl]; omega
  · rw [hh]; omega

theorem C16_size_registers_witness :
    ∃ low high,
      SKE_SetAadSize 0xE0000001 ⟨[], 0⟩ = ⟨[HwOp.aad1 low, HwOp.aad2 high], 0⟩ ∧
      high * 2 ^ 32 + low = 8 * 0xE0000001 := by
  obtain ⟨low, high, -, -, h1, -, h2, -⟩ := C16_size_registers 0xE0000001 ⟨[], 0⟩ (by decide)
  exact ⟨low, high, h1, h2⟩

/-! ## The wait loop, poll by poll; the final step without a MAC -/

theorem wait_loop_first (env : SkeEnv) (log : List HwOp) :
    ∀ (i f cnt t : Nat), cnt + i ≤ SKE_TIMEOUT_VAL → i ≤ f →
      (∀ j, j < i → pollReady env log (t + j) = false) → pollReady env log (t + i) = true →
      SKE_WaitTillDone.loop env (f + 1) cnt ⟨log, t⟩ =
        some (LL_OK, ⟨log ++ [HwOp.sr2Done 0], t + i + 1⟩)
  | 0, f, cnt, t, _, _, _, hr => by
    simp only [Nat.add_zero, pollReady] at hr
    simp [SKE_WaitTillDone.loop, hr, SkeHw.wr]
  | i + 1, f, cnt, t, hc, hf, hn, hr => by
    obtain ⟨f', rfl⟩ : ∃ f', f = f' + 1 := ⟨f - 1, by omega⟩
    have h0 := hn 0 (by omega)
    simp only [Nat.add_zero, pollReady] at h0
    have hc2 : ¬ (cnt + 1 > SKE_TIMEOUT_VAL) := by omega
    rw [SKE_WaitTillDone.loop]
    simp only [h0, hc2, if_false, Bool.false_eq_true]
    have e : t + (i + 1) = t + 1 + i := by omega
    rw [e] at hr
    rw [wait_loop_first env log i f' (cnt + 1) (t + 1) (by omega) (by omega)
      (fun j hj => by
        have := hn (j + 1) (by omega)
        have e2 : t + (j + 1) = t + 1 + j := by omega
        rwa [e2] at this) hr]
    have e3 : t + 1 + i + 1 = t + (i + 1) + 1 := by omega
    rw [e3]

theorem wait_loop_none (env : SkeEnv) (log : List HwOp) :
    ∀ (f cnt t : Nat), cnt + f = SKE_TIMEOUT_VAL →
      (∀ j, j ≤ f → pollReady env log (t + j) = false) →
      SKE_WaitTillDone.loop env (f + 1) cnt ⟨log, t⟩ = some (LL_ERR_TIMEOUT, ⟨log, t + f + 1⟩)
  | 0, cnt, t, hc, hn => by
    have h0 := hn 0 (le_refl 0)
    simp only [Nat.add_zero, pollReady] at h0
    have hc2 : cnt + 1 > SKE_TIMEOUT_VAL := by omega
    simp [SKE_WaitTillDone.loop, h0, hc2]
  | f + 1, cnt, t, hc, hn => by
    have h0 := hn 0 (by omega)
    simp only [Nat.add_zero, pollReady] at h0
    have hc2 : ¬ (cnt + 1 > SKE_TIMEOUT_VAL) := by omega
    rw [SKE_WaitTillDone.loop]
    simp only [h0, hc2, if_false, Bool.false_eq_true]
    rw [wait_loop_none env log f (cnt + 1) (t + 1) (by omega)
      (fun j hj => by
        have := hn (j + 1) (by omega)
        have e2 : t + (j + 1) = t + 1 + j := by omega
        rwa [e2] at this)]
    have e3 : t + 1 + f + 1 = t + (f + 1) + 1 := by omega
    rw [e3]

/-- C26: `SKE_WaitTillDone` polls at the times `tick, tick + 1, ...`.  If poll `i` (counted from
0, `i ≤ 1000`) is the first that finds the engine done and idle, it returns `LL_OK` after
exactly `i + 1` polls, having cleared the done flag; if none of the first 1001 polls does, it
returns `LL_ERR_TIMEOUT` after exactly 1001 polls without writing a register.  For every
behaviour of the engine it returns one of the two codes after at least one and at most 1001
polls. -/
theorem C26_wait_bounded (env : SkeEnv) (s : SkeHw) :
    (∀ i, i ≤ SKE_TIMEOUT_VAL → pollReady env s.log (s.tick + i) = true →
      (∀ j, j < i → pollReady env s.log (s.tick + j) = false) →
      SKE_WaitTillDone env s =
        some (LL_OK, ⟨s.log ++ [HwOp.sr2Done 0], s.tick + i + 1⟩)) ∧
    ((∀ i, i ≤ SKE_TIMEOUT_VAL → pollReady env s.log (s.tick + i) = false) →
      SKE_WaitTillDone env s = some (LL_ERR_TIMEOUT, ⟨s.log, s.tick + SKE_TIMEOUT_VAL + 1⟩)) ∧
    (∃ r, SKE_WaitTillDone env s = some r ∧ (r.1 = LL_OK ∨ r.1 = LL_ERR_TIMEOUT) ∧
      s.tick + 1 ≤ r.2.tick ∧ r.2.tick ≤ s.tick + 1001) ∧
    SKE_TIMEOUT_VAL + 1 = 1001 := by
  obtain ⟨log, t⟩ := s
  have h1 : ∀ i, i ≤ SKE_TIMEOUT_VAL → pollReady env log (t + i) = true →
      (∀ j, j < i → pollReady env log (t + j) = false) →
      SKE_WaitTillDone env ⟨log, t⟩ = some (LL_OK, ⟨log ++ [HwOp.sr2Done 0], t + i + 1⟩) :=
    fun i hi hr hn =>
      wait_loop_first env log i SKE_TIMEOUT_VAL 0 t (by omega) hi hn hr
  have h2 : (∀ i, i ≤ SKE_TIMEOUT_VAL → pollReady env log (t + i) = false) →
      SKE_WaitTillDone env ⟨log, t⟩ =
        some (LL_ERR_TIMEOUT, ⟨log, t + SKE_TIMEOUT_VAL + 1⟩) :=
    fun hn => wait_loop_none env log SKE_TIMEOUT_VAL 0 t (by omega) hn
  refine ⟨h1, h2, ?_, rfl⟩
  by_cases hex : ∃ i, i ≤ SKE_TIMEOUT_VAL ∧ pollReady env log (t + i) = true
  · have hmin : ∀ j, j < Nat.find hex →
        ¬ (j ≤ SKE_TIMEOUT_VAL ∧ pollReady env log (t + j) = true) :=
      fun j hj => Nat.find_min hex hj
    obtain ⟨hle, hr⟩ := Nat.find_spec hex
    have := h1 (Nat.find hex) hle hr (fun j hj => by
      have hj2 := hmin j hj
      have hjle : j ≤ SKE_TIMEOUT_VAL := by omega
      simpa [hjle] using hj2)
    refine ⟨_, this, Or.inl rfl, ?_, ?_⟩
    · simp only
      omega
    · simp only [SKE_TIMEOUT_VAL] at hle ⊢
      omega
  · have hn : ∀ i, i ≤ SKE_TIMEOUT_VAL → pollReady env log (t + i) = false := by
      intro i hi
      by_contra hc
      exact hex ⟨i, hi, by simpa using hc⟩
    refine ⟨_, h2 hn, Or.inr rfl, ?_, ?_⟩
    · simp only
      omega
    · simp only [SKE_TIMEOUT_VAL]
      omega

theorem C26_eval :
    SKE_WaitTillDone
      { busy := fun _ t => decide (t < 3), done := fun _ _ => true, midValid := fun _ _ => false,
        dout := fun _ _ => [], midIv := fun _ _ => [] } ⟨[], 0⟩ =
      some (LL_OK, ⟨[HwOp.sr2Done 0], 4⟩) := by
  decide

theorem wait_loop_congr (env1 env2 : SkeEnv) (hb : env1.busy = env2.busy)
    (hd : env1.done = env2.done) :
    ∀ (f cnt : Nat) (s : SkeHw),
      SKE_WaitTillDone.loop env1 f cnt s = SKE_WaitTillDone.loop env2 f cnt s
  | 0, _, _ => rfl
  | f + 1, cnt, s => by
    rw [SKE_WaitTillDone.loop, SKE_WaitTillDone.loop, hb, hd,
      wait_loop_congr env1 env2 hb hd f (cnt + 1)]

/-- C28: `SKE_XcmFinal` in the decrypt direction, the final transform completing.  With
`u32MacSize = 0` (which `IS_SKE_GCM_MAC_SIZE` accepts) it returns `LL_OK` for every MAC pointer
and tag content, every content of the data-out registers and of its local array; with a null
MAC pointer it returns `LL_OK` for every `u32MacSize` and every data-out content.  In both cases
the only register writes are `START` and the clearing of the done flag: the result block is not
read and nothing is compared. -/
theorem C28_xcm_final_no_mac (env : SkeEnv) (f : stc_ske_xcm_final_t) (s : SkeHw)
    (hc : TransformCompletes env (s.log ++ [HwOp.ctrlStart])) :
    ∃ t', (∀ (dout' : List HwOp → Nat → List Nat) (mac' : Option (List Nat))
        (au8Mac' : List Nat),
        SKE_XcmFinal { env with dout := dout' }
          (some { f with u32Crypto := SKE_CRYPTO_DECRYPT, pu8Mac := mac', u32MacSize := 0 }) au8Mac' s =
          some (LL_OK, mac', ⟨s.log ++ [HwOp.ctrlStart, HwOp.sr2Done 0], t'⟩)) ∧
      (∀ (dout' : List HwOp → Nat → List Nat) (size' : Nat) (au8Mac' : List Nat),
        SKE_XcmFinal { env with dout := dout' }
          (some { f with u32Crypto := SKE_CRYPTO_DECRYPT, pu8Mac := none, u32MacSize := size' }) au8Mac' s =
          some (LL_OK, none, ⟨s.log ++ [HwOp.ctrlStart, HwOp.sr2Done 0], t'⟩)) ∧
      IS_SKE_GCM_MAC_SIZE 0 = true := by
  obtain ⟨t', ht'⟩ := wait_ok_at env (s.wr HwOp.ctrlStart) hc
  have hw : ∀ dout' : List HwOp → Nat → List Nat,
      SKE_WaitTillDone { env with dout := dout' } (s.wr HwOp.ctrlStart) =
        some (LL_OK, ⟨s.log ++ [HwOp.ctrlStart, HwOp.sr2Done 0], t'⟩) := by
    intro dout'
    unfold SKE_WaitTillDone at ht' ⊢
    rw [wait_loop_congr { env with dout := dout' } env rfl rfl, ht']
    simp [SkeHw.wr]
  refine ⟨t', ?_, ?_, by decide⟩
  · intro dout' mac' au8Mac'
    unfold SKE_XcmFinal
    simp only [hw dout']
    cases mac' <;> simp
  · intro dout' size' au8Mac'
    unfold SKE_XcmFinal
    simp only [hw dout']
    simp

theorem C28_xcm_final_no_mac_witness :
    ∃ t', SKE_XcmFinal (envConst (List.replicate 16 7))
        (some ⟨SKE_ALG_AES_128, SKE_MD_GCM 28, SKE_CRYPTO_DECRYPT, some [1, 2, 3, 4], 0⟩)
        (List.replicate 16 0) ⟨[], 0⟩ =
      some (LL_OK, some [1, 2, 3, 4], ⟨[] ++ [HwOp.ctrlStart, HwOp.sr2Done 0], t'⟩) := by
  obtain ⟨t', h1, -⟩ := C28_xcm_final_no_mac (envConst (List.replicate 16 7))
    ⟨SKE_ALG_AES_128, SKE_MD_GCM 28, SKE_CRYPTO_DECRYPT, some [1, 2, 3, 4], 0⟩ ⟨[], 0⟩
    (completes_of_allDone _ (allDone_envConst _) _)
  exact ⟨t', h1 (fun _ _ => List.replicate 16 7) (some [1, 2, 3, 4]) (List.replicate 16 0)⟩

/-! ## CMAC: the blocks that are fed -/

theorem cmac_mark (mp : Nat) :
    (isMarkMode mp (SKE_MD_CMAC mp) && ((1 : Nat) != 0)) = true ∧
    (SKE_MD_CMAC mp == SKE_MD_CMAC mp) = true ∧
    IS_SKE_XCM_MD mp (SKE_MD_CMAC mp) = false := by
  refine ⟨by simp [isMarkMode], by simp, ?_⟩
  simp [IS_SKE_XCM_MD, SKE_MD_CMAC, SKE_MD_GCM, SKE_MD_CCM, shl_inj]

theorem readBytes_zeros (k bs : Nat) : readBytes (List.replicate k 0) 0 bs = List.replicate bs 0 := by
  apply List.ext_getElem
  · simp [readBytes_length]
  · intro i h1 h2
    simp only [readBytes, List.getElem_map, List.getElem_range, List.getElem_replicate,
      Nat.zero_add]
    by_cases h : i < k
    · simp [List.getD_eq_getElem?_getD, h]
    · simp [List.getD_eq_getElem?_getD, h]

/-- The last step of `SKE_CmacAction.feed`: the bit length and the trailing block. -/
theorem cmac_feed_fin (mp : Nat) (env : SkeEnv) (hd : AllDone env) (alg : Nat)
    (halg : IS_SKE_ALG alg = true) (r : Nat) (buf : List Nat) (s1 : SkeHw) :
    ∃ t', (match (some (LL_OK, r, buf, s1) : Option (LLRet × Nat × List Nat × SkeHw)) with
        | none => none
        | some (i32Ret, u32RmainSize, au8Buffer, s1) =>
          if i32Ret = LL_OK then
            match SKE_UpdateOneBlock mp env alg (SKE_MD_CMAC mp) (some au8Buffer) none 0 1
              (s1.wr (HwOp.dinCrWrite ((u32RmainSize <<< 3) % U32_MOD))) with
            | none => none
            | some (i32Ret2, _, s3) => some (i32Ret2, au8Buffer, s3)
          else some (i32Ret, au8Buffer, s1)) =
      some (LL_OK, buf, ⟨s1.log ++ ([HwOp.dinCrWrite ((r <<< 3) % U32_MOD)] ++
        blockOps true true (readBytes buf 0 (m_au8SkeAlgBlockSize.getD alg 0))), t'⟩) := by
  obtain ⟨t', ht'⟩ := update_ok mp env hd alg (SKE_MD_CMAC mp) halg buf none 0 1
    (s1.wr (HwOp.dinCrWrite ((r <<< 3) % U32_MOD)))
  obtain ⟨hm1, hm2, -⟩ := cmac_mark mp
  rw [hm1, hm2] at ht'
  simp only [if_true, ht']
  exact ⟨t', by simp [SkeHw.wr]⟩

theorem cmac_feed_empty (mp : Nat) (env : SkeEnv) (hd : AllDone env) (alg : Nat)
    (halg : IS_SKE_ALG alg = true) (pu8Msg : Option (List Nat)) (n : Nat)
    (he : pu8Msg = none ∨ n = 0) (s : SkeHw) :
    ∃ t', SKE_CmacAction.feed mp env alg pu8Msg n s =
      some (LL_OK, List.replicate SKE_BLOCK_SIZE_MAX 0, ⟨s.log ++ ([HwOp.dinCrWrite 0] ++
        blockOps true true (List.replicate (m_au8SkeAlgBlockSize.getD alg 0) 0)), t'⟩) := by
  obtain ⟨t', ht'⟩ := cmac_feed_fin mp env hd alg halg 0 (List.replicate SKE_BLOCK_SIZE_MAX 0) s
  rw [readBytes_zeros] at ht'
  have h0 : ((0 : Nat) <<< 3) % U32_MOD = 0 := by decide
  rw [h0] at ht'
  refine ⟨t', ?_⟩
  unfold SKE_CmacAction.feed
  cases pu8Msg with
  | none => exact ht'
  | some msg =>
    have hn : n = 0 := by
      rcases he with h | h
      · cases h
      · exact h
    subst hn
    simpa using ht'

theorem cmac_feed_log (mp : Nat) (env : SkeEnv) (hd : AllDone env) (alg : Nat)
    (halg : IS_SKE_ALG alg = true) (msg : List Nat) (n : Nat) (hn1 : 1 ≤ n) (hn : n < U32_MOD)
    (hlen : n ≤ msg.length) (s : SkeHw) :
    ∃ buf t', SKE_CmacAction.feed mp env alg (some msg) n s =
      some (LL_OK, buf,
        ⟨s.log ++ cmacFeedOps msg n (m_au8SkeAlgBlockSize.getD alg 0), t'⟩) := by
  have hbs2 := blockSize_cases alg halg
  unfold SKE_CmacAction.feed
  have hn0 : n > 0 := hn1
  simp only [hn0, if_true]
  generalize hb : m_au8SkeAlgBlockSize.getD alg 0 = bs at *
  have hrem : (if n % bs = 0 then bs else n % bs) = (n - 1) % bs + 1 := by
    rcases hbs2 with rfl | rfl <;> split_ifs <;> omega
  have hr2 : (n - 1) % bs + 1 ≤ n := by
    have : (n - 1) % bs ≤ n - 1 := Nat.mod_le _ _
    omega
  have hr16 : (n - 1) % bs + 1 ≤ 16 := by
    rcases hbs2 with rfl | rfl <;> omega
  have hsub : u32_sub n ((n - 1) % bs + 1) = n - ((n - 1) % bs + 1) :=
    u32_sub_of_le _ _ hr2 hn
  have hsh : (((n - 1) % bs + 1) <<< 3) % U32_MOD = 8 * ((n - 1) % bs + 1) := by
    rw [Nat.shiftLeft_eq]
    simp only [U32_MOD]
    omega
  rw [hrem, hsub]
  have hlb := lastBlock_eq msg n bs hn1 hlen hbs2
  by_cases hs : n - ((n - 1) % bs + 1) > 0
  · simp only [hs, if_true]
    obtain ⟨out', t', h1, -⟩ := cryptoBlocks_ok mp env hd alg (SKE_MD_CMAC mp)
      (alg_md_cmac mp alg halg) msg none (n - ((n - 1) % bs + 1)) (by omega) (by omega)
      (by omega) s
    rw [h1]
    obtain ⟨t2, h2⟩ := cmac_feed_fin mp env hd alg halg ((n - 1) % bs + 1)
      (SKE_CopyByte (List.replicate SKE_BLOCK_SIZE_MAX 0) 0 msg
        (n - ((n - 1) % bs + 1)) ((n - 1) % bs + 1))
      ⟨s.log ++
        (leadOps msg (m_au8SkeAlgBlockSize.getD alg 0)
          ((n - ((n - 1) % bs + 1) - ((n - ((n - 1) % bs + 1) - 1) %
            m_au8SkeAlgBlockSize.getD alg 0 + 1)) / m_au8SkeAlgBlockSize.getD alg 0) 0 ++
          blockOps (IS_SKE_XCM_MD mp (SKE_MD_CMAC mp)) false
            (lastBlock msg (n - ((n - 1) % bs + 1)) (m_au8SkeAlgBlockSize.getD alg 0))), t'⟩
    refine ⟨SKE_CopyByte (List.replicate SKE_BLOCK_SIZE_MAX 0) 0 msg
        (n - ((n - 1) % bs + 1)) ((n - 1) % bs + 1), t2, h2.trans ?_⟩
    simp only [hb, hlb, hsh, (cmac_mark mp).2.2, cmacFeedOps, hs, if_true, leadCount,
      List.append_assoc]
  · simp only [hs, if_false]
    obtain ⟨t2, h2⟩ := cmac_feed_fin mp env hd alg halg ((n - 1) % bs + 1)
      (SKE_CopyByte (List.replicate SKE_BLOCK_SIZE_MAX 0) 0 msg
        (n - ((n - 1) % bs + 1)) ((n - 1) % bs + 1)) s
    refine ⟨SKE_CopyByte (List.replicate SKE_BLOCK_SIZE_MAX 0) 0 msg
        (n - ((n - 1) % bs + 1)) ((n - 1) % bs + 1), t2, h2.trans ?_⟩
    simp only [hb, hlb, hsh, cmacFeedOps, hs, if_false, List.nil_append, List.append_assoc]

theorem cmacAction_of_feed (mp : Nat) (env : SkeEnv) (hv : AllMidValid env)
    (a : stc_ske_cmac_action_t) (mac : List Nat) (s : SkeHw) (buf : List Nat)
    (log : List HwOp) (t : Nat)
    (hmac : a.pu8Mac = some mac) (hsz : a.u32MacSize ≠ 0) (halg : IS_SKE_ALG a.u32Alg = true)
    (hfeed : SKE_CmacAction.feed mp env a.u32Alg a.pu8Msg a.u32MsgSize s =
      some (LL_OK, buf, ⟨log, t⟩)) :
    ∃ code mac1 t', SKE_CmacAction mp env (some a) s =
        some (code, some mac1, ⟨log ++ [HwOp.sr1MidValid 0], t'⟩) ∧
      (a.u32Action = SKE_CMAC_GENERATE → code = LL_OK) := by
  obtain ⟨i, hi, hmv⟩ := hv log t
  obtain ⟨t', hp⟩ := cmac_poll_ok env a.u32MacSize buf log i (SKE_TIMEOUT_VAL + 1) 0 t
    (by omega) (by omega) hmv
  have hp2 := hp a.u32Action mac
  unfold SKE_CmacAction
  simp only [hmac, hsz, halg, false_or, Bool.true_eq_false, if_false, hfeed, if_true, hp2,
    Option.map_some']
  by_cases hg : a.u32Action = SKE_CMAC_GENERATE
  · simp only [hg, if_true]
    exact ⟨_, _, t', rfl, fun _ => rfl⟩
  · simp only [hg, if_false]
    exact ⟨_, _, t', rfl, fun h => h.elim⟩

/-- C29: for an empty message (null message pointer or message size 0) and otherwise accepted
arguments, every transform completing and the intermediate value becoming valid,
`SKE_CmacAction` writes exactly: the value 0 to `DIN_CR` (bit length of the last block 0, not
the block size), the last-block mark, one all-zero block, `START`, then the clearing of done
flag, mark and length field and of the intermediate-valid flag before the MAC is read.  One
block is issued, all zero and marked last, with one `START`: the block chainer, which would issue
at least one unmarked `START` of its own, is not called. -/
theorem C29_cmac_empty (mp lp : Nat) (env : SkeEnv) (a : stc_ske_cmac_action_t)
    (mac : List Nat) (s : SkeHw)
    (hmac : a.pu8Mac = some mac) (hsz : a.u32MacSize ≠ 0) (halg : IS_SKE_ALG a.u32Alg = true)
    (he : a.pu8Msg = none ∨ a.u32MsgSize = 0) (hd : AllDone env) (hv : AllMidValid env) :
    ∃ code mac1 t', SKE_CmacAction mp env (some a) s =
        some (code, some mac1, ⟨s.log ++
          [HwOp.dinCrWrite 0, HwOp.dinCrLast 1,
            HwOp.din (List.replicate (m_au8SkeAlgBlockSize.getD a.u32Alg 0) 0),
            HwOp.ctrlStart, HwOp.sr2Done 0, HwOp.dinCrLast 0, HwOp.dinCrClrLastLen,
            HwOp.sr1MidValid 0], t'⟩) ∧
      (a.u32Action = SKE_CMAC_GENERATE → code = LL_OK) ∧
      (∀ (m0 : Bool) (p0 : Option (List Nat)), issued lp m0 p0
          [HwOp.dinCrWrite 0, HwOp.dinCrLast 1,
            HwOp.din (List.replicate (m_au8SkeAlgBlockSize.getD a.u32Alg 0) 0),
            HwOp.ctrlStart, HwOp.sr2Done 0, HwOp.dinCrLast 0, HwOp.dinCrClrLastLen,
            HwOp.sr1MidValid 0] =
        [(List.replicate (m_au8SkeAlgBlockSize.getD a.u32Alg 0) 0, true)]) := by
  obtain ⟨t1, h1⟩ := cmac_feed_empty mp env hd a.u32Alg halg a.pu8Msg a.u32MsgSize he s
  obtain ⟨code, mac1, t', h2, h3⟩ := cmacAction_of_feed mp env hv a mac s _ _ _ hmac hsz halg h1
  refine ⟨code, mac1, t', ?_, h3, ?_⟩
  · rw [h2]
    simp [blockOps, blockPre, blockPost]
  · intro m0 p0
    simp [issued]

theorem C29_cmac_empty_witness :
    ∃ code mac1 t', SKE_CmacAction 28 (envConst (List.replicate 16 7))
        (some ⟨SKE_ALG_AES_128, SKE_CMAC_GENERATE, none, 0, some [0, 0, 0, 0], 4⟩) ⟨[], 0⟩ =
        some (code, some mac1, ⟨[] ++
          [HwOp.dinCrWrite 0, HwOp.dinCrLast 1, HwOp.din (List.replicate 16 0),
            HwOp.ctrlStart, HwOp.sr2Done 0, HwOp.dinCrLast 0, HwOp.dinCrClrLastLen,
            HwOp.sr1MidValid 0], t'⟩) := by
  obtain ⟨code, mac1, t', h, -⟩ := C29_cmac_empty 28 0 (envConst (List.replicate 16 7))
    ⟨SKE_ALG_AES_128, SKE_CMAC_GENERATE, none, 0, some [0, 0, 0, 0], 4⟩ [0, 0, 0, 0] ⟨[], 0⟩
    rfl (by decide) (by decide) (Or.inl rfl) (allDone_envConst _) (allMidValid_envConst _)
  exact ⟨code, mac1, t', h⟩

theorem issued_cmacFeedOps (lp : Nat) (m0 : Bool) (p0 : Option (List Nat)) (msg : List Nat)
    (n bs : Nat) :
    issued lp m0 p0 (cmacFeedOps msg n bs) =
      (cmacFullBlocks msg n bs).map (fun b => (b, m0)) ++ [(lastBlock msg n bs, true)] := by
  unfold cmacFeedOps cmacFullBlocks
  by_cases hs : n - ((n - 1) % bs + 1) > 0
  · simp only [hs, if_true, List.append_assoc, crBlocks, List.map_append, List.map_cons,
      List.map_nil]
    rw [issued_leadOps]
    simp [blockOps, blockPre, blockPost, issued]
  · simp only [hs, if_false, List.nil_append, List.map_nil]
    simp [blockOps, blockPre, blockPost, issued]

theorem cmacFullBlocks_length (msg : List Nat) (n bs : Nat) (hn1 : 1 ≤ n)
    (hbs : bs = 8 ∨ bs = 16) :
    (cmacFullBlocks msg n bs).length + 1 = (n + bs - 1) / bs := by
  unfold cmacFullBlocks
  by_cases hs : n - ((n - 1) % bs + 1) > 0
  · simp only [hs, if_true, crBlocks, List.length_append, leadBlocks_length, List.length_singleton]
    rw [leadCount_eq _ _ hbs]
    rcases hbs with rfl | rfl <;> omega
  · simp only [hs, if_false, List.length_nil]
    rcases hbs with rfl | rfl <;> omega

theorem cmacFullBlocks_flatten (msg : List Nat) (n bs : Nat) (hn1 : 1 ≤ n)
    (hlen : n ≤ msg.length) (hbs : bs = 8 ∨ bs = 16) :
    (cmacFullBlocks msg n bs).flatten = msg.take (n - ((n - 1) % bs + 1)) := by
  unfold cmacFullBlocks
  by_cases hs : n - ((n - 1) % bs + 1) > 0
  · simp only [hs, if_true]
    rw [crBlocks_flatten msg _ bs (by omega) (by omega) hbs]
    have h0 : (bs - (n - ((n - 1) % bs + 1)) % bs) % bs = 0 := by
      rcases hbs with rfl | rfl <;> omega
    rw [h0]
    simp
  · have h0 : n - ((n - 1) % bs + 1) = 0 := by omega
    simp [hs, h0]

/-- C25: for accepted arguments and a message of `n ≥ 1` bytes, block size `bs`, every transform
completing and the intermediate value becoming valid.  With `remain = ((n - 1) mod bs) + 1`
(at least 1, at most `bs`), `SKE_CmacAction` writes: if `n - remain > 0`, exactly the register
writes of `SKE_CryptoBlocksInternal` in CMAC mode on the first `n - remain` bytes (which
contain no write of the last-block mark); then `8 * remain` to `DIN_CR`; then the zero-padded
block of the trailing `remain` bytes with the mark set before and cleared after; then it reads
the MAC.  The blocks issued are those of the first part, each with the mark as it was at entry,
followed by the trailing block marked last; there are `ceil(n / bs)` of them and their
concatenation is the first `n` message bytes followed by zeros up to a multiple of `bs`. -/
theorem C25_cmac_blocks (mp lp : Nat) (env : SkeEnv) (a : stc_ske_cmac_action_t)
    (mac msg : List Nat) (s : SkeHw)
    (hmac : a.pu8Mac = some mac) (hsz : a.u32MacSize ≠ 0) (halg : IS_SKE_ALG a.u32Alg = true)
    (hmsg : a.pu8Msg = some msg) (hn1 : 1 ≤ a.u32MsgSize) (hn : a.u32MsgSize < U32_MOD)
    (hlen : a.u32MsgSize ≤ msg.length) (hd : AllDone env) (hv : AllMidValid env) :
    (∃ code mac1 t', SKE_CmacAction mp env (some a) s =
        some (code, some mac1, ⟨s.log ++
          cmacFeedOps msg a.u32MsgSize (m_au8SkeAlgBlockSize.getD a.u32Alg 0) ++
          [HwOp.sr1MidValid 0], t'⟩) ∧
      (a.u32Action = SKE_CMAC_GENERATE → code = LL_OK)) ∧
    (∀ (m0 : Bool) (p0 : Option (List Nat)),
      issued lp m0 p0 (cmacFeedOps msg a.u32MsgSize (m_au8SkeAlgBlockSize.getD a.u32Alg 0)) =
        (cmacFullBlocks msg a.u32MsgSize (m_au8SkeAlgBlockSize.getD a.u32Alg 0)).map
            (fun b => (b, m0)) ++
          [(lastBlock msg a.u32MsgSize (m_au8SkeAlgBlockSize.getD a.u32Alg 0), true)]) ∧
    (∀ bs r, bs = m_au8SkeAlgBlockSize.getD a.u32Alg 0 → r = (a.u32MsgSize - 1) % bs + 1 →
      1 ≤ r ∧ r ≤ bs ∧ r ≤ a.u32MsgSize ∧
      cmacFeedOps msg a.u32MsgSize bs =
        (if a.u32MsgSize - r > 0 then
            leadOps msg bs (leadCount (a.u32MsgSize - r) bs) 0 ++
              blockOps false false (lastBlock msg (a.u32MsgSize - r) bs)
          else []) ++
        [HwOp.dinCrWrite (8 * r)] ++
        [HwOp.dinCrLast 1, HwOp.din (lastBlock msg a.u32MsgSize bs), HwOp.ctrlStart,
          HwOp.sr2Done 0, HwOp.dinCrLast 0, HwOp.dinCrClrLastLen] ∧
      (a.u32MsgSize - r > 0 → ∃ out1 t1,
        SKE_CryptoBlocksInternal mp env a.u32Alg (SKE_MD_CMAC mp) (some msg) none
            (a.u32MsgSize - r) s =
          some (LL_OK, out1, ⟨s.log ++ (leadOps msg bs (leadCount (a.u32MsgSize - r) bs) 0 ++
            blockOps false false (lastBlock msg (a.u32MsgSize - r) bs)), t1⟩)) ∧
      lastBlock msg a.u32MsgSize bs =
        (msg.drop (a.u32MsgSize - r)).take r ++ List.replicate (bs - r) 0 ∧
      (cmacFullBlocks msg a.u32MsgSize bs).flatten = msg.take (a.u32MsgSize - r) ∧
      (cmacFullBlocks msg a.u32MsgSize bs ++ [lastBlock msg a.u32MsgSize bs]).length =
        (a.u32MsgSize + bs - 1) / bs ∧
      (cmacFullBlocks msg a.u32MsgSize bs ++ [lastBlock msg a.u32MsgSize bs]).flatten =
        msg.take a.u32MsgSize ++ List.replicate ((bs - a.u32MsgSize % bs) % bs) 0) := by
  have hbs := blockSize_cases a.u32Alg halg
  refine ⟨?_, fun m0 p0 => issued_cmacFeedOps lp m0 p0 msg _ _, ?_⟩
  · obtain ⟨buf, t1, h1⟩ := cmac_feed_log mp env hd a.u32Alg halg msg a.u32MsgSize hn1 hn hlen s
    rw [← hmsg] at h1
    obtain ⟨code, mac1, t', h2, h3⟩ :=
      cmacAction_of_feed mp env hv a mac s _ _ _ hmac hsz halg h1
    exact ⟨code, mac1, t', h2, h3⟩
  · intro bs r hb hr
    rw [← hb] at hbs
    subst hr
    have hr1 : (a.u32MsgSize - 1) % bs + 1 ≤ bs := by
      rcases hbs with h | h <;> rw [h] <;> omega
    have hr2 : (a.u32MsgSize - 1) % bs + 1 ≤ a.u32MsgSize := by
      have : (a.u32MsgSize - 1) % bs ≤ a.u32MsgSize - 1 := Nat.mod_le _ _
      omega
    refine ⟨by omega, hr1, hr2, ?_, ?_, rfl, cmacFullBlocks_flatten msg _ bs hn1 hlen hbs, ?_, ?_⟩
    · simp [cmacFeedOps, blockOps, blockPre, blockPost]
    · intro hpos
      obtain ⟨out', t', h1, -⟩ := cryptoBlocks_ok mp env hd a.u32Alg (SKE_MD_CMAC mp)
        (alg_md_cmac mp a.u32Alg halg) msg none (a.u32MsgSize - ((a.u32MsgSize - 1) % bs + 1))
        (by omega) (by omega) (by omega) s
      refine ⟨out', t', ?_⟩
      rw [h1, (cmac_mark mp).2.2, ← hb]
      rfl
    · rw [List.length_append, List.length_singleton]
      exact cmacFullBlocks_length msg _ bs hn1 hbs
    · rw [List.flatten_append, cmacFullBlocks_flatten msg _ bs hn1 hlen hbs]
      simp only [List.flatten_cons, List.flatten_nil, List.append_nil]
      exact take_append_lastBlock msg _ bs hn1 hbs

theorem C25_cmac_blocks_witness :
    ∃ code mac1 t', SKE_CmacAction 28 (envConst (List.replicate 16 7))
        (some ⟨SKE_ALG_DES, SKE_CMAC_GENERATE, some [1, 2, 3, 4, 5, 6, 7, 8, 9, 10, 11], 11,
          some [0, 0, 0, 0], 4⟩) ⟨[], 0⟩ =
        some (code, some mac1, ⟨[] ++
          cmacFeedOps [1, 2, 3, 4, 5, 6, 7, 8, 9, 10, 11] 11
            (m_au8SkeAlgBlockSize.getD SKE_ALG_DES 0) ++ [HwOp.sr1MidValid 0], t'⟩) ∧
      (SKE_CMAC_GENERATE = SKE_CMAC_GENERATE → code = LL_OK) :=
  (C25_cmac_blocks 28 0 (envConst (List.replicate 16 7))
    ⟨SKE_ALG_DES, SKE_CMAC_GENERATE, some [1, 2, 3, 4, 5, 6, 7, 8, 9, 10, 11], 11,
      some [0, 0, 0, 0], 4⟩ [0, 0, 0, 0] [1, 2, 3, 4, 5, 6, 7, 8, 9, 10, 11] ⟨[], 0⟩
    rfl (by decide) (by decide) rfl (by decide) (by decide) (by decide)
    (allDone_envConst _) (allMidValid_envConst _)).1

theorem C25_eval :
    cmacFeedOps [1, 2, 3, 4, 5, 6, 7, 8, 9, 10, 11] 11 8 =
      [HwOp.din [1, 2, 3, 4, 5, 6, 7, 8], HwOp.ctrlStart, HwOp.sr2Done 0, HwOp.dinCrWrite 24,
        HwOp.dinCrLast 1, HwOp.din [9, 10, 11, 0, 0, 0, 0, 0], HwOp.ctrlStart, HwOp.sr2Done 0,
        HwOp.dinCrLast 0, HwOp.dinCrClrLastLen] := by
  decide

/-! ## The last-block mark -/

theorem lastMarkAfter_leadOps (lp : Nat) (inp : List Nat) (bs : Nat) (rest : List HwOp) :
    ∀ (k i : Nat) (m : Bool),
      lastMarkAfter lp m (leadOps inp bs k i ++ rest) = lastMarkAfter lp m rest
  | 0, _, _ => by simp [leadOps]
  | k + 1, i, m => by
    simp only [leadOps, blockOps_false, List.append_assoc, List.cons_append, List.nil_append,
      lastMarkAfter]
    exact lastMarkAfter_leadOps lp inp bs rest k (i + bs) m

theorem leadOps_mem (inp : List Nat) (bs : Nat) :
    ∀ (k i : Nat) (op : HwOp), op ∈ leadOps inp bs k i →
      (∃ b, op = HwOp.din b) ∨ op = HwOp.ctrlStart ∨ op = HwOp.sr2Done 0
  | 0, _, op, h => by simp [leadOps] at h
  | k + 1, i, op, h => by
    simp only [leadOps, blockOps_false, List.mem_append, List.mem_cons, List.mem_singleton,
      List.not_mem_nil, or_false] at h
    rcases h with (h | h | h) | h
    · exact Or.inl ⟨_, h⟩
    · exact Or.inr (Or.inl h)
    · exact Or.inr (Or.inr h)
    · exact leadOps_mem inp bs k (i + bs) op h

theorem xcm_modes (mp mode : Nat) :
    ((mode = SKE_MD_GCM mp ∨ mode = SKE_MD_CCM mp) → IS_SKE_XCM_MD mp mode = true) ∧
    (mode ∈ [SKE_MD_ECB mp, SKE_MD_CBC mp, SKE_MD_CFB mp, SKE_MD_OFB mp, SKE_MD_CTR mp,
        SKE_MD_CMAC mp] → IS_SKE_XCM_MD mp mode = false) := by
  constructor
  · rintro (rfl | rfl) <;> simp [IS_SKE_XCM_MD]
  · intro h
    simp only [List.mem_cons, List.mem_singleton, List.not_mem_nil, or_false] at h
    rcases h with rfl | rfl | rfl | rfl | rfl | rfl <;>
      simp [IS_SKE_XCM_MD, SKE_MD_ECB, SKE_MD_CBC, SKE_MD_CFB, SKE_MD_OFB, SKE_MD_CTR,
        SKE_MD_CMAC, SKE_MD_GCM, SKE_MD_CCM, shl_inj]

/-- The register writes of one `SKE_UpdateOneBlock`, for every behaviour of the engine. -/
theorem update_shape (mp : Nat) (env : SkeEnv) (alg mode : Nat)
    (h : IS_SKE_ALG alg = true) (inp : List Nat) (out : Option (List Nat)) (off isLast : Nat)
    (s : SkeHw) :
    ∃ code out1 t', SKE_UpdateOneBlock mp env alg mode (some inp) out off isLast s =
        some (code, out1, ⟨s.log ++
          (if code = LL_OK then
            blockOps (isMarkMode mp mode && (isLast != 0)) (mode == SKE_MD_CMAC mp)
              (readBytes inp 0 (m_au8SkeAlgBlockSize.getD alg 0))
           else blockStart (isMarkMode mp mode && (isLast != 0))
              (readBytes inp 0 (m_au8SkeAlgBlockSize.getD alg 0))), t'⟩) ∧
      (code = LL_OK ∨ code = LL_ERR_TIMEOUT) := by
  rw [update_eq mp env alg mode h]
  obtain ⟨t', ht' | ht'⟩ := wait_cases env
    ⟨s.log ++ blockStart (isMarkMode mp mode && (isLast != 0))
      (readBytes inp 0 (m_au8SkeAlgBlockSize.getD alg 0)), s.tick⟩
  · rw [ht']
    refine ⟨LL_OK, (if out.isSome then (SKE_ReadBlock env alg out off
      ⟨s.log ++ blockStart (isMarkMode mp mode && (isLast != 0))
        (readBytes inp 0 (m_au8SkeAlgBlockSize.getD alg 0)) ++ [HwOp.sr2Done 0], t'⟩).2
      else out), t', ?_, Or.inl rfl⟩
    simp [blockOps, blockPre_eq, List.append_assoc]
  · rw [ht']
    refine ⟨LL_ERR_TIMEOUT, out, t', ?_, Or.inr rfl⟩
    simp

/-- The leading-block loop writes only data-in blocks, `START` and the clearing of the done
flag, for every behaviour of the engine and every mode. -/
theorem lead_loop_shape (mp : Nat) (env : SkeEnv) (alg mode : Nat)
    (h : IS_SKE_ALG alg = true) (inp : List Nat) (size bs : Nat) (hsz : size < U32_MOD)
    (hpos : 0 < bs) :
    ∀ (k i fuel : Nat) (out : Option (List Nat)) (s : SkeHw),
      i + k * bs = size → k < fuel →
      ∃ code i1 out1 ops t',
        SKE_CryptoBlocksInternal.loop mp env alg mode inp bs size fuel i out s =
          some (code, i1, out1, ⟨s.log ++ ops, t'⟩) ∧
        (code = LL_OK ∨ code = LL_ERR_TIMEOUT) ∧
        ∀ op ∈ ops, (∃ b, op = HwOp.din b) ∨ op = HwOp.ctrlStart ∨ op = HwOp.sr2Done 0
  | 0, i, fuel, out, s, hi, hf => by
    obtain ⟨f, rfl⟩ : ∃ f, fuel = f + 1 := ⟨fuel - 1, by omega⟩
    have : ¬ (i < size) := by omega
    unfold SKE_CryptoBlocksInternal.loop
    rw [if_neg this]
    exact ⟨LL_OK, i, out, [], s.tick, by simp, Or.inl rfl, by simp⟩
  | k + 1, i, fuel, out, s, hi, hf => by
    obtain ⟨f, rfl⟩ : ∃ f, fuel = f + 1 := ⟨fuel - 1, by omega⟩
    have hk : (k + 1) * bs = k * bs + bs := by ring
    have hlt : i < size := by omega
    have hnext : (i + bs) % U32_MOD = i + bs := Nat.mod_eq_of_lt (by omega)
    have hi2 : (i + bs) + k * bs = size := by omega
    have hm0 : (isMarkMode mp mode && ((0 : Nat) != 0)) = false := by simp
    have hbody : ∃ code out1 ops t',
        SKE_CryptoBlocksInternal.body mp env alg mode inp i out s =
          some (code, out1, ⟨s.log ++ ops, t'⟩) ∧
        (code = LL_OK ∨ code = LL_ERR_TIMEOUT) ∧
        ∀ op ∈ ops, (∃ b, op = HwOp.din b) ∨ op = HwOp.ctrlStart ∨ op = HwOp.sr2Done 0 := by
      have hplain : ∀ (code : LLRet) (b : List Nat), ∀ op ∈
          (if code = LL_OK then blockOps false (mode == SKE_MD_CMAC mp) b
            else blockStart false b),
          (∃ b, op = HwOp.din b) ∨ op = HwOp.ctrlStart ∨ op = HwOp.sr2Done 0 := by
        intro code b op hop
        by_cases hc : code = LL_OK
        · simp only [hc, if_true, blockOps_false, List.mem_cons, List.mem_singleton,
            List.not_mem_nil, or_false] at hop
          rcases hop with hop | hop | hop
          · exact Or.inl ⟨_, hop⟩
          · exact Or.inr (Or.inl hop)
          · exact Or.inr (Or.inr hop)
        · simp only [hc, if_false, blockStart, Bool.false_eq_true, List.nil_append,
            List.mem_cons, List.mem_singleton, List.not_mem_nil, or_false] at hop
          rcases hop with hop | hop
          · exact Or.inl ⟨_, hop⟩
          · exact Or.inr (Or.inl hop)
      unfold SKE_CryptoBlocksInternal.body
      cases out with
      | none =>
        obtain ⟨code, out1, t', h1, h2⟩ := update_shape mp env alg mode h (inp.drop i) none 0 0 s
        rw [hm0] at h1
        exact ⟨code, out1, _, t', h1, h2, hplain code _⟩
      | some o =>
        obtain ⟨code, out1, t', h1, h2⟩ :=
          update_shape mp env alg mode h (inp.drop i) (some o) i 0 s
        rw [hm0] at h1
        exact ⟨code, out1, _, t', h1, h2, hplain code _⟩
    obtain ⟨code, out1, ops, t', hb1, hb2, hb3⟩ := hbody
    unfold SKE_CryptoBlocksInternal.loop
    rw [if_pos hlt, hb1]
    rcases hb2 with rfl | rfl
    · simp only [ne_eq, not_true, if_false, hnext]
      obtain ⟨code2, i1, out2, ops2, t2, hr1, hr2, hr3⟩ :=
        lead_loop_shape mp env alg mode h inp size bs hsz hpos
          k (i + bs) f out1 ⟨s.log ++ ops, t'⟩ hi2 (by omega)
      refine ⟨code2, i1, out2, ops ++ ops2, t2, ?_, hr2, ?_⟩
      · rw [hr1, List.append_assoc]
      · intro op hop
        rcases List.mem_append.1 hop with hop | hop
        · exact hb3 op hop
        · exact hr3 op hop
    · refine ⟨LL_ERR_TIMEOUT, i, out1, ops, t', ?_, Or.inr rfl, hb3⟩
      simp

/-- The register writes of `SKE_CryptoBlocksInternal` for every behaviour of the engine: those
of the leading-block loop, then nothing (a leading transform timed out), or the trailing block
up to its `START` (it timed out), or the completed trailing block. -/
theorem cryptoBlocks_shape (mp : Nat) (env : SkeEnv) (alg mode : Nat)
    (hv : IS_SKE_ALG_MD mp alg mode = true) (inp : List Nat) (pu8Out : Option (List Nat))
    (n : Nat) (hn1 : 1 ≤ n) (hn : n < U32_MOD) (hlen : n ≤ inp.length) (s : SkeHw) :
    ∃ code out1 ops1 ops2 t',
      SKE_CryptoBlocksInternal mp env alg mode (some inp) pu8Out n s =
        some (code, out1, ⟨s.log ++ (ops1 ++ ops2), t'⟩) ∧
      (code = LL_OK ∨ code = LL_ERR_TIMEOUT) ∧
      (∀ op ∈ ops1, (∃ b, op = HwOp.din b) ∨ op = HwOp.ctrlStart ∨ op = HwOp.sr2Done 0) ∧
      (ops2 = [] ∨
        ops2 = blockStart (IS_SKE_XCM_MD mp mode)
          (lastBlock inp n (m_au8SkeAlgBlockSize.getD alg 0)) ∨
        ops2 = blockOps (IS_SKE_XCM_MD mp mode) false
          (lastBlock inp n (m_au8SkeAlgBlockSize.getD alg 0))) ∧
      (code = LL_OK → ops2 = blockOps (IS_SKE_XCM_MD mp mode) false
          (lastBlock inp n (m_au8SkeAlgBlockSize.getD alg 0))) := by
  have halg := alg_of_alg_md mp alg mode hv
  have hbs2 := blockSize_cases alg halg
  generalize hb : m_au8SkeAlgBlockSize.getD alg 0 = bs at *
  have hrem : (if n % bs = 0 then bs else n % bs) = (n - 1) % bs + 1 := by
    rcases hbs2 with rfl | rfl <;> split_ifs <;> omega
  have hr2 : (n - 1) % bs + 1 ≤ n := by
    have : (n - 1) % bs ≤ n - 1 := Nat.mod_le _ _
    omega
  have hsub : u32_sub n ((n - 1) % bs + 1) = n - ((n - 1) % bs + 1) := by
    unfold u32_sub U32_MOD at *
    rcases hbs2 with rfl | rfl <;> omega
  have hk : 0 + ((n - ((n - 1) % bs + 1)) / bs) * bs = n - ((n - 1) % bs + 1) := by
    rcases hbs2 with rfl | rfl <;> omega
  have hn0 : ¬ (n = 0) := by omega
  have hlb := lastBlock_eq inp n bs hn1 hlen hbs2
  unfold SKE_CryptoBlocksInternal
  simp only [hn0, hv, Bool.true_eq_false, or_self, if_false, hb, hrem, hsub]
  obtain ⟨code, i1, out1, ops1, t1, h1, h2, h3⟩ := lead_loop_shape mp env alg mode halg inp
    (n - ((n - 1) % bs + 1)) bs (by omega) (by omega)
    ((n - ((n - 1) % bs + 1)) / bs) 0 (n - ((n - 1) % bs + 1) + 1) pu8Out s hk
    (by
      have : (n - ((n - 1) % bs + 1)) / bs ≤ n - ((n - 1) % bs + 1) := Nat.div_le_self _ _
      omega)
  rw [h1]
  rcases h2 with rfl | rfl
  · simp only [ne_eq, not_true, if_false]
    obtain ⟨code2, last1, t2, h4, h5⟩ := update_shape mp env alg mode halg
      (SKE_CopyByte (List.replicate SKE_BLOCK_SIZE_MAX 0) 0 inp
        (n - ((n - 1) % bs + 1)) ((n - 1) % bs + 1))
      (some (SKE_CopyByte (List.replicate SKE_BLOCK_SIZE_MAX 0) 0 inp
        (n - ((n - 1) % bs + 1)) ((n - 1) % bs + 1))) 0
      (if mode = SKE_MD_CMAC mp then 0 else 1) ⟨s.log ++ ops1, t1⟩
    rw [xcm_mark, blockOps_xcm, hb, hlb] at h4
    rw [h4]
    rcases h5 with rfl | rfl
    · simp only [if_true, List.append_assoc]
      cases out1 <;> cases last1 <;>
        exact ⟨LL_OK, _, ops1, _, t2, rfl, Or.inl rfl, h3,
          Or.inr (Or.inr rfl), fun _ => rfl⟩
    · have hne : ¬ (LL_ERR_TIMEOUT = LL_OK) := by decide
      simp only [hne, if_false, List.append_assoc]
      cases out1 <;> cases last1 <;>
        exact ⟨LL_ERR_TIMEOUT, _, ops1, _, t2, rfl, Or.inr rfl, h3,
          Or.inr (Or.inl rfl), fun hh => absurd hh hne⟩
  · have hne : LL_ERR_TIMEOUT ≠ LL_OK := by decide
    simp only [hne, ne_eq, not_false_eq_true, if_true]
    exact ⟨LL_ERR_TIMEOUT, out1, ops1, [], t1, by simp, Or.inr rfl, h3, Or.inl rfl,
      fun hh => absurd hh hne⟩

/-- The last-block mark in a run of `SKE_CryptoBlocksInternal` in which every transform
completes. -/
theorem cryptoBlocks_marks (mp lp : Nat) (env : SkeEnv) (alg mode : Nat) (inp : List Nat)
    (pu8Out : Option (List Nat)) (n : Nat) (s : SkeHw)
    (hv : IS_SKE_ALG_MD mp alg mode = true) (hn1 : 1 ≤ n) (hn : n < U32_MOD)
    (hlen : n ≤ inp.length) (hd : AllDone env) :
    ∃ out1 t' ops, SKE_CryptoBlocksInternal mp env alg mode (some inp) pu8Out n s =
        some (LL_OK, out1, ⟨s.log ++ ops, t'⟩) ∧
      ((mode = SKE_MD_GCM mp ∨ mode = SKE_MD_CCM mp) →
        (∀ (m0 : Bool) (p0 : Option (List Nat)), issued lp m0 p0 ops =
          (leadBlocks inp (m_au8SkeAlgBlockSize.getD alg 0)
              (leadCount n (m_au8SkeAlgBlockSize.getD alg 0)) 0).map (fun b => (b, m0)) ++
            [(lastBlock inp n (m_au8SkeAlgBlockSize.getD alg 0), true)]) ∧
        (∀ m0 : Bool, lastMarkAfter lp m0 ops = false) ∧
        ops.count (HwOp.dinCrLast 1) = 1 ∧
        (∀ v, HwOp.dinCrWrite v ∉ ops)) ∧
      (mode ∈ [SKE_MD_ECB mp, SKE_MD_CBC mp, SKE_MD_CFB mp, SKE_MD_OFB mp, SKE_MD_CTR mp,
          SKE_MD_CMAC mp] →
        (∀ v, HwOp.dinCrLast v ∉ ops ∧ HwOp.dinCrWrite v ∉ ops) ∧
        (∀ (m0 : Bool) (p0 : Option (List Nat)), issued lp m0 p0 ops =
          (crBlocks inp n (m_au8SkeAlgBlockSize.getD alg 0)).map (fun b => (b, m0))) ∧
        (∀ m0 : Bool, lastMarkAfter lp m0 ops = m0)) := by
  obtain ⟨out', t', h1, -⟩ := cryptoBlocks_ok mp env hd alg mode hv inp pu8Out n hn1 hn hlen s
  refine ⟨out', t', _, h1, ?_, ?_⟩
  · intro hm
    rw [(xcm_modes mp mode).1 hm]
    refine ⟨?_, ?_, ?_, ?_⟩
    · intro m0 p0
      rw [issued_leadOps, issued_blockOps_last]
      simp [leadCount]
    · intro m0
      rw [lastMarkAfter_leadOps]
      simp [blockOps, blockPre, blockPost, lastMarkAfter]
    · rw [List.count_append]
      have h0 : (leadOps inp (m_au8SkeAlgBlockSize.getD alg 0)
          ((n - ((n - 1) % m_au8SkeAlgBlockSize.getD alg 0 + 1)) /
            m_au8SkeAlgBlockSize.getD alg 0) 0).count (HwOp.dinCrLast 1) = 0 := by
        rw [List.count_eq_zero]
        intro hmem
        rcases leadOps_mem _ _ _ _ _ hmem with ⟨b, hb⟩ | hb | hb <;> cases hb
      rw [h0]
      simp [blockOps, blockPre, blockPost, List.count_cons]
    · intro v hmem
      rw [List.mem_append] at hmem
      rcases hmem with hmem | hmem
      · rcases leadOps_mem _ _ _ _ _ hmem with ⟨b, hb⟩ | hb | hb <;> cases hb
      · simp [blockOps, blockPre, blockPost] at hmem
  · intro hm
    rw [(xcm_modes mp mode).2 hm]
    refine ⟨?_, ?_, ?_⟩
    · intro v
      constructor <;>
      · intro hmem
        rw [List.mem_append] at hmem
        rcases hmem with hmem | hmem
        · rcases leadOps_mem _ _ _ _ _ hmem with ⟨b, hb⟩ | hb | hb <;> cases hb
        · simp [blockOps, blockPre, blockPost] at hmem
    · intro m0 p0
      rw [issued_leadOps, issued_blockOps_last]
      simp [leadCount, crBlocks]
    · intro m0
      rw [lastMarkAfter_leadOps]
      simp [blockOps, blockPre, blockPost, lastMarkAfter]

/-- C21: for a valid algorithm/mode pair and an input of `n ≥ 1` bytes.  For every behaviour
of the engine `SKE_CryptoBlocksInternal` returns `LL_OK` or `LL_ERR_TIMEOUT` after register
writes `ops1 ++ ops2`: `ops1`, those of the leading blocks, contains no write to the last-block
mark in any mode; `ops2` is empty (a leading transform timed out) or is the trailing block,
preceded by the setting of the mark exactly in GCM and CCM mode and, after `LL_OK`, followed by
its clearing; in CMAC, ECB, CBC, CFB, OFB and CTR mode there is no write to the mark at all.
If every transform completes, then in GCM and CCM mode the leading blocks are issued with the
mark as it was at entry (clear, if it was clear) and the final block with the mark set, the
mark is set exactly once and is clear after the return; in the other six modes every block is
issued with the mark as it was at entry and the mark is unchanged. -/
theorem C21_last_block_mark (mp lp : Nat) (env : SkeEnv) (alg mode : Nat) (inp : List Nat)
    (pu8Out : Option (List Nat)) (n : Nat) (s : SkeHw)
    (hv : IS_SKE_ALG_MD mp alg mode = true) (hn1 : 1 ≤ n) (hn : n < U32_MOD)
    (hlen : n ≤ inp.length) :
    (∃ code out1 ops1 ops2 t',
      SKE_CryptoBlocksInternal mp env alg mode (some inp) pu8Out n s =
        some (code, out1, ⟨s.log ++ (ops1 ++ ops2), t'⟩) ∧
      (code = LL_OK ∨ code = LL_ERR_TIMEOUT) ∧
      (∀ v, HwOp.dinCrLast v ∉ ops1 ∧ HwOp.dinCrWrite v ∉ ops1) ∧
      (ops2 = [] ∨
        ops2 = (if mode = SKE_MD_GCM mp ∨ mode = SKE_MD_CCM mp then [HwOp.dinCrLast 1] else []) ++
          [HwOp.din (lastBlock inp n (m_au8SkeAlgBlockSize.getD alg 0)), HwOp.ctrlStart] ∨
        ops2 = (if mode = SKE_MD_GCM mp ∨ mode = SKE_MD_CCM mp then [HwOp.dinCrLast 1] else []) ++
          [HwOp.din (lastBlock inp n (m_au8SkeAlgBlockSize.getD alg 0)), HwOp.ctrlStart,
            HwOp.sr2Done 0] ++
          (if mode = SKE_MD_GCM mp ∨ mode = SKE_MD_CCM mp then [HwOp.dinCrLast 0] else [])) ∧
      (code = LL_OK →
        ops2 = (if mode = SKE_MD_GCM mp ∨ mode = SKE_MD_CCM mp then [HwOp.dinCrLast 1] else []) ++
          [HwOp.din (lastBlock inp n (m_au8SkeAlgBlockSize.getD alg 0)), HwOp.ctrlStart,
            HwOp.sr2Done 0] ++
          (if mode = SKE_MD_GCM mp ∨ mode = SKE_MD_CCM mp then [HwOp.dinCrLast 0] else [])) ∧
      (mode ∈ [SKE_MD_ECB mp, SKE_MD_CBC mp, SKE_MD_CFB mp, SKE_MD_OFB mp, SKE_MD_CTR mp,
          SKE_MD_CMAC mp] →
        ∀ v, HwOp.dinCrLast v ∉ ops1 ++ ops2 ∧ HwOp.dinCrWrite v ∉ ops1 ++ ops2)) ∧
    (AllDone env →
      ∃ out1 t' ops, SKE_CryptoBlocksInternal mp env alg mode (some inp) pu8Out n s =
          some (LL_OK, out1, ⟨s.log ++ ops, t'⟩) ∧
        ((mode = SKE_MD_GCM mp ∨ mode = SKE_MD_CCM mp) →
          (∀ (m0 : Bool) (p0 : Option (List Nat)), issued lp m0 p0 ops =
            (leadBlocks inp (m_au8SkeAlgBlockSize.getD alg 0)
                (leadCount n (m_au8SkeAlgBlockSize.getD alg 0)) 0).map (fun b => (b, m0)) ++
              [(lastBlock inp n (m_au8SkeAlgBlockSize.getD alg 0), true)]) ∧
          (∀ m0 : Bool, lastMarkAfter lp m0 ops = false) ∧
          ops.count (HwOp.dinCrLast 1) = 1 ∧
          (∀ v, HwOp.dinCrWrite v ∉ ops)) ∧
        (mode ∈ [SKE_MD_ECB mp, SKE_MD_CBC mp, SKE_MD_CFB mp, SKE_MD_OFB mp, SKE_MD_CTR mp,
            SKE_MD_CMAC mp] →
          (∀ v, HwOp.dinCrLast v ∉ ops ∧ HwOp.dinCrWrite v ∉ ops) ∧
          (∀ (m0 : Bool) (p0 : Option (List Nat)), issued lp m0 p0 ops =
            (crBlocks inp n (m_au8SkeAlgBlockSize.getD alg 0)).map (fun b => (b, m0))) ∧
          (∀ m0 : Bool, lastMarkAfter lp m0 ops = m0))) := by
  have hxi : (mode = SKE_MD_GCM mp ∨ mode = SKE_MD_CCM mp) ↔ IS_SKE_XCM_MD mp mode = true := by
    simp [IS_SKE_XCM_MD]
  refine ⟨?_, fun hd => cryptoBlocks_marks mp lp env alg mode inp pu8Out n s hv hn1 hn hlen hd⟩
  obtain ⟨code, out1, ops1, ops2, t', h1, h2, h3, h4, h5⟩ :=
    cryptoBlocks_shape mp env alg mode hv inp pu8Out n hn1 hn hlen s
  have hno : ∀ v, HwOp.dinCrLast v ∉ ops1 ∧ HwOp.dinCrWrite v ∉ ops1 := by
    intro v
    constructor <;>
    · intro hmem
      rcases h3 _ hmem with ⟨b, hb⟩ | hb | hb <;> cases hb
  have e1 : blockStart (IS_SKE_XCM_MD mp mode)
        (lastBlock inp n (m_au8SkeAlgBlockSize.getD alg 0)) =
      (if mode = SKE_MD_GCM mp ∨ mode = SKE_MD_CCM mp then [HwOp.dinCrLast 1] else []) ++
        [HwOp.din (lastBlock inp n (m_au8SkeAlgBlockSize.getD alg 0)), HwOp.ctrlStart] := by
    by_cases hx : IS_SKE_XCM_MD mp mode = true
    · simp [blockStart, hx, hxi.2 hx]
    · have hx2 : ¬ (mode = SKE_MD_GCM mp ∨ mode = SKE_MD_CCM mp) := fun h => hx (hxi.1 h)
      simp only [Bool.not_eq_true] at hx
      simp [blockStart, hx, hx2]
  have e2 : blockOps (IS_SKE_XCM_MD mp mode) false
        (lastBlock inp n (m_au8SkeAlgBlockSize.getD alg 0)) =
      (if mode = SKE_MD_GCM mp ∨ mode = SKE_MD_CCM mp then [HwOp.dinCrLast 1] else []) ++
        [HwOp.din (lastBlock inp n (m_au8SkeAlgBlockSize.getD alg 0)), HwOp.ctrlStart,
          HwOp.sr2Done 0] ++
        (if mode = SKE_MD_GCM mp ∨ mode = SKE_MD_CCM mp then [HwOp.dinCrLast 0] else []) := by
    by_cases hx : IS_SKE_XCM_MD mp mode = true
    · simp [blockOps, blockPre, blockPost, hx, hxi.2 hx]
    · have hx2 : ¬ (mode = SKE_MD_GCM mp ∨ mode = SKE_MD_CCM mp) := fun h => hx (hxi.1 h)
      simp only [Bool.not_eq_true] at hx
      simp [blockOps, blockPre, blockPost, hx, hx2]
  rw [e1, e2] at h4
  rw [e2] at h5
  refine ⟨code, out1, ops1, ops2, t', h1, h2, hno, h4, h5, ?_⟩
  intro hm v
  have hx := (xcm_modes mp mode).2 hm
  have hx2 : ¬ (mode = SKE_MD_GCM mp ∨ mode = SKE_MD_CCM mp) := by
    intro h
    rw [hxi.1 h] at hx
    cases hx
  simp only [hx2, if_false, List.nil_append, List.append_nil] at h4
  constructor <;>
  · intro hmem
    rcases List.mem_append.1 hmem with hmem | hmem
    · rcases h3 _ hmem with ⟨b, hb⟩ | hb | hb <;> cases hb
    · rcases h4 with h4 | h4 | h4 <;> rw [h4] at hmem <;> simp at hmem

theorem C21_last_block_mark_witness :
    ∃ out1 t' ops, SKE_CryptoBlocksInternal 28 (envConst (List.replicate 16 7)) SKE_ALG_AES_128
        (SKE_MD_GCM 28) (some (List.replicate 20 1)) none 20 ⟨[], 0⟩ =
        some (LL_OK, out1, ⟨[] ++ ops, t'⟩) ∧
      ops.count (HwOp.dinCrLast 1) = 1 ∧ lastMarkAfter 0 true ops = false := by
  obtain ⟨out1, t', ops, h, hx, -⟩ := (C21_last_block_mark 28 0 (envConst (List.replicate 16 7))
    SKE_ALG_AES_128 (SKE_MD_GCM 28) (List.replicate 20 1) none 20 ⟨[], 0⟩
    (by decide) (by decide) (by decide) (by decide)).2 (allDone_envConst _)
  exact ⟨out1, t', ops, h, (hx (Or.inl rfl)).2.2.1, (hx (Or.inl rfl)).2.1 true⟩

theorem C21_eval :
    SKE_CryptoBlocksInternal 28 (envConst (List.replicate 16 7)) SKE_ALG_AES_128
        (SKE_MD_GCM 28) (some (List.replicate 17 1)) none 17 ⟨[], 0⟩ =
      some (LL_OK, none, ⟨[HwOp.din (List.replicate 16 1), HwOp.ctrlStart, HwOp.sr2Done 0,
        HwOp.dinCrLast 1, HwOp.din (1 :: List.replicate 15 0), HwOp.ctrlStart, HwOp.sr2Done 0,
        HwOp.dinCrLast 0], 2⟩) := by
  decide

/-! ## CCM: B0, A0 and B1 -/

/-- `SKE_CcmContinueInit` in terms of the wait for the transform of B0. -/
theorem ccmContinueInit_eq (mp : Nat) (env : SkeEnv)
    (init : stc_ske_init_t) (c : stc_ske_ccm_init_para_t) (ctx : stc_ske_ccm_ctx_t)
    (nonce : List Nat) (s : SkeHw)
    (hccm : init.pstcCcmInit = some c) (hnonce : c.pu8Nonce = some nonce)
    (hctxA : ctx.u32AadSize = c.u32AadSize)
    (halg : IS_SKE_XCM_MD_ALG init.u32Alg = true) (hbuf : ctx.au8Buffer.length = 16) :
    SKE_CcmContinueInit mp env init (some ctx) s =
      match SKE_WaitTillDone env ⟨s.log ++ ((if c.u32AadSize = 0 then [HwOp.dinCrLast 1] else []) ++
          [HwOp.din (SKE_CcmGetB0 ctx nonce).au8Buffer, HwOp.ctrlStart]), s.tick⟩ with
      | none => none
      | some (i32Ret, s4) =>
        if i32Ret ≠ LL_OK then some (i32Ret, some (SKE_CcmGetB0 ctx nonce), s4)
        else some (LL_OK,
          some (if c.u32AadSize ≠ 0 then
            SKE_CcmPrepareB1 (SKE_CcmGetB0 ctx nonce) (c.pu8Aad.getD [])
            else SKE_CcmGetB0 ctx nonce),
          ⟨s4.log ++ (if c.u32AadSize = 0 then [HwOp.dinCrLast 0] else []), s4.tick⟩) := by
  obtain ⟨halg1, hbs⟩ := xcm_alg_blockSize _ halg
  obtain ⟨g1, _, g3⟩ := getB0_fields ctx nonce
  have hm0 : ∀ mode, (isMarkMode mp mode && ((0 : Nat) != 0)) = false := by
    intro mode
    simp
  unfold SKE_CcmContinueInit
  simp only [hccm, hnonce, Option.getD_some]
  rw [update_eq mp env init.u32Alg init.u32Mode halg1, hm0, hbs,
    readBytes_self _ 16 (by rw [g3, hbuf]), g1, hctxA]
  by_cases hA : c.u32AadSize = 0
  · simp only [hA, if_true, SkeHw.wr, blockStart, blockPost, if_false, Bool.false_eq_true,
      List.nil_append, List.append_assoc, List.singleton_append, List.append_nil, ne_eq,
      not_true_eq_false]
    generalize SKE_WaitTillDone env _ = w
    rcases w with _ | ⟨r, s4⟩
    · rfl
    · by_cases hr : r = LL_OK
      · subst hr
        simp
      · simp [hr]
  · simp only [hA, if_false, SkeHw.wr, blockStart, blockPost, Bool.false_eq_true,
      List.nil_append, List.append_nil, ne_eq, not_false_eq_true, if_true]
    generalize SKE_WaitTillDone env _ = w
    rcases w with _ | ⟨r, s4⟩
    · rfl
    · by_cases hr : r = LL_OK
      · subst hr
        simp
      · simp [hr]

/-- C24: `SKE_CcmContinueInit` on a context whose `u32AadSize` is that of the configuration (as
`SKE_CcmPrepareInit` sets it) and an algorithm with 16-byte blocks.  For every behaviour of the
engine it returns, and the only block it issues is B0, with the last-block mark set if and only
if `u32AadSize` is 0 (the mark being clear at entry).  If the transform completes, it returns
`LL_OK`; with `u32AadSize = 0` the register writes are: set mark, B0, `START`, clear done flag,
clear mark, and the context holds B0 (B1 is not built); with `u32AadSize > 0` the writes are B0,
`START`, clear done flag, with no write to the mark, and the context buffer holds B1 built from
the context after B0. -/
theorem C24_b0_mark (mp lp : Nat) (env : SkeEnv)
    (init : stc_ske_init_t) (c : stc_ske_ccm_init_para_t) (ctx : stc_ske_ccm_ctx_t)
    (nonce : List Nat) (s : SkeHw)
    (hccm : init.pstcCcmInit = some c) (hnonce : c.pu8Nonce = some nonce)
    (hctxA : ctx.u32AadSize = c.u32AadSize)
    (halg : IS_SKE_XCM_MD_ALG init.u32Alg = true) (hbuf : ctx.au8Buffer.length = 16) :
    (∃ code ctx1 ops t', SKE_CcmContinueInit mp env init (some ctx) s =
        some (code, ctx1, ⟨s.log ++ ops, t'⟩) ∧
      ∀ p0, issued lp false p0 ops =
        [((SKE_CcmGetB0 ctx nonce).au8Buffer, decide (c.u32AadSize = 0))]) ∧
    (TransformCompletes env (s.log ++ ((if c.u32AadSize = 0 then [HwOp.dinCrLast 1] else []) ++
        [HwOp.din (SKE_CcmGetB0 ctx nonce).au8Buffer, HwOp.ctrlStart])) →
      (c.u32AadSize = 0 → ∃ t', SKE_CcmContinueInit mp env init (some ctx) s =
        some (LL_OK, some (SKE_CcmGetB0 ctx nonce),
          ⟨s.log ++ [HwOp.dinCrLast 1, HwOp.din (SKE_CcmGetB0 ctx nonce).au8Buffer,
            HwOp.ctrlStart, HwOp.sr2Done 0, HwOp.dinCrLast 0], t'⟩)) ∧
      (c.u32AadSize ≠ 0 → ∃ t', SKE_CcmContinueInit mp env init (some ctx) s =
        some (LL_OK, some (SKE_CcmPrepareB1 (SKE_CcmGetB0 ctx nonce) (c.pu8Aad.getD [])),
          ⟨s.log ++ [HwOp.din (SKE_CcmGetB0 ctx nonce).au8Buffer, HwOp.ctrlStart,
            HwOp.sr2Done 0], t'⟩))) ∧
    (∀ m0 : Bool, lastMarkAfter lp m0
        [HwOp.dinCrLast 1, HwOp.din (SKE_CcmGetB0 ctx nonce).au8Buffer,
          HwOp.ctrlStart, HwOp.sr2Done 0, HwOp.dinCrLast 0] = false) ∧
    (∀ ctx0, (ccmCtxPrepared init c ctx0).u32AadSize = c.u32AadSize) := by
  have heq := ccmContinueInit_eq mp env init c ctx nonce s hccm hnonce hctxA halg hbuf
  refine ⟨?_, ?_, fun m0 => by simp [lastMarkAfter], fun _ => rfl⟩
  · obtain ⟨t', ht' | ht'⟩ := wait_cases env
      ⟨s.log ++ ((if c.u32AadSize = 0 then [HwOp.dinCrLast 1] else []) ++
          [HwOp.din (SKE_CcmGetB0 ctx nonce).au8Buffer, HwOp.ctrlStart]), s.tick⟩
    · rw [ht'] at heq
      simp only [ne_eq, not_true_eq_false, if_false, List.append_assoc] at heq
      refine ⟨_, _, _, t', heq, ?_⟩
      intro p0
      by_cases hA : c.u32AadSize = 0 <;> simp [hA, issued]
    · rw [ht'] at heq
      have hne : LL_ERR_TIMEOUT ≠ LL_OK := by decide
      simp only [hne, ne_eq, not_false_eq_true, if_true] at heq
      refine ⟨_, _, _, t', heq, ?_⟩
      intro p0
      by_cases hA : c.u32AadSize = 0 <;> simp [hA, issued]
  · intro hc
    obtain ⟨t', ht'⟩ := wait_ok_at env
      ⟨s.log ++ ((if c.u32AadSize = 0 then [HwOp.dinCrLast 1] else []) ++
          [HwOp.din (SKE_CcmGetB0 ctx nonce).au8Buffer, HwOp.ctrlStart]), s.tick⟩ hc
    rw [ht'] at heq
    constructor
    · intro hA
      refine ⟨t', ?_⟩
      rw [heq]
      simp [hA]
    · intro hA
      refine ⟨t', ?_⟩
      rw [heq]
      simp [hA]

theorem C24_b0_mark_witness :
    ∃ code ctx1 ops t', SKE_CcmContinueInit 28 (envConst (List.replicate 16 7))
        ⟨SKE_ALG_AES_128, SKE_MD_CCM 28, 0, SKE_CRYPTO_ENCRYPT, none, none, none,
          some ⟨4, 0, 4, 2, some (List.replicate 13 5), none⟩⟩
        (some ⟨SKE_ALG_AES_128, 4, 0, 4, 2, 0, 0, List.replicate 16 0⟩) ⟨[], 0⟩ =
        some (code, ctx1, ⟨[] ++ ops, t'⟩) ∧
      ∀ p0, issued 0 false p0 ops =
        [((SKE_CcmGetB0 ⟨SKE_ALG_AES_128, 4, 0, 4, 2, 0, 0, List.replicate 16 0⟩
          (List.replicate 13 5)).au8Buffer, decide ((0 : Nat) = 0))] :=
  (C24_b0_mark 28 0 (envConst (List.replicate 16 7))
    ⟨SKE_ALG_AES_128, SKE_MD_CCM 28, 0, SKE_CRYPTO_ENCRYPT, none, none, none,
      some ⟨4, 0, 4, 2, some (List.replicate 13 5), none⟩⟩
    ⟨4, 0, 4, 2, some (List.replicate 13 5), none⟩
    ⟨SKE_ALG_AES_128, 4, 0, 4, 2, 0, 0, List.replicate 16 0⟩ (List.replicate 13 5) ⟨[], 0⟩
    rfl rfl rfl (by decide) (by decide)).1

theorem b0Flags_arith (m l a : Nat) (hm : IS_SKE_CCM_MAC_SIZE m = true)
    (hl : IS_SKE_CCM_L_SIZE l = true) :
    spec_b0Flags m l a = 64 * (if a > 0 then 1 else 0) + 8 * ((m - 2) / 2) + (l - 1) := by
  obtain ⟨hl2, hl8⟩ := ccm_l_size_cases l hl
  have hm7 := ccm_mac_size_cases m hm
  unfold spec_b0Flags
  by_cases ha : a > 0
  · simp only [ha, if_true]
    rcases hm7 with rfl | rfl | rfl | rfl | rfl | rfl | rfl <;> interval_cases l <;> decide
  · simp only [ha, if_false]
    rcases hm7 with rfl | rfl | rfl | rfl | rfl | rfl | rfl <;> interval_cases l <;> decide

theorem ccmA0_getD (ivb nonce : List Nat) (L : Nat) (h2 : 2 ≤ L) (h8 : L ≤ 8) (j : Nat) :
    (ccmA0 ivb nonce L).getD j 0 =
      if 16 - L ≤ j ∧ j < 16 ∧ j < ivb.length then 0
      else if 1 ≤ j ∧ j ≤ 15 - L ∧ j < ivb.length then nonce.getD (j - 1) 0
      else if j = 0 ∧ j < ivb.length then L - 1
      else ivb.getD j 0 := by
  have e1 : u32_sub L 1 % 256 = L - 1 := by
    rw [u32_sub_of_le _ _ (by omega) (by simp only [U32_MOD]; omega)]
    omega
  have e2 : u32_sub 15 L = 15 - L := u32_sub_of_le _ _ (by omega) (by decide)
  have e3 : u32_sub 16 L = 16 - L := u32_sub_of_le _ _ (by omega) (by decide)
  unfold ccmA0
  rw [e1, e2, e3, SKE_SetByte_getD, SKE_CopyByte_getD, getD_set_nat]
  simp only [SKE_CopyByte_length, List.length_set, Nat.zero_add]
  have c1 : (16 - L ≤ j ∧ j < 16 - L + L ∧ j < ivb.length) ↔
      (16 - L ≤ j ∧ j < 16 ∧ j < ivb.length) := by
    constructor <;> rintro ⟨a, b, c⟩ <;> exact ⟨a, by omega, c⟩
  have c2 : (1 ≤ j ∧ j < 1 + (15 - L) ∧ j < ivb.length) ↔
      (1 ≤ j ∧ j ≤ 15 - L ∧ j < ivb.length) := by
    constructor <;> rintro ⟨a, b, c⟩ <;> exact ⟨a, by omega, c⟩
  have c3 : (0 = j ∧ j < ivb.length) ↔ (j = 0 ∧ j < ivb.length) := by
    constructor <;> rintro ⟨a, c⟩ <;> exact ⟨a.symm, c⟩
  simp only [c1, c2, c3]

theorem ccmA0_length (ivb nonce : List Nat) (L : Nat) : (ccmA0 ivb nonce L).length = ivb.length := by
  simp [ccmA0, SKE_SetByte_length, SKE_CopyByte_length]

theorem getD_take_nat (l : List Nat) (n j : Nat) :
    (l.take n).getD j 0 = if j < n then l.getD j 0 else 0 := by
  simp only [List.getD_eq_getElem?_getD, List.getElem?_take]
  split_ifs <;> simp

theorem ccmA0_take (ivb nonce : List Nat) (L : Nat) (h2 : 2 ≤ L) (h8 : L ≤ 8)
    (hiv : 16 ≤ ivb.length) :
    (ccmA0 ivb nonce L).take 16 = [L - 1] ++ readBytes nonce 0 (15 - L) ++ List.replicate L 0 := by
  apply ext_getD
  · simp [ccmA0_length, readBytes_length]
    omega
  · intro j hj
    have hj16 : j < 16 := by
      simp only [List.length_take, ccmA0_length] at hj
      omega
    rw [getD_take_nat, if_pos hj16, ccmA0_getD ivb nonce L h2 h8, getD_append_nat,
      getD_append_nat]
    simp only [List.length_append, List.length_singleton, readBytes_length,
      getD_replicate_zero, readBytes_getD]
    by_cases h0 : j = 0
    · subst h0
      have : ¬ (16 - L ≤ 0) := by omega
      have hiv0 : 0 < ivb.length := by omega
      simp [this, hiv0]
    · by_cases h1 : j ≤ 15 - L
      · have a1 : ¬ (16 - L ≤ j) := by omega
        have a2 : 1 ≤ j ∧ j ≤ 15 - L ∧ j < ivb.length := ⟨by omega, h1, by omega⟩
        have a3 : j < 1 + (15 - L) := by omega
        have a4 : ¬ (j < 1) := by omega
        have a5 : j - 1 < 15 - L := by omega
        have a6 : (0 : Nat) + (j - 1) = j - 1 := by omega
        simp [a1, a2, a3, a4, a5]
      · have a1 : 16 - L ≤ j ∧ j < 16 ∧ j < ivb.length := ⟨by omega, hj16, by omega⟩
        have a3 : ¬ (j < 1 + (15 - L)) := by omega
        simp [a1, a3]

/-- C30: for a valid CCM MAC size and length size, the flags byte `b` that `SKE_CcmGetB0` writes
to byte 0 of the context buffer is below 128 (bit 7 clear), bit 6 is set exactly when
`u32AadSize > 0`, bits 5..3 hold `(MacSize - 2) / 2` and bits 2..0 hold `LengthSize - 1`;
the three parameters are recovered from `b`, so two valid parameter sets with the same flags
byte agree in MAC size, length size and presence of AAD; and the low three bits are byte 0 of
the A0 block that `SKE_CcmPrepareInit` writes into a non-empty IV buffer. -/
theorem C30_b0_flags_decodable (ctx : stc_ske_ccm_ctx_t) (nonce : List Nat)
    (hmac : IS_SKE_CCM_MAC_SIZE ctx.u32MacSize = true)
    (hL : IS_SKE_CCM_L_SIZE ctx.u32LengthSize = true) (hbuf : 0 < ctx.au8Buffer.length) :
    (SKE_CcmGetB0 ctx nonce).au8Buffer.getD 0 0 < 128 ∧
    ((SKE_CcmGetB0 ctx nonce).au8Buffer.getD 0 0).testBit 7 = false ∧
    (((SKE_CcmGetB0 ctx nonce).au8Buffer.getD 0 0).testBit 6 = true ↔ ctx.u32AadSize > 0) ∧
    (SKE_CcmGetB0 ctx nonce).au8Buffer.getD 0 0 / 64 % 2 =
      (if ctx.u32AadSize > 0 then 1 else 0) ∧
    (SKE_CcmGetB0 ctx nonce).au8Buffer.getD 0 0 / 8 % 8 = (ctx.u32MacSize - 2) / 2 ∧
    (SKE_CcmGetB0 ctx nonce).au8Buffer.getD 0 0 % 8 = ctx.u32LengthSize - 1 ∧
    ctx.u32MacSize = 2 * ((SKE_CcmGetB0 ctx nonce).au8Buffer.getD 0 0 / 8 % 8) + 2 ∧
    ctx.u32LengthSize = (SKE_CcmGetB0 ctx nonce).au8Buffer.getD 0 0 % 8 + 1 ∧
    (∀ (ctx2 : stc_ske_ccm_ctx_t) (nonce2 : List Nat),
      IS_SKE_CCM_MAC_SIZE ctx2.u32MacSize = true → IS_SKE_CCM_L_SIZE ctx2.u32LengthSize = true →
      0 < ctx2.au8Buffer.length →
      (SKE_CcmGetB0 ctx2 nonce2).au8Buffer.getD 0 0 =
        (SKE_CcmGetB0 ctx nonce).au8Buffer.getD 0 0 →
      ctx2.u32MacSize = ctx.u32MacSize ∧ ctx2.u32LengthSize = ctx.u32LengthSize ∧
        (ctx2.u32AadSize > 0 ↔ ctx.u32AadSize > 0)) ∧
    (∀ ivb : List Nat, 0 < ivb.length →
      (ccmA0 ivb nonce ctx.u32LengthSize).getD 0 0 =
        (SKE_CcmGetB0 ctx nonce).au8Buffer.getD 0 0 % 8) := by
  have hb := b0_flags ctx nonce hmac hL hbuf
  rw [b0Flags_arith _ _ _ hmac hL] at hb
  obtain ⟨hl2, hl8⟩ := ccm_l_size_cases _ hL
  have hm7 := ccm_mac_size_cases _ hmac
  generalize (SKE_CcmGetB0 ctx nonce).au8Buffer.getD 0 0 = b at hb ⊢
  have hlt : b < 128 := by
    rw [hb]
    split_ifs <;> omega
  have h64 : b / 64 % 2 = (if ctx.u32AadSize > 0 then 1 else 0) := by
    rw [hb]
    split_ifs <;> omega
  have h8 : b / 8 % 8 = (ctx.u32MacSize - 2) / 2 := by
    rw [hb]
    split_ifs <;> omega
  have h1 : b % 8 = ctx.u32LengthSize - 1 := by
    rw [hb]
    split_ifs <;> omega
  refine ⟨hlt, ?_, ?_, h64, h8, h1, ?_, by omega, ?_, ?_⟩
  · rw [Nat.testBit_to_div_mod]
    have : b / 2 ^ 7 % 2 = 0 := by
      norm_num
      omega
    rw [this]
    rfl
  · rw [Nat.testBit_to_div_mod]
    have e : b / 2 ^ 6 % 2 = b / 64 % 2 := by norm_num
    rw [e, h64]
    by_cases ha : ctx.u32AadSize > 0 <;> simp [ha]
  · rw [h8]
    rcases hm7 with h | h | h | h | h | h | h <;> rw [h]
  · intro ctx2 nonce2 hmac2 hL2 hbuf2 heq
    have hb2 := b0_flags ctx2 nonce2 hmac2 hL2 hbuf2
    rw [b0Flags_arith _ _ _ hmac2 hL2, heq] at hb2
    obtain ⟨hl22, hl82⟩ := ccm_l_size_cases _ hL2
    have hm72 := ccm_mac_size_cases _ hmac2
    have k64 : b / 64 % 2 = (if ctx2.u32AadSize > 0 then 1 else 0) := by
      rw [hb2]
      split_ifs <;> omega
    have k8 : b / 8 % 8 = (ctx2.u32MacSize - 2) / 2 := by
      rw [hb2]
      split_ifs <;> omega
    have k1 : b % 8 = ctx2.u32LengthSize - 1 := by
      rw [hb2]
      split_ifs <;> omega
    refine ⟨?_, by omega, ?_⟩
    · rw [h8] at k8
      rcases hm7 with h | h | h | h | h | h | h <;>
        rcases hm72 with h' | h' | h' | h' | h' | h' | h' <;> rw [h, h'] at k8 ⊢ <;>
        first | rfl | (exact absurd k8 (by decide))
    · rw [h64] at k64
      by_cases ha : ctx.u32AadSize > 0 <;> by_cases ha2 : ctx2.u32AadSize > 0 <;>
        simp [ha, ha2] at k64 ⊢
  · intro ivb hiv
    rw [ccmA0_getD ivb nonce _ hl2 hl8, h1]
    have a1 : ¬ (16 - ctx.u32LengthSize ≤ 0) := by omega
    simp [a1, hiv]

theorem C30_b0_flags_decodable_witness :
    (SKE_CcmGetB0 ⟨SKE_ALG_AES_128, 4, 3, 8, 2, 0, 0, List.replicate 16 0⟩
        (List.replicate 13 5)).au8Buffer.getD 0 0 / 8 % 8 = (8 - 2) / 2 ∧
      (SKE_CcmGetB0 ⟨SKE_ALG_AES_128, 4, 3, 8, 2, 0, 0, List.replicate 16 0⟩
        (List.replicate 13 5)).au8Buffer.getD 0 0 % 8 = 2 - 1 :=
  ⟨(C30_b0_flags_decodable ⟨SKE_ALG_AES_128, 4, 3, 8, 2, 0, 0, List.replicate 16 0⟩
      (List.replicate 13 5) (by decide) (by decide) (by decide)).2.2.2.2.1,
   (C30_b0_flags_decodable ⟨SKE_ALG_AES_128, 4, 3, 8, 2, 0, 0, List.replicate 16 0⟩
      (List.replicate 13 5) (by decide) (by decide) (by decide)).2.2.2.2.2.1⟩

/-- C22: for an accepted CCM configuration (non-null nonce, not both sizes 0, the crypto size
representable in `L = u32LengthSize` bytes) with `2 ≤ L ≤ 8` and an IV buffer of at least 16
bytes, `SKE_CcmPrepareInit` returns `LL_OK` and the IV buffer then holds A0: byte 0 is `L - 1`,
bytes `1 .. 15 - L` are the nonce bytes `0 .. 14 - L` in order, bytes `16 - L .. 15` are 0; the
buffer keeps its length and its bytes from index 16 on.  The nonce is only read: the function
has no other result than the code, the IV buffer, the context and the size registers. -/
theorem C22_a0_block (init : stc_ske_init_t) (c : stc_ske_ccm_init_para_t)
    (ctx : stc_ske_ccm_ctx_t) (nonce ivb : List Nat) (s : SkeHw)
    (hccm : init.pstcCcmInit = some c) (hnonce : c.pu8Nonce = some nonce)
    (hiv : init.pu8Iv = some ivb)
    (hnz : ¬ (c.u32AadSize = 0 ∧ c.u32CryptoSize = 0))
    (hcs32 : c.u32CryptoSize < U32_MOD) (hcs : c.u32CryptoSize < 256 ^ c.u32LengthSize)
    (hL : IS_SKE_CCM_L_SIZE c.u32LengthSize = true) (hivlen : 16 ≤ ivb.length) :
    ∃ a0 : List Nat,
      SKE_CcmPrepareInit init (some ctx) s =
        some (LL_OK, some a0, some (ccmCtxPrepared init c ctx),
          ⟨s.log ++ sizeOps c.u32CryptoSize c.u32AadSize, s.tick⟩) ∧
      a0.getD 0 0 = c.u32LengthSize - 1 ∧
      (∀ j, 1 ≤ j → j ≤ 15 - c.u32LengthSize → a0.getD j 0 = nonce.getD (j - 1) 0) ∧
      (∀ j, 16 - c.u32LengthSize ≤ j → j < 16 → a0.getD j 0 = 0) ∧
      a0.take 16 = [c.u32LengthSize - 1] ++ readBytes nonce 0 (15 - c.u32LengthSize) ++
        List.replicate c.u32LengthSize 0 ∧
      a0.length = ivb.length ∧ a0.drop 16 = ivb.drop 16 := by
  obtain ⟨h2, h8⟩ := ccm_l_size_cases _ hL
  have hacc := ccmPrepareInit_accept init c ctx nonce s hccm hnonce hnz hcs32 hcs
  rw [hiv] at hacc
  refine ⟨ccmA0 ivb nonce c.u32LengthSize, hacc, ?_, ?_, ?_,
    ccmA0_take ivb nonce _ h2 h8 hivlen, ccmA0_length _ _ _, ?_⟩
  · rw [ccmA0_getD ivb nonce _ h2 h8]
    have a1 : ¬ (16 - c.u32LengthSize ≤ 0) := by omega
    have a2 : 0 < ivb.length := by omega
    simp [a1, a2]
  · intro j hj1 hj2
    rw [ccmA0_getD ivb nonce _ h2 h8]
    have a1 : ¬ (16 - c.u32LengthSize ≤ j) := by omega
    have a2 : 1 ≤ j ∧ j ≤ 15 - c.u32LengthSize ∧ j < ivb.length := ⟨hj1, hj2, by omega⟩
    simp [a1, a2]
  · intro j hj1 hj2
    rw [ccmA0_getD ivb nonce _ h2 h8]
    have a1 : 16 - c.u32LengthSize ≤ j ∧ j < 16 ∧ j < ivb.length := ⟨hj1, hj2, by omega⟩
    simp [a1]
  · apply ext_getD
    · simp [ccmA0_length]
    · intro j _
      have e : ∀ l : List Nat, (l.drop 16).getD j 0 = l.getD (16 + j) 0 := by
        intro l
        simp [List.getD_eq_getElem?_getD, List.getElem?_drop]
      rw [e, e, ccmA0_getD ivb nonce _ h2 h8]
      have a1 : ¬ (16 + j < 16) := by omega
      have a2 : ¬ (16 + j ≤ 15 - c.u32LengthSize) := by omega
      have a3 : ¬ (16 + j = 0) := by omega
      simp [a1, a2, a3]

theorem C22_a0_block_witness :
    ∃ a0 : List Nat,
      SKE_CcmPrepareInit
        ⟨SKE_ALG_AES_128, SKE_MD_CCM 28, 0, SKE_CRYPTO_ENCRYPT, none,
          some (List.replicate 16 9), none,
          some ⟨4, 0, 4, 2, some [1, 2, 3, 4, 5, 6, 7, 8, 9, 10, 11, 12, 13], none⟩⟩
        (some ⟨0, 0, 0, 0, 0, 0, 0, List.replicate 16 0⟩) ⟨[], 0⟩ =
        some (LL_OK, some a0,
          some (ccmCtxPrepared
            ⟨SKE_ALG_AES_128, SKE_MD_CCM 28, 0, SKE_CRYPTO_ENCRYPT, none,
              some (List.replicate 16 9), none,
              some ⟨4, 0, 4, 2, some [1, 2, 3, 4, 5, 6, 7, 8, 9, 10, 11, 12, 13], none⟩⟩
            ⟨4, 0, 4, 2, some [1, 2, 3, 4, 5, 6, 7, 8, 9, 10, 11, 12, 13], none⟩
            ⟨0, 0, 0, 0, 0, 0, 0, List.replicate 16 0⟩),
          ⟨[] ++ sizeOps 4 0, 0⟩) ∧
      a0.take 16 = [2 - 1] ++ readBytes [1, 2, 3, 4, 5, 6, 7, 8, 9, 10, 11, 12, 13] 0 (15 - 2) ++
        List.replicate 2 0 := by
  obtain ⟨a0, h1, -, -, -, h5, -⟩ := C22_a0_block
    ⟨SKE_ALG_AES_128, SKE_MD_CCM 28, 0, SKE_CRYPTO_ENCRYPT, none,
      some (List.replicate 16 9), none,
      some ⟨4, 0, 4, 2, some [1, 2, 3, 4, 5, 6, 7, 8, 9, 10, 11, 12, 13], none⟩⟩
    ⟨4, 0, 4, 2, some [1, 2, 3, 4, 5, 6, 7, 8, 9, 10, 11, 12, 13], none⟩
    ⟨0, 0, 0, 0, 0, 0, 0, List.replicate 16 0⟩
    [1, 2, 3, 4, 5, 6, 7, 8, 9, 10, 11, 12, 13] (List.replicate 16 9) ⟨[], 0⟩
    rfl rfl rfl (by decide) (by decide) (by decide) (by decide) (by decide)
  exact ⟨a0, h1, h5⟩

theorem C22_eval :
    ccmA0 (List.replicate 16 9) [1, 2, 3, 4, 5, 6, 7, 8, 9, 10, 11, 12, 13] 2 =
      [1, 1, 2, 3, 4, 5, 6, 7, 8, 9, 10, 11, 12, 13, 0, 0] := by
  decide

theorem b1Window_eq (a : Nat) : spec_b1Window a = if a < 65280 then 14 else 10 := by
  unfold spec_b1Window
  rw [spec_aadLenField_length]
  split_ifs <;> rfl

/-- C23: for `u32AadSize < 2^32` (in particular `1 ≤ u32AadSize`), a 16-byte context buffer and an AAD buffer holding
`u32AadSize` bytes, with `window = 14` if `u32AadSize < 65280` and `10` otherwise: if
`u32AadSize ≤ window`, `SKE_CcmPrepareB1` leaves B1 = length field, the `u32AadSize` AAD bytes,
zeros up to 16 bytes, and start offset = remaining size = 0; if `u32AadSize > window`, B1 =
length field, the first `window` AAD bytes (no padding), start offset = `window` and remaining
size = `u32AadSize - window > 0`.  B1 is 16 bytes long and is the same for every previous
content of the buffer; start offset + remaining size = `u32AadSize` whenever the remaining size
is not 0. -/
theorem C23_b1_block (ctx : stc_ske_ccm_ctx_t) (aad : List Nat)
    (hA : ctx.u32AadSize < U32_MOD)
    (hbuf : ctx.au8Buffer.length = 16) (hlen : ctx.u32AadSize ≤ aad.length) :
    spec_b1Window ctx.u32AadSize = (if ctx.u32AadSize < 65280 then 14 else 10) ∧
    (spec_aadLenField ctx.u32AadSize).length + spec_b1Window ctx.u32AadSize = 16 ∧
    (ctx.u32AadSize ≤ spec_b1Window ctx.u32AadSize →
      (SKE_CcmPrepareB1 ctx aad).au8Buffer =
        spec_aadLenField ctx.u32AadSize ++ aad.take ctx.u32AadSize ++
          List.replicate (spec_b1Window ctx.u32AadSize - ctx.u32AadSize) 0 ∧
      (SKE_CcmPrepareB1 ctx aad).u32AadStartOffset = 0 ∧
      (SKE_CcmPrepareB1 ctx aad).u32AadRemainSize = 0) ∧
    (spec_b1Window ctx.u32AadSize < ctx.u32AadSize →
      (SKE_CcmPrepareB1 ctx aad).au8Buffer =
        spec_aadLenField ctx.u32AadSize ++ aad.take (spec_b1Window ctx.u32AadSize) ∧
      (SKE_CcmPrepareB1 ctx aad).u32AadStartOffset = spec_b1Window ctx.u32AadSize ∧
      (SKE_CcmPrepareB1 ctx aad).u32AadRemainSize =
        ctx.u32AadSize - spec_b1Window ctx.u32AadSize ∧
      0 < (SKE_CcmPrepareB1 ctx aad).u32AadRemainSize) ∧
    (SKE_CcmPrepareB1 ctx aad).au8Buffer.length = 16 ∧
    (∀ prev : List Nat, prev.length = 16 →
      (SKE_CcmPrepareB1 { ctx with au8Buffer := prev } aad).au8Buffer =
        (SKE_CcmPrepareB1 ctx aad).au8Buffer) ∧
    ((SKE_CcmPrepareB1 ctx aad).u32AadRemainSize ≠ 0 →
      (SKE_CcmPrepareB1 ctx aad).u32AadStartOffset + (SKE_CcmPrepareB1 ctx aad).u32AadRemainSize =
        ctx.u32AadSize) := by
  have hw := b1Window_eq ctx.u32AadSize
  have hfl := spec_aadLenField_length ctx.u32AadSize
  have hb := b1_buffer ctx aad hA hbuf
  obtain ⟨f1, f2, -, -⟩ := b1_fields ctx aad hA
  have hw16 : spec_b1Window ctx.u32AadSize ≤ 14 := by
    rw [hw]
    split_ifs <;> omega
  refine ⟨hw, ?_, ?_, ?_, b1_length ctx aad hA hbuf, ?_, ?_⟩
  · rw [hw, hfl]
    split_ifs <;> rfl
  · intro hle
    have hmin : min ctx.u32AadSize (spec_b1Window ctx.u32AadSize) = ctx.u32AadSize :=
      Nat.min_eq_left hle
    rw [hmin] at hb f1
    refine ⟨?_, ?_, ?_⟩
    · rw [hb, readBytes_zero_eq_take aad _ hlen]
    · rw [f2, if_pos hle]
    · rw [f1]
      omega
  · intro hgt
    have hmin : min ctx.u32AadSize (spec_b1Window ctx.u32AadSize) =
        spec_b1Window ctx.u32AadSize := Nat.min_eq_right (le_of_lt hgt)
    rw [hmin] at hb f1
    refine ⟨?_, ?_, f1, ?_⟩
    · rw [hb, readBytes_zero_eq_take aad _ (by omega)]
      simp
    · rw [f2, if_neg (by omega)]
    · rw [f1]
      omega
  · intro prev hprev
    have hb2 := b1_buffer { ctx with au8Buffer := prev } aad hA hprev
    rw [hb2, hb]
  · intro hne
    rw [f1] at hne ⊢
    rw [f2]
    by_cases hle : ctx.u32AadSize ≤ spec_b1Window ctx.u32AadSize
    · rw [Nat.min_eq_left hle] at hne
      omega
    · rw [if_neg hle, Nat.min_eq_right (by omega)]
      omega

theorem C23_b1_block_witness :
    (SKE_CcmPrepareB1 ⟨SKE_ALG_AES_128, 4, 20, 4, 2, 0, 0, List.replicate 16 9⟩
        (List.replicate 20 5)).au8Buffer =
      spec_aadLenField 20 ++ (List.replicate 20 5).take (spec_b1Window 20) ∧
    (SKE_CcmPrepareB1 ⟨SKE_ALG_AES_128, 4, 20, 4, 2, 0, 0, List.replicate 16 9⟩
        (List.replicate 20 5)).u32AadStartOffset = spec_b1Window 20 :=
  ⟨((C23_b1_block ⟨SKE_ALG_AES_128, 4, 20, 4, 2, 0, 0, List.replicate 16 9⟩
      (List.replicate 20 5) (by decide) (by decide) (by decide)).2.2.2.1
      (by decide)).1,
   ((C23_b1_block ⟨SKE_ALG_AES_128, 4, 20, 4, 2, 0, 0, List.replicate 16 9⟩
      (List.replicate 20 5) (by decide) (by decide) (by decide)).2.2.2.1
      (by decide)).2.1⟩

theorem C23_eval :
    (SKE_CcmPrepareB1 ⟨SKE_ALG_AES_128, 4, 3, 4, 2, 0, 0, List.replicate 16 9⟩
        [5, 6, 7]).au8Buffer = [0, 3, 5, 6, 7, 0, 0, 0, 0, 0, 0, 0, 0, 0, 0, 0] := by
  decide

theorem decode_field (a : Nat) (ha : a < U32_MOD) (tail : List Nat) :
    spec_decodeAadLen (spec_aadLenField a ++ tail) = a := by
  simp only [U32_MOD] at ha
  by_cases h : a < 65280
  · have h1 : a / 256 % 256 = a / 256 := Nat.mod_eq_of_lt (by omega)
    have h2 : ¬ (a / 256 = 255 ∧ a % 256 = 254) := by omega
    simp [spec_decodeAadLen, spec_aadLenField, h, spec_bigEndian, List.range_succ, spec_beValue,
      h1, h2]
    omega
  · simp [spec_decodeAadLen, spec_aadLenField, h, spec_bigEndian, List.range_succ, spec_beValue]
    omega

/-- C27: for `u32AadSize < 2^32` (in particular `1 ≤ u32AadSize`) and a 16-byte context buffer, the AAD length is read back
from the B1 block that `SKE_CcmPrepareB1` builds: if its first two bytes are `0xFF, 0xFE` the
next four bytes big-endian, otherwise the first two bytes big-endian, equal `u32AadSize`.
Hence two contexts whose B1 blocks agree have the same `u32AadSize`, and already the length
fields alone differ for different sizes, neither being the start of the other's block.  At the
boundary, 65279 is encoded as `FE FF` and 65280 as `FF FE 00 00 FF 00`. -/
theorem C27_aad_length_decodable (ctx : stc_ske_ccm_ctx_t) (aad : List Nat)
    (hA : ctx.u32AadSize < U32_MOD)
    (hbuf : ctx.au8Buffer.length = 16) :
    spec_decodeAadLen (SKE_CcmPrepareB1 ctx aad).au8Buffer = ctx.u32AadSize ∧
    (∀ (ctx2 : stc_ske_ccm_ctx_t) (aad2 : List Nat),
      ctx2.u32AadSize < U32_MOD → ctx2.au8Buffer.length = 16 →
      (SKE_CcmPrepareB1 ctx2 aad2).au8Buffer = (SKE_CcmPrepareB1 ctx aad).au8Buffer →
      ctx2.u32AadSize = ctx.u32AadSize) ∧
    (∀ (a2 : Nat) (t1 t2 : List Nat), a2 < U32_MOD →
      spec_aadLenField a2 ++ t2 = spec_aadLenField ctx.u32AadSize ++ t1 →
      a2 = ctx.u32AadSize) ∧
    (∃ rest, (SKE_CcmPrepareB1 ctx aad).au8Buffer = spec_aadLenField ctx.u32AadSize ++ rest) ∧
    spec_aadLenField 65279 = [0xFE, 0xFF] ∧
    spec_aadLenField 65280 = [0xFF, 0xFE, 0x00, 0x00, 0xFF, 0x00] := by
  have hb := b1_buffer ctx aad hA hbuf
  refine ⟨?_, ?_, ?_, ⟨_, by rw [hb, List.append_assoc]⟩, by decide, by decide⟩
  · rw [hb, List.append_assoc]
    exact decode_field _ hA _
  · intro ctx2 aad2 hA2 hbuf2 heq
    have hb2 := b1_buffer ctx2 aad2 hA2 hbuf2
    have d1 : spec_decodeAadLen (SKE_CcmPrepareB1 ctx aad).au8Buffer = ctx.u32AadSize := by
      rw [hb, List.append_assoc]
      exact decode_field _ hA _
    have d2 : spec_decodeAadLen (SKE_CcmPrepareB1 ctx2 aad2).au8Buffer = ctx2.u32AadSize := by
      rw [hb2, List.append_assoc]
      exact decode_field _ hA2 _
    rw [← d1, ← d2, heq]
  · intro a2 t1 t2 ha2 heq
    rw [← decode_field a2 ha2 t2, heq, decode_field _ hA]

theorem C27_aad_length_decodable_witness :
    spec_decodeAadLen (SKE_CcmPrepareB1 ⟨SKE_ALG_AES_128, 4, 65280, 4, 2, 0, 0,
      List.replicate 16 9⟩ (List.replicate 65280 5)).au8Buffer = 65280 :=
  (C27_aad_length_decodable ⟨SKE_ALG_AES_128, 4, 65280, 4, 2, 0, 0, List.replicate 16 9⟩
    (List.replicate 65280 5) (by decide) (by decide)).1

end SKE
